import Mathlib

/-! SmartCap IoT gateway (STM32F103RE): ring buffers, AT engine, socket bring-up, command
interceptor.

Shallow embedding of `User/user_main/rg200u.c` and `User/user_main/rs485.c`.

Conventions
* a byte is a `Nat` (the value of a `uint8_t`/`char`), a byte string is a `List Nat`;
* a C array that is only ever indexed below its size is a function `Nat → Nat`;
* a function that returns a flag and writes `*data` only on success returns `Option Nat`.
-/

namespace SmartCap

/-! ## Receive ring buffers (`rg200u.c` and `rs485.c`) -/

/-- `#define RG200U_RX_BUFFER_SIZE 256` (rg200u.h). -/
def RG200U_RX_BUFFER_SIZE : Nat := 256

/-- `#define RS485_RX_BUFFER_SIZE 256` (rs485.c). -/
def RS485_RX_BUFFER_SIZE : Nat := 256

/-- The three variables of one receive ring: the storage array
(`rg200u_rx_buffer` / `rs485_rx_buffer`) and the two `volatile uint16_t` indices. -/
structure Ring where
  buffer : Nat → Nat
  write_index : Nat
  read_index : Nat

/-- Array store `a[i] = v`. -/
def store (a : Nat → Nat) (i v : Nat) : Nat → Nat :=
  fun j => if j = i then v else a j

/-- Static initialisation (also what `RG200U_Init` re-establishes): zeroed storage, both indices 0. -/
def Ring.init : Ring := { buffer := fun _ => 0, write_index := 0, read_index := 0 }

/-- `bool RG200U_ReceiveByte(uint8_t *data)`: `some b` stands for `*data = b; return true`,
`none` for `return false` (with `*data` untouched). -/
def RG200U_ReceiveByte (s : Ring) : Ring × Option Nat :=
  if s.read_index ≠ s.write_index then
    ({ s with read_index := (s.read_index + 1) % RG200U_RX_BUFFER_SIZE },
      some (s.buffer s.read_index))
  else
    (s, none)

/-- `void RG200U_UART_RxCallback(void)`; the global `uart_rx_byte`, filled by the UART
interrupt before the callback runs, is the second argument. Re-arming the interrupt
(`HAL_UART_Receive_IT`) does not touch the ring. -/
def RG200U_UART_RxCallback (s : Ring) (uart_rx_byte : Nat) : Ring :=
  let next_write_index := (s.write_index + 1) % RG200U_RX_BUFFER_SIZE
  if next_write_index ≠ s.read_index then
    { s with
      buffer := store s.buffer s.write_index uart_rx_byte
      write_index := next_write_index }
  else
    s

/-- `uint8_t RS485_ReceiveByte(uint8_t *data)`: `some b` stands for `*data = b; return 1`,
`none` for `return 0`. -/
def RS485_ReceiveByte (s : Ring) : Ring × Option Nat :=
  if s.read_index ≠ s.write_index then
    ({ s with read_index := (s.read_index + 1) % RS485_RX_BUFFER_SIZE },
      some (s.buffer s.read_index))
  else
    (s, none)

/-- `void RS485_UART_RxCallback(void)`; `rs485_uart_rx_byte` is the second argument. -/
def RS485_UART_RxCallback (s : Ring) (rs485_uart_rx_byte : Nat) : Ring :=
  let next_write_index := (s.write_index + 1) % RS485_RX_BUFFER_SIZE
  if next_write_index ≠ s.read_index then
    { s with
      buffer := store s.buffer s.write_index rs485_uart_rx_byte
      write_index := next_write_index }
  else
    s

/-- The flush used by the AT engine: `rx_read_index = rx_write_index;`. -/
def Ring.flush (s : Ring) : Ring := { s with read_index := s.write_index }

/-- Number of stored bytes, `(write_index - read_index) mod 256`. -/
def Ring.count (s : Ring) : Nat := (s.write_index + 256 - s.read_index) % 256

/-- The stored bytes, oldest first: `buffer[read_index], buffer[read_index+1], …` (indices mod 256). -/
def Ring.contents (s : Ring) : List Nat :=
  (List.range s.count).map (fun k => s.buffer ((s.read_index + k) % 256))

/-- Both indices are valid array positions. -/
def Ring.WF (s : Ring) : Prop := s.write_index < 256 ∧ s.read_index < 256

/-- A ring with one receive callback and one receive function: the modem ring or the RS-485 ring. -/
structure RingOps where
  rxCallback : Ring → Nat → Ring
  receiveByte : Ring → Ring × Option Nat

/-- The modem (UART5) ring of `rg200u.c`. -/
def modemRing : RingOps := { rxCallback := RG200U_UART_RxCallback, receiveByte := RG200U_ReceiveByte }

/-- The RS-485 (USART1) ring of `rs485.c`. -/
def rs485Ring : RingOps := { rxCallback := RS485_UART_RxCallback, receiveByte := RS485_ReceiveByte }

/-- Consecutive calls of the RX callback, one per byte, no pops in between. -/
def pushAll (o : RingOps) (s : Ring) (bs : List Nat) : Ring := bs.foldl o.rxCallback s

/-- Consecutive calls of `ReceiveByte`; the results are listed in call order. -/
def popN (o : RingOps) : Nat → Ring → Ring × List (Option Nat)
  | 0, s => (s, [])
  | n + 1, s =>
    let r := o.receiveByte s
    let rest := popN o n r.1
    (rest.1, r.2 :: rest.2)

/-- One atomic step of an interleaving. -/
inductive RingOp where
  | push (b : Nat)
  | pop
  deriving DecidableEq, Repr

/-- A ring together with the history observed so far: bytes of the accepted pushes and
bytes returned by the successful pops. A push counts as accepted when the callback
advanced the write index. -/
structure RingRun where
  ring : Ring
  accepted : List Nat
  popped : List Nat

/-- Executes one step and records what it did. -/
def RingRun.step (o : RingOps) (st : RingRun) : RingOp → RingRun
  | .push b =>
    let r := o.rxCallback st.ring b
    { ring := r
      accepted := if r.write_index ≠ st.ring.write_index then st.accepted ++ [b] else st.accepted
      popped := st.popped }
  | .pop =>
    let r := o.receiveByte st.ring
    { ring := r.1
      accepted := st.accepted
      popped := match r.2 with
        | some b => st.popped ++ [b]
        | none => st.popped }

/-- Executes an interleaving from a ring with empty history. -/
def runOps (o : RingOps) (s : Ring) (ops : List RingOp) : RingRun :=
  ops.foldl (RingRun.step o) { ring := s, accepted := [], popped := [] }

/-- States reachable from the initial ring by push, pop and flush. -/
inductive Reachable (o : RingOps) : Ring → Prop where
  | init : Reachable o Ring.init
  | push {s : Ring} (b : Nat) : Reachable o s → Reachable o (o.rxCallback s b)
  | pop {s : Ring} : Reachable o s → Reachable o (o.receiveByte s).1
  | flush {s : Ring} : Reachable o s → Reachable o s.flush

/-! ## C strings held in byte buffers -/

/-- The bytes of a string literal (all literals used here are ASCII). -/
def bytes (s : String) : List Nat := s.toList.map Char.toNat

/-- The zero-terminated string that starts at the beginning of a buffer. A buffer is given by
the bytes written to it; it reads as zero beyond them (every buffer here is cleared with
`memset` or closed with `'\0'` before it is read). -/
def cstr (buf : List Nat) : List Nat := buf.takeWhile (fun c => c ≠ 0)

/-- Offset of the first occurrence of `needle` in a byte list. -/
def findSub (needle : List Nat) : List Nat → Option Nat
  | [] => if needle = [] then some 0 else none
  | c :: cs =>
    if needle.isPrefixOf (c :: cs) then some 0
    else (findSub needle cs).map (fun k => k + 1)

/-- `strstr(buf, needle)`: offset of the first occurrence of the literal in the string, `none`
for `NULL`. -/
def strstr (buf needle : List Nat) : Option Nat := findSub needle (cstr buf)

/-- `strchr(buf, c)` for `c ≠ 0`: offset of the first `c` in the string, `none` for `NULL`. -/
def strchr (buf : List Nat) (c : Nat) : Option Nat := findSub [c] (cstr buf)

/-- `strcmp(a, b) == 0`. -/
def strcmp_eq (a b : List Nat) : Bool := cstr a = cstr b

/-- `isspace` in the C locale. -/
def isspace (c : Nat) : Bool := c = 32 || (9 ≤ c && c ≤ 13)

/-- `isdigit`. -/
def isdigit (c : Nat) : Bool := 48 ≤ c && c ≤ 57

/-- Decimal digits of `n`, most significant first (`fuel` bounds the number of digits). -/
def digitsFuel : Nat → Nat → List Nat
  | 0, _ => []
  | fuel + 1, n =>
    if n < 10 then [48 + n] else digitsFuel fuel (n / 10) ++ [48 + n % 10]

/-- What `snprintf(buf, size, "%d", v)` writes when it fits: the decimal text of `v`. -/
def printInt (v : Int) : List Nat :=
  if v < 0 then 45 :: digitsFuel (v.natAbs + 1) v.natAbs else digitsFuel (v.natAbs + 1) v.natAbs

/-- The run of decimal digits at the head of `s`, accumulated onto `acc`, and the rest. -/
def scanDigits (acc : Nat) : List Nat → Nat × List Nat
  | [] => (acc, [])
  | c :: cs => if isdigit c then scanDigits (acc * 10 + (c - 48)) cs else (acc, c :: cs)

/-- The decimal number that the `%d` directive of `sscanf` reads: skips white space, takes an
optional sign and at least one digit; `none` is a matching failure. The value is the number
written, before it is stored into a C integer. -/
def scanDecimal (s : List Nat) : Option (Int × List Nat) :=
  match s.dropWhile isspace with
  | [] => none
  | c :: cs =>
    if c = 45 then
      match cs with
      | [] => none
      | d :: _ => if isdigit d then some (-((scanDigits 0 cs).1 : Int), (scanDigits 0 cs).2) else none
    else if c = 43 then
      match cs with
      | [] => none
      | d :: _ => if isdigit d then some (((scanDigits 0 cs).1 : Int), (scanDigits 0 cs).2) else none
    else if isdigit c then
      some (((scanDigits 0 (c :: cs)).1 : Int), (scanDigits 0 (c :: cs)).2)
    else none

/-- Saturation of `strtol`, which the `%d` directive converts with, for a 64-bit `long`: a
number below `LONG_MIN` or above `LONG_MAX` becomes that bound. -/
def strtolClamp (v : Int) : Int :=
  if v < -9223372036854775808 then -9223372036854775808
  else if 9223372036854775807 < v then 9223372036854775807
  else v

/-- Storing a `long` into the 32-bit `int` behind the pointer argument: the value modulo
`2^32`, taken in the range of `int`. A value in that range is kept. -/
def longToInt (v : Int) : Int := (v + 2147483648) % 4294967296 - 2147483648

/-- The `%d` directive of `sscanf` with an `int *` argument (`int conn_id, err_code`,
`int data_len` in rg200u.c): the number read by `scanDecimal`, stored into a 32-bit `int`. For
a number within the range of `int` the stored value is the number written. Outside that range
C leaves the outcome open; the model takes what a C library whose `long` has 64 bits does,
saturating at the bounds of `long` and keeping the low 32 bits (a library whose `long` has
32 bits saturates at the bounds of `int` instead). -/
def scanInt (s : List Nat) : Option (Int × List Nat) :=
  match scanDecimal s with
  | none => none
  | some (v, rest) => some (longToInt (strtolClamp v), rest)

/-- An ordinary run of characters in a `sscanf` format: must match literally. -/
def scanLit (lit s : List Nat) : Option (List Nat) :=
  if lit.isPrefixOf s then some (s.drop lit.length) else none

/-- `sscanf(s, "+QIOPEN: %d,%d", &conn_id, &err_code) == 2`: `some (conn_id, err_code)` when
both conversions succeed, `none` otherwise. The blank in the format matches any amount of
white space. -/
def sscanf_QIOPEN (s : List Nat) : Option (Int × Int) :=
  match scanLit (bytes "+QIOPEN:") s with
  | none => none
  | some s1 =>
    match scanInt (s1.dropWhile isspace) with
    | none => none
    | some (conn_id, s2) =>
      match scanLit (bytes ",") s2 with
      | none => none
      | some s3 =>
        match scanInt s3 with
        | none => none
        | some (err_code, _) => some (conn_id, err_code)

/-! ## Hardware and environment -/

/-- `TCP_State_t` (rg200u.h). -/
inductive TCP_State_t where
  | TCP_STATE_DISCONNECTED
  | TCP_STATE_CONNECTING
  | TCP_STATE_CONNECTED
  | TCP_STATE_ERROR
  deriving DecidableEq, Repr

/-- The GPIO pins the two drivers write (main.h): `RS485_RE_Pin` (PB5), `RS485_DE_Pin` (PA15),
`RELAY_K1_Pin` (PB4), `RELAY_K2_Pin` (PB3). -/
inductive Pin where
  | RS485_RE
  | RS485_DE
  | RELAY_K1
  | RELAY_K2
  deriving DecidableEq, Repr

/-- `GPIO_PinState`. -/
inductive GPIO_PinState where
  | GPIO_PIN_RESET
  | GPIO_PIN_SET
  deriving DecidableEq, Repr

/-- What the firmware does to the outside world. -/
inductive Event where
  | gpio (pin : Pin) (level : GPIO_PinState)
  | rs485 (byte : Nat)
  | uart5 (data : List Nat)
  | delay (ms : Nat)
  deriving DecidableEq, Repr

/-- State of the firmware and of its environment.
* `tick`: milliseconds since power-up; the HAL counter read by `HAL_GetTick` is this
  number modulo 2^32 (`uint32_t`);
* `rx`: the modem receive ring of `rg200u.c`;
* `tcp_state`: the static `tcp_state`;
* `modem`: what the modem is going to send on UART5, one list of bytes per coming
  millisecond (the UART5 interrupt stores them while the firmware waits);
* `trace`: the events so far, newest first. -/
structure World where
  tick : Nat
  rx : Ring
  tcp_state : TCP_State_t
  modem : List (List Nat)
  trace : List Event

/-- The events so far, oldest first. -/
def World.log (w : World) : List Event := w.trace.reverse

/-- `HAL_GetTick()`: the `uint32_t` tick counter. -/
def HAL_GetTick (w : World) : Nat := w.tick % 2 ^ 32

/-- Subtraction of two `uint32_t` tick values. -/
def tickDiff (now start : Nat) : Nat := (now + 2 ^ 32 - start) % 2 ^ 32

/-- One millisecond passes: the tick advances and the UART5 interrupt runs the RX callback
for each byte the modem sent in that millisecond. -/
def millisecond (w : World) : World :=
  { w with
    tick := w.tick + 1
    rx := (w.modem.headD []).foldl RG200U_UART_RxCallback w.rx
    modem := w.modem.tail }

/-- The passing of `ms` milliseconds. -/
def elapse : Nat → World → World
  | 0, w => w
  | ms + 1, w => elapse ms (millisecond w)

/-- `HAL_Delay(ms)`, taken to last exactly `ms` ticks. Time passes nowhere else: transmitting
is taken to be instantaneous. -/
def HAL_Delay (w : World) (ms : Nat) : World :=
  { elapse ms w with trace := Event.delay ms :: (elapse ms w).trace }

/-- `HAL_UART_Transmit(&huart5, data, len, timeout)`. -/
def HAL_UART_Transmit (w : World) (data : List Nat) : World :=
  { w with trace := Event.uart5 data :: w.trace }

/-- `HAL_GPIO_WritePin(port, pin, state)`. -/
def HAL_GPIO_WritePin (w : World) (pin : Pin) (level : GPIO_PinState) : World :=
  { w with trace := Event.gpio pin level :: w.trace }

/-- `RG200U_ReceiveByte` acting on the modem ring of the world. -/
def World.receiveByte (w : World) : World × Option Nat :=
  ({ w with rx := (RG200U_ReceiveByte w.rx).1 }, (RG200U_ReceiveByte w.rx).2)

/-! ## RS-485 line driver (`rs485.c`) -/

/-- `RS485_SetReceiveMode`: RE# = 0, SHDN# = 1. -/
def RS485_SetReceiveMode (w : World) : World :=
  HAL_GPIO_WritePin (HAL_GPIO_WritePin w Pin.RS485_RE GPIO_PinState.GPIO_PIN_RESET)
    Pin.RS485_DE GPIO_PinState.GPIO_PIN_SET

/-- `RS485_SetTransmitMode`: RE# = 1, SHDN# = 1. -/
def RS485_SetTransmitMode (w : World) : World :=
  HAL_GPIO_WritePin (HAL_GPIO_WritePin w Pin.RS485_RE GPIO_PinState.GPIO_PIN_SET)
    Pin.RS485_DE GPIO_PinState.GPIO_PIN_SET

/-- `RS485_SendByte`: the byte is written to `USART1->DR`; the two busy waits on the status
flags are taken to end. -/
def RS485_SendByte (w : World) (data : Nat) : World :=
  { w with trace := Event.rs485 data :: w.trace }

/-- `RS485_SendString_NoDirChange`: `while (*str) RS485_SendByte(*str++);`. -/
def RS485_SendString_NoDirChange (w : World) (str : List Nat) : World :=
  (cstr str).foldl RS485_SendByte w

/-! ## AT command engine (`rg200u.c`) -/

/-- `#define AT_RESPONSE_BUF_SIZE 512`. -/
def AT_RESPONSE_BUF_SIZE : Nat := 512

/-- Outcome of one AT exchange: the world afterwards, the returned flag and the bytes written
to the caller's response buffer (which reads as zero beyond them). -/
structure ATResult where
  world : World
  ret : Nat
  response : List Nat

/-- The `while` loop of `RG200U_SendATCommand`. `response` holds the `index` bytes stored so
far. The loop is driven by the tick; `fuel` only bounds the recursion and is never the
reason for leaving when it starts at `timeout` (see `atLoop_fuel`). -/
def atLoop : Nat → World → Nat → Nat → List Nat → ATResult
  | 0, w, _, _, response => { world := w, ret := 0, response := response }
  | fuel + 1, w, start_tick, timeout, response =>
    if tickDiff (HAL_GetTick w) start_tick < timeout then
      match w.receiveByte with
      | (w1, some data) =>
        if response.length < AT_RESPONSE_BUF_SIZE - 1 then
          if (strstr (response ++ [data]) (bytes "OK\r\n")).isSome
              || (strstr (response ++ [data]) (bytes "ERROR\r\n")).isSome then
            { world := w1, ret := 1, response := response ++ [data] }
          else
            atLoop fuel (HAL_Delay w1 1) start_tick timeout (response ++ [data])
        else
          atLoop fuel (HAL_Delay w1 1) start_tick timeout response
      | (w1, none) => atLoop fuel (HAL_Delay w1 1) start_tick timeout response
    else
      { world := w, ret := 0, response := response }

/-- `static uint8_t RG200U_SendATCommand(const char *cmd, char *response, uint16_t timeout)`. -/
def RG200U_SendATCommand (w : World) (cmd : List Nat) (timeout : Nat) : ATResult :=
  let start_tick := HAL_GetTick w
  let w1 := { w with rx := w.rx.flush }
  let w2 := HAL_UART_Transmit w1 (cstr cmd)
  atLoop timeout w2 start_tick timeout []

/-- The `while` loop of `RG200U_WaitForResponse`. `response` holds the `index` bytes stored so
far; `index < (max_len - 1)` is evaluated in `int`, hence written `index + 1 < max_len`.
`fuel` only bounds the recursion. -/
def waitLoop : Nat → World → List Nat → Nat → Nat → Nat → List Nat → Bool → Nat → ATResult
  | 0, w, _, _, _, _, response, _, _ => { world := w, ret := 0, response := response }
  | fuel + 1, w, expected, max_len, timeout_ms, start_time, response, found, last_rx_time =>
    if tickDiff (HAL_GetTick w) start_time < timeout_ms then
      let w1 := w.receiveByte.1
      let st : List Nat × Bool × Nat :=
        match w.receiveByte.2 with
        | some data =>
          if response.length + 1 < max_len then
            (response ++ [data],
              found || (strstr (response ++ [data]) expected).isSome,
              HAL_GetTick w1)
          else (response, found, last_rx_time)
        | none => (response, found, last_rx_time)
      if st.2.1 && decide (tickDiff (HAL_GetTick w1) st.2.2 > 100) then
        { world := w1, ret := 1, response := st.1 }
      else
        waitLoop fuel (HAL_Delay w1 1) expected max_len timeout_ms start_time st.1 st.2.1 st.2.2
    else
      { world := w, ret := 0, response := response }

/-- `static uint8_t RG200U_WaitForResponse(const char *expected, char *response,
uint16_t max_len, uint32_t timeout_ms)`. -/
def RG200U_WaitForResponse (w : World) (expected : List Nat) (max_len timeout_ms : Nat) :
    ATResult :=
  waitLoop timeout_ms w (cstr expected) max_len timeout_ms (HAL_GetTick w) [] false 0

/-! ## Socket bring-up (`RG200U_ConnectTCPServer`) -/

/-- `#define TCP_SERVER_IP "2401:ce00:c5af:75d0::f8a"`. -/
def TCP_SERVER_IP : List Nat := bytes "2401:ce00:c5af:75d0::f8a"

/-- `#define TCP_SERVER_PORT "18655"`. -/
def TCP_SERVER_PORT : List Nat := bytes "18655"

/-- `#define TCP_SOCKET_ID 0`. -/
def TCP_SOCKET_ID : Int := 0

/-- The command built by `snprintf(cmd, sizeof(cmd),
"AT+QIOPEN=1,%d,\"TCP\",\"%s\",%s,0,0\r\n", TCP_SOCKET_ID, TCP_SERVER_IP, TCP_SERVER_PORT)`
with `char cmd[128]` (at most 127 characters are kept). -/
def qiopenCmd : List Nat :=
  (bytes "AT+QIOPEN=1," ++ printInt TCP_SOCKET_ID ++ bytes ",\"TCP\",\"" ++ TCP_SERVER_IP
    ++ bytes "\"," ++ TCP_SERVER_PORT ++ bytes ",0,0\r\n").take 127

/-- The `case` labels of the `switch (err_code)` in `RG200U_ConnectTCPServer`, each with the
text it sends. -/
def errTable : List (Int × List Nat) :=
  [(0, bytes "Operation success"),
   (550, bytes "Unknown error"),
   (551, bytes "Operation blocked"),
   (552, bytes "Invalid parameters"),
   (553, bytes "Memory not enough"),
   (554, bytes "Socket creation failed"),
   (555, bytes "Operation not supported"),
   (556, bytes "Socket bind failed"),
   (557, bytes "Socket listen failed"),
   (558, bytes "Socket write failed"),
   (559, bytes "Socket read failed"),
   (560, bytes "Socket accept failed"),
   (561, bytes "PDP context opening failed"),
   (562, bytes "PDP context closure failed"),
   (563, bytes "Socket identity has been used"),
   (564, bytes "DNS busy"),
   (565, bytes "DNS parse failed"),
   (566, bytes "Socket connect failed"),
   (567, bytes "Socket has been closed"),
   (568, bytes "Operation busy"),
   (569, bytes "Operation timeout"),
   (570, bytes "PDP context broken down"),
   (571, bytes "Cancel sending"),
   (572, bytes "Operation not allowed"),
   (573, bytes "APN not configured"),
   (574, bytes "Port busy")]

/-- The `switch (err_code)`: the text of the matching `case`, `"Unknown"` for `default`. -/
def errReason (err_code : Int) : List Nat :=
  match errTable.lookup err_code with
  | some reason => reason
  | none => bytes "Unknown"

/-- The error report of `RG200U_ConnectTCPServer`, sent once `sscanf` has delivered both
numbers: `err_msg` is `char[100]`, so `snprintf` keeps at most 99 characters. -/
def reportOpenError (w : World) (err_code : Int) : World :=
  let w1 := HAL_Delay (RS485_SetTransmitMode w) 1
  let w2 := RS485_SendString_NoDirChange w1 (bytes "[ERROR] Connection failed with code ")
  let w3 := RS485_SendString_NoDirChange w2 ((printInt err_code).take 99)
  let w4 := RS485_SendString_NoDirChange w3 (bytes " (")
  let w5 := RS485_SendString_NoDirChange w4 (errReason err_code)
  let w6 := RS485_SendString_NoDirChange w5 (bytes ")\r\n")
  RS485_SetReceiveMode w6

/-- The branch of `RG200U_ConnectTCPServer` taken once `RG200U_WaitForResponse` has returned 1
with the given response (lines 566-630). -/
def openNotified (w : World) (response : List Nat) : World × Nat :=
  if (strstr response (bytes "+QIOPEN: 0,0")).isSome
      || (strstr response (bytes "+QIOPEN: 0, 0")).isSome then
    ({ w with tcp_state := TCP_State_t.TCP_STATE_CONNECTED, rx := w.rx.flush }, 1)
  else
    let w1 :=
      match strstr response (bytes "+QIOPEN:") with
      | some qiopen =>
        match sscanf_QIOPEN ((cstr response).drop qiopen) with
        | some (_, err_code) => reportOpenError w err_code
        | none => w
      | none => w
    ({ w1 with tcp_state := TCP_State_t.TCP_STATE_ERROR }, 0)

/-- The world in which `RG200U_ConnectTCPServer` sends the open command: the ring flushed, the
`AT+QICLOSE=0` and `AT+QURCCFG` exchanges done (results unused), the state set to Connecting. -/
def beforeOpen (w : World) : World :=
  let w0 := { w with rx := w.rx.flush }
  let r1 := RG200U_SendATCommand w0 (bytes "AT+QICLOSE=0\r\n") 2000
  let r2 := RG200U_SendATCommand r1.world (bytes "AT+QURCCFG=\"urcport\",\"all\"\r\n") 2000
  { r2.world with tcp_state := TCP_State_t.TCP_STATE_CONNECTING }

/-- The exchange in which `RG200U_ConnectTCPServer` sends the open command and waits up to
5 s for its immediate reply. -/
def openExchange (w : World) : ATResult :=
  RG200U_SendATCommand (beforeOpen w) qiopenCmd 5000

/-- The wait of up to 30 s for the `+QIOPEN:` notification, entered after an accepted reply
(`memset(response, 0, sizeof(response))` precedes it; `sizeof(response)` is 512). -/
def openWait (w : World) : ATResult :=
  RG200U_WaitForResponse (openExchange w).world (bytes "+QIOPEN:") AT_RESPONSE_BUF_SIZE 30000

/-- `uint8_t RG200U_ConnectTCPServer(void)` with `RG200U_DEBUG_ENABLE` 0, as rg200u.h sets it. -/
def RG200U_ConnectTCPServer (w : World) : World × Nat :=
  if (openExchange w).ret ≠ 0 then
    if (strstr (openExchange w).response (bytes "OK")).isSome then
      if (openWait w).ret ≠ 0 then
        openNotified (openWait w).world (openWait w).response
      else
        ({ (openWait w).world with tcp_state := TCP_State_t.TCP_STATE_ERROR }, 0)
    else
      ({ (openExchange w).world with tcp_state := TCP_State_t.TCP_STATE_ERROR }, 0)
  else
    ({ (openExchange w).world with tcp_state := TCP_State_t.TCP_STATE_ERROR }, 0)

/-- `TCP_State_t RG200U_GetTCPState(void)`. -/
def RG200U_GetTCPState (w : World) : TCP_State_t := w.tcp_state

/-! ## Command interceptor (`RG200U_ProcessCommand`) -/

/-- The write `*p = '\0'` at offset `i` of a buffer, for a pointer returned by `strchr`. -/
def cutAt (buf : List Nat) (p : Option Nat) : List Nat :=
  match p with
  | some i => buf.set i 0
  | none => buf

/-- `static void RG200U_ProcessCommand(const char *cmd_data, uint16_t len)`; `cmd_data` lists
the bytes readable at the pointer (at least `len` of them). -/
def RG200U_ProcessCommand (w : World) (cmd_data : List Nat) (len : Nat) : World :=
  let len1 := if len ≥ 128 then 128 - 1 else len
  let cmd0 := cmd_data.take len1
  let cmd1 := cutAt cmd0 (strchr cmd0 13)
  let cmd := cutAt cmd1 (strchr cmd1 10)
  let w1 := HAL_Delay (RS485_SetTransmitMode w) 1
  let w2 :=
    if strcmp_eq cmd (bytes "RELAY1_ON") then
      RS485_SendString_NoDirChange
        (HAL_GPIO_WritePin w1 Pin.RELAY_K1 GPIO_PinState.GPIO_PIN_SET) (bytes "[CMD] RELAY1 ON\r\n")
    else if strcmp_eq cmd (bytes "RELAY1_OFF") then
      RS485_SendString_NoDirChange
        (HAL_GPIO_WritePin w1 Pin.RELAY_K1 GPIO_PinState.GPIO_PIN_RESET) (bytes "[CMD] RELAY1 OFF\r\n")
    else if strcmp_eq cmd (bytes "RELAY2_ON") then
      RS485_SendString_NoDirChange
        (HAL_GPIO_WritePin w1 Pin.RELAY_K2 GPIO_PinState.GPIO_PIN_SET) (bytes "[CMD] RELAY2 ON\r\n")
    else if strcmp_eq cmd (bytes "RELAY2_OFF") then
      RS485_SendString_NoDirChange
        (HAL_GPIO_WritePin w1 Pin.RELAY_K2 GPIO_PinState.GPIO_PIN_RESET) (bytes "[CMD] RELAY2 OFF\r\n")
    else
      RS485_SendString_NoDirChange
        (RS485_SendString_NoDirChange
          (RS485_SendString_NoDirChange w1 (bytes "[CMD] Unknown: ")) cmd) (bytes "\r\n")
  RS485_SetReceiveMode (HAL_Delay w2 2)

/-! ## Vocabulary of the claims -/

/-- One poll of the response loop of `RG200U_SendATCommand` with the completion test left out:
take a byte from the ring if there is one, store it if the response has room, wait 1 ms. -/
def pollStep (p : World × List Nat) : World × List Nat :=
  match p.1.receiveByte.2 with
  | some data =>
    if p.2.length < AT_RESPONSE_BUF_SIZE - 1 then
      (HAL_Delay p.1.receiveByte.1 1, p.2 ++ [data])
    else
      (HAL_Delay p.1.receiveByte.1 1, p.2)
  | none => (HAL_Delay p.1.receiveByte.1 1, p.2)

/-- The bytes accumulated in the response of `RG200U_SendATCommand w cmd _` by its first `k`
polls (the `k`-th poll takes place `k - 1` ms after the call). -/
def accumulated (w : World) (cmd : List Nat) (k : Nat) : List Nat :=
  (pollStep^[k] (HAL_UART_Transmit { w with rx := w.rx.flush } (cstr cmd), [])).2

/-- The accumulated bytes contain `"OK\r\n"` or `"ERROR\r\n"`. -/
def bytesHaveTerminator (response : List Nat) : Prop :=
  bytes "OK\r\n" <:+: response ∨ bytes "ERROR\r\n" <:+: response

/-- The accumulated response, read as a zero-terminated string, contains `"OK\r\n"` or
`"ERROR\r\n"`. -/
def textHasTerminator (response : List Nat) : Prop :=
  bytes "OK\r\n" <:+: cstr response ∨ bytes "ERROR\r\n" <:+: cstr response

instance (response : List Nat) : Decidable (bytesHaveTerminator response) := by
  unfold bytesHaveTerminator; infer_instance

instance (response : List Nat) : Decidable (textHasTerminator response) := by
  unfold textHasTerminator; infer_instance

/-- A world in which nothing has happened and no byte is on its way. -/
def idleWorld : World :=
  { tick := 0, rx := Ring.init, tcp_state := TCP_State_t.TCP_STATE_DISCONNECTED,
    modem := [], trace := [] }

/-- The notification text `"+QIOPEN: 0,E\r\n"`. -/
def openNotification (E : Int) : List Nat :=
  bytes "+QIOPEN: 0," ++ printInt E ++ bytes "\r\n"

/-- The line `RG200U_ConnectTCPServer` sends on RS-485 for a failed open with code `E`. -/
def openErrorLine (E : Int) : List Nat :=
  bytes "[ERROR] Connection failed with code " ++ printInt E ++ bytes " (" ++ errReason E
    ++ bytes ")\r\n"

/-- A modem that acknowledges the three commands of the socket bring-up with `"OK\r\n"` and,
some 30 ms after the last one, reports `"+QIOPEN: 0,566\r\n"`. -/
def refusedStub : World :=
  { tick := 0, rx := Ring.init, tcp_state := TCP_State_t.TCP_STATE_DISCONNECTED,
    modem := [[], bytes "OK\r\n", [], [], [], [], [], bytes "OK\r\n", [], [], [], [], [],
      bytes "OK\r\n"] ++ List.replicate 30 [] ++ [bytes "+QIOPEN: 0,566\r\n"],
    trace := [] }

/-- A modem that acknowledges the three commands of the socket bring-up with `"OK\r\n"` and,
some 30 ms after the last one, reports `"+QIOPEN: 0,0\r\n"`. -/
def obligingStub : World :=
  { tick := 0, rx := Ring.init, tcp_state := TCP_State_t.TCP_STATE_DISCONNECTED,
    modem := [[], bytes "OK\r\n", [], [], [], [], [], bytes "OK\r\n", [], [], [], [], [],
      bytes "OK\r\n"] ++ List.replicate 30 [] ++ [bytes "+QIOPEN: 0,0\r\n"],
    trace := [] }

/-- A modem that stays silent for 4 s, so that `AT+QICLOSE` and `AT+QURCCFG` both run into
their timeout, then acknowledges the open command and reports `"+QIOPEN: 0,0\r\n"`. -/
def deafStub : World :=
  { tick := 0, rx := Ring.init, tcp_state := TCP_State_t.TCP_STATE_DISCONNECTED,
    modem := List.replicate 4000 [] ++ ([[], bytes "OK\r\n"] ++ (List.replicate 30 []
      ++ [bytes "+QIOPEN: 0,0\r\n"])),
    trace := [] }

/-- A modem that acknowledges the three commands of the socket bring-up with `"OK\r\n"` and
reports `"+QIOPEN: 0,0\r\n"` only some 29.95 s after the last acknowledgement. -/
def lateStub : World :=
  { tick := 0, rx := Ring.init, tcp_state := TCP_State_t.TCP_STATE_DISCONNECTED,
    modem := [[], bytes "OK\r\n", [], [], [], [], [], bytes "OK\r\n", [], [], [], [], [],
      bytes "OK\r\n"] ++ (List.replicate 29950 [] ++ [bytes "+QIOPEN: 0,0\r\n"]),
    trace := [] }

/-- A modem that acknowledges the three commands of the socket bring-up with `"OK\r\n"` and
reports `"+QIOPEN: 0,566\r\n"` only some 29.95 s after the last acknowledgement. -/
def lateRefusedStub : World :=
  { tick := 0, rx := Ring.init, tcp_state := TCP_State_t.TCP_STATE_DISCONNECTED,
    modem := [[], bytes "OK\r\n", [], [], [], [], [], bytes "OK\r\n", [], [], [], [], [],
      bytes "OK\r\n"] ++ (List.replicate 29950 [] ++ [bytes "+QIOPEN: 0,566\r\n"]),
    trace := [] }

/-- A modem that answers the probe: silent for one millisecond, then `"AT\r\nOK\r\n"`. -/
def atStub : World :=
  { tick := 0, rx := Ring.init, tcp_state := TCP_State_t.TCP_STATE_DISCONNECTED,
    modem := [[], bytes "AT\r\nOK\r\n"], trace := [] }

/-- A modem whose answer starts with a zero byte: `"\0OK\r\n"`, one byte per millisecond. -/
def nulStub : World :=
  { tick := 0, rx := Ring.init, tcp_state := TCP_State_t.TCP_STATE_DISCONNECTED,
    modem := [[0], [79], [75], [13], [10]], trace := [] }

/-- The relay writes among a list of events, in order. -/
def relayWrites : List Event → List (Pin × GPIO_PinState)
  | [] => []
  | Event.gpio Pin.RELAY_K1 l :: es => (Pin.RELAY_K1, l) :: relayWrites es
  | Event.gpio Pin.RELAY_K2 l :: es => (Pin.RELAY_K2, l) :: relayWrites es
  | _ :: es => relayWrites es

/-- The bytes written to the RS-485 UART among a list of events, in order. -/
def rs485Bytes : List Event → List Nat
  | [] => []
  | Event.rs485 b :: es => b :: rs485Bytes es
  | _ :: es => rs485Bytes es

/-- The events of sending a string byte by byte on RS-485. -/
def sendEvents (str : List Nat) : List Event := str.map Event.rs485

/-- What the interceptor does for a token, between switching the line to transmit and
switching it back: the table entry's relay write and its confirmation text, or the
diagnostic echo for a token that is not in the table. -/
def commandEvents (token : List Nat) : List Event :=
  if token = bytes "RELAY1_ON" then
    Event.gpio Pin.RELAY_K1 GPIO_PinState.GPIO_PIN_SET :: sendEvents (bytes "[CMD] RELAY1 ON\r\n")
  else if token = bytes "RELAY1_OFF" then
    Event.gpio Pin.RELAY_K1 GPIO_PinState.GPIO_PIN_RESET :: sendEvents (bytes "[CMD] RELAY1 OFF\r\n")
  else if token = bytes "RELAY2_ON" then
    Event.gpio Pin.RELAY_K2 GPIO_PinState.GPIO_PIN_SET :: sendEvents (bytes "[CMD] RELAY2 ON\r\n")
  else if token = bytes "RELAY2_OFF" then
    Event.gpio Pin.RELAY_K2 GPIO_PinState.GPIO_PIN_RESET :: sendEvents (bytes "[CMD] RELAY2 OFF\r\n")
  else
    sendEvents (bytes "[CMD] Unknown: " ++ token ++ bytes "\r\n")

/-- The command table of the interceptor. -/
def commandTable : List (List Nat) :=
  [bytes "RELAY1_ON", bytes "RELAY1_OFF", bytes "RELAY2_ON", bytes "RELAY2_OFF"]

/-- A line terminator: CR or LF. -/
def isLineEnd (c : Nat) : Bool := c = 13 || c = 10

/-- A payload with its trailing line terminators removed. -/
def stripTrailing (payload : List Nat) : List Nat := payload.rdropWhile isLineEnd

/-- The token the interceptor compares with its table: the first `min len 127` payload bytes,
cut at the first zero byte, CR or LF. -/
def commandToken (cmd_data : List Nat) (len : Nat) : List Nat :=
  (cmd_data.take (min len 127)).takeWhile (fun c => c ≠ 0 && c ≠ 13 && c ≠ 10)

/-! ## RS-485 line driver, continued (`rs485.c`) -/

/-- `RS485_SendString`: transmit mode, 1 ms, the characters of the string, 1 ms, receive
mode. -/
def RS485_SendString (w : World) (str : List Nat) : World :=
  RS485_SetReceiveMode
    (HAL_Delay ((cstr str).foldl RS485_SendByte (HAL_Delay (RS485_SetTransmitMode w) 1)) 1)

/-- `RS485_SendBuffer(buf, len)`: transmit mode, 1 ms, `buf[0] … buf[len-1]`, 1 ms, receive
mode; `buf` lists the bytes readable at the pointer (at least `len` of them). -/
def RS485_SendBuffer (w : World) (buf : List Nat) (len : Nat) : World :=
  RS485_SetReceiveMode
    (HAL_Delay ((buf.take len).foldl RS485_SendByte (HAL_Delay (RS485_SetTransmitMode w) 1)) 1)

/-- The level a pin was last driven to in a list of events given newest first, `none` if it
was never written. -/
def lastWrite (pin : Pin) : List Event → Option GPIO_PinState
  | [] => none
  | Event.gpio p level :: es => if p = pin then some level else lastWrite pin es
  | _ :: es => lastWrite pin es

/-- The present level of a GPIO output pin. -/
def World.pinLevel (w : World) (pin : Pin) : Option GPIO_PinState := lastWrite pin w.trace

/-- The line is in transmit mode: RE# = 1 and SHDN# = 1. -/
def World.transmitMode (w : World) : Prop :=
  w.pinLevel Pin.RS485_RE = some GPIO_PinState.GPIO_PIN_SET
    ∧ w.pinLevel Pin.RS485_DE = some GPIO_PinState.GPIO_PIN_SET

/-- The line is in receive mode: RE# = 0 and SHDN# = 1. -/
def World.receiveMode (w : World) : Prop :=
  w.pinLevel Pin.RS485_RE = some GPIO_PinState.GPIO_PIN_RESET
    ∧ w.pinLevel Pin.RS485_DE = some GPIO_PinState.GPIO_PIN_SET

/-- The commands handed to `HAL_UART_Transmit(&huart5, …)` among a list of events, in order. -/
def uart5Sent : List Event → List (List Nat)
  | [] => []
  | Event.uart5 data :: es => data :: uart5Sent es
  | _ :: es => uart5Sent es

/-! ## Reading TCP data (`RG200U_ReadTCPData`) -/

/-- The receive loop of `RG200U_ReadTCPData`: at most 2000 ms, at most 511 bytes, left as soon
as the response holds `"OK\r\n"`. `response` holds the `index` bytes stored so far; `fuel`
only bounds the recursion. -/
def readLoop : Nat → World → Nat → List Nat → World × List Nat
  | 0, w, _, response => (w, response)
  | fuel + 1, w, start_tick, response =>
    if tickDiff (HAL_GetTick w) start_tick < 2000 ∧ response.length < 512 - 1 then
      match w.receiveByte.2 with
      | some data =>
        if (strstr (response ++ [data]) (bytes "OK\r\n")).isSome then
          (w.receiveByte.1, response ++ [data])
        else
          readLoop fuel (HAL_Delay w.receiveByte.1 1) start_tick (response ++ [data])
      | none => readLoop fuel (HAL_Delay w.receiveByte.1 1) start_tick response
    else
      (w, response)

/-- Outcome of `RG200U_ReadTCPData`: the world afterwards, the returned `uint8_t`, the number
of bytes copied (`copy_len`, 0 when nothing is copied) and what was written to the caller's
buffer (`none` when it is left untouched). -/
structure ReadResult where
  world : World
  ret : Nat
  copy_len : Nat
  buffer : Option (List Nat)

/-- The 512 bytes of the local `char response[512]` after the receive loop: the bytes stored,
then zeros. -/
def responseArray (response : List Nat) : List Nat :=
  response ++ List.replicate (512 - response.length) 0

/-- The copy length computed by `RG200U_ReadTCPData` from the framing-derived length
`actual_len`, the declared length `data_len` and `max_len` (lines 743-747). -/
def copyLength (actual_len : Nat) (data_len : Int) (max_len : Nat) : Nat :=
  let copy_len := if actual_len < max_len then actual_len else max_len
  if (copy_len : Int) < data_len then
    (if data_len < (max_len : Int) then data_len.toNat else max_len)
  else copy_len

/-- The parsing half of `RG200U_ReadTCPData` (lines 722-758), applied to the response the
receive loop has gathered. All pointers are offsets into `response[512]`; `memcpy` reads
`copy_len` bytes of that array from `data_start` on. The value returned is `copy_len`
converted to `uint8_t`. -/
def parseQIRD (w : World) (response : List Nat) (max_len : Nat) : ReadResult :=
  match strstr response (bytes "+QIRD:") with
  | none => { world := w, ret := 0, copy_len := 0, buffer := none }
  | some qird =>
    match scanInt (cstr (response.drop (qird + 7))) with
    | none => { world := w, ret := 0, copy_len := 0, buffer := none }
    | some (data_len, _) =>
      if data_len > 0 then
        match strchr (response.drop qird) 10 with
        | none => { world := w, ret := 0, copy_len := 0, buffer := none }
        | some line_end =>
          let data_start := qird + line_end + 1
          match strstr (response.drop data_start) (bytes "\r\nOK") with
          | none => { world := w, ret := 0, copy_len := 0, buffer := none }
          | some actual_len =>
            let copy_len := copyLength actual_len data_len max_len
            { world := w
              ret := copy_len % 256
              copy_len := copy_len
              buffer := some (((responseArray response).drop data_start).take copy_len ++ [0]) }
      else { world := w, ret := 0, copy_len := 0, buffer := none }

/-- The command built by `snprintf(cmd, sizeof(cmd), "AT+QIRD=%d,%d\r\n", TCP_SOCKET_ID,
max_len)` with `char cmd[32]`. -/
def qirdCmd (max_len : Nat) : List Nat :=
  (bytes "AT+QIRD=" ++ printInt TCP_SOCKET_ID ++ bytes "," ++ printInt max_len
    ++ bytes "\r\n").take 31

/-- The world in which the receive loop of `RG200U_ReadTCPData` starts: ring flushed, command
sent, 100 ms waited. -/
def readStart (w : World) (max_len : Nat) : World :=
  HAL_Delay (HAL_UART_Transmit { w with rx := w.rx.flush } (cstr (qirdCmd max_len))) 100

/-- The response gathered by the receive loop of `RG200U_ReadTCPData`. -/
def readResponse (w : World) (max_len : Nat) : World × List Nat :=
  readLoop 2000 (readStart w max_len) (HAL_GetTick (readStart w max_len)) []

/-- `uint8_t RG200U_ReadTCPData(char *buffer, uint16_t max_len)`. -/
def RG200U_ReadTCPData (w : World) (max_len : Nat) : ReadResult :=
  parseQIRD (readResponse w max_len).1 (readResponse w max_len).2 max_len

/-- A modem that answers the read command at once with the given bytes and is silent
after. -/
def replyStub (answer : List Nat) : World :=
  { tick := 0, rx := Ring.init, tcp_state := TCP_State_t.TCP_STATE_CONNECTED,
    modem := [answer], trace := [] }

/-! ## Vocabulary of the claims, continued -/

/-- One poll of the response loop of `RG200U_SendATCommand` with neither the completion test
nor the limit of the response buffer: take a byte from the ring if there is one, wait 1 ms. -/
def takeStep (p : World × List Nat) : World × List Nat :=
  match p.1.receiveByte.2 with
  | some data => (HAL_Delay p.1.receiveByte.1 1, p.2 ++ [data])
  | none => (HAL_Delay p.1.receiveByte.1 1, p.2)

/-- The bytes `RG200U_SendATCommand w cmd _` has taken from the ring by its first `k` polls,
had it neither stopped nor run out of room. -/
def taken (w : World) (cmd : List Nat) (k : Nat) : List Nat :=
  (takeStep^[k] (HAL_UART_Transmit { w with rx := w.rx.flush } (cstr cmd), [])).2

/-- The byte stream the modem is going to send. -/
def World.stream (w : World) : List Nat := w.modem.flatten

/-- A modem that sends twelve bytes per millisecond, faster than the AT engine takes them (one
per millisecond): 30 ms of `'x'`, by which time the ring is full, then four milliseconds that
begin with `'O'`, `'K'`, CR and LF, each followed by eleven more `'x'`. The stream contains
neither `"OK\r\n"` nor `"ERROR\r\n"`. -/
def spliceStub : World :=
  { tick := 0, rx := Ring.init, tcp_state := TCP_State_t.TCP_STATE_DISCONNECTED,
    modem := List.replicate 30 (List.replicate 12 120)
      ++ [79 :: List.replicate 11 120, 75 :: List.replicate 11 120,
          13 :: List.replicate 11 120, 10 :: List.replicate 11 120],
    trace := [] }

/-- A modem that sends the byte `'x'` once per millisecond for 600 ms and never a terminator:
more than the 511 bytes the response buffer of the AT engine holds. -/
def floodStub : World :=
  { tick := 0, rx := Ring.init, tcp_state := TCP_State_t.TCP_STATE_DISCONNECTED,
    modem := List.replicate 600 [120], trace := [] }

/-- A modem that delivers a 256-byte payload in two bursts, each small enough for the ring:
the header line and 188 payload bytes at once, the other 68 payload bytes and the trailer
150 ms later. -/
def slowStub : World :=
  { tick := 0, rx := Ring.init, tcp_state := TCP_State_t.TCP_STATE_CONNECTED,
    modem := [bytes "+QIRD: 256\r\n" ++ List.replicate 188 120]
      ++ List.replicate 150 [] ++ [List.replicate 68 120 ++ bytes "\r\nOK\r\n"],
    trace := [] }

/-- Two worlds that differ at most in the modem ring (storage, indices and hence unread
bytes), both rings having valid indices. -/
def World.sameButRing (a b : World) : Prop :=
  a.tick = b.tick ∧ a.tcp_state = b.tcp_state ∧ a.modem = b.modem ∧ a.trace = b.trace
    ∧ a.rx.WF ∧ b.rx.WF

/-- Two worlds that differ at most in the storage and the indices of the modem ring, and hold
the same unread bytes. -/
def World.sameUnread (a b : World) : Prop :=
  a.sameButRing b ∧ a.rx.contents = b.rx.contents

/-- The world `w` with the bytes `stale` received (by the UART5 interrupt) and not yet read. -/
def World.withUnread (w : World) (stale : List Nat) : World :=
  { w with rx := stale.foldl RG200U_UART_RxCallback w.rx }

/-- What `RG200U_WaitForResponse` has done by some poll: the world, the bytes stored in the
response, all the bytes taken from the ring (stored or discarded for lack of room), and
the milliseconds passed since a byte was last stored (since the start, if none was). -/
structure WaitState where
  world : World
  stored : List Nat
  taken : List Nat
  quiet : Nat

/-- The first half of a poll of `RG200U_WaitForResponse`: take a byte from the ring if there
is one, and store it if the response has room. -/
def waitTake (max_len : Nat) (s : WaitState) : WaitState :=
  match s.world.receiveByte.2 with
  | some data =>
    if s.stored.length + 1 < max_len then
      { world := s.world.receiveByte.1, stored := s.stored ++ [data],
        taken := s.taken ++ [data], quiet := 0 }
    else
      { world := s.world.receiveByte.1, stored := s.stored,
        taken := s.taken ++ [data], quiet := s.quiet }
  | none =>
    { world := s.world.receiveByte.1, stored := s.stored, taken := s.taken, quiet := s.quiet }

/-- The 1 ms delay that ends a poll. -/
def waitTick (s : WaitState) : WaitState :=
  { world := HAL_Delay s.world 1, stored := s.stored, taken := s.taken, quiet := s.quiet + 1 }

/-- The state of `RG200U_WaitForResponse w _ _ max_len _` at its poll number `j` (which takes
place `j` ms after the call), after the byte of that poll has been taken, had the wait not
returned before. -/
def waitState (w : World) (max_len j : Nat) : WaitState :=
  waitTake max_len ((fun s => waitTick (waitTake max_len s))^[j]
    { world := w, stored := [], taken := [], quiet := 0 })

/-- The completion condition of the wait: the text of the response contains the expected
string and more than 100 ms have passed since a byte was last stored. -/
def quietDone (expected : List Nat) (s : WaitState) : Prop :=
  cstr expected <:+: cstr s.stored ∧ 100 < s.quiet

instance (expected : List Nat) (s : WaitState) : Decidable (quietDone expected s) := by
  unfold quietDone; infer_instance

/-- The state of a wait in the middle of a steady stream: `c + 1` unread copies of `b` in the
ring and `n` more milliseconds of `b` to come. -/
def WaitState.streaming (s : WaitState) (b c n : Nat) : Prop :=
  s.world.rx.WF ∧ s.world.rx.contents = List.replicate (c + 1) b
    ∧ s.world.modem = List.replicate n [b]

/-- A modem that sends `"+QIOPEN: 0,0\r\n"` in the second millisecond and is silent after. -/
def urcStub : World :=
  { tick := 0, rx := Ring.init, tcp_state := TCP_State_t.TCP_STATE_CONNECTING,
    modem := [[], bytes "+QIOPEN: 0,0\r\n"], trace := [] }

/-- A modem that sends `"+QIOPEN: 0,0\r\n"` in the first millisecond and goes on sending one
`'x'` in every millisecond after that, for 700 ms. -/
def chatterStub : World :=
  { tick := 0, rx := Ring.init, tcp_state := TCP_State_t.TCP_STATE_CONNECTING,
    modem := bytes "+QIOPEN: 0,0\r\n" :: List.replicate 700 [120], trace := [] }

/-- The answer of the modem to the read command for a payload `P`: the header line
`"+QIRD: n\r\n"` with `n` the length of `P`, the bytes of `P`, and the trailer `"\r\nOK\r\n"`. -/
def qirdAnswer (P : List Nat) : List Nat :=
  bytes "+QIRD: " ++ printInt (P.length : Int) ++ bytes "\r\n" ++ P ++ bytes "\r\nOK\r\n"

/-! ## Modem bring-up and self-test (`RG200U_Init`) -/

/-- Step 2, the loop `for (retry = 0; retry < 20; retry++)` with `n` rounds to go; the result
is the world and `test_ok` (which is 0 whenever the second exchange of a round is reached). -/
def registration : Nat → World → World × Nat
  | 0, w => (w, 0)
  | n + 1, w =>
    let r1 := RG200U_SendATCommand w (bytes "AT+C5GREG?\r\n") 2000
    if r1.ret ≠ 0 ∧ ((strstr r1.response (bytes "+C5GREG: 0,1")).isSome
        ∨ (strstr r1.response (bytes "+C5GREG: 0,5")).isSome) then
      (RS485_SendString_NoDirChange r1.world (bytes " Registered (5G)\r\n"), 1)
    else
      let r2 := RG200U_SendATCommand r1.world (bytes "AT+CEREG?\r\n") 2000
      if r2.ret ≠ 0 ∧ ((strstr r2.response (bytes "+CEREG: 0,1")).isSome
          ∨ (strstr r2.response (bytes "+CEREG: 0,5")).isSome) then
        (RS485_SendString_NoDirChange r2.world (bytes " Registered (4G)\r\n"), 1)
      else
        registration n (HAL_Delay (RS485_SendString_NoDirChange r2.world (bytes ".")) 2000)

/-- The commands handed to UART5 so far, oldest first. -/
def World.sent (w : World) : List (List Nat) := (uart5Sent w.trace).reverse

/-- The ring never overflows while a receive loop takes one byte per millisecond: with `c`
bytes unread at a poll, the poll takes one (if there is one), and the bytes the modem sends
in the following millisecond must find room; and so on for the rest of the schedule. -/
def ringFits : Nat → List (List Nat) → Prop
  | _, [] => True
  | c, x :: xs => (c - 1) + x.length ≤ 255 ∧ ringFits ((c - 1) + x.length) xs

instance ringFits_decidable : ∀ (c : Nat) (modem : List (List Nat)), Decidable (ringFits c modem)
  | _, [] => isTrue trivial
  | c, x :: xs =>
    match Nat.decLe ((c - 1) + x.length) 255, ringFits_decidable ((c - 1) + x.length) xs with
    | isTrue h1, isTrue h2 => isTrue ⟨h1, h2⟩
    | isFalse h1, _ => isFalse (fun h => h1 h.1)
    | _, isFalse h2 => isFalse (fun h => h2 h.2)


/-! ## URC detector (`RG200U_ProcessTCPMessage`) -/

/-- The statics of `RG200U_ProcessTCPMessage`: `static char buffer[RG200U_RX_BUFFER_SIZE]` and
`static uint16_t index`. -/
structure LineBuf where
  buffer : Nat → Nat
  index : Nat

/-- Static initialisation, and the state after `index = 0; memset(buffer, 0, sizeof(buffer));`. -/
def LineBuf.clear : LineBuf := { buffer := fun _ => 0, index := 0 }

/-- The 256 bytes of the array, from its start. -/
def LineBuf.chars (b : LineBuf) : List Nat := (List.range RG200U_RX_BUFFER_SIZE).map b.buffer

/-- `buffer[index++] = data; buffer[index] = '\0';`. -/
def LineBuf.put (b : LineBuf) (data : Nat) : LineBuf :=
  { buffer := store (store b.buffer b.index data) (b.index + 1) 0, index := b.index + 1 }

/-- The marker of a receive notification, `"+QIURC: \"recv\""`. -/
def recvMarker : List Nat := bytes "+QIURC: \"recv\""

/-- What `RG200U_ProcessTCPMessage` does with what `RG200U_ReadTCPData` returned (lines
832-848): for a length above 0 the payload goes to RS-485 between `"\r\n[TCP RX] "` and
`"\r\n"` and is handed to the command interceptor. `tcp_data` lists the bytes written to the
local `char tcp_data[512]`. -/
def forwardPayload (w : World) (tcp_data : List Nat) (len : Nat) : World :=
  if len > 0 then
    let w1 := HAL_Delay (RS485_SetTransmitMode w) 1
    let w2 := RS485_SendString_NoDirChange w1 (bytes "\r\n[TCP RX] ")
    let w3 := RS485_SendBuffer w2 tcp_data len
    let w4 := RS485_SendString_NoDirChange w3 (bytes "\r\n")
    let w5 := RS485_SetReceiveMode (HAL_Delay w4 2)
    RG200U_ProcessCommand w5 tcp_data len
  else w

/-- What `RG200U_ProcessTCPMessage` does once the marker is in its buffer (lines 800-848, with
`RG200U_DEBUG_ENABLE` 0): 50 ms, the read of up to 511 bytes, the forwarding. -/
def readNotified (w : World) : World :=
  forwardPayload (RG200U_ReadTCPData (HAL_Delay w 50) (512 - 1)).world
    ((RG200U_ReadTCPData (HAL_Delay w 50) (512 - 1)).buffer.getD [])
    (RG200U_ReadTCPData (HAL_Delay w 50) (512 - 1)).ret

/-- The body of the loop of `RG200U_ProcessTCPMessage` for a byte `data` just taken from the
ring. -/
def lineStep (w : World) (b : LineBuf) (data : Nat) : World × LineBuf :=
  if b.index < RG200U_RX_BUFFER_SIZE - 1 then
    if (strstr (b.put data).chars recvMarker).isSome then
      (readNotified w, LineBuf.clear)
    else (w, b.put data)
  else (w, LineBuf.clear)

/-- The loop `while (RG200U_ReceiveByte(&data)) { … }` of `RG200U_ProcessTCPMessage`; `fuel`
only bounds the recursion. -/
def processLoop : Nat → World → LineBuf → World × LineBuf
  | 0, w, b => (w, b)
  | fuel + 1, w, b =>
    match w.receiveByte.2 with
    | some data => processLoop fuel (lineStep w.receiveByte.1 b data).1 (lineStep w.receiveByte.1 b data).2
    | none => (w.receiveByte.1, b)

/-- The bytes the loop of `RG200U_ProcessTCPMessage` can still take: those unread in the ring
and those the modem is yet to send. -/
def World.pending (w : World) : Nat := w.rx.count + w.stream.length

/-- `void RG200U_ProcessTCPMessage(void)` with `RG200U_DEBUG_ENABLE` 0, as rg200u.h sets it;
the statics are passed in and handed back. Every round of the loop takes a byte, so the loop
has ended before the fuel runs out. -/
def RG200U_ProcessTCPMessage (w : World) (b : LineBuf) : World × LineBuf :=
  processLoop (w.pending + 1) w b

/-- The read commands among the commands sent to the modem so far. -/
def World.reads (w : World) : Nat := (w.sent.filter (fun c => c = cstr (qirdCmd (512 - 1)))).length

/-- The buffer invariant of the URC detector: the index is at most 255 and the buffer holds a
zero at the index. -/
def LineBuf.ok (b : LineBuf) : Prop := b.index ≤ 255 ∧ b.buffer b.index = 0

/-- A world in which the notification `"+QIURC: \"recv\",0\r\n"` has just been received and
the modem is going to answer the read command, 10 ms after it is sent, with `answer`. -/
def notifyStub (answer : List Nat) : World :=
  { tick := 0, rx := (bytes "+QIURC: \"recv\",0\r\n").foldl RG200U_UART_RxCallback Ring.init,
    tcp_state := TCP_State_t.TCP_STATE_CONNECTED,
    modem := List.replicate 60 [] ++ [answer], trace := [] }

/-- A world in which two notifications have been received back to back; the modem is going to
answer the read command with `"+QIRD: 0\r\n\r\nOK\r\n"` (nothing to read). -/
def twiceStub : World :=
  { tick := 0,
    rx := (bytes "+QIURC: \"recv\",0\r\n+QIURC: \"recv\",0\r\n").foldl RG200U_UART_RxCallback
      Ring.init,
    tcp_state := TCP_State_t.TCP_STATE_CONNECTED,
    modem := List.replicate 60 [] ++ [bytes "+QIRD: 0\r\n\r\nOK\r\n"], trace := [] }

/-! ## Direction of the half-duplex line along a log -/

/-- The direction of the line at a point of a log: the levels of RE# and SHDN# as last
written, and the milliseconds of delay since the line last entered transmit mode. -/
structure LineDir where
  re : Option GPIO_PinState
  de : Option GPIO_PinState
  settled : Nat
  deriving DecidableEq, Repr

/-- Transmit mode: RE# = 1 and SHDN# = 1. -/
def LineDir.transmit (d : LineDir) : Bool :=
  d.re = some GPIO_PinState.GPIO_PIN_SET && d.de = some GPIO_PinState.GPIO_PIN_SET

/-- The direction after a pin write: entering transmit mode restarts the count of settled
milliseconds. -/
def LineDir.write (d : LineDir) (re de : Option GPIO_PinState) : LineDir :=
  if (LineDir.mk re de 0).transmit && !d.transmit then { re := re, de := de, settled := 0 }
  else { re := re, de := de, settled := d.settled }

/-- The direction after an event. -/
def LineDir.step (d : LineDir) : Event → LineDir
  | Event.gpio Pin.RS485_RE level => d.write (some level) d.de
  | Event.gpio Pin.RS485_DE level => d.write d.re (some level)
  | Event.delay ms => { d with settled := d.settled + ms }
  | _ => d

/-- Every byte written to the RS-485 UART in the log (oldest first) is written in transmit
mode, at least 1 ms of delay after the line entered it. -/
def disciplined : LineDir → List Event → Bool
  | _, [] => true
  | d, Event.rs485 _ :: es => d.transmit && decide (1 ≤ d.settled) && disciplined d es
  | d, e :: es => disciplined (d.step e) es

/-- The direction of a line whose pins have not been written yet. -/
def LineDir.unknown : LineDir := { re := none, de := none, settled := 0 }

/-! ## Relay tasks (`user_tasks.c`) -/

/-- `osDelay(millisec)`: the task sleeps for that many ticks of 1 ms. -/
def osDelay (w : World) (millisec : Nat) : World := HAL_Delay w millisec

/-- Capacity of the two byte queues, `osMessageQDef(…, 256, uint8_t)` (freertos.c). -/
def QUEUE_SIZE : Nat := 256

/-- `osMessagePut(queue, info, millisec)`: the value is appended if the queue has room;
otherwise the call blocks for `millisec` ticks and fails (no other task runs inside a step of
this model). The result is the world, the queue and whether the status is `osOK`. -/
def osMessagePut (w : World) (queue : List Nat) (info millisec : Nat) : World × List Nat × Bool :=
  if queue.length < QUEUE_SIZE then (w, queue ++ [info], true)
  else (elapse millisec w, queue, false)

/-- `osMessageGet(queue, millisec)`: the oldest value is taken if there is one
(`osEventMessage`); otherwise the call blocks for `millisec` ticks and times out. -/
def osMessageGet (w : World) (queue : List Nat) (millisec : Nat) : World × List Nat × Option Nat :=
  match queue with
  | v :: rest => (w, rest, some v)
  | [] => (elapse millisec w, [], none)

/-- `void RG200U_SendByte(uint8_t data)`: `HAL_UART_Transmit(&huart5, &data, 1, 100)`. -/
def RG200U_SendByte (w : World) (data : Nat) : World := HAL_UART_Transmit w [data]

/-- The RS-485 to modem direction: the world (with the modem UART), the RS-485 receive ring
and `Queue_RS485_To_RG200U`. -/
structure Uplink where
  world : World
  rs485 : Ring
  queue : List Nat

/-- One round of `for(;;)` in `UserTask_RS485_RxHandler`. -/
def UserTask_RS485_RxHandler (u : Uplink) : Uplink :=
  match (RS485_ReceiveByte u.rs485).2 with
  | some recv_byte =>
    let p := osMessagePut u.world u.queue recv_byte 10
    { world := osDelay p.1 1, rs485 := (RS485_ReceiveByte u.rs485).1, queue := p.2.1 }
  | none => { world := osDelay u.world 1, rs485 := (RS485_ReceiveByte u.rs485).1, queue := u.queue }

/-- One round of `for(;;)` in `UserTask_RG200U_TxHandler`; `tx_byte = (uint8_t)event.value.v`. -/
def UserTask_RG200U_TxHandler (u : Uplink) : Uplink :=
  match (osMessageGet u.world u.queue 100).2.2 with
  | some v =>
    { world := RG200U_SendByte (osMessageGet u.world u.queue 100).1 (v % 256), rs485 := u.rs485,
      queue := (osMessageGet u.world u.queue 100).2.1 }
  | none =>
    { world := (osMessageGet u.world u.queue 100).1, rs485 := u.rs485,
      queue := (osMessageGet u.world u.queue 100).2.1 }

/-- What can happen in the RS-485 to modem direction: the USART1 interrupt stores a byte, the
RS-485 receive task runs a round, the RG200U transmit task runs a round. -/
inductive UplinkOp where
  | receive (byte : Nat)
  | rxTask
  | txTask
  deriving DecidableEq, Repr

/-- One step of the RS-485 to modem direction. -/
def Uplink.step (u : Uplink) : UplinkOp → Uplink
  | UplinkOp.receive byte => { u with rs485 := RS485_UART_RxCallback u.rs485 byte }
  | UplinkOp.rxTask => UserTask_RS485_RxHandler u
  | UplinkOp.txTask => UserTask_RG200U_TxHandler u

/-- The bytes the USART1 interrupt delivers in a schedule, in order. -/
def pushedBytes : List UplinkOp → List Nat
  | [] => []
  | UplinkOp.receive byte :: ops => byte :: pushedBytes ops
  | _ :: ops => pushedBytes ops

/-- No capacity is exceeded along a schedule: every byte delivered by the interrupt finds room
in the ring (fewer than 255 bytes unread), and every byte the receive task takes finds room in
the queue (fewer than 256 values queued). -/
def withinCapacity : Uplink → List UplinkOp → Prop
  | _, [] => True
  | u, UplinkOp.receive byte :: ops =>
    u.rs485.count < 255 ∧ withinCapacity (u.step (UplinkOp.receive byte)) ops
  | u, UplinkOp.rxTask :: ops =>
    (u.rs485.count ≠ 0 → u.queue.length < QUEUE_SIZE) ∧ withinCapacity (u.step UplinkOp.rxTask) ops
  | u, UplinkOp.txTask :: ops => withinCapacity (u.step UplinkOp.txTask) ops

/-- Both the ring and the queue are drained. -/
def Uplink.drained (u : Uplink) : Prop := u.rs485.count = 0 ∧ u.queue = []

/-- The bytes transmitted on the modem UART so far, in order. -/
def Uplink.transmitted (u : Uplink) : List Nat := u.world.sent.flatten

/-- The RS-485 to modem direction at start-up: ring empty, queue empty. -/
def Uplink.start (w : World) : Uplink := { world := w, rs485 := Ring.init, queue := [] }

/-- The schedule in which the interrupt delivers the bytes, then the receive task runs once
per byte, then the transmit task runs once per byte. -/
def burstSchedule (bs : List Nat) : List UplinkOp :=
  bs.map UplinkOp.receive ++ List.replicate bs.length UplinkOp.rxTask
    ++ List.replicate bs.length UplinkOp.txTask

/-- The statics of user_tasks.c: `rs485_tx_active` (`uint8_t`) and `rs485_last_tx_tick`
(`uint32_t`), both 0 at start-up. -/
structure TxTask where
  rs485_tx_active : Nat
  rs485_last_tx_tick : Nat
  deriving DecidableEq, Repr

/-- `osKernelSysTick()`: the kernel tick counter, a `uint32_t` counting milliseconds. -/
def osKernelSysTick (w : World) : Nat := HAL_GetTick w

/-- One round of `for(;;)` in `UserTask_RS485_TxHandler`. `osMessageGet(…, 10)` returns after
`wait` ticks with `event`: `some v` for `osEventMessage` with value `v`, `none` for a
timeout. -/
def UserTask_RS485_TxHandler (w : World) (t : TxTask) (wait : Nat) (event : Option Nat) :
    World × TxTask :=
  match event with
  | some v =>
    let w1 := if t.rs485_tx_active = 0 then osDelay (RS485_SetTransmitMode (elapse wait w)) 1
      else elapse wait w
    let w2 := RS485_SendByte w1 (v % 256)
    (w2, { rs485_tx_active := if t.rs485_tx_active = 0 then 1 else t.rs485_tx_active,
           rs485_last_tx_tick := osKernelSysTick w2 })
  | none =>
    if t.rs485_tx_active ≠ 0 then
      if tickDiff (osKernelSysTick (elapse wait w)) t.rs485_last_tx_tick > 10 then
        (RS485_SetReceiveMode (osDelay (elapse wait w) 2), { t with rs485_tx_active := 0 })
      else (elapse wait w, t)
    else (elapse wait w, t)

/-- A run of the RS-485 transmit task: one round per input, an input being the ticks
`osMessageGet` blocked for and what it returned. -/
def txRun (p : World × TxTask) (inputs : List (Nat × Option Nat)) : World × TxTask :=
  inputs.foldl (fun q i => UserTask_RS485_TxHandler q.1 q.2 i.1 i.2) p

/-- The modem to RS-485 direction: the world (with the modem ring), the statics of the URC
detector and `Queue_RG200U_To_RS485`. -/
structure Downlink where
  world : World
  line : LineBuf
  queue : List Nat

/-- One round of `for(;;)` in `UserTask_RG200U_RxHandler`. -/
def UserTask_RG200U_RxHandler (d : Downlink) : Downlink :=
  let p := RG200U_ProcessTCPMessage d.world d.line
  match p.1.receiveByte.2 with
  | some recv_byte =>
    let q := osMessagePut p.1.receiveByte.1 d.queue recv_byte 10
    { world := osDelay q.1 1, line := p.2, queue := q.2.1 }
  | none => { world := osDelay p.1.receiveByte.1 1, line := p.2, queue := d.queue }

/-! ## Vocabulary of the address claim -/

/-- The 5G query of a round of step 2 that starts in `w`. -/
def query5G (w : World) : ATResult := RG200U_SendATCommand w (bytes "AT+C5GREG?\r\n") 2000

/-- The 4G query of a round of step 2 that starts in `w`, sent when the 5G query has not led
to success. -/
def query4G (w : World) : ATResult :=
  RG200U_SendATCommand (query5G w).world (bytes "AT+CEREG?\r\n") 2000

/-- The outcome of a query is taken as registered: the exchange returned 1 and the response,
read as text, contains `tag` continued by `1` or by `5`. -/
def takenAsRegistered (r : ATResult) (tag : List Nat) : Prop :=
  r.ret = 1 ∧ (tag ++ bytes "1" <:+: cstr r.response ∨ tag ++ bytes "5" <:+: cstr r.response)

/-- A round that starts in `w` ends step 2 with success. -/
def roundRegisters (w : World) : Prop :=
  takenAsRegistered (query5G w) (bytes "+C5GREG: 0,")
    ∨ takenAsRegistered (query4G w) (bytes "+CEREG: 0,")

/-- The world in which the next round starts after a round without success: a dot on
RS-485 and 2 s later. -/
def nextRound (w : World) : World :=
  HAL_Delay (RS485_SendString_NoDirChange (query4G w).world (bytes ".")) 2000

/-- The world in which round `i` (counted from 0) starts when no earlier round had success. -/
def roundStart (w : World) : Nat → World
  | 0 => w
  | i + 1 => nextRound (roundStart w i)

/-- The queries of `n` full rounds. -/
def registrationQueries (n : Nat) : List (List Nat) :=
  (List.replicate n [bytes "AT+C5GREG?\r\n", bytes "AT+CEREG?\r\n"]).flatten

/-- A modem that answers the 5G query with `"+C5GREG: 0,2\r\n\r\nOK\r\n"` (status 2, searching)
and the 4G query with `"+CEREG: 0,10\r\n\r\nOK\r\n"` (status 10). -/
def status10Stub : World :=
  { tick := 0, rx := Ring.init, tcp_state := TCP_State_t.TCP_STATE_DISCONNECTED,
    modem := [bytes "+C5GREG: 0,2\r\n\r\nOK\r\n"] ++ List.replicate 30 []
      ++ [bytes "+CEREG: 0,10\r\n\r\nOK\r\n"],
    trace := [] }

/-! ## Vocabulary of the read claims -/

/-- The offset `data_start` computed by `RG200U_ReadTCPData` (lines 722-737): the first byte
after the header line that begins at `"+QIRD:"`. -/
def dataStart (response : List Nat) : Option Nat :=
  match strstr response (bytes "+QIRD:") with
  | none => none
  | some qird =>
    match strchr (response.drop qird) 10 with
    | none => none
    | some line_end => some (qird + line_end + 1)

/-- A 14-byte payload whose third to eighth bytes read `"\r\nOK\r\n"`. -/
def okInside : List Nat := bytes "ab\r\nOK\r\ncdefgh"

/-- A world in which a notification has been handled up to the read and the modem answers the
read command, 10 ms after it is sent, with the header line `"+QIRD: 3\r\n"`, the payload
`'a'`, zero, `'b'`, and the trailer. -/
def zeroStub : World :=
  { tick := 0, rx := Ring.init, tcp_state := TCP_State_t.TCP_STATE_CONNECTED,
    modem := List.replicate 60 [] ++ [bytes "+QIRD: 3\r\na" ++ 0 :: bytes "b\r\nOK\r\n"],
    trace := [] }

instance withinCapacity_decidable : ∀ (u : Uplink) (ops : List UplinkOp),
    Decidable (withinCapacity u ops)
  | _, [] => isTrue trivial
  | u, UplinkOp.receive byte :: ops =>
    match Nat.decLt u.rs485.count 255,
      withinCapacity_decidable (u.step (UplinkOp.receive byte)) ops with
    | isTrue h1, isTrue h2 => isTrue ⟨h1, h2⟩
    | isFalse h1, _ => isFalse (fun h => h1 h.1)
    | _, isFalse h2 => isFalse (fun h => h2 h.2)
  | u, UplinkOp.rxTask :: ops =>
    match (inferInstance : Decidable (u.rs485.count ≠ 0 → u.queue.length < QUEUE_SIZE)),
      withinCapacity_decidable (u.step UplinkOp.rxTask) ops with
    | isTrue h1, isTrue h2 => isTrue ⟨h1, h2⟩
    | isFalse h1, _ => isFalse (fun h => h1 h.1)
    | _, isFalse h2 => isFalse (fun h => h2 h.2)
  | u, UplinkOp.txTask :: ops => withinCapacity_decidable (u.step UplinkOp.txTask) ops

instance (u : Uplink) : Decidable u.drained := by
  unfold Uplink.drained; infer_instance

/-- The world `a` has valid ring indices and no more bytes pending than `c`: the measure by
which the loop of `RG200U_ProcessTCPMessage` ends. -/
def World.settled (a c : World) : Prop := a.rx.WF ∧ a.pending ≤ c.pending

/-! ## Vocabulary of the steady-state claims -/

/-- The events of switching the line to transmit mode and waiting 1 ms. -/
def toTransmit : List Event :=
  [Event.gpio Pin.RS485_RE GPIO_PinState.GPIO_PIN_SET,
   Event.gpio Pin.RS485_DE GPIO_PinState.GPIO_PIN_SET, Event.delay 1]

/-- The events of waiting `ms` and switching the line to receive mode. -/
def toReceive (ms : Nat) : List Event :=
  [Event.delay ms, Event.gpio Pin.RS485_RE GPIO_PinState.GPIO_PIN_RESET,
   Event.gpio Pin.RS485_DE GPIO_PinState.GPIO_PIN_SET]

/-- The events of `RG200U_ProcessCommand` for a payload. -/
def interceptEvents (cmd_data : List Nat) (len : Nat) : List Event :=
  toTransmit ++ commandEvents (commandToken cmd_data len) ++ toReceive 2

/-- The events by which `RG200U_ProcessTCPMessage` forwards a payload of length `len` above 0
(lines 835-847): the heading, the direction cycle of `RS485_SendBuffer` around the payload,
the line end, and the command interceptor. -/
def forwardEvents (tcp_data : List Nat) (len : Nat) : List Event :=
  toTransmit ++ sendEvents (bytes "\r\n[TCP RX] ")
    ++ (toTransmit ++ sendEvents (tcp_data.take len) ++ toReceive 1)
    ++ sendEvents (bytes "\r\n") ++ toReceive 2
    ++ interceptEvents tcp_data len

/-- The bytes written to RS-485 for a payload of length `len` above 0: `"\r\n[TCP RX] "`, the
payload, `"\r\n"`, and the reply of the command interceptor. -/
def payloadFrame (tcp_data : List Nat) (len : Nat) : List Nat :=
  bytes "\r\n[TCP RX] " ++ tcp_data.take len ++ bytes "\r\n"
    ++ rs485Bytes (commandEvents (commandToken tcp_data len))

/-- The events logged in `w'` since `w`. -/
def World.since (w' w : World) : List Event := w'.log.drop w.log.length

/-- The modem to RS-485 direction with the byte `'A'` unread in the modem ring, nothing
accumulated by the URC detector, the queue empty and the modem silent. -/
def oneByteDownlink : Downlink :=
  { world := idleWorld.withUnread [65], line := LineBuf.clear, queue := [] }
/-! ## Ring buffer: lemmas -/

theorem rs485_rxCallback_eq : RS485_UART_RxCallback = RG200U_UART_RxCallback := rfl

theorem rs485_receiveByte_eq : RS485_ReceiveByte = RG200U_ReceiveByte := rfl

theorem rs485Ring_eq : rs485Ring = modemRing := rfl

theorem count_lt (s : Ring) : s.count < 256 := by
  unfold Ring.count; omega

theorem contents_length (s : Ring) : s.contents.length = s.count := by
  simp [Ring.contents]

theorem push_guard_iff (s : Ring) (h : s.WF) :
    (s.write_index + 1) % 256 ≠ s.read_index ↔ s.count ≠ 255 := by
  obtain ⟨hw, hr⟩ := h
  unfold Ring.count; omega

theorem push_accept (s : Ring) (b : Nat) (h : s.WF) (hc : s.count ≠ 255) :
    (RG200U_UART_RxCallback s b).WF
      ∧ (RG200U_UART_RxCallback s b).count = s.count + 1
      ∧ (RG200U_UART_RxCallback s b).contents = s.contents ++ [b]
      ∧ (RG200U_UART_RxCallback s b).read_index = s.read_index
      ∧ (RG200U_UART_RxCallback s b).write_index ≠ s.write_index := by
  have hg := (push_guard_iff s h).2 hc
  obtain ⟨hw, hr⟩ := h
  have hcnt : (⟨store s.buffer s.write_index b, (s.write_index + 1) % 256, s.read_index⟩
      : Ring).count = s.count + 1 := by
    simp only [Ring.count] at hc ⊢; omega
  have hdef : RG200U_UART_RxCallback s b
      = ⟨store s.buffer s.write_index b, (s.write_index + 1) % 256, s.read_index⟩ := by
    simp only [RG200U_UART_RxCallback, RG200U_RX_BUFFER_SIZE, if_pos hg]
  rw [hdef]
  refine ⟨⟨Nat.mod_lt _ (by decide), hr⟩, hcnt, ?_, rfl, ?_⟩
  swap
  · show (s.write_index + 1) % 256 ≠ s.write_index
    omega
  simp only [Ring.contents, hcnt, List.range_succ, List.map_append, List.map_cons, List.map_nil]
  congr 1
  · apply List.map_congr_left
    intro k hk
    have hk2 : k < s.count := List.mem_range.1 hk
    have hne : (s.read_index + k) % 256 ≠ s.write_index := by
      simp only [Ring.count] at hk2; omega
    simp [store, hne]
  · have he : (s.read_index + s.count) % 256 = s.write_index := by
      simp only [Ring.count]; omega
    simp [store, he]

theorem push_reject (s : Ring) (b : Nat) (h : s.WF) (hc : s.count = 255) :
    RG200U_UART_RxCallback s b = s := by
  have hg : ¬ (s.write_index + 1) % 256 ≠ s.read_index := by
    rw [push_guard_iff s h]; simp [hc]
  simp only [RG200U_UART_RxCallback, RG200U_RX_BUFFER_SIZE, if_neg hg]

theorem pop_empty (s : Ring) (hc : s.read_index = s.write_index) :
    RG200U_ReceiveByte s = (s, none) := by
  simp [RG200U_ReceiveByte, hc]

theorem count_eq_zero_iff (s : Ring) (h : s.WF) : s.count = 0 ↔ s.read_index = s.write_index := by
  obtain ⟨hw, hr⟩ := h
  unfold Ring.count; omega

theorem pop_nonempty (s : Ring) (h : s.WF) (hc : s.count ≠ 0) :
    (RG200U_ReceiveByte s).2 = some (s.buffer s.read_index)
      ∧ (RG200U_ReceiveByte s).1.WF
      ∧ (RG200U_ReceiveByte s).1.count + 1 = s.count
      ∧ s.contents = s.buffer s.read_index :: (RG200U_ReceiveByte s).1.contents
      ∧ (RG200U_ReceiveByte s).1.write_index = s.write_index := by
  have hne : s.read_index ≠ s.write_index := fun e => hc ((count_eq_zero_iff s h).2 e)
  obtain ⟨hw, hr⟩ := h
  have hcnt : ({ s with read_index := (s.read_index + 1) % 256 } : Ring).count + 1 = s.count := by
    simp only [Ring.count] at hc ⊢; omega
  have hdef : RG200U_ReceiveByte s
      = ({ s with read_index := (s.read_index + 1) % 256 }, some (s.buffer s.read_index)) := by
    simp only [RG200U_ReceiveByte, RG200U_RX_BUFFER_SIZE, if_pos hne]
  rw [hdef]
  refine ⟨rfl, ⟨hw, Nat.mod_lt _ (by decide)⟩, hcnt, ?_, rfl⟩
  simp only [Ring.contents]
  rw [← hcnt, List.range_succ_eq_map, List.map_cons, List.map_map]
  congr 1
  · simp [hr, Nat.mod_eq_of_lt]
  apply List.map_congr_left
  intro k _
  simp only [Function.comp]
  congr 1
  omega

theorem pushAll_fits (bs : List Nat) : ∀ (s : Ring), s.WF → s.count + bs.length ≤ 255 →
    (pushAll modemRing s bs).WF
      ∧ (pushAll modemRing s bs).count = s.count + bs.length
      ∧ (pushAll modemRing s bs).contents = s.contents ++ bs
      ∧ (pushAll modemRing s bs).read_index = s.read_index := by
  induction bs with
  | nil => intro s h _; simp [pushAll, h]
  | cons b bs ih =>
    intro s h hlen
    simp only [List.length_cons] at hlen
    obtain ⟨h1, h2, h3, h4, _⟩ := push_accept s b h (by omega)
    obtain ⟨i1, i2, i3, i4⟩ := ih (RG200U_UART_RxCallback s b) h1 (by omega)
    have hstep : pushAll modemRing s (b :: bs) = pushAll modemRing (RG200U_UART_RxCallback s b) bs := rfl
    rw [hstep]
    refine ⟨i1, ?_, ?_, ?_⟩
    · rw [i2, h2, List.length_cons]; omega
    · rw [i3, h3]; simp
    · rw [i4, h4]

theorem pushAll_full (bs : List Nat) (s : Ring) (h : s.WF) (hc : s.count = 255) :
    pushAll modemRing s bs = s := by
  induction bs with
  | nil => rfl
  | cons b bs ih =>
    have hstep : pushAll modemRing s (b :: bs) = pushAll modemRing (RG200U_UART_RxCallback s b) bs := rfl
    rw [hstep, push_reject s b h hc, ih]

theorem pushAll_append (o : RingOps) (s : Ring) (xs ys : List Nat) :
    pushAll o s (xs ++ ys) = pushAll o (pushAll o s xs) ys := by
  simp [pushAll, List.foldl_append]

theorem popN_all (n : Nat) : ∀ (s : Ring) (m : Nat), s.WF → s.count = n →
    (popN modemRing (n + m) s).2 = s.contents.map some ++ List.replicate m none := by
  induction n with
  | zero =>
    intro s m h hc
    have hrw := (count_eq_zero_iff s h).1 hc
    have hnil : s.contents = [] := List.eq_nil_of_length_eq_zero (by rw [contents_length, hc])
    rw [hnil]
    simp only [Nat.zero_add, List.map_nil, List.nil_append]
    induction m with
    | zero => rfl
    | succ m ihm =>
      simp only [popN, modemRing, pop_empty s hrw, List.replicate_succ] at ihm ⊢
      rw [ihm]
  | succ n ih =>
    intro s m h hc
    obtain ⟨p1, p2, p3, p4, _⟩ := pop_nonempty s h (by omega)
    have hsucc : n + 1 + m = (n + m) + 1 := by omega
    rw [hsucc]
    simp only [popN, modemRing] at ih ⊢
    rw [p1, ih _ m p2 (by omega), p4]
    rfl

theorem empty_count (s : Ring) (hempty : s.read_index = s.write_index) (hidx : s.write_index < 256) :
    s.WF ∧ s.count = 0 ∧ s.contents = [] := by
  have hwf : s.WF := ⟨hidx, by rw [hempty]; exact hidx⟩
  have hc : s.count = 0 := (count_eq_zero_iff s hwf).2 hempty
  exact ⟨hwf, hc, List.eq_nil_of_length_eq_zero (by rw [contents_length, hc])⟩

theorem round_trip_modem (s : Ring) (bs : List Nat)
    (hempty : s.read_index = s.write_index) (hidx : s.write_index < 256)
    (hN : bs.length ≤ 255) :
    (popN modemRing (bs.length + 1) (pushAll modemRing s bs)).2 = bs.map some ++ [none] := by
  obtain ⟨hwf, hc, hnil⟩ := empty_count s hempty hidx
  obtain ⟨h1, h2, h3, _⟩ := pushAll_fits bs s hwf (by omega)
  have := popN_all bs.length (pushAll modemRing s bs) 1 h1 (by omega)
  rw [this, h3, hnil]
  rfl

/-- Invariant of a recorded run: the ring is well formed and the accepted bytes are the
popped bytes followed by the bytes still stored. -/
theorem step_invariant (st : RingRun) (op : RingOp) (hwf : st.ring.WF)
    (hinv : st.accepted = st.popped ++ st.ring.contents) :
    (st.step modemRing op).ring.WF
      ∧ (st.step modemRing op).accepted
          = (st.step modemRing op).popped ++ (st.step modemRing op).ring.contents := by
  cases op with
  | push b =>
    by_cases hc : st.ring.count = 255
    · have hrej := push_reject st.ring b hwf hc
      simp only [RingRun.step, modemRing, hrej]
      exact ⟨hwf, by simpa using hinv⟩
    · obtain ⟨h1, _, h3, _, h5⟩ := push_accept st.ring b hwf hc
      simp only [RingRun.step, modemRing]
      refine ⟨h1, ?_⟩
      rw [if_pos h5, h3, hinv, List.append_assoc]
  | pop =>
    by_cases hc : st.ring.count = 0
    · have hrw := (count_eq_zero_iff st.ring hwf).1 hc
      simp only [RingRun.step, modemRing, pop_empty st.ring hrw]
      exact ⟨hwf, hinv⟩
    · obtain ⟨p1, p2, _, p4, _⟩ := pop_nonempty st.ring hwf hc
      simp only [RingRun.step, modemRing]
      refine ⟨p2, ?_⟩
      rw [p1, hinv, p4]
      simp

theorem foldl_invariant (ops : List RingOp) : ∀ (st : RingRun), st.ring.WF →
    st.accepted = st.popped ++ st.ring.contents →
    (ops.foldl (RingRun.step modemRing) st).ring.WF
      ∧ (ops.foldl (RingRun.step modemRing) st).accepted
          = (ops.foldl (RingRun.step modemRing) st).popped
            ++ (ops.foldl (RingRun.step modemRing) st).ring.contents := by
  induction ops with
  | nil => intro st h1 h2; exact ⟨h1, h2⟩
  | cons op ops ih =>
    intro st h1 h2
    obtain ⟨g1, g2⟩ := step_invariant st op h1 h2
    exact ih _ g1 g2

theorem reachable_wf (s : Ring) (h : Reachable modemRing s) : s.WF := by
  induction h with
  | init => exact ⟨by decide, by decide⟩
  | push b _ ih =>
    rename_i s0 _
    by_cases hc : s0.count = 255
    · simp only [modemRing]; rw [push_reject s0 b ih hc]; exact ih
    · exact (push_accept s0 b ih hc).1
  | pop _ ih =>
    rename_i s0 _
    by_cases hc : s0.count = 0
    · simp only [modemRing]; rw [pop_empty s0 ((count_eq_zero_iff s0 ih).1 hc)]; exact ih
    · exact (pop_nonempty s0 ih hc).2.1
  | flush _ ih => exact ⟨ih.1, ih.1⟩

theorem pop_none_iff (s : Ring) :
    (RG200U_ReceiveByte s).2 = none ↔ s.read_index = s.write_index := by
  by_cases h : s.read_index = s.write_index
  · simp [RG200U_ReceiveByte, h]
  · simp [RG200U_ReceiveByte, h]

theorem push_unchanged_iff (s : Ring) (b : Nat) (h : s.WF) :
    RG200U_UART_RxCallback s b = s ↔ (s.write_index + 1) % 256 = s.read_index := by
  by_cases hc : s.count = 255
  · have hg : ¬ (s.write_index + 1) % 256 ≠ s.read_index := by
      rw [push_guard_iff s h]; simp [hc]
    exact ⟨fun _ => not_not.1 hg, fun _ => push_reject s b h hc⟩
  · have hg := (push_guard_iff s h).2 hc
    constructor
    · intro heq
      have := (push_accept s b h hc).2.2.2.2
      rw [heq] at this
      exact absurd rfl this
    · intro heq
      exact absurd heq hg

/-! ## Ring buffer: claims -/

/-- C1. Ring-buffer round trip, for the modem ring and for the RS-485 ring: from any empty
state (read_index = write_index, any position 0..255, any storage contents), pushing a byte
sequence of length N ≤ 255 with N calls of the RX callback and then calling ReceiveByte
N + 1 times yields exactly the pushed bytes in order (N successes) followed by one
"no data". -/
theorem ring_round_trip (s : Ring) (bs : List Nat)
    (hempty : s.read_index = s.write_index) (hidx : s.write_index < 256)
    (hN : bs.length ≤ 255) :
    (popN modemRing (bs.length + 1) (pushAll modemRing s bs)).2 = bs.map some ++ [none]
      ∧ (popN rs485Ring (bs.length + 1) (pushAll rs485Ring s bs)).2 = bs.map some ++ [none] :=
  ⟨round_trip_modem s bs hempty hidx hN, by
    rw [rs485Ring_eq]; exact round_trip_modem s bs hempty hidx hN⟩

theorem ring_round_trip_witness :
    ((⟨fun _ => 0, 254, 254⟩ : Ring).read_index = (⟨fun _ => 0, 254, 254⟩ : Ring).write_index
        ∧ (⟨fun _ => 0, 254, 254⟩ : Ring).write_index < 256
        ∧ ([65, 84, 13] : List Nat).length ≤ 255)
      ∧ (popN modemRing 4 (pushAll modemRing ⟨fun _ => 0, 254, 254⟩ [65, 84, 13])).2
        = [some 65, some 84, some 13, none]
      ∧ (popN rs485Ring 4 (pushAll rs485Ring ⟨fun _ => 0, 254, 254⟩ [65, 84, 13])).2
        = [some 65, some 84, some 13, none] :=
  ⟨⟨rfl, by decide, by decide⟩,
    ring_round_trip ⟨fun _ => 0, 254, 254⟩ [65, 84, 13] rfl (by decide) (by decide)⟩

theorem overflow_modem (s : Ring) (bs : List Nat)
    (hempty : s.read_index = s.write_index) (hidx : s.write_index < 256)
    (hM : 256 ≤ bs.length) :
    (∀ k, k ≤ 255 → (pushAll modemRing s (bs.take k)).contents = bs.take k)
      ∧ (∀ k, k < 255 → (pushAll modemRing s (bs.take (k + 1))).write_index
            ≠ (pushAll modemRing s (bs.take k)).write_index)
      ∧ (∀ k b, 255 ≤ k → modemRing.rxCallback (pushAll modemRing s (bs.take k)) b
            = pushAll modemRing s (bs.take k))
      ∧ (∀ k, 255 ≤ k → pushAll modemRing s (bs.take k) = pushAll modemRing s (bs.take 255))
      ∧ pushAll modemRing s bs = pushAll modemRing s (bs.take 255)
      ∧ (pushAll modemRing s bs).count = 255
      ∧ (popN modemRing 256 (pushAll modemRing s bs)).2 = (bs.take 255).map some ++ [none] := by
  obtain ⟨hwf, hc, hnil⟩ := empty_count s hempty hidx
  have hfit : ∀ k, k ≤ 255 → (pushAll modemRing s (bs.take k)).WF
      ∧ (pushAll modemRing s (bs.take k)).count = k
      ∧ (pushAll modemRing s (bs.take k)).contents = bs.take k := by
    intro k hk
    have hl : (bs.take k).length = k := by rw [List.length_take]; omega
    obtain ⟨h1, h2, h3, _⟩ := pushAll_fits (bs.take k) s hwf (by omega)
    exact ⟨h1, by omega, by rw [h3, hnil]; rfl⟩
  have hsat : ∀ k, 255 ≤ k → pushAll modemRing s (bs.take k) = pushAll modemRing s (bs.take 255) := by
    intro k hk
    have hsplit : bs.take k = bs.take 255 ++ (bs.drop 255).take (k - 255) := by
      have := List.take_add bs 255 (k - 255)
      rwa [show 255 + (k - 255) = k by omega] at this
    rw [hsplit, pushAll_append]
    exact pushAll_full _ _ (hfit 255 le_rfl).1 (hfit 255 le_rfl).2.1
  have hall : pushAll modemRing s bs = pushAll modemRing s (bs.take 255) := by
    have := hsat bs.length (by omega)
    rwa [List.take_length] at this
  refine ⟨fun k hk => (hfit k hk).2.2, ?_, ?_, hsat, hall, ?_, ?_⟩
  · intro k hk
    obtain ⟨g1, g2, _⟩ := hfit k (by omega)
    have hlt : k < bs.length := by omega
    have hsplit : bs.take (k + 1) = bs.take k ++ [bs[k]] := by
      rw [List.take_succ, List.getElem?_eq_getElem hlt]; rfl
    rw [hsplit, pushAll_append]
    exact (push_accept _ bs[k] g1 (by omega)).2.2.2.2
  · intro k b hk
    rw [hsat k hk]
    exact push_reject _ b (hfit 255 le_rfl).1 (hfit 255 le_rfl).2.1
  · rw [hall]; exact (hfit 255 le_rfl).2.1
  · rw [hall]
    obtain ⟨g1, g2, g3⟩ := hfit 255 le_rfl
    have := popN_all 255 _ 1 g1 g2
    rw [g3] at this
    exact this

/-- C2. Ring-buffer overflow, for the modem ring and for the RS-485 ring: from an empty ring,
M ≥ 256 pushes with no pops retain exactly 255 bytes. The first 255 pushes are accepted
(each advances the write index, and after k ≤ 255 pushes the stored bytes are the first k
pushed bytes); every later push is rejected and returns the very same state (storage array
and both indices unchanged); the following 255 pops return the first 255 pushed bytes in
order and the next pop reports no data. -/
theorem ring_overflow (s : Ring) (bs : List Nat)
    (hempty : s.read_index = s.write_index) (hidx : s.write_index < 256)
    (hM : 256 ≤ bs.length) :
    ∀ o, o ∈ [modemRing, rs485Ring] →
      (∀ k, k ≤ 255 → (pushAll o s (bs.take k)).contents = bs.take k)
      ∧ (∀ k, k < 255 → (pushAll o s (bs.take (k + 1))).write_index
            ≠ (pushAll o s (bs.take k)).write_index)
      ∧ (∀ k b, 255 ≤ k → o.rxCallback (pushAll o s (bs.take k)) b = pushAll o s (bs.take k))
      ∧ (∀ k, 255 ≤ k → pushAll o s (bs.take k) = pushAll o s (bs.take 255))
      ∧ pushAll o s bs = pushAll o s (bs.take 255)
      ∧ (pushAll o s bs).count = 255
      ∧ (popN o 256 (pushAll o s bs)).2 = (bs.take 255).map some ++ [none] := by
  intro o ho
  have ho2 : o = modemRing := by
    simp only [List.mem_cons, List.mem_singleton, rs485Ring_eq, or_self, List.mem_nil_iff,
      or_false] at ho
    exact ho
  rw [ho2]
  exact overflow_modem s bs hempty hidx hM

theorem ring_overflow_witness :
    (Ring.init.read_index = Ring.init.write_index ∧ Ring.init.write_index < 256
        ∧ 256 ≤ (List.range 300).length ∧ modemRing ∈ [modemRing, rs485Ring])
      ∧ (pushAll modemRing Ring.init (List.range 300)).count = 255
      ∧ (popN modemRing 256 (pushAll modemRing Ring.init (List.range 300))).2
          = ((List.range 300).take 255).map some ++ [none] :=
  ⟨⟨rfl, by decide, by simp, List.mem_cons_self _ _⟩,
    (ring_overflow Ring.init (List.range 300) rfl (by decide) (by simp) modemRing
      (List.mem_cons_self _ _)).2.2.2.2.2.1,
    (ring_overflow Ring.init (List.range 300) rfl (by decide) (by simp) modemRing
      (List.mem_cons_self _ _)).2.2.2.2.2.2⟩

/-- C3. No byte is read twice or skipped, for the modem ring and for the RS-485 ring: for every
finite interleaving of atomic push and pop steps applied to an initially empty ring, the
bytes returned by the successful pops are a prefix of the bytes of the accepted pushes, in
the same order; what is missing from the prefix is exactly what is still stored. -/
theorem ring_fifo_interleaving (s : Ring) (ops : List RingOp)
    (hempty : s.read_index = s.write_index) (hidx : s.write_index < 256) :
    ∀ o, o ∈ [modemRing, rs485Ring] →
      (runOps o s ops).popped <+: (runOps o s ops).accepted
      ∧ (runOps o s ops).accepted = (runOps o s ops).popped ++ (runOps o s ops).ring.contents := by
  intro o ho
  have ho2 : o = modemRing := by
    simp only [List.mem_cons, List.mem_singleton, rs485Ring_eq, or_self, List.mem_nil_iff,
      or_false] at ho
    exact ho
  rw [ho2]
  obtain ⟨hwf, _, hnil⟩ := empty_count s hempty hidx
  have h := (foldl_invariant ops ⟨s, [], []⟩ hwf (by simp [hnil])).2
  exact ⟨⟨_, h.symm⟩, h⟩

theorem ring_fifo_interleaving_witness :
    (Ring.init.read_index = Ring.init.write_index ∧ Ring.init.write_index < 256
        ∧ rs485Ring ∈ [modemRing, rs485Ring])
      ∧ (runOps rs485Ring Ring.init
            [RingOp.pop, RingOp.push 65, RingOp.push 84, RingOp.pop, RingOp.push 13, RingOp.pop,
              RingOp.pop, RingOp.pop, RingOp.push 10]).popped
          <+: (runOps rs485Ring Ring.init
            [RingOp.pop, RingOp.push 65, RingOp.push 84, RingOp.pop, RingOp.push 13, RingOp.pop,
              RingOp.pop, RingOp.pop, RingOp.push 10]).accepted :=
  ⟨⟨rfl, by decide, List.mem_cons_of_mem _ (List.mem_cons_self _ _)⟩,
    (ring_fifo_interleaving Ring.init
      [RingOp.pop, RingOp.push 65, RingOp.push 84, RingOp.pop, RingOp.push 13, RingOp.pop,
        RingOp.pop, RingOp.pop, RingOp.push 10] rfl (by decide) rs485Ring
      (List.mem_cons_of_mem _ (List.mem_cons_self _ _))).1⟩

/-- C4. Representation invariant, for the modem ring and for the RS-485 ring: in every state
reachable from the initial ring by push, pop and flush, both indices are in 0..255; a pop
reports no data iff read_index = write_index; a push is rejected (leaves the state as it
is) iff (write_index + 1) mod 256 = read_index; and the number of stored bytes equals
(write_index - read_index) mod 256 and is at most 255. -/
theorem ring_invariant (s : Ring) :
    ∀ o, o ∈ [modemRing, rs485Ring] → Reachable o s →
      s.write_index < 256 ∧ s.read_index < 256
      ∧ ((o.receiveByte s).2 = none ↔ s.read_index = s.write_index)
      ∧ (∀ b, o.rxCallback s b = s ↔ (s.write_index + 1) % 256 = s.read_index)
      ∧ (s.contents.length : Int) = ((s.write_index : Int) - (s.read_index : Int)) % 256
      ∧ s.contents.length ≤ 255 := by
  intro o ho hreach
  have ho2 : o = modemRing := by
    simp only [List.mem_cons, List.mem_singleton, rs485Ring_eq, or_self, List.mem_nil_iff,
      or_false] at ho
    exact ho
  subst ho2
  have hwf := reachable_wf s hreach
  refine ⟨hwf.1, hwf.2, pop_none_iff s, fun b => push_unchanged_iff s b hwf, ?_, ?_⟩
  · rw [contents_length]
    obtain ⟨hw, hr⟩ := hwf
    unfold Ring.count
    omega
  · rw [contents_length]
    have := count_lt s
    omega

theorem ring_invariant_witness :
    (modemRing ∈ [modemRing, rs485Ring]
        ∧ Reachable modemRing
            (modemRing.receiveByte (modemRing.rxCallback (modemRing.rxCallback Ring.init 79) 75)).1.flush)
      ∧ (modemRing.receiveByte (modemRing.rxCallback (modemRing.rxCallback Ring.init 79) 75)).1.flush.write_index
          < 256
      ∧ (modemRing.receiveByte (modemRing.rxCallback (modemRing.rxCallback Ring.init 79) 75)).1.flush.read_index
          < 256 :=
  ⟨⟨List.mem_cons_self _ _,
      Reachable.flush (Reachable.pop (Reachable.push 75 (Reachable.push 79 Reachable.init)))⟩,
    (ring_invariant _ modemRing (List.mem_cons_self _ _)
      (Reachable.flush (Reachable.pop (Reachable.push 75 (Reachable.push 79 Reachable.init))))).1,
    (ring_invariant _ modemRing (List.mem_cons_self _ _)
      (Reachable.flush (Reachable.pop (Reachable.push 75 (Reachable.push 79 Reachable.init))))).2.1⟩

/-! ## C strings: lemmas -/

theorem findSub_isSome_iff (needle : List Nat) :
    ∀ hay : List Nat, (findSub needle hay).isSome = true ↔ needle <:+: hay := by
  intro hay
  induction hay with
  | nil =>
    by_cases h : needle = []
    · simp [findSub, h]
    · simp [findSub, h]
  | cons c cs ih =>
    rw [List.infix_cons_iff, ← ih]
    by_cases hp : needle <+: c :: cs
    · have hb : needle.isPrefixOf (c :: cs) = true := List.isPrefixOf_iff_prefix.2 hp
      simp [findSub, hb, hp]
    · have hb : ¬ needle.isPrefixOf (c :: cs) = true := fun h => hp (List.isPrefixOf_iff_prefix.1 h)
      simp [findSub, hb, hp]

theorem findSub_eq_none_iff (needle hay : List Nat) :
    findSub needle hay = none ↔ ¬ needle <:+: hay := by
  rw [← findSub_isSome_iff]
  cases findSub needle hay <;> simp

theorem findSub_some_drop (needle : List Nat) :
    ∀ (hay : List Nat) (k : Nat), findSub needle hay = some k → needle <+: hay.drop k := by
  intro hay
  induction hay with
  | nil =>
    intro k h
    by_cases hn : needle = []
    · simp [hn]
    · simp [findSub, hn] at h
  | cons c cs ih =>
    intro k h
    by_cases hb : needle.isPrefixOf (c :: cs) = true
    · simp only [findSub, hb, if_true, Option.some.injEq] at h
      subst h
      exact List.isPrefixOf_iff_prefix.1 hb
    · simp only [findSub, hb, Bool.false_eq_true, if_false, Option.map_eq_some'] at h
      obtain ⟨j, hj, rfl⟩ := h
      exact ih j hj

theorem strstr_isSome_iff (buf needle : List Nat) :
    (strstr buf needle).isSome = true ↔ needle <:+: cstr buf := findSub_isSome_iff needle _

theorem cstr_eq_self (buf : List Nat) (h : 0 ∉ buf) : cstr buf = buf := by
  unfold cstr
  rw [List.takeWhile_eq_self_iff]
  intro x hx
  have : x ≠ 0 := fun e => h (e ▸ hx)
  simpa using this

theorem cstr_append_of_zero (buf tail : List Nat) (h : 0 ∈ buf) : cstr (buf ++ tail) = cstr buf := by
  unfold cstr
  induction buf with
  | nil => simp at h
  | cons c cs ih =>
    by_cases hc : c = 0
    · simp [List.takeWhile_cons, hc]
    · have hmem : 0 ∈ cs := by
        rcases List.mem_cons.1 h with h0 | h0
        · exact absurd h0.symm hc
        · exact h0
      have hc2 : decide (c ≠ 0) = true := by simpa using hc
      simp only [List.cons_append, List.takeWhile_cons, hc2]
      rw [ih hmem]

theorem cstr_concat_zero (buf : List Nat) : cstr (buf ++ [0]) = cstr buf := by
  unfold cstr
  induction buf with
  | nil => simp [List.takeWhile_cons]
  | cons c cs ih =>
    by_cases hc : c = 0
    · simp [List.takeWhile_cons, hc]
    · have hc2 : decide (c ≠ 0) = true := by simpa using hc
      simp only [List.cons_append, List.takeWhile_cons, hc2]
      rw [ih]

theorem cstr_no_zero (buf : List Nat) : 0 ∉ cstr buf := by
  unfold cstr
  intro h
  have := List.mem_takeWhile_imp h
  simp at this

theorem cstr_prefix (buf : List Nat) : cstr buf <+: buf := List.takeWhile_prefix _

/-- Appending one byte to the stored response can only make a literal appear at the very end
of the response, and only when no zero byte has been stored. -/
theorem strstr_concat_new (resp needle : List Nat) (data : Nat)
    (hold : strstr resp needle = none)
    (hnew : (strstr (resp ++ [data]) needle).isSome = true) :
    needle <:+ resp ++ [data] ∧ 0 ∉ resp ++ [data] := by
  have hold2 : ¬ needle <:+: cstr resp := (findSub_eq_none_iff _ _).1 hold
  have hnew2 : needle <:+: cstr (resp ++ [data]) := (strstr_isSome_iff _ _).1 hnew
  have hz : 0 ∉ resp := by
    intro hz
    rw [cstr_append_of_zero resp [data] hz] at hnew2
    exact hold2 hnew2
  have hd : data ≠ 0 := by
    intro hd
    rw [hd, cstr_concat_zero] at hnew2
    exact hold2 hnew2
  have hz2 : 0 ∉ resp ++ [data] := by
    intro h
    rcases List.mem_append.1 h with h | h
    · exact hz h
    · exact hd (List.mem_singleton.1 h).symm
  rw [cstr_eq_self _ hz] at hold2
  rw [cstr_eq_self _ hz2] at hnew2
  rcases List.infix_concat_iff.1 hnew2 with h | h
  · exact ⟨h, hz2⟩
  · exact absurd h hold2

/-! ## Time and the AT engine: lemmas -/

theorem tickDiff_elapsed (t0 e : Nat) (h : e < 2 ^ 32) :
    tickDiff ((t0 + e) % 2 ^ 32) (t0 % 2 ^ 32) = e := by
  unfold tickDiff
  norm_num at h ⊢
  omega

theorem elapse_tick (ms : Nat) : ∀ w : World, (elapse ms w).tick = w.tick + ms := by
  induction ms with
  | zero => intro w; rfl
  | succ n ih =>
    intro w
    simp only [elapse, ih, millisecond]
    omega

theorem elapse_tcp_state (ms : Nat) : ∀ w : World, (elapse ms w).tcp_state = w.tcp_state := by
  induction ms with
  | zero => intro w; rfl
  | succ n ih => intro w; simp only [elapse, ih, millisecond]

theorem elapse_trace (ms : Nat) : ∀ w : World, (elapse ms w).trace = w.trace := by
  induction ms with
  | zero => intro w; rfl
  | succ n ih => intro w; simp only [elapse, ih, millisecond]

theorem HAL_Delay_tick (w : World) (ms : Nat) : (HAL_Delay w ms).tick = w.tick + ms := by
  simp only [HAL_Delay, elapse_tick]

theorem HAL_Delay_trace (w : World) (ms : Nat) :
    (HAL_Delay w ms).trace = Event.delay ms :: w.trace := by
  simp only [HAL_Delay, elapse_trace]

theorem receiveByte_tick (w : World) : w.receiveByte.1.tick = w.tick := rfl

/-- What one AT exchange guarantees, in terms of the response it hands back. -/
theorem atLoop_spec (t0 timeout : Nat) (htimeout : timeout < 2 ^ 32) :
    ∀ (fuel : Nat) (w : World) (resp : List Nat),
      t0 ≤ w.tick → (w.tick - t0) + fuel = timeout →
      strstr resp (bytes "OK\r\n") = none → strstr resp (bytes "ERROR\r\n") = none →
      ((atLoop fuel w (t0 % 2 ^ 32) timeout resp).ret = 1
          ∧ (bytes "OK\r\n" <:+ (atLoop fuel w (t0 % 2 ^ 32) timeout resp).response
              ∨ bytes "ERROR\r\n" <:+ (atLoop fuel w (t0 % 2 ^ 32) timeout resp).response)
          ∧ 0 ∉ (atLoop fuel w (t0 % 2 ^ 32) timeout resp).response
          ∧ (atLoop fuel w (t0 % 2 ^ 32) timeout resp).world.tick < t0 + timeout)
        ∨ ((atLoop fuel w (t0 % 2 ^ 32) timeout resp).ret = 0
          ∧ strstr (atLoop fuel w (t0 % 2 ^ 32) timeout resp).response (bytes "OK\r\n") = none
          ∧ strstr (atLoop fuel w (t0 % 2 ^ 32) timeout resp).response (bytes "ERROR\r\n") = none
          ∧ (atLoop fuel w (t0 % 2 ^ 32) timeout resp).world.tick = t0 + timeout) := by
  intro fuel
  induction fuel with
  | zero =>
    intro w resp h0 he h1 h2
    right
    rw [atLoop]
    exact ⟨rfl, h1, h2, by show w.tick = t0 + timeout; omega⟩
  | succ fuel ih =>
    intro w resp h0 he h1 h2
    have hcond : tickDiff (HAL_GetTick w) (t0 % 2 ^ 32) < timeout := by
      have hw : w.tick = t0 + (w.tick - t0) := by omega
      unfold HAL_GetTick
      rw [hw, tickDiff_elapsed t0 _ (by omega)]
      omega
    have hnext : ∀ resp2, strstr resp2 (bytes "OK\r\n") = none →
        strstr resp2 (bytes "ERROR\r\n") = none → _ :=
      fun resp2 g1 g2 => ih (HAL_Delay w.receiveByte.1 1) resp2
        (by rw [HAL_Delay_tick, receiveByte_tick]; omega)
        (by rw [HAL_Delay_tick, receiveByte_tick]; omega) g1 g2
    rw [atLoop, if_pos hcond]
    rcases hrb : w.receiveByte.2 with _ | data
    · have hpair : w.receiveByte = (w.receiveByte.1, none) := by rw [← hrb]
      rw [hpair]
      exact hnext resp h1 h2
    · have hpair : w.receiveByte = (w.receiveByte.1, some data) := by rw [← hrb]
      rw [hpair]
      simp only []
      by_cases hlen : resp.length < AT_RESPONSE_BUF_SIZE - 1
      · rw [if_pos hlen]
        by_cases hterm : ((strstr (resp ++ [data]) (bytes "OK\r\n")).isSome
              || (strstr (resp ++ [data]) (bytes "ERROR\r\n")).isSome) = true
        · rw [if_pos hterm]
          left
          rw [Bool.or_eq_true] at hterm
          refine ⟨rfl, ?_, ?_, ?_⟩
          · rcases hterm with h | h
            · exact Or.inl (strstr_concat_new resp _ data h1 h).1
            · exact Or.inr (strstr_concat_new resp _ data h2 h).1
          · rcases hterm with h | h
            · exact (strstr_concat_new resp _ data h1 h).2
            · exact (strstr_concat_new resp _ data h2 h).2
          · show w.receiveByte.1.tick < t0 + timeout
            rw [receiveByte_tick]; omega
        · rw [if_neg hterm]
          rw [Bool.or_eq_true, not_or] at hterm
          have g1 : strstr (resp ++ [data]) (bytes "OK\r\n") = none := by
            cases hs : strstr (resp ++ [data]) (bytes "OK\r\n") with
            | none => rfl
            | some k => exact absurd (by rw [hs]; rfl) hterm.1
          have g2 : strstr (resp ++ [data]) (bytes "ERROR\r\n") = none := by
            cases hs : strstr (resp ++ [data]) (bytes "ERROR\r\n") with
            | none => rfl
            | some k => exact absurd (by rw [hs]; rfl) hterm.2
          exact hnext _ g1 g2
      · rw [if_neg hlen]
        exact hnext resp h1 h2

theorem textHasTerminator_iff (resp : List Nat) :
    textHasTerminator resp ↔
      ((strstr resp (bytes "OK\r\n")).isSome || (strstr resp (bytes "ERROR\r\n")).isSome) = true := by
  unfold textHasTerminator
  rw [Bool.or_eq_true, strstr_isSome_iff, strstr_isSome_iff]

theorem not_textHasTerminator (resp : List Nat)
    (h1 : strstr resp (bytes "OK\r\n") = none) (h2 : strstr resp (bytes "ERROR\r\n") = none) :
    ¬ textHasTerminator resp := by
  rw [textHasTerminator_iff, h1, h2]
  simp

/-- The loop never stops for lack of fuel: fuel beyond the remaining time changes nothing. -/
theorem atLoop_fuel (t0 timeout : Nat) (htimeout : timeout < 2 ^ 32) (extra : Nat) :
    ∀ (fuel : Nat) (w : World) (resp : List Nat),
      t0 ≤ w.tick → (w.tick - t0) + fuel = timeout →
      atLoop (fuel + extra) w (t0 % 2 ^ 32) timeout resp
        = atLoop fuel w (t0 % 2 ^ 32) timeout resp := by
  intro fuel
  induction fuel with
  | zero =>
    intro w resp h0 he
    cases extra with
    | zero => rfl
    | succ k =>
      have hcond : ¬ tickDiff (HAL_GetTick w) (t0 % 2 ^ 32) < timeout := by
        have hw : w.tick = t0 + (w.tick - t0) := by omega
        unfold HAL_GetTick
        rw [hw, tickDiff_elapsed t0 _ (by omega)]
        omega
      simp only [Nat.zero_add, atLoop, if_neg hcond]
  | succ fuel ih =>
    intro w resp h0 he
    have hnext : ∀ resp2, _ :=
      fun resp2 => ih (HAL_Delay w.receiveByte.1 1) resp2
        (by rw [HAL_Delay_tick, receiveByte_tick]; omega)
        (by rw [HAL_Delay_tick, receiveByte_tick]; omega)
    rw [show fuel + 1 + extra = (fuel + extra) + 1 by omega]
    rcases hrb : w.receiveByte.2 with _ | data
    · have hpair : w.receiveByte = (w.receiveByte.1, none) := by rw [← hrb]
      simp only [atLoop]
      rw [hpair]
      simp only [hnext]
    · have hpair : w.receiveByte = (w.receiveByte.1, some data) := by rw [← hrb]
      simp only [atLoop]
      rw [hpair]
      simp only [hnext]

/-- The exchange succeeds exactly when some poll within the time budget leaves a response whose
text holds a terminator. -/
theorem atLoop_iff_poll (t0 timeout : Nat) (htimeout : timeout < 2 ^ 32) :
    ∀ (fuel : Nat) (w : World) (resp : List Nat),
      t0 ≤ w.tick → (w.tick - t0) + fuel = timeout → ¬ textHasTerminator resp →
      ((atLoop fuel w (t0 % 2 ^ 32) timeout resp).ret = 1 ↔
        ∃ k, 1 ≤ k ∧ k ≤ fuel ∧ textHasTerminator (pollStep^[k] (w, resp)).2) := by
  intro fuel
  induction fuel with
  | zero =>
    intro w resp _ _ _
    simp only [atLoop]
    constructor
    · intro h; exact absurd h (by decide)
    · rintro ⟨k, h1, h2, _⟩; omega
  | succ fuel ih =>
    intro w resp h0 he hres
    have hcond : tickDiff (HAL_GetTick w) (t0 % 2 ^ 32) < timeout := by
      have hw : w.tick = t0 + (w.tick - t0) := by omega
      unfold HAL_GetTick
      rw [hw, tickDiff_elapsed t0 _ (by omega)]
      omega
    have hnext : ∀ resp2, _ :=
      fun resp2 => ih (HAL_Delay w.receiveByte.1 1) resp2
        (by rw [HAL_Delay_tick, receiveByte_tick]; omega)
        (by rw [HAL_Delay_tick, receiveByte_tick]; omega)
    -- the continuation: `atLoop` goes on from `pollStep (w, resp)` when that holds no terminator
    have hshift : ∀ (q : World × List Nat), pollStep (w, resp) = q → ¬ textHasTerminator q.2 →
        ((∃ k, 1 ≤ k ∧ k ≤ fuel ∧ textHasTerminator (pollStep^[k] q).2) ↔
          ∃ k, 1 ≤ k ∧ k ≤ fuel + 1 ∧ textHasTerminator (pollStep^[k] (w, resp)).2) := by
      intro q hq hno
      constructor
      · rintro ⟨k, h1, h2, h3⟩
        refine ⟨k + 1, by omega, by omega, ?_⟩
        rw [Function.iterate_succ_apply, hq]
        exact h3
      · rintro ⟨k, h1, h2, h3⟩
        obtain ⟨j, rfl⟩ : ∃ j, k = j + 1 := ⟨k - 1, by omega⟩
        rw [Function.iterate_succ_apply, hq] at h3
        cases j with
        | zero => exact absurd h3 hno
        | succ j => exact ⟨j + 1, by omega, by omega, h3⟩
    rw [atLoop, if_pos hcond]
    rcases hrb : w.receiveByte.2 with _ | data
    · have hpair : w.receiveByte = (w.receiveByte.1, none) := by rw [← hrb]
      have hq : pollStep (w, resp) = (HAL_Delay w.receiveByte.1 1, resp) := by
        simp only [pollStep, hrb]
      rw [hpair]
      simp only []
      rw [hnext resp hres, hshift _ hq hres]
    · have hpair : w.receiveByte = (w.receiveByte.1, some data) := by rw [← hrb]
      rw [hpair]
      simp only []
      by_cases hlen : resp.length < AT_RESPONSE_BUF_SIZE - 1
      · have hq : pollStep (w, resp) = (HAL_Delay w.receiveByte.1 1, resp ++ [data]) := by
          simp only [pollStep, hrb, if_pos hlen]
        rw [if_pos hlen]
        by_cases hterm : ((strstr (resp ++ [data]) (bytes "OK\r\n")).isSome
              || (strstr (resp ++ [data]) (bytes "ERROR\r\n")).isSome) = true
        · rw [if_pos hterm]
          constructor
          · intro _
            refine ⟨1, le_rfl, by omega, ?_⟩
            rw [Function.iterate_one, hq]
            exact (textHasTerminator_iff _).2 hterm
          · intro _; rfl
        · rw [if_neg hterm]
          have hno : ¬ textHasTerminator (resp ++ [data]) := fun h =>
            hterm ((textHasTerminator_iff _).1 h)
          rw [hnext _ hno, hshift _ hq hno]
      · have hq : pollStep (w, resp) = (HAL_Delay w.receiveByte.1 1, resp) := by
          simp only [pollStep, hrb, if_neg hlen]
        rw [if_neg hlen, hnext resp hres, hshift _ hq hres]

theorem sendATCommand_spec (w : World) (cmd : List Nat) (timeout : Nat)
    (htimeout : timeout < 2 ^ 32) :
    ((RG200U_SendATCommand w cmd timeout).ret = 1
        ∧ (bytes "OK\r\n" <:+ (RG200U_SendATCommand w cmd timeout).response
            ∨ bytes "ERROR\r\n" <:+ (RG200U_SendATCommand w cmd timeout).response)
        ∧ 0 ∉ (RG200U_SendATCommand w cmd timeout).response
        ∧ (RG200U_SendATCommand w cmd timeout).world.tick < w.tick + timeout)
      ∨ ((RG200U_SendATCommand w cmd timeout).ret = 0
        ∧ strstr (RG200U_SendATCommand w cmd timeout).response (bytes "OK\r\n") = none
        ∧ strstr (RG200U_SendATCommand w cmd timeout).response (bytes "ERROR\r\n") = none
        ∧ (RG200U_SendATCommand w cmd timeout).world.tick = w.tick + timeout) := by
  have h := atLoop_spec w.tick timeout htimeout timeout
    (HAL_UART_Transmit { w with rx := w.rx.flush } (cstr cmd)) []
    (le_refl _) (by show w.tick - w.tick + timeout = timeout; omega) (by decide) (by decide)
  exact h

theorem sendATCommand_ret (w : World) (cmd : List Nat) (timeout : Nat)
    (htimeout : timeout < 2 ^ 32) :
    (RG200U_SendATCommand w cmd timeout).ret = 1 ∨ (RG200U_SendATCommand w cmd timeout).ret = 0 := by
  rcases sendATCommand_spec w cmd timeout htimeout with h | h
  · exact Or.inl h.1
  · exact Or.inr h.1

theorem cstr_prefix_append (buf tail : List Nat) : cstr buf <+: cstr (buf ++ tail) := by
  by_cases hz : 0 ∈ buf
  · rw [cstr_append_of_zero buf tail hz]
  · unfold cstr
    rw [List.takeWhile_append_of_pos, List.takeWhile_eq_self_iff.2]
    · exact List.prefix_append _ _
    · intro x hx
      have : x ≠ 0 := fun e => hz (e ▸ hx)
      simpa using this
    · intro x hx
      have : x ≠ 0 := fun e => hz (e ▸ hx)
      simpa using this

theorem infix_cstr_append (needle buf tail : List Nat) (h : needle <:+: cstr buf) :
    needle <:+: cstr (buf ++ tail) :=
  List.IsInfix.trans h (cstr_prefix_append buf tail).isInfix

/-- What one wait for a notification guarantees: on success the expected text is in the
response and the time budget was not used up. -/
theorem waitLoop_spec (t0 timeout_ms max_len : Nat) (expected : List Nat)
    (htimeout : timeout_ms < 2 ^ 32) :
    ∀ (fuel : Nat) (w : World) (resp : List Nat) (found : Bool) (last : Nat),
      t0 ≤ w.tick → (w.tick - t0) + fuel = timeout_ms →
      (found = true → expected <:+: cstr resp) →
      ((waitLoop fuel w expected max_len timeout_ms (t0 % 2 ^ 32) resp found last).ret = 1
          ∧ expected <:+:
              cstr (waitLoop fuel w expected max_len timeout_ms (t0 % 2 ^ 32) resp found last).response
          ∧ (waitLoop fuel w expected max_len timeout_ms (t0 % 2 ^ 32) resp found last).world.tick
              < t0 + timeout_ms)
        ∨ ((waitLoop fuel w expected max_len timeout_ms (t0 % 2 ^ 32) resp found last).ret = 0
          ∧ (waitLoop fuel w expected max_len timeout_ms (t0 % 2 ^ 32) resp found last).world.tick
              = t0 + timeout_ms) := by
  intro fuel
  induction fuel with
  | zero =>
    intro w resp found last h0 he _
    right
    simp only [waitLoop]
    exact ⟨trivial, by omega⟩
  | succ fuel ih =>
    intro w resp found last h0 he hf
    have hcond : tickDiff (HAL_GetTick w) (t0 % 2 ^ 32) < timeout_ms := by
      have hw : w.tick = t0 + (w.tick - t0) := by omega
      unfold HAL_GetTick
      rw [hw, tickDiff_elapsed t0 _ (by omega)]
      omega
    have hnext : ∀ resp2 found2 last2, (found2 = true → expected <:+: cstr resp2) → _ :=
      fun resp2 found2 last2 g => ih (HAL_Delay w.receiveByte.1 1) resp2 found2 last2
        (by rw [HAL_Delay_tick, receiveByte_tick]; omega)
        (by rw [HAL_Delay_tick, receiveByte_tick]; omega) g
    rw [waitLoop, if_pos hcond]
    simp only []
    -- the three values carried on by this iteration
    generalize hst : (match w.receiveByte.2 with
        | some data =>
          if resp.length + 1 < max_len then
            (resp ++ [data], found || (strstr (resp ++ [data]) expected).isSome,
              HAL_GetTick w.receiveByte.1)
          else (resp, found, last)
        | none => (resp, found, last)) = st
    have hinv : st.2.1 = true → expected <:+: cstr st.1 := by
      rcases hrb : w.receiveByte.2 with _ | data
      · rw [hrb] at hst; subst hst; exact hf
      · rw [hrb] at hst
        by_cases hlen : resp.length + 1 < max_len
        · simp only [if_pos hlen] at hst
          subst hst
          intro hfound
          simp only [Bool.or_eq_true] at hfound
          rcases hfound with h | h
          · exact infix_cstr_append _ _ _ (hf h)
          · exact (strstr_isSome_iff _ _).1 h
        · simp only [if_neg hlen] at hst
          subst hst; exact hf
    by_cases hdone : (st.2.1 && decide (tickDiff (HAL_GetTick w.receiveByte.1) st.2.2 > 100)) = true
    · rw [if_pos hdone]
      left
      rw [Bool.and_eq_true] at hdone
      refine ⟨rfl, hinv hdone.1, ?_⟩
      show w.receiveByte.1.tick < t0 + timeout_ms
      rw [receiveByte_tick]; omega
    · rw [if_neg hdone]
      exact hnext _ _ _ hinv

theorem waitForResponse_spec (w : World) (expected : List Nat) (max_len timeout_ms : Nat)
    (htimeout : timeout_ms < 2 ^ 32) :
    ((RG200U_WaitForResponse w expected max_len timeout_ms).ret = 1
        ∧ cstr expected <:+: cstr (RG200U_WaitForResponse w expected max_len timeout_ms).response
        ∧ (RG200U_WaitForResponse w expected max_len timeout_ms).world.tick < w.tick + timeout_ms)
      ∨ ((RG200U_WaitForResponse w expected max_len timeout_ms).ret = 0
        ∧ (RG200U_WaitForResponse w expected max_len timeout_ms).world.tick = w.tick + timeout_ms) := by
  have h := waitLoop_spec w.tick timeout_ms max_len (cstr expected) htimeout timeout_ms w []
    false 0 (le_refl _) (by omega) (by intro h; exact absurd h (by decide))
  exact h

/-! ## A silent modem: lemmas -/

theorem receiveByte_empty (w : World) (h : w.rx.read_index = w.rx.write_index) :
    w.receiveByte = (w, none) := by
  unfold World.receiveByte
  rw [pop_empty w.rx h]

theorem millisecond_silent (w : World) (h : w.modem.headD [] = []) :
    millisecond w = { w with tick := w.tick + 1, modem := w.modem.tail } := by
  unfold millisecond
  rw [h]
  rfl

/-- With an empty ring and a modem that stays silent for the rest of the time budget, the
response loop of `RG200U_SendATCommand` polls once per millisecond until the budget is used
up and returns 0 with the response as it was. -/
theorem atLoop_silent (t0 timeout : Nat) (htimeout : timeout < 2 ^ 32) :
    ∀ (n : Nat) (w : World) (resp : List Nat),
      t0 ≤ w.tick → (w.tick - t0) + n = timeout →
      w.rx.read_index = w.rx.write_index → (∀ x ∈ w.modem.take n, x = []) →
      atLoop n w (t0 % 2 ^ 32) timeout resp
        = { world := { w with
                        tick := w.tick + n
                        modem := w.modem.drop n
                        trace := List.replicate n (Event.delay 1) ++ w.trace }
            ret := 0
            response := resp } := by
  intro n
  induction n with
  | zero =>
    intro w resp _ _ _ _
    rfl
  | succ n ih =>
    intro w resp h0 he hring hquiet
    have hcond : tickDiff (HAL_GetTick w) (t0 % 2 ^ 32) < timeout := by
      have hw : w.tick = t0 + (w.tick - t0) := by omega
      unfold HAL_GetTick
      rw [hw, tickDiff_elapsed t0 _ (by omega)]
      omega
    have hhead : w.modem.headD [] = [] := by
      cases hm : w.modem with
      | nil => rfl
      | cons x xs =>
        apply hquiet
        rw [hm]
        simp
    have hdelay : HAL_Delay w 1
        = { w with tick := w.tick + 1, modem := w.modem.tail,
                   trace := Event.delay 1 :: w.trace } := by
      unfold HAL_Delay
      simp only [elapse, millisecond_silent w hhead]
    have hquiet2 : ∀ x ∈ (HAL_Delay w 1).modem.take n, x = [] := by
      intro x hx
      rw [hdelay] at hx
      apply hquiet
      cases hm : w.modem with
      | nil => rw [hm] at hx; simp at hx
      | cons y ys =>
        rw [hm] at hx
        simp only [List.tail_cons] at hx
        rw [List.take_succ_cons]
        exact List.mem_cons_of_mem _ hx
    have hstep := ih (HAL_Delay w 1) resp
      (by rw [HAL_Delay_tick]; omega) (by rw [HAL_Delay_tick]; omega)
      (by rw [hdelay]; exact hring) hquiet2
    rw [atLoop, if_pos hcond, receiveByte_empty w hring]
    simp only []
    rw [hstep, hdelay]
    simp only [ATResult.mk.injEq, World.mk.injEq, and_true, true_and]
    refine ⟨by omega, ?_, ?_⟩
    · cases w.modem with
      | nil => simp
      | cons y ys => simp
    · rw [List.replicate_succ', List.append_assoc]
      rfl

/-- An AT exchange with a modem that stays silent for the whole timeout: the command is sent,
`timeout` polls find nothing, and the call returns 0 with an empty response exactly
`timeout` ms after it started. -/
theorem sendATCommand_silent (w : World) (cmd : List Nat) (timeout : Nat)
    (htimeout : timeout < 2 ^ 32) (hquiet : ∀ x ∈ w.modem.take timeout, x = []) :
    RG200U_SendATCommand w cmd timeout
      = { world := { tick := w.tick + timeout
                     rx := w.rx.flush
                     tcp_state := w.tcp_state
                     modem := w.modem.drop timeout
                     trace := List.replicate timeout (Event.delay 1)
                                ++ Event.uart5 (cstr cmd) :: w.trace }
          ret := 0
          response := [] } := by
  unfold RG200U_SendATCommand
  exact atLoop_silent w.tick timeout htimeout timeout
    (HAL_UART_Transmit { w with rx := w.rx.flush } (cstr cmd)) []
    (le_refl _) (by show w.tick - w.tick + timeout = timeout; omega) rfl hquiet


/-! ## AT engine: claims -/

/-- C5, as amended. For a `uint16_t` timeout, `RG200U_SendATCommand` returns 1 if and only if
one of its polls within the timeout (poll k takes place k - 1 ms after the call, 1 ≤ k ≤
timeout) leaves an accumulated response that, read as a zero-terminated string (that is, up to
the first zero byte received), contains "OK\r\n" or "ERROR\r\n". When it returns 1 the
response holds no zero byte, has that terminator as its final bytes, and less than `timeout`
ms have passed; otherwise it returns 0 after exactly `timeout` ms with a response whose text
holds no terminator. A modem replying "AT\r\nOK\r\n" to "AT\r\n" yields 1 with the response
"AT\r\nOK\r\n". -/
theorem sendATCommand_returns (w : World) (cmd : List Nat) (timeout : Nat)
    (htimeout : timeout < 65536) :
    ((RG200U_SendATCommand w cmd timeout).ret = 1 ↔
        ∃ k, 1 ≤ k ∧ k ≤ timeout ∧ textHasTerminator (accumulated w cmd k))
      ∧ ((RG200U_SendATCommand w cmd timeout).ret = 1 →
          (bytes "OK\r\n" <:+ (RG200U_SendATCommand w cmd timeout).response
            ∨ bytes "ERROR\r\n" <:+ (RG200U_SendATCommand w cmd timeout).response)
          ∧ 0 ∉ (RG200U_SendATCommand w cmd timeout).response
          ∧ (RG200U_SendATCommand w cmd timeout).world.tick < w.tick + timeout)
      ∧ ((RG200U_SendATCommand w cmd timeout).ret ≠ 1 →
          (RG200U_SendATCommand w cmd timeout).ret = 0
          ∧ ¬ textHasTerminator (RG200U_SendATCommand w cmd timeout).response
          ∧ (RG200U_SendATCommand w cmd timeout).world.tick = w.tick + timeout)
      ∧ (RG200U_SendATCommand atStub (bytes "AT\r\n") 2000).ret = 1
      ∧ (RG200U_SendATCommand atStub (bytes "AT\r\n") 2000).response = bytes "AT\r\nOK\r\n"
      ∧ bytes "OK\r\n" <:+: (RG200U_SendATCommand atStub (bytes "AT\r\n") 2000).response := by
  have h32 : timeout < 2 ^ 32 := by norm_num; omega
  refine ⟨?_, ?_, ?_, by decide, by decide, by decide⟩
  · exact atLoop_iff_poll w.tick timeout h32 timeout
      (HAL_UART_Transmit { w with rx := w.rx.flush } (cstr cmd)) []
      (le_refl _) (by show w.tick - w.tick + timeout = timeout; omega) (by decide)
  · intro h1
    rcases sendATCommand_spec w cmd timeout h32 with h | h
    · exact h.2
    · rw [h.1] at h1; exact absurd h1 (by decide)
  · intro h1
    rcases sendATCommand_spec w cmd timeout h32 with h | h
    · exact absurd h.1 h1
    · exact ⟨h.1, not_textHasTerminator _ h.2.1 h.2.2.1, h.2.2.2⟩

theorem sendATCommand_returns_witness :
    (2000 : Nat) < 65536
      ∧ ((RG200U_SendATCommand atStub (bytes "AT\r\n") 2000).ret = 1 ↔
        ∃ k, 1 ≤ k ∧ k ≤ 2000 ∧ textHasTerminator (accumulated atStub (bytes "AT\r\n") k))
      ∧ (bytes "OK\r\n" <:+ (RG200U_SendATCommand atStub (bytes "AT\r\n") 2000).response
          ∨ bytes "ERROR\r\n" <:+ (RG200U_SendATCommand atStub (bytes "AT\r\n") 2000).response)
      ∧ 0 ∉ (RG200U_SendATCommand atStub (bytes "AT\r\n") 2000).response
      ∧ (RG200U_SendATCommand atStub (bytes "AT\r\n") 2000).world.tick < atStub.tick + 2000 :=
  ⟨by decide, (sendATCommand_returns atStub (bytes "AT\r\n") 2000 (by decide)).1,
    (sendATCommand_returns atStub (bytes "AT\r\n") 2000 (by decide)).2.1 (by decide)⟩

/-- C5 as stated fails: the modem sends a zero byte and then "OK\r\n". After six polls the
bytes accumulated in the response are 0, 'O', 'K', CR, LF, which contain "OK\r\n", yet the
call runs into its timeout and returns 0. -/
theorem sendATCommand_raw_bytes_counterexample :
    ¬ ((RG200U_SendATCommand nulStub (bytes "AT\r\n") 20).ret = 1 ↔
        ∃ k, 1 ≤ k ∧ k ≤ 20 ∧ bytesHaveTerminator (accumulated nulStub (bytes "AT\r\n") k)) := by
  intro h
  have h1 : (RG200U_SendATCommand nulStub (bytes "AT\r\n") 20).ret = 1 :=
    h.2 ⟨6, by decide, by decide, by decide⟩
  exact absurd h1 (by decide)

/-! ## Decimal text: lemmas -/

theorem digitsFuel_isdigit : ∀ (fuel n : Nat), ∀ c ∈ digitsFuel fuel n, isdigit c = true := by
  intro fuel
  induction fuel with
  | zero => intro n c h; simp [digitsFuel] at h
  | succ f ih =>
    intro n c h
    unfold digitsFuel at h
    by_cases hn : n < 10
    · rw [if_pos hn] at h
      have hc : c = 48 + n := List.mem_singleton.1 h
      subst hc
      simp only [isdigit, Bool.and_eq_true, decide_eq_true_eq]
      omega
    · rw [if_neg hn] at h
      rcases List.mem_append.1 h with h1 | h1
      · exact ih _ c h1
      · have hc : c = 48 + n % 10 := List.mem_singleton.1 h1
        subst hc
        simp only [isdigit, Bool.and_eq_true, decide_eq_true_eq]
        omega

theorem digitsFuel_head : ∀ (fuel n : Nat), n < fuel → 0 < n →
    ∃ d ds, digitsFuel fuel n = d :: ds ∧ 49 ≤ d ∧ d ≤ 57 := by
  intro fuel
  induction fuel with
  | zero => intro n h; omega
  | succ f ih =>
    intro n hlt hpos
    unfold digitsFuel
    by_cases hn : n < 10
    · rw [if_pos hn]
      exact ⟨48 + n, [], rfl, by omega, by omega⟩
    · rw [if_neg hn]
      obtain ⟨d, ds, hd, h1, h2⟩ := ih (n / 10) (by omega) (by omega)
      rw [hd]
      exact ⟨d, ds ++ [48 + n % 10], rfl, h1, h2⟩

theorem digitsFuel_length : ∀ (fuel n k : Nat), n < 10 ^ k → (digitsFuel fuel n).length ≤ max k 1 := by
  intro fuel
  induction fuel with
  | zero => intro n k _; simp [digitsFuel]
  | succ f ih =>
    intro n k hk
    unfold digitsFuel
    by_cases hn : n < 10
    · rw [if_pos hn]; simp
    · rw [if_neg hn]
      cases k with
      | zero => simp at hk; omega
      | succ k =>
        have hdiv : n / 10 < 10 ^ k := by
          rw [Nat.div_lt_iff_lt_mul (by decide)]
          rw [pow_succ] at hk
          exact hk
        have := ih (n / 10) k hdiv
        rw [List.length_append, List.length_singleton]
        have hk1 : 1 ≤ k := by
          rcases Nat.eq_zero_or_pos k with h0 | h0
          · subst h0; simp at hdiv; omega
          · exact h0
        rw [max_eq_left hk1] at this
        rw [max_eq_left (by omega)]
        omega

theorem scanDigits_nondigit (acc : Nat) (c : Nat) (cs : List Nat) (h : isdigit c = false) :
    scanDigits acc (c :: cs) = (acc, c :: cs) := by
  simp [scanDigits, h]

/-- Reading back what was printed: the digits of `n` followed by a non-digit scan to `n`. -/
theorem scanDigits_digitsFuel : ∀ (fuel n : Nat) (acc : Nat) (rest : List Nat), n < fuel →
    ∃ k, scanDigits acc (digitsFuel fuel n ++ rest) = scanDigits (acc * 10 ^ k + n) rest := by
  intro fuel
  induction fuel with
  | zero => intro n acc rest h; omega
  | succ f ih =>
    intro n acc rest hlt
    unfold digitsFuel
    by_cases hn : n < 10
    · rw [if_pos hn]
      refine ⟨1, ?_⟩
      have hd : isdigit (48 + n) = true := by
        simp only [isdigit, Bool.and_eq_true, decide_eq_true_eq]; omega
      simp only [List.singleton_append, scanDigits, hd, if_true, pow_one]
      congr 1
      omega
    · rw [if_neg hn]
      obtain ⟨k, hk⟩ := ih (n / 10) acc ((48 + n % 10) :: rest) (by omega)
      refine ⟨k + 1, ?_⟩
      have hd : isdigit (48 + n % 10) = true := by
        simp only [isdigit, Bool.and_eq_true, decide_eq_true_eq]; omega
      rw [List.append_assoc, List.singleton_append, hk]
      simp only [scanDigits, hd, if_true]
      congr 1
      rw [pow_succ]
      have := Nat.div_add_mod n 10
      have h2 : (acc * 10 ^ k + n / 10) * 10 = acc * (10 ^ k * 10) + (n / 10) * 10 := by ring
      omega

theorem scanDigits_print (n : Nat) (c : Nat) (cs : List Nat) (h : isdigit c = false) :
    scanDigits 0 (digitsFuel (n + 1) n ++ c :: cs) = (n, c :: cs) := by
  obtain ⟨k, hk⟩ := scanDigits_digitsFuel (n + 1) n 0 (c :: cs) (by omega)
  rw [hk, scanDigits_nondigit _ _ _ h]
  simp

theorem printInt_chars (E : Int) : ∀ c ∈ printInt E, c = 45 ∨ isdigit c = true := by
  intro c hc
  unfold printInt at hc
  by_cases hneg : E < 0
  · rw [if_pos hneg] at hc
    rcases List.mem_cons.1 hc with h | h
    · exact Or.inl h
    · exact Or.inr (digitsFuel_isdigit _ _ c h)
  · rw [if_neg hneg] at hc
    exact Or.inr (digitsFuel_isdigit _ _ c hc)

theorem isdigit_range (c : Nat) (h : isdigit c = true) : 48 ≤ c ∧ c ≤ 57 := by
  simpa [isdigit] using h

theorem printInt_no_zero (E : Int) : 0 ∉ printInt E := by
  intro h
  rcases printInt_chars E 0 h with h | h
  · exact absurd h (by decide)
  · exact absurd h (by decide)

theorem printInt_length (E : Int) (hlo : -2 ^ 31 ≤ E) (hhi : E < 2 ^ 31) :
    (printInt E).length ≤ 11 := by
  have hn : E.natAbs < 10 ^ 10 := by
    norm_num at hlo hhi ⊢
    omega
  have := digitsFuel_length (E.natAbs + 1) E.natAbs 10 hn
  unfold printInt
  split
  · rw [List.length_cons]; simp at this; omega
  · simp at this; omega

theorem findSub_none_of_not_mem (a : Nat) (needle hay : List Nat) (h : a ∉ hay) :
    findSub (a :: needle) hay = none := by
  rw [findSub_eq_none_iff]
  rintro ⟨s, t, heq⟩
  apply h
  rw [← heq]
  simp

theorem findSub_cons_ne (a c : Nat) (needle hay : List Nat) (h : a ≠ c) :
    findSub (a :: needle) (c :: hay) = (findSub (a :: needle) hay).map (fun k => k + 1) := by
  have hb : (a :: needle).isPrefixOf (c :: hay) = false := by
    simp [List.isPrefixOf, h]
  simp only [findSub, hb, Bool.false_eq_true, if_false]

theorem findSub_cons_skip (needle : List Nat) (c : Nat) (hay : List Nat)
    (h : ¬ needle <+: c :: hay) :
    findSub needle (c :: hay) = (findSub needle hay).map (fun k => k + 1) := by
  have hb : ¬ needle.isPrefixOf (c :: hay) = true := fun g => h (List.isPrefixOf_iff_prefix.1 g)
  rw [findSub, if_neg hb]

/-- The text of a notification with a non-zero code: no zero byte, the tag at its start, and
neither of the two success patterns in it. -/
theorem openNotification_text (E : Int) (hE : E ≠ 0) :
    cstr (openNotification E) = openNotification E
      ∧ strstr (openNotification E) (bytes "+QIOPEN:") = some 0
      ∧ strstr (openNotification E) (bytes "+QIOPEN: 0,0") = none
      ∧ strstr (openNotification E) (bytes "+QIOPEN: 0, 0") = none := by
  have hc : cstr (openNotification E) = openNotification E := by
    apply cstr_eq_self
    unfold openNotification
    intro h
    rcases List.mem_append.1 h with h | h
    · rcases List.mem_append.1 h with h | h
      · exact absurd h (by decide)
      · exact printInt_no_zero E h
    · exact absurd h (by decide)
  -- the first character of the code
  have hhead : ∃ d ds, printInt E = d :: ds ∧ d ≠ 48 ∧ d ≠ 32 := by
    unfold printInt
    by_cases hneg : E < 0
    · rw [if_pos hneg]
      exact ⟨45, _, rfl, by decide, by decide⟩
    · rw [if_neg hneg]
      obtain ⟨d, ds, hd, h1, h2⟩ := digitsFuel_head (E.natAbs + 1) E.natAbs (by omega) (by omega)
      exact ⟨d, ds, hd, by omega, by omega⟩
  obtain ⟨d, ds, hp, hd48, hd32⟩ := hhead
  have hplus : 43 ∉ d :: ds ++ bytes "\r\n" := by
    intro h
    rw [← hp] at h
    rcases List.mem_append.1 h with h | h
    · rcases printInt_chars E 43 h with h | h
      · exact absurd h (by decide)
      · exact absurd h (by decide)
    · exact absurd h (by decide)
  have hb : bytes "+QIOPEN: 0," = [43, 81, 73, 79, 80, 69, 78, 58, 32, 48, 44] := by decide
  have hn8 : bytes "+QIOPEN:" = [43, 81, 73, 79, 80, 69, 78, 58] := by decide
  have hn1 : bytes "+QIOPEN: 0,0" = 43 :: [81, 73, 79, 80, 69, 78, 58, 32, 48, 44, 48] := by decide
  have hn2 : bytes "+QIOPEN: 0, 0" = 43 :: [81, 73, 79, 80, 69, 78, 58, 32, 48, 44, 32, 48] := by
    decide
  have htail1 := findSub_none_of_not_mem 43 [81, 73, 79, 80, 69, 78, 58, 32, 48, 44, 48] _ hplus
  have htail2 := findSub_none_of_not_mem 43 [81, 73, 79, 80, 69, 78, 58, 32, 48, 44, 32, 48] _ hplus
  refine ⟨hc, ?_, ?_, ?_⟩
  · unfold strstr
    rw [hc]
    unfold openNotification
    rw [hb, hn8]
    simp [findSub, List.isPrefixOf]
  · unfold strstr
    rw [hc]
    unfold openNotification
    rw [hb, hn1, hp]
    simp only [List.cons_append, List.nil_append]
    rw [findSub_cons_skip _ _ _ (by simp [Ne.symm hd48])]
    iterate 10 rw [findSub_cons_ne _ _ _ _ (by decide)]
    rw [List.cons_append] at htail1
    rw [htail1]
    rfl
  · unfold strstr
    rw [hc]
    unfold openNotification
    rw [hb, hn2, hp]
    simp only [List.cons_append, List.nil_append]
    rw [findSub_cons_skip _ _ _ (by simp [Ne.symm hd32])]
    iterate 10 rw [findSub_cons_ne _ _ _ _ (by decide)]
    rw [List.cons_append] at htail2
    rw [htail2]
    rfl

theorem scanDecimal_printInt (E : Int) (hE : E ≠ 0) :
    scanDecimal (printInt E ++ [13, 10]) = some (E, [13, 10]) := by
  obtain ⟨d, ds, hd, h1, h2⟩ := digitsFuel_head (E.natAbs + 1) E.natAbs (by omega) (by omega)
  have hscan := scanDigits_print E.natAbs 13 [10] (by decide)
  have hdig : isdigit d = true := by
    simp only [isdigit, Bool.and_eq_true, decide_eq_true_eq]; omega
  have hsp : isspace d = false := by
    simp only [isspace, Bool.or_eq_false_iff, Bool.and_eq_false_iff, decide_eq_false_iff_not]
    omega
  unfold printInt
  by_cases hneg : E < 0
  · rw [if_pos hneg]
    have hdrop : List.dropWhile isspace (45 :: digitsFuel (E.natAbs + 1) E.natAbs ++ [13, 10])
        = 45 :: (digitsFuel (E.natAbs + 1) E.natAbs ++ [13, 10]) := by
      rw [List.cons_append, List.dropWhile_cons_of_neg (by decide)]
    unfold scanDecimal
    rw [hdrop]
    simp only [if_true]
    rw [hscan, hd]
    simp only [List.cons_append, hdig, if_true, Option.some.injEq, Prod.mk.injEq, and_true]
    omega
  · rw [if_neg hneg]
    have hdrop : List.dropWhile isspace (digitsFuel (E.natAbs + 1) E.natAbs ++ [13, 10])
        = d :: (ds ++ [13, 10]) := by
      rw [hd, List.cons_append, List.dropWhile_cons_of_neg (by simp [hsp])]
    unfold scanDecimal
    rw [hdrop]
    have h45 : d ≠ 45 := by omega
    have h43 : d ≠ 43 := by omega
    simp only [h45, h43, if_false, hdig, if_true]
    rw [← List.cons_append, ← hd, hscan]
    simp only [Option.some.injEq, Prod.mk.injEq, and_true]
    omega

/-- A number within the range of `int` is stored as it is written. -/
theorem longToInt_strtolClamp (v : Int) (hlo : -2147483648 ≤ v) (hhi : v ≤ 2147483647) :
    longToInt (strtolClamp v) = v := by
  unfold strtolClamp longToInt
  rw [if_neg (by omega), if_neg (by omega)]
  omega

theorem scanInt_of_scanDecimal (s : List Nat) (v : Int) (rest : List Nat)
    (h : scanDecimal s = some (v, rest)) (hlo : -2147483648 ≤ v) (hhi : v ≤ 2147483647) :
    scanInt s = some (v, rest) := by
  unfold scanInt
  rw [h]
  simp only [longToInt_strtolClamp v hlo hhi]

theorem scanInt_printInt (E : Int) (hE : E ≠ 0)
    (hlo : -2147483648 ≤ E) (hhi : E ≤ 2147483647) :
    scanInt (printInt E ++ [13, 10]) = some (E, [13, 10]) :=
  scanInt_of_scanDecimal _ _ _ (scanDecimal_printInt E hE) hlo hhi

theorem sscanf_openNotification (E : Int) (hE : E ≠ 0)
    (hlo : -2147483648 ≤ E) (hhi : E ≤ 2147483647) :
    sscanf_QIOPEN (openNotification E) = some (0, E) := by
  have hb : bytes "+QIOPEN: 0," = [43, 81, 73, 79, 80, 69, 78, 58, 32, 48, 44] := by decide
  have hn8 : bytes "+QIOPEN:" = [43, 81, 73, 79, 80, 69, 78, 58] := by decide
  have hcomma : bytes "," = [44] := by decide
  have hcrlf : bytes "\r\n" = [13, 10] := by decide
  have h1 : scanLit (bytes "+QIOPEN:") (openNotification E)
      = some (32 :: 48 :: 44 :: (printInt E ++ [13, 10])) := by
    unfold openNotification scanLit
    rw [hb, hn8, hcrlf]
    simp [List.isPrefixOf]
  have h2 : List.dropWhile isspace (32 :: 48 :: 44 :: (printInt E ++ [13, 10]))
      = 48 :: 44 :: (printInt E ++ [13, 10]) := by
    rw [List.dropWhile_cons_of_pos (by decide), List.dropWhile_cons_of_neg (by decide)]
  have h3 : scanInt (48 :: 44 :: (printInt E ++ [13, 10]))
      = some (0, 44 :: (printInt E ++ [13, 10])) := by
    refine scanInt_of_scanDecimal _ _ _ ?_ (by decide) (by decide)
    unfold scanDecimal
    rw [List.dropWhile_cons_of_neg (by decide)]
    simp [scanDigits, isdigit]
  have h4 : scanLit (bytes ",") (44 :: (printInt E ++ [13, 10])) = some (printInt E ++ [13, 10]) := by
    unfold scanLit
    rw [hcomma]
    simp [List.isPrefixOf]
  unfold sscanf_QIOPEN
  rw [h1]
  simp only [h2, h3, h4, scanInt_printInt E hE hlo hhi]

/-! ## Socket bring-up: claims -/

theorem openNotified_ret (w : World) (response : List Nat) :
    ((openNotified w response).2 = 1 ↔
        (bytes "+QIOPEN: 0,0" <:+: cstr response ∨ bytes "+QIOPEN: 0, 0" <:+: cstr response))
      ∧ ((openNotified w response).2 = 1 ∨ (openNotified w response).2 = 0)
      ∧ ((openNotified w response).2 = 1 →
          (openNotified w response).1.tcp_state = TCP_State_t.TCP_STATE_CONNECTED)
      ∧ ((openNotified w response).2 = 0 →
          (openNotified w response).1.tcp_state = TCP_State_t.TCP_STATE_ERROR) := by
  unfold openNotified
  by_cases h : ((strstr response (bytes "+QIOPEN: 0,0")).isSome
      || (strstr response (bytes "+QIOPEN: 0, 0")).isSome) = true
  · rw [if_pos h]
    rw [Bool.or_eq_true, strstr_isSome_iff, strstr_isSome_iff] at h
    exact ⟨⟨fun _ => h, fun _ => rfl⟩, Or.inl rfl, fun _ => rfl,
      fun h0 => absurd (show (1 : Nat) = 0 from h0) (by decide)⟩
  · rw [if_neg h]
    rw [Bool.or_eq_true, strstr_isSome_iff, strstr_isSome_iff] at h
    exact ⟨⟨fun h0 => absurd (show (0 : Nat) = 1 from h0) (by decide), fun h1 => absurd h1 h⟩,
      Or.inr rfl, fun h0 => absurd (show (0 : Nat) = 1 from h0) (by decide), fun _ => rfl⟩

theorem openExchange_spec (w : World) :
    ((openExchange w).ret = 1
        ∧ (bytes "OK\r\n" <:+ (openExchange w).response
            ∨ bytes "ERROR\r\n" <:+ (openExchange w).response)
        ∧ 0 ∉ (openExchange w).response
        ∧ (openExchange w).world.tick < (beforeOpen w).tick + 5000)
      ∨ ((openExchange w).ret = 0
        ∧ (openExchange w).world.tick = (beforeOpen w).tick + 5000) := by
  rcases sendATCommand_spec (beforeOpen w) qiopenCmd 5000 (by norm_num) with h | h
  · exact Or.inl h
  · exact Or.inr ⟨h.1, h.2.2.2⟩

theorem openWait_spec (w : World) :
    ((openWait w).ret = 1
        ∧ bytes "+QIOPEN:" <:+: cstr (openWait w).response
        ∧ (openWait w).world.tick < (openExchange w).world.tick + 30000)
      ∨ ((openWait w).ret = 0
        ∧ (openWait w).world.tick = (openExchange w).world.tick + 30000) := by
  rcases waitForResponse_spec (openExchange w).world (bytes "+QIOPEN:") AT_RESPONSE_BUF_SIZE
    30000 (by norm_num) with h | h
  · have hc : cstr (bytes "+QIOPEN:") = bytes "+QIOPEN:" := by decide
    rw [hc] at h
    exact Or.inl h
  · exact Or.inr h

/-- The return value and the final state of `RG200U_ConnectTCPServer`, path by path. -/
theorem connect_paths (w : World) :
    ((RG200U_ConnectTCPServer w).2 = 1
        ∧ (RG200U_ConnectTCPServer w).1.tcp_state = TCP_State_t.TCP_STATE_CONNECTED
        ∧ ((openExchange w).ret = 1 ∧ bytes "OK" <:+: (openExchange w).response)
        ∧ ((openWait w).ret = 1
            ∧ (bytes "+QIOPEN: 0,0" <:+: cstr (openWait w).response
                ∨ bytes "+QIOPEN: 0, 0" <:+: cstr (openWait w).response)))
      ∨ ((RG200U_ConnectTCPServer w).2 = 0
        ∧ (RG200U_ConnectTCPServer w).1.tcp_state = TCP_State_t.TCP_STATE_ERROR
        ∧ ¬ (((openExchange w).ret = 1 ∧ bytes "OK" <:+: (openExchange w).response)
          ∧ ((openWait w).ret = 1
            ∧ (bytes "+QIOPEN: 0,0" <:+: cstr (openWait w).response
                ∨ bytes "+QIOPEN: 0, 0" <:+: cstr (openWait w).response)))) := by
  have hn := openNotified_ret (openWait w).world (openWait w).response
  unfold RG200U_ConnectTCPServer
  rcases openExchange_spec w with hx | hx
  · have hx0 : (openExchange w).ret ≠ 0 := by rw [hx.1]; decide
    rw [if_pos hx0]
    by_cases hok : (strstr (openExchange w).response (bytes "OK")).isSome = true
    · rw [if_pos hok]
      rw [strstr_isSome_iff, cstr_eq_self _ hx.2.2.1] at hok
      rcases openWait_spec w with hw | hw
      · have hw0 : (openWait w).ret ≠ 0 := by rw [hw.1]; decide
        rw [if_pos hw0]
        rcases hn.2.1 with h1 | h0
        · exact Or.inl ⟨h1, hn.2.2.1 h1, ⟨hx.1, hok⟩, hw.1, hn.1.1 h1⟩
        · refine Or.inr ⟨h0, hn.2.2.2 h0, ?_⟩
          rintro ⟨_, _, hz⟩
          have := hn.1.2 hz
          rw [h0] at this
          exact absurd this (by decide)
      · have hw0 : ¬ (openWait w).ret ≠ 0 := by rw [hw.1]; decide
        rw [if_neg hw0]
        refine Or.inr ⟨rfl, rfl, ?_⟩
        rintro ⟨_, hz, _⟩
        rw [hw.1] at hz
        exact absurd hz (by decide)
    · rw [if_neg hok]
      rw [strstr_isSome_iff, cstr_eq_self _ hx.2.2.1] at hok
      refine Or.inr ⟨rfl, rfl, ?_⟩
      rintro ⟨⟨_, hz⟩, _⟩
      exact hok hz
  · have hx0 : ¬ (openExchange w).ret ≠ 0 := by rw [hx.1]; decide
    rw [if_neg hx0]
    refine Or.inr ⟨rfl, rfl, ?_⟩
    rintro ⟨⟨hz, _⟩, _⟩
    rw [hx.1] at hz
    exact absurd hz (by decide)

theorem take_replicate_quiet (n m : Nat) (rest : List (List Nat)) (h : n ≤ m) :
    ∀ x ∈ (List.replicate m ([] : List Nat) ++ rest).take n, x = [] := by
  intro x hx
  rw [List.take_append_of_le_length (by simp [h])] at hx
  exact List.eq_of_mem_replicate (List.mem_of_mem_take hx)

theorem drop_replicate_append (n m : Nat) (rest : List (List Nat)) (h : n ≤ m) :
    (List.replicate m ([] : List Nat) ++ rest).drop n = List.replicate (m - n) [] ++ rest := by
  rw [List.drop_append_of_le_length (by simp [h])]
  simp

/-- A modem that stays silent through the two preliminary exchanges of the socket bring-up:
both run into their 2 s timeout, and the open command is sent 4 s after the call. -/
theorem beforeOpen_silent (w : World) (rest : List (List Nat)) (a b : Nat)
    (ha : a = 2000) (hb : b = 2000)
    (hm : w.modem = List.replicate (a + b) [] ++ rest) :
    (RG200U_SendATCommand { w with rx := w.rx.flush } (bytes "AT+QICLOSE=0\r\n") 2000).ret = 0
      ∧ beforeOpen w
        = { tick := w.tick + 2000 + 2000
            rx := w.rx.flush.flush.flush
            tcp_state := TCP_State_t.TCP_STATE_CONNECTING
            modem := rest
            trace := List.replicate 2000 (Event.delay 1)
              ++ Event.uart5 (cstr (bytes "AT+QURCCFG=\"urcport\",\"all\"\r\n"))
              :: (List.replicate 2000 (Event.delay 1)
              ++ Event.uart5 (cstr (bytes "AT+QICLOSE=0\r\n")) :: w.trace) } := by
  have hq1 : ∀ x ∈ w.modem.take 2000, x = [] := by
    rw [hm]; exact take_replicate_quiet 2000 (a + b) rest (by omega)
  have hd1 : w.modem.drop 2000 = List.replicate b [] ++ rest := by
    have hab : a + b - 2000 = b := by omega
    rw [hm, drop_replicate_append 2000 (a + b) rest (by omega), hab]
  have h1 := sendATCommand_silent { w with rx := w.rx.flush } (bytes "AT+QICLOSE=0\r\n") 2000
    (by norm_num) hq1
  refine ⟨by rw [h1], ?_⟩
  unfold beforeOpen
  simp only []
  rw [h1]
  simp only []
  have hq2 : ∀ x ∈ (w.modem.drop 2000).take 2000, x = [] := by
    rw [hd1]; exact take_replicate_quiet 2000 b rest (by omega)
  have h2 := sendATCommand_silent
    { tick := w.tick + 2000, rx := w.rx.flush.flush, tcp_state := w.tcp_state,
      modem := w.modem.drop 2000,
      trace := List.replicate 2000 (Event.delay 1)
        ++ Event.uart5 (cstr (bytes "AT+QICLOSE=0\r\n")) :: w.trace }
    (bytes "AT+QURCCFG=\"urcport\",\"all\"\r\n") 2000 (by norm_num) hq2
  rw [h2]
  simp only [World.mk.injEq, true_and, and_true]
  rw [hd1, drop_replicate_append 2000 b rest (by omega)]
  have hz : b - 2000 = 0 := by omega
  rw [hz]
  rfl

theorem deaf_connect :
    (RG200U_SendATCommand { deafStub with rx := deafStub.rx.flush } (bytes "AT+QICLOSE=0\r\n")
        2000).ret = 0
      ∧ (RG200U_ConnectTCPServer deafStub).2 = 1 := by
  have h := beforeOpen_silent deafStub _ 2000 2000 rfl rfl rfl
  refine ⟨h.1, ?_⟩
  unfold RG200U_ConnectTCPServer openWait openExchange
  rw [h.2]
  decide

theorem obliging_connect :
    (RG200U_SendATCommand { obligingStub with rx := obligingStub.rx.flush }
        (bytes "AT+QICLOSE=0\r\n") 2000).ret = 1
      ∧ (RG200U_ConnectTCPServer obligingStub).2 = 1 := by
  refine ⟨by decide, by decide⟩

/-- For a notification of the form "+QIOPEN: 0,E\r\n" the success patterns tested by the
code are present exactly when the error code E is 0. -/
theorem openNotification_zero_iff (E : Int) :
    (bytes "+QIOPEN: 0,0" <:+: cstr (openNotification E)
        ∨ bytes "+QIOPEN: 0, 0" <:+: cstr (openNotification E)) ↔ E = 0 := by
  constructor
  · intro h
    by_contra hE
    obtain ⟨_, _, h3, h4⟩ := openNotification_text E hE
    rcases h with h | h
    · exact (findSub_eq_none_iff _ _).1 h3 h
    · exact (findSub_eq_none_iff _ _).1 h4 h
  · intro hE
    subst hE
    left
    decide

/-- C7. Session-state postcondition of `RG200U_ConnectTCPServer`: for every modem behaviour the
call returns 1 or 0; afterwards the TCP state is Connected if and only if it returned 1 and
Error if and only if it returned 0, hence never Connecting or Disconnected. -/
theorem connectTCPServer_state (w : World) :
    ((RG200U_ConnectTCPServer w).2 = 1 ∨ (RG200U_ConnectTCPServer w).2 = 0)
      ∧ (RG200U_GetTCPState (RG200U_ConnectTCPServer w).1 = TCP_State_t.TCP_STATE_CONNECTED
          ↔ (RG200U_ConnectTCPServer w).2 = 1)
      ∧ (RG200U_GetTCPState (RG200U_ConnectTCPServer w).1 = TCP_State_t.TCP_STATE_ERROR
          ↔ (RG200U_ConnectTCPServer w).2 = 0)
      ∧ RG200U_GetTCPState (RG200U_ConnectTCPServer w).1 ≠ TCP_State_t.TCP_STATE_CONNECTING
      ∧ RG200U_GetTCPState (RG200U_ConnectTCPServer w).1 ≠ TCP_State_t.TCP_STATE_DISCONNECTED := by
  unfold RG200U_GetTCPState
  rcases connect_paths w with h | h
  · rw [h.1, h.2.1]
    exact ⟨Or.inl rfl, ⟨fun _ => rfl, fun _ => rfl⟩,
      ⟨fun h0 => absurd h0 (by decide), fun h0 => absurd h0 (by decide)⟩, by decide, by decide⟩
  · rw [h.1, h.2.1]
    exact ⟨Or.inr rfl, ⟨fun h0 => absurd h0 (by decide), fun h0 => absurd h0 (by decide)⟩,
      ⟨fun _ => rfl, fun _ => rfl⟩, by decide, by decide⟩

/-! ## The event log: lemmas -/

theorem foldl_sendByte_trace (bs : List Nat) : ∀ w : World,
    (bs.foldl RS485_SendByte w).trace = (bs.map Event.rs485).reverse ++ w.trace := by
  induction bs with
  | nil => intro w; rfl
  | cons b bs ih =>
    intro w
    rw [List.foldl_cons, ih, List.map_cons, List.reverse_cons, List.append_assoc]
    rfl

theorem sendString_log (w : World) (str : List Nat) :
    (RS485_SendString_NoDirChange w str).log = w.log ++ sendEvents (cstr str) := by
  unfold RS485_SendString_NoDirChange World.log sendEvents
  rw [foldl_sendByte_trace, List.reverse_append, List.reverse_reverse]

theorem foldl_sendByte_tcp_state (bs : List Nat) : ∀ w : World,
    (bs.foldl RS485_SendByte w).tcp_state = w.tcp_state := by
  induction bs with
  | nil => intro w; rfl
  | cons b bs ih => intro w; rw [List.foldl_cons, ih]; rfl

theorem sendString_tcp_state (w : World) (str : List Nat) :
    (RS485_SendString_NoDirChange w str).tcp_state = w.tcp_state :=
  foldl_sendByte_tcp_state _ w

theorem HAL_Delay_log (w : World) (ms : Nat) : (HAL_Delay w ms).log = w.log ++ [Event.delay ms] := by
  unfold World.log
  rw [HAL_Delay_trace, List.reverse_cons]

theorem HAL_Delay_tcp_state (w : World) (ms : Nat) : (HAL_Delay w ms).tcp_state = w.tcp_state := by
  simp only [HAL_Delay, elapse_tcp_state]

theorem setTransmitMode_log (w : World) :
    (RS485_SetTransmitMode w).log = w.log
      ++ [Event.gpio Pin.RS485_RE GPIO_PinState.GPIO_PIN_SET,
          Event.gpio Pin.RS485_DE GPIO_PinState.GPIO_PIN_SET] := by
  simp [RS485_SetTransmitMode, HAL_GPIO_WritePin, World.log]

theorem setReceiveMode_log (w : World) :
    (RS485_SetReceiveMode w).log = w.log
      ++ [Event.gpio Pin.RS485_RE GPIO_PinState.GPIO_PIN_RESET,
          Event.gpio Pin.RS485_DE GPIO_PinState.GPIO_PIN_SET] := by
  simp [RS485_SetReceiveMode, HAL_GPIO_WritePin, World.log]

theorem writePin_log (w : World) (pin : Pin) (level : GPIO_PinState) :
    (HAL_GPIO_WritePin w pin level).log = w.log ++ [Event.gpio pin level] := by
  simp [HAL_GPIO_WritePin, World.log]

theorem sendEvents_append (a b : List Nat) : sendEvents (a ++ b) = sendEvents a ++ sendEvents b := by
  simp [sendEvents]

theorem rs485Bytes_append (xs ys : List Event) :
    rs485Bytes (xs ++ ys) = rs485Bytes xs ++ rs485Bytes ys := by
  induction xs with
  | nil => rfl
  | cons e es ih => cases e <;> simp [rs485Bytes, ih]

theorem rs485Bytes_sendEvents (bs : List Nat) : rs485Bytes (sendEvents bs) = bs := by
  induction bs with
  | nil => rfl
  | cons b bs ih =>
    simp only [sendEvents, List.map_cons, rs485Bytes] at ih ⊢
    rw [ih]

theorem relayWrites_append (xs ys : List Event) :
    relayWrites (xs ++ ys) = relayWrites xs ++ relayWrites ys := by
  induction xs with
  | nil => rfl
  | cons e es ih =>
    cases e with
    | gpio pin level => cases pin <;> simp [relayWrites, ih]
    | rs485 b => simp [relayWrites, ih]
    | uart5 d => simp [relayWrites, ih]
    | delay ms => simp [relayWrites, ih]

theorem relayWrites_sendEvents (bs : List Nat) : relayWrites (sendEvents bs) = [] := by
  induction bs with
  | nil => rfl
  | cons b bs ih =>
    simp only [sendEvents, List.map_cons, relayWrites] at ih ⊢
    exact ih

theorem lookup_mem (e : Int) (r : List Nat) : ∀ (t : List (Int × List Nat)),
    t.lookup e = some r → (e, r) ∈ t := by
  intro t
  induction t with
  | nil => intro h; simp [List.lookup] at h
  | cons p ps ih =>
    intro h
    obtain ⟨a, b⟩ := p
    by_cases hab : e = a
    · subst hab
      simp only [List.lookup, beq_self_eq_true, Option.some.injEq] at h
      subst h
      exact List.mem_cons_self _ _
    · have hbeq : (e == a) = false := by simpa using hab
      simp only [List.lookup, hbeq] at h
      exact List.mem_cons_of_mem _ (ih h)

theorem errReason_no_zero (E : Int) : 0 ∉ errReason E := by
  have htable : ∀ p ∈ errTable, 0 ∉ p.2 := by decide
  unfold errReason
  cases h : errTable.lookup E with
  | none => decide
  | some r => exact htable _ (lookup_mem E r errTable h)

theorem errReason_default (E : Int) (h0 : E ≠ 0) (hout : E < 550 ∨ 574 < E) :
    errReason E = bytes "Unknown" := by
  have htable : ∀ p ∈ errTable, p.1 = 0 ∨ (550 ≤ p.1 ∧ p.1 ≤ 574) := by decide
  unfold errReason
  cases h : errTable.lookup E with
  | none => rfl
  | some r =>
    have := htable _ (lookup_mem E r errTable h)
    simp only at this
    omega

theorem errReason_table (a : Int) (ha : 550 ≤ a ∧ a ≤ 574) :
    (a, errReason a) ∈ errTable := by
  obtain ⟨h1, h2⟩ := ha
  interval_cases a <;> decide

theorem errReason_injective (a b : Int) (ha : 550 ≤ a ∧ a ≤ 574) (hb : 550 ≤ b ∧ b ≤ 574)
    (h : errReason a = errReason b) : a = b := by
  have htable : ∀ p ∈ errTable, ∀ q ∈ errTable, p.2 = q.2 → p.1 = q.1 := by decide
  exact htable _ (errReason_table a ha) _ (errReason_table b hb) h

theorem reportOpenError_log (w : World) (E : Int) (hlo : -2 ^ 31 ≤ E) (hhi : E < 2 ^ 31) :
    (reportOpenError w E).log = w.log
      ++ [Event.gpio Pin.RS485_RE GPIO_PinState.GPIO_PIN_SET,
          Event.gpio Pin.RS485_DE GPIO_PinState.GPIO_PIN_SET, Event.delay 1]
      ++ sendEvents (openErrorLine E)
      ++ [Event.gpio Pin.RS485_RE GPIO_PinState.GPIO_PIN_RESET,
          Event.gpio Pin.RS485_DE GPIO_PinState.GPIO_PIN_SET] := by
  have htake : (printInt E).take 99 = printInt E :=
    List.take_of_length_le (by have := printInt_length E hlo hhi; omega)
  have c1 : cstr (bytes "[ERROR] Connection failed with code ")
      = bytes "[ERROR] Connection failed with code " := by decide
  have c2 : cstr (printInt E) = printInt E := cstr_eq_self _ (printInt_no_zero E)
  have c3 : cstr (bytes " (") = bytes " (" := by decide
  have c4 : cstr (errReason E) = errReason E := cstr_eq_self _ (errReason_no_zero E)
  have c5 : cstr (bytes ")\r\n") = bytes ")\r\n" := by decide
  unfold reportOpenError openErrorLine
  simp only [setReceiveMode_log, sendString_log, HAL_Delay_log, setTransmitMode_log, htake,
    c1, c2, c3, c4, c5, sendEvents_append, List.append_assoc, List.cons_append, List.nil_append]


/-! ## Command interceptor: lemmas -/

theorem cstr_cons_ne (x : Nat) (xs : List Nat) (h : x ≠ 0) : cstr (x :: xs) = x :: cstr xs := by
  have hx : decide (x ≠ 0) = true := by simpa using h
  simp only [cstr, List.takeWhile_cons, hx, if_true]

theorem cstr_cons_zero (xs : List Nat) : cstr (0 :: xs) = [] := by
  simp [cstr, List.takeWhile_cons]

/-- Writing `'\0'` where `strchr` found `c` leaves the string that ends before the first `c`. -/
theorem cstr_cutAt (c : Nat) (hc : c ≠ 0) : ∀ b : List Nat,
    cstr (cutAt b (strchr b c)) = (cstr b).takeWhile (fun x => x != c) := by
  intro b
  induction b with
  | nil => simp [strchr, cstr, findSub, cutAt]
  | cons x xs ih =>
    by_cases hx0 : x = 0
    · subst hx0
      simp [strchr, cstr_cons_zero, findSub, cutAt]
    · by_cases hxc : x = c
      · subst hxc
        have hfind : strchr (x :: xs) x = some 0 := by
          simp [strchr, cstr_cons_ne x xs hx0, findSub, List.isPrefixOf]
        rw [hfind, cstr_cons_ne x xs hx0]
        simp [cutAt, cstr_cons_zero, List.takeWhile_cons]
      · have hfind : strchr (x :: xs) c = (strchr xs c).map (fun k => k + 1) := by
          unfold strchr
          rw [cstr_cons_ne x xs hx0, findSub_cons_ne c x [] _ (Ne.symm hxc)]
        have hcut : cutAt (x :: xs) (strchr (x :: xs) c) = x :: cutAt xs (strchr xs c) := by
          rw [hfind]
          cases strchr xs c with
          | none => rfl
          | some i => rfl
        have hne : (x != c) = true := by simpa using hxc
        rw [hcut, cstr_cons_ne _ _ hx0, ih, cstr_cons_ne x xs hx0, List.takeWhile_cons, hne,
          if_pos rfl]

theorem takeWhile_takeWhile (p q : Nat → Bool) : ∀ l : List Nat,
    (l.takeWhile q).takeWhile p = l.takeWhile (fun x => q x && p x) := by
  intro l
  induction l with
  | nil => rfl
  | cons x xs ih =>
    by_cases hq : q x = true
    · by_cases hp : p x = true
      · simp [List.takeWhile_cons, hq, hp, ih]
      · simp [List.takeWhile_cons, hq, hp]
    · simp [List.takeWhile_cons, hq]

/-- The string compared with the table is the token: the copied bytes up to the first zero
byte, CR or LF. -/
theorem processCommand_token (cmd_data : List Nat) (len : Nat) :
    cstr (cutAt (cutAt (cmd_data.take (if len ≥ 128 then 128 - 1 else len))
          (strchr (cmd_data.take (if len ≥ 128 then 128 - 1 else len)) 13))
        (strchr (cutAt (cmd_data.take (if len ≥ 128 then 128 - 1 else len))
          (strchr (cmd_data.take (if len ≥ 128 then 128 - 1 else len)) 13)) 10))
      = commandToken cmd_data len := by
  have hlen : (if len ≥ 128 then 128 - 1 else len) = min len 127 := by
    split <;> omega
  rw [hlen, cstr_cutAt 10 (by decide), cstr_cutAt 13 (by decide), takeWhile_takeWhile]
  unfold cstr commandToken
  rw [takeWhile_takeWhile]
  congr 1
  funext x
  by_cases h0 : x = 0 <;> by_cases h13 : x = 13 <;> by_cases h10 : x = 10 <;> simp [h0, h13, h10]


theorem strcmp_eq_token (cmd lit : List Nat) (hlit : cstr lit = lit) :
    strcmp_eq cmd lit = decide (cstr cmd = lit) := by
  unfold strcmp_eq
  rw [hlit]

/-- The events of one call of the interceptor, for every payload. -/
theorem processCommand_log (w : World) (cmd_data : List Nat) (len : Nat) :
    (RG200U_ProcessCommand w cmd_data len).log = w.log
      ++ [Event.gpio Pin.RS485_RE GPIO_PinState.GPIO_PIN_SET,
          Event.gpio Pin.RS485_DE GPIO_PinState.GPIO_PIN_SET, Event.delay 1]
      ++ commandEvents (commandToken cmd_data len)
      ++ [Event.delay 2, Event.gpio Pin.RS485_RE GPIO_PinState.GPIO_PIN_RESET,
          Event.gpio Pin.RS485_DE GPIO_PinState.GPIO_PIN_SET] := by
  have htok := processCommand_token cmd_data len
  have c1 : cstr (bytes "RELAY1_ON") = bytes "RELAY1_ON" := by decide
  have c2 : cstr (bytes "RELAY1_OFF") = bytes "RELAY1_OFF" := by decide
  have c3 : cstr (bytes "RELAY2_ON") = bytes "RELAY2_ON" := by decide
  have c4 : cstr (bytes "RELAY2_OFF") = bytes "RELAY2_OFF" := by decide
  have m1 : cstr (bytes "[CMD] RELAY1 ON\r\n") = bytes "[CMD] RELAY1 ON\r\n" := by decide
  have m2 : cstr (bytes "[CMD] RELAY1 OFF\r\n") = bytes "[CMD] RELAY1 OFF\r\n" := by decide
  have m3 : cstr (bytes "[CMD] RELAY2 ON\r\n") = bytes "[CMD] RELAY2 ON\r\n" := by decide
  have m4 : cstr (bytes "[CMD] RELAY2 OFF\r\n") = bytes "[CMD] RELAY2 OFF\r\n" := by decide
  have m5 : cstr (bytes "[CMD] Unknown: ") = bytes "[CMD] Unknown: " := by decide
  have m6 : cstr (bytes "\r\n") = bytes "\r\n" := by decide
  unfold RG200U_ProcessCommand
  simp only [strcmp_eq_token _ _ c1, strcmp_eq_token _ _ c2, strcmp_eq_token _ _ c3,
    strcmp_eq_token _ _ c4, htok, decide_eq_true_eq]
  unfold commandEvents
  by_cases h1 : commandToken cmd_data len = bytes "RELAY1_ON"
  · simp only [if_pos h1, setReceiveMode_log, HAL_Delay_log, sendString_log, writePin_log,
      setTransmitMode_log, m1, List.append_assoc, List.cons_append, List.nil_append]
  · by_cases h2 : commandToken cmd_data len = bytes "RELAY1_OFF"
    · simp only [if_neg h1, if_pos h2, setReceiveMode_log, HAL_Delay_log, sendString_log,
        writePin_log, setTransmitMode_log, m2, List.append_assoc, List.cons_append,
        List.nil_append]
    · by_cases h3 : commandToken cmd_data len = bytes "RELAY2_ON"
      · simp only [if_neg h1, if_neg h2, if_pos h3, setReceiveMode_log, HAL_Delay_log,
          sendString_log, writePin_log, setTransmitMode_log, m3, List.append_assoc,
          List.cons_append, List.nil_append]
      · by_cases h4 : commandToken cmd_data len = bytes "RELAY2_OFF"
        · simp only [if_neg h1, if_neg h2, if_neg h3, if_pos h4, setReceiveMode_log,
            HAL_Delay_log, sendString_log, writePin_log, setTransmitMode_log, m4,
            List.append_assoc, List.cons_append, List.nil_append]
        · simp only [if_neg h1, if_neg h2, if_neg h3, if_neg h4, setReceiveMode_log,
            HAL_Delay_log, sendString_log, writePin_log, setTransmitMode_log, m5, m6, htok,
            sendEvents_append, List.append_assoc, List.cons_append, List.nil_append]

theorem commandEvents_relay (token : List Nat) :
    (token ∈ commandTable → ∃ pin level, relayWrites (commandEvents token) = [(pin, level)])
      ∧ (token ∉ commandTable →
          commandEvents token = sendEvents (bytes "[CMD] Unknown: " ++ token ++ bytes "\r\n")
          ∧ relayWrites (commandEvents token) = []) := by
  unfold commandEvents commandTable
  by_cases h1 : token = bytes "RELAY1_ON"
  · rw [if_pos h1]; simp [h1, relayWrites, relayWrites_sendEvents]
  · by_cases h2 : token = bytes "RELAY1_OFF"
    · rw [if_neg h1, if_pos h2]; simp [h2, relayWrites, relayWrites_sendEvents]
    · by_cases h3 : token = bytes "RELAY2_ON"
      · rw [if_neg h1, if_neg h2, if_pos h3]; simp [h3, relayWrites, relayWrites_sendEvents]
      · by_cases h4 : token = bytes "RELAY2_OFF"
        · rw [if_neg h1, if_neg h2, if_neg h3, if_pos h4]
          simp [h4, relayWrites, relayWrites_sendEvents]
        · rw [if_neg h1, if_neg h2, if_neg h3, if_neg h4]
          simp [h1, h2, h3, h4, relayWrites_sendEvents]


/-! ## Command interceptor: claims -/

/-- C9. Command interceptor table: for each of the tokens RELAY1_ON, RELAY1_OFF, RELAY2_ON,
RELAY2_OFF followed by "\r\n", `RG200U_ProcessCommand` performs exactly one relay GPIO write:
K1 set, K1 reset, K2 set, K2 reset respectively, and no write to the other relay pin. For
"RELAY1_ON\r\n" the whole of what the call does is: line to transmit, 1 ms, relay K1 set,
the text "[CMD] RELAY1 ON\r\n", 2 ms, line to receive. For "relay1_on\r\n" (wrong case) no
relay GPIO write is performed and the text sent is "[CMD] Unknown: relay1_on\r\n". -/
theorem processCommand_table (w : World) :
    relayWrites (RG200U_ProcessCommand w (bytes "RELAY1_ON\r\n") 11).log
        = relayWrites w.log ++ [(Pin.RELAY_K1, GPIO_PinState.GPIO_PIN_SET)]
      ∧ relayWrites (RG200U_ProcessCommand w (bytes "RELAY1_OFF\r\n") 12).log
        = relayWrites w.log ++ [(Pin.RELAY_K1, GPIO_PinState.GPIO_PIN_RESET)]
      ∧ relayWrites (RG200U_ProcessCommand w (bytes "RELAY2_ON\r\n") 11).log
        = relayWrites w.log ++ [(Pin.RELAY_K2, GPIO_PinState.GPIO_PIN_SET)]
      ∧ relayWrites (RG200U_ProcessCommand w (bytes "RELAY2_OFF\r\n") 12).log
        = relayWrites w.log ++ [(Pin.RELAY_K2, GPIO_PinState.GPIO_PIN_RESET)]
      ∧ (RG200U_ProcessCommand w (bytes "RELAY1_ON\r\n") 11).log = w.log
          ++ [Event.gpio Pin.RS485_RE GPIO_PinState.GPIO_PIN_SET,
              Event.gpio Pin.RS485_DE GPIO_PinState.GPIO_PIN_SET, Event.delay 1,
              Event.gpio Pin.RELAY_K1 GPIO_PinState.GPIO_PIN_SET]
          ++ sendEvents (bytes "[CMD] RELAY1 ON\r\n")
          ++ [Event.delay 2, Event.gpio Pin.RS485_RE GPIO_PinState.GPIO_PIN_RESET,
              Event.gpio Pin.RS485_DE GPIO_PinState.GPIO_PIN_SET]
      ∧ relayWrites (RG200U_ProcessCommand w (bytes "relay1_on\r\n") 11).log = relayWrites w.log
      ∧ rs485Bytes (RG200U_ProcessCommand w (bytes "relay1_on\r\n") 11).log
        = rs485Bytes w.log ++ bytes "[CMD] Unknown: relay1_on\r\n" := by
  have t1 : commandToken (bytes "RELAY1_ON\r\n") 11 = bytes "RELAY1_ON" := by decide
  have t2 : commandToken (bytes "RELAY1_OFF\r\n") 12 = bytes "RELAY1_OFF" := by decide
  have t3 : commandToken (bytes "RELAY2_ON\r\n") 11 = bytes "RELAY2_ON" := by decide
  have t4 : commandToken (bytes "RELAY2_OFF\r\n") 12 = bytes "RELAY2_OFF" := by decide
  have t5 : commandToken (bytes "relay1_on\r\n") 11 = bytes "relay1_on" := by decide
  have e1 : commandEvents (bytes "RELAY1_ON")
      = Event.gpio Pin.RELAY_K1 GPIO_PinState.GPIO_PIN_SET
        :: sendEvents (bytes "[CMD] RELAY1 ON\r\n") := by decide
  have e2 : commandEvents (bytes "RELAY1_OFF")
      = Event.gpio Pin.RELAY_K1 GPIO_PinState.GPIO_PIN_RESET
        :: sendEvents (bytes "[CMD] RELAY1 OFF\r\n") := by decide
  have e3 : commandEvents (bytes "RELAY2_ON")
      = Event.gpio Pin.RELAY_K2 GPIO_PinState.GPIO_PIN_SET
        :: sendEvents (bytes "[CMD] RELAY2 ON\r\n") := by decide
  have e4 : commandEvents (bytes "RELAY2_OFF")
      = Event.gpio Pin.RELAY_K2 GPIO_PinState.GPIO_PIN_RESET
        :: sendEvents (bytes "[CMD] RELAY2 OFF\r\n") := by decide
  have e5 : commandEvents (bytes "relay1_on")
      = sendEvents (bytes "[CMD] Unknown: relay1_on\r\n") := by decide
  refine ⟨?_, ?_, ?_, ?_, ?_, ?_, ?_⟩
  · rw [processCommand_log, t1, e1]
    simp [relayWrites_append, relayWrites, relayWrites_sendEvents]
  · rw [processCommand_log, t2, e2]
    simp [relayWrites_append, relayWrites, relayWrites_sendEvents]
  · rw [processCommand_log, t3, e3]
    simp [relayWrites_append, relayWrites, relayWrites_sendEvents]
  · rw [processCommand_log, t4, e4]
    simp [relayWrites_append, relayWrites, relayWrites_sendEvents]
  · rw [processCommand_log, t1, e1]
    simp
  · rw [processCommand_log, t5, e5]
    simp [relayWrites_append, relayWrites, relayWrites_sendEvents]
  · rw [processCommand_log, t5, e5]
    simp only [rs485Bytes_append, rs485Bytes_sendEvents]
    simp [rs485Bytes]

/-- C10, as amended. For every payload, `RG200U_ProcessCommand` performs a relay GPIO write if
and only if the token, that is the first min(len, 127) payload bytes cut at the first zero
byte, CR or LF, is exactly (case-sensitively, in full) one of RELAY1_ON, RELAY1_OFF,
RELAY2_ON, RELAY2_OFF. For every other payload no relay GPIO write is performed and the call
does just this: line to transmit, 1 ms, the text "[CMD] Unknown: <token>\r\n", 2 ms, line to
receive; the TCP state is left alone. -/
theorem processCommand_exact_match (w : World) (cmd_data : List Nat) (len : Nat) :
    (relayWrites (RG200U_ProcessCommand w cmd_data len).log ≠ relayWrites w.log
        ↔ commandToken cmd_data len ∈ commandTable)
      ∧ (commandToken cmd_data len ∉ commandTable →
          (RG200U_ProcessCommand w cmd_data len).log = w.log
            ++ [Event.gpio Pin.RS485_RE GPIO_PinState.GPIO_PIN_SET,
                Event.gpio Pin.RS485_DE GPIO_PinState.GPIO_PIN_SET, Event.delay 1]
            ++ sendEvents (bytes "[CMD] Unknown: " ++ commandToken cmd_data len ++ bytes "\r\n")
            ++ [Event.delay 2, Event.gpio Pin.RS485_RE GPIO_PinState.GPIO_PIN_RESET,
                Event.gpio Pin.RS485_DE GPIO_PinState.GPIO_PIN_SET])
      ∧ (RG200U_ProcessCommand w cmd_data len).tcp_state = w.tcp_state := by
  have hrel : relayWrites (RG200U_ProcessCommand w cmd_data len).log
      = relayWrites w.log ++ relayWrites (commandEvents (commandToken cmd_data len)) := by
    rw [processCommand_log]
    simp [relayWrites_append, relayWrites]
  obtain ⟨hin, hout⟩ := commandEvents_relay (commandToken cmd_data len)
  refine ⟨?_, ?_, ?_⟩
  · rw [hrel]
    constructor
    · intro hne
      by_contra hnot
      rw [(hout hnot).2, List.append_nil] at hne
      exact hne rfl
    · intro hmem
      obtain ⟨pin, level, hw⟩ := hin hmem
      rw [hw]
      intro heq
      have := congrArg List.length heq
      simp at this
  · intro hnot
    rw [processCommand_log, (hout hnot).1]
  · unfold RG200U_ProcessCommand
    simp only [RS485_SetReceiveMode, HAL_GPIO_WritePin, HAL_Delay_tcp_state]
    split_ifs <;>
      simp only [sendString_tcp_state, HAL_GPIO_WritePin, HAL_Delay_tcp_state,
        RS485_SetTransmitMode]

/-- C10 as stated fails: the payload "RELAY1_ON\r\nX" has no trailing line terminator, so
with its trailing line terminators removed it is still "RELAY1_ON\r\nX", which is none of the
four commands; yet `RG200U_ProcessCommand` sets relay K1 (it cuts the payload at the first
CR). -/
theorem processCommand_trailing_counterexample :
    stripTrailing (bytes "RELAY1_ON\r\nX") = bytes "RELAY1_ON\r\nX"
      ∧ stripTrailing (bytes "RELAY1_ON\r\nX") ∉ commandTable
      ∧ relayWrites (RG200U_ProcessCommand idleWorld (bytes "RELAY1_ON\r\nX") 12).log
          = [(Pin.RELAY_K1, GPIO_PinState.GPIO_PIN_SET)] := by
  refine ⟨by decide, by decide, by decide⟩


/-! ## RS-485 line driver: claims -/

theorem foldl_sendByte_fields (bs : List Nat) : ∀ w : World,
    (bs.foldl RS485_SendByte w).tick = w.tick ∧ (bs.foldl RS485_SendByte w).rx = w.rx
      ∧ (bs.foldl RS485_SendByte w).modem = w.modem := by
  induction bs with
  | nil => intro w; exact ⟨rfl, rfl, rfl⟩
  | cons b bs ih =>
    intro w
    rw [List.foldl_cons]
    exact ih (RS485_SendByte w b)

theorem lastWrite_sendEvents (pin : Pin) (bs : List Nat) (es : List Event) :
    lastWrite pin ((bs.map Event.rs485).reverse ++ es) = lastWrite pin es := by
  induction bs generalizing es with
  | nil => rfl
  | cons b bs ih =>
    rw [List.map_cons, List.reverse_cons, List.append_assoc, ih]
    rfl

theorem sendBuffer_log (w : World) (buf : List Nat) (len : Nat) :
    (RS485_SendBuffer w buf len).log = w.log
      ++ [Event.gpio Pin.RS485_RE GPIO_PinState.GPIO_PIN_SET,
          Event.gpio Pin.RS485_DE GPIO_PinState.GPIO_PIN_SET, Event.delay 1]
      ++ sendEvents (buf.take len)
      ++ [Event.delay 1, Event.gpio Pin.RS485_RE GPIO_PinState.GPIO_PIN_RESET,
          Event.gpio Pin.RS485_DE GPIO_PinState.GPIO_PIN_SET] := by
  unfold RS485_SendBuffer
  rw [setReceiveMode_log, HAL_Delay_log]
  have h : ∀ (v : World) (bs : List Nat), (bs.foldl RS485_SendByte v).log = v.log ++ sendEvents bs := by
    intro v bs
    unfold World.log sendEvents
    rw [foldl_sendByte_trace, List.reverse_append, List.reverse_reverse]
  rw [h, HAL_Delay_log, setTransmitMode_log]
  simp only [List.append_assoc, List.cons_append, List.nil_append]

theorem sendString_cycle_log (w : World) (str : List Nat) :
    (RS485_SendString w str).log = w.log
      ++ [Event.gpio Pin.RS485_RE GPIO_PinState.GPIO_PIN_SET,
          Event.gpio Pin.RS485_DE GPIO_PinState.GPIO_PIN_SET, Event.delay 1]
      ++ sendEvents (cstr str)
      ++ [Event.delay 1, Event.gpio Pin.RS485_RE GPIO_PinState.GPIO_PIN_RESET,
          Event.gpio Pin.RS485_DE GPIO_PinState.GPIO_PIN_SET] := by
  unfold RS485_SendString
  rw [setReceiveMode_log, HAL_Delay_log]
  have h : ∀ (v : World) (bs : List Nat), (bs.foldl RS485_SendByte v).log = v.log ++ sendEvents bs := by
    intro v bs
    unfold World.log sendEvents
    rw [foldl_sendByte_trace, List.reverse_append, List.reverse_reverse]
  rw [h, HAL_Delay_log, setTransmitMode_log]
  simp only [List.append_assoc, List.cons_append, List.nil_append]

theorem setReceiveMode_mode (w : World) : (RS485_SetReceiveMode w).receiveMode := by
  constructor <;> rfl

/-- C19, as amended. `RS485_SendString_NoDirChange` does not change the line direction: for
every string the levels of the receiver-enable and driver-enable pins after the call are those
before it, and its only effect is that the characters of the string are transmitted in
order. `RS485_SendBuffer` is not of that kind: like `RS485_SendString` it runs a full
direction cycle (transmit mode, 1 ms, the `len` bytes in order, 1 ms, receive mode) and
leaves the line in receive mode whatever the mode was before. -/
theorem rs485_direction_frame (w : World) (str buf : List Nat) (len : Nat) :
    ((RS485_SendString_NoDirChange w str).pinLevel Pin.RS485_RE = w.pinLevel Pin.RS485_RE
        ∧ (RS485_SendString_NoDirChange w str).pinLevel Pin.RS485_DE = w.pinLevel Pin.RS485_DE
        ∧ (RS485_SendString_NoDirChange w str).log = w.log ++ sendEvents (cstr str)
        ∧ (RS485_SendString_NoDirChange w str).tick = w.tick
        ∧ (RS485_SendString_NoDirChange w str).rx = w.rx
        ∧ (RS485_SendString_NoDirChange w str).modem = w.modem
        ∧ (RS485_SendString_NoDirChange w str).tcp_state = w.tcp_state)
      ∧ ((RS485_SendBuffer w buf len).log = w.log
            ++ [Event.gpio Pin.RS485_RE GPIO_PinState.GPIO_PIN_SET,
                Event.gpio Pin.RS485_DE GPIO_PinState.GPIO_PIN_SET, Event.delay 1]
            ++ sendEvents (buf.take len)
            ++ [Event.delay 1, Event.gpio Pin.RS485_RE GPIO_PinState.GPIO_PIN_RESET,
                Event.gpio Pin.RS485_DE GPIO_PinState.GPIO_PIN_SET]
        ∧ (RS485_SendBuffer w buf len).receiveMode) := by
  have hf := foldl_sendByte_fields (cstr str) w
  refine ⟨⟨?_, ?_, sendString_log w str, hf.1, hf.2.1, hf.2.2, sendString_tcp_state w str⟩,
    sendBuffer_log w buf len, setReceiveMode_mode _⟩
  · unfold World.pinLevel RS485_SendString_NoDirChange
    rw [foldl_sendByte_trace, lastWrite_sendEvents]
  · unfold World.pinLevel RS485_SendString_NoDirChange
    rw [foldl_sendByte_trace, lastWrite_sendEvents]

/-- C19 as stated fails for `RS485_SendBuffer`: called with the line in transmit mode
(RE# = 1), it returns with the line in receive mode (RE# = 0). -/
theorem sendBuffer_direction_counterexample :
    (RS485_SetTransmitMode idleWorld).pinLevel Pin.RS485_RE = some GPIO_PinState.GPIO_PIN_SET
      ∧ (RS485_SendBuffer (RS485_SetTransmitMode idleWorld) [65, 66] 2).pinLevel Pin.RS485_RE
          = some GPIO_PinState.GPIO_PIN_RESET
      ∧ (RS485_SendBuffer (RS485_SetTransmitMode idleWorld) [65, 66] 2).pinLevel Pin.RS485_RE
          ≠ (RS485_SetTransmitMode idleWorld).pinLevel Pin.RS485_RE := by
  refine ⟨by decide, by decide, by decide⟩

/-- C20. `RS485_SendString` owns the full direction cycle: for every zero-terminated string the
call sets transmit mode (RE# = 1, SHDN# = 1), waits 1 ms, transmits exactly the characters of
the string in order, waits 1 ms, sets receive mode (RE# = 0, SHDN# = 1), and does nothing
else; it ends with the line in receive mode whatever the mode was before the call. -/
theorem sendString_direction_cycle (w : World) (str : List Nat) :
    (RS485_SendString w str).log = w.log
        ++ [Event.gpio Pin.RS485_RE GPIO_PinState.GPIO_PIN_SET,
            Event.gpio Pin.RS485_DE GPIO_PinState.GPIO_PIN_SET, Event.delay 1]
        ++ sendEvents (cstr str)
        ++ [Event.delay 1, Event.gpio Pin.RS485_RE GPIO_PinState.GPIO_PIN_RESET,
            Event.gpio Pin.RS485_DE GPIO_PinState.GPIO_PIN_SET]
      ∧ (RS485_SendString w str).pinLevel Pin.RS485_RE = some GPIO_PinState.GPIO_PIN_RESET
      ∧ (RS485_SendString w str).pinLevel Pin.RS485_DE = some GPIO_PinState.GPIO_PIN_SET
      ∧ rs485Bytes (RS485_SendString w str).log = rs485Bytes w.log ++ cstr str
      ∧ (HAL_Delay (RS485_SetTransmitMode w) 1).transmitMode := by
  refine ⟨sendString_cycle_log w str, rfl, rfl, ?_, ?_⟩
  · rw [sendString_cycle_log]
    simp only [rs485Bytes_append, rs485Bytes_sendEvents]
    simp [rs485Bytes]
  · constructor
    · unfold World.pinLevel
      rw [HAL_Delay_trace]
      rfl
    · unfold World.pinLevel
      rw [HAL_Delay_trace]
      rfl

/-! ## AT engine: the silent modem -/

/-- C14. Timeout of the AT engine: against a modem that never sends a byte,
`RG200U_SendATCommand("AT\r\n", response, 2000)` sends the command once, returns 0 with an
empty response, and returns exactly 2000 ms after the call (each `HAL_Delay(1)` taken to last
1 ms), hence no earlier than 1990 ms and no later than 2100 ms; bytes left unread in the ring
by earlier traffic do not change this. -/
theorem sendATCommand_timeout (w : World) (hsilent : ∀ x ∈ w.modem, x = []) :
    (RG200U_SendATCommand w (bytes "AT\r\n") 2000).ret = 0
      ∧ (RG200U_SendATCommand w (bytes "AT\r\n") 2000).response = []
      ∧ (RG200U_SendATCommand w (bytes "AT\r\n") 2000).world.tick = w.tick + 2000
      ∧ 1990 ≤ (RG200U_SendATCommand w (bytes "AT\r\n") 2000).world.tick - w.tick
      ∧ (RG200U_SendATCommand w (bytes "AT\r\n") 2000).world.tick - w.tick ≤ 2100
      ∧ uart5Sent (RG200U_SendATCommand w (bytes "AT\r\n") 2000).world.trace
          = bytes "AT\r\n" :: uart5Sent w.trace := by
  have hq : ∀ x ∈ w.modem.take 2000, x = [] := fun x hx => hsilent x (List.mem_of_mem_take hx)
  rw [sendATCommand_silent w (bytes "AT\r\n") 2000 (by norm_num) hq]
  refine ⟨rfl, rfl, rfl, by simp, by simp, ?_⟩
  show uart5Sent (List.replicate 2000 (Event.delay 1)
      ++ Event.uart5 (cstr (bytes "AT\r\n")) :: w.trace) = _
  have hrep : ∀ (n : Nat) (es : List Event),
      uart5Sent (List.replicate n (Event.delay 1) ++ es) = uart5Sent es := by
    intro n es
    induction n with
    | zero => rfl
    | succ n ih => rw [List.replicate_succ, List.cons_append]; exact ih
  rw [hrep]
  rfl

theorem sendATCommand_timeout_witness :
    (∀ x ∈ idleWorld.modem, x = [])
      ∧ (RG200U_SendATCommand idleWorld (bytes "AT\r\n") 2000).ret = 0
      ∧ (RG200U_SendATCommand idleWorld (bytes "AT\r\n") 2000).response = []
      ∧ (RG200U_SendATCommand idleWorld (bytes "AT\r\n") 2000).world.tick = idleWorld.tick + 2000 :=
  ⟨by decide, (sendATCommand_timeout idleWorld (by decide)).1,
    (sendATCommand_timeout idleWorld (by decide)).2.1,
    (sendATCommand_timeout idleWorld (by decide)).2.2.1⟩


/-! ## AT engine: the bounded response buffer -/

theorem sendATCommand_poll (w : World) (cmd : List Nat) (timeout : Nat)
    (htimeout : timeout < 2 ^ 32) :
    (RG200U_SendATCommand w cmd timeout).ret = 1 ↔
      ∃ k, 1 ≤ k ∧ k ≤ timeout ∧ textHasTerminator (accumulated w cmd k) :=
  atLoop_iff_poll w.tick timeout htimeout timeout
    (HAL_UART_Transmit { w with rx := w.rx.flush } (cstr cmd)) []
    (le_refl _) (by show w.tick - w.tick + timeout = timeout; omega) (by decide)

theorem atLoop_length (start timeout : Nat) : ∀ (fuel : Nat) (w : World) (resp : List Nat),
    resp.length ≤ 511 → (atLoop fuel w start timeout resp).response.length ≤ 511 := by
  intro fuel
  induction fuel with
  | zero => intro w resp h; simpa [atLoop] using h
  | succ fuel ih =>
    intro w resp h
    rw [atLoop]
    split
    · rcases hrb : w.receiveByte.2 with _ | data
      · have hpair : w.receiveByte = (w.receiveByte.1, none) := by rw [← hrb]
        rw [hpair]
        exact ih _ _ h
      · have hpair : w.receiveByte = (w.receiveByte.1, some data) := by rw [← hrb]
        rw [hpair]
        simp only []
        have hlen' : ∀ (hl : resp.length < AT_RESPONSE_BUF_SIZE - 1), (resp ++ [data]).length ≤ 511 := by
          intro hl
          rw [List.length_append, List.length_singleton]
          have : AT_RESPONSE_BUF_SIZE - 1 = 511 := rfl
          omega
        split
        · rename_i hl
          split
          · exact hlen' hl
          · exact ih _ _ (hlen' hl)
        · exact ih _ _ h
    · exact h

theorem pollStep_takeStep (p q : World × List Nat) (h1 : p.1 = q.1)
    (h2 : p.2 = q.2.take 511) :
    (pollStep p).1 = (takeStep q).1 ∧ (pollStep p).2 = (takeStep q).2.take 511 := by
  unfold pollStep takeStep
  rw [h1]
  rcases hrb : q.1.receiveByte.2 with _ | data
  · exact ⟨rfl, h2⟩
  · simp only []
    have h511 : AT_RESPONSE_BUF_SIZE - 1 = 511 := rfl
    rw [h511]
    by_cases hl : p.2.length < 511
    · rw [if_pos hl]
      refine ⟨rfl, ?_⟩
      have hlt : q.2.length < 511 := by
        by_contra hge
        rw [h2, List.length_take] at hl
        omega
      show p.2 ++ [data] = (q.2 ++ [data]).take 511
      rw [h2, List.take_of_length_le (by omega), List.take_of_length_le]
      rw [List.length_append, List.length_singleton]
      omega
    · rw [if_neg hl]
      refine ⟨rfl, ?_⟩
      have hge : 511 ≤ q.2.length := by
        rw [h2, List.length_take] at hl
        omega
      show p.2 = (q.2 ++ [data]).take 511
      rw [h2, List.take_append_of_le_length hge]

theorem poll_take (k : Nat) (x : World × List Nat) (hx : x.2 = []) :
    (pollStep^[k] x).1 = (takeStep^[k] x).1
      ∧ (pollStep^[k] x).2 = (takeStep^[k] x).2.take 511 := by
  induction k with
  | zero => simp [hx]
  | succ k ih =>
    rw [Function.iterate_succ_apply', Function.iterate_succ_apply']
    exact pollStep_takeStep _ _ ih.1 ih.2

theorem accumulated_eq_take (w : World) (cmd : List Nat) (k : Nat) :
    accumulated w cmd k = (taken w cmd k).take 511 :=
  (poll_take k _ rfl).2

theorem takeStep_mono (x : World × List Nat) : x.2 <+: (takeStep x).2 := by
  unfold takeStep
  rcases x.1.receiveByte.2 with _ | data
  · exact List.prefix_refl _
  · exact List.prefix_append _ _

theorem taken_mono (w : World) (cmd : List Nat) (j k : Nat) (h : j ≤ k) :
    taken w cmd j <+: taken w cmd k := by
  unfold taken
  induction k with
  | zero =>
    have : j = 0 := by omega
    subst this
    exact List.prefix_refl _
  | succ k ih =>
    by_cases hj : j = k + 1
    · subst hj; exact List.prefix_refl _
    · rw [Function.iterate_succ_apply']
      exact List.IsPrefix.trans (ih (by omega)) (takeStep_mono _)

theorem text_imp_bytes (a b : List Nat) (h : textHasTerminator a) (hab : a <+: b) :
    bytesHaveTerminator b := by
  have hpre : cstr a <+: a := cstr_prefix a
  have hsub : cstr a <:+: b := List.IsInfix.trans hpre.isInfix hab.isInfix
  rcases h with h | h
  · exact Or.inl (List.IsInfix.trans h hsub)
  · exact Or.inr (List.IsInfix.trans h hsub)

/-- Whatever ends the response loop of `RG200U_SendATCommand`, the response it leaves is what
some number of polls (at most the fuel) accumulates. -/
theorem atLoop_response_poll (start timeout : Nat) :
    ∀ (fuel : Nat) (w : World) (resp : List Nat),
      ∃ k, k ≤ fuel ∧ (atLoop fuel w start timeout resp).response = (pollStep^[k] (w, resp)).2 := by
  intro fuel
  induction fuel with
  | zero => intro w resp; exact ⟨0, le_rfl, rfl⟩
  | succ fuel ih =>
    intro w resp
    have hshift : ∀ (q : World × List Nat), pollStep (w, resp) = q →
        (∃ k, k ≤ fuel ∧ (atLoop fuel q.1 start timeout q.2).response = (pollStep^[k] q).2) →
        ∃ k, k ≤ fuel + 1
          ∧ (atLoop fuel q.1 start timeout q.2).response = (pollStep^[k] (w, resp)).2 := by
      rintro q hq ⟨k, hk, h⟩
      refine ⟨k + 1, by omega, ?_⟩
      rw [Function.iterate_succ_apply, hq]
      exact h
    rw [atLoop]
    by_cases hcond : tickDiff (HAL_GetTick w) start < timeout
    · rw [if_pos hcond]
      rcases hrb : w.receiveByte.2 with _ | data
      · have hpair : w.receiveByte = (w.receiveByte.1, none) := by rw [← hrb]
        have hq : pollStep (w, resp) = (HAL_Delay w.receiveByte.1 1, resp) := by
          simp only [pollStep, hrb]
        rw [hpair]
        exact hshift _ hq (ih _ _)
      · have hpair : w.receiveByte = (w.receiveByte.1, some data) := by rw [← hrb]
        rw [hpair]
        simp only []
        by_cases hlen : resp.length < AT_RESPONSE_BUF_SIZE - 1
        · have hq : pollStep (w, resp) = (HAL_Delay w.receiveByte.1 1, resp ++ [data]) := by
            simp only [pollStep, hrb, if_pos hlen]
          rw [if_pos hlen]
          by_cases hterm : ((strstr (resp ++ [data]) (bytes "OK\r\n")).isSome
                || (strstr (resp ++ [data]) (bytes "ERROR\r\n")).isSome) = true
          · rw [if_pos hterm]
            refine ⟨1, by omega, ?_⟩
            rw [Function.iterate_one, hq]
          · rw [if_neg hterm]
            exact hshift _ hq (ih _ _)
        · have hq : pollStep (w, resp) = (HAL_Delay w.receiveByte.1 1, resp) := by
            simp only [pollStep, hrb, if_neg hlen]
          rw [if_neg hlen]
          exact hshift _ hq (ih _ _)
    · rw [if_neg hcond]
      exact ⟨0, by omega, rfl⟩

/-- When no poll within the time budget leaves a terminator, the response loop of
`RG200U_SendATCommand` runs all its polls and leaves what they accumulate. -/
theorem atLoop_timeout_poll (t0 timeout : Nat) (htimeout : timeout < 2 ^ 32) :
    ∀ (fuel : Nat) (w : World) (resp : List Nat),
      t0 ≤ w.tick → (w.tick - t0) + fuel = timeout →
      (∀ k, 1 ≤ k → k ≤ fuel → ¬ textHasTerminator (pollStep^[k] (w, resp)).2) →
      (atLoop fuel w (t0 % 2 ^ 32) timeout resp).response = (pollStep^[fuel] (w, resp)).2 := by
  intro fuel
  induction fuel with
  | zero => intro w resp _ _ _; rfl
  | succ fuel ih =>
    intro w resp h0 he hno
    have hcond : tickDiff (HAL_GetTick w) (t0 % 2 ^ 32) < timeout := by
      have hw : w.tick = t0 + (w.tick - t0) := by omega
      unfold HAL_GetTick
      rw [hw, tickDiff_elapsed t0 _ (by omega)]
      omega
    have hnext : ∀ (q : World × List Nat), pollStep (w, resp) = q →
        q.1 = HAL_Delay w.receiveByte.1 1 →
        (atLoop fuel q.1 (t0 % 2 ^ 32) timeout q.2).response
          = (pollStep^[fuel + 1] (w, resp)).2 := by
      intro q hq hq1
      rw [Function.iterate_succ_apply, hq]
      refine ih q.1 q.2 (by rw [hq1, HAL_Delay_tick, receiveByte_tick]; omega)
        (by rw [hq1, HAL_Delay_tick, receiveByte_tick]; omega) ?_
      intro k h1 h2
      have := hno (k + 1) (by omega) (by omega)
      rw [Function.iterate_succ_apply, hq] at this
      exact this
    have hone : ¬ textHasTerminator (pollStep (w, resp)).2 := by
      have := hno 1 le_rfl (by omega)
      rw [Function.iterate_one] at this
      exact this
    rw [atLoop, if_pos hcond]
    rcases hrb : w.receiveByte.2 with _ | data
    · have hpair : w.receiveByte = (w.receiveByte.1, none) := by rw [← hrb]
      have hq : pollStep (w, resp) = (HAL_Delay w.receiveByte.1 1, resp) := by
        simp only [pollStep, hrb]
      rw [hpair]
      exact hnext _ hq rfl
    · have hpair : w.receiveByte = (w.receiveByte.1, some data) := by rw [← hrb]
      rw [hpair]
      simp only []
      by_cases hlen : resp.length < AT_RESPONSE_BUF_SIZE - 1
      · have hq : pollStep (w, resp) = (HAL_Delay w.receiveByte.1 1, resp ++ [data]) := by
          simp only [pollStep, hrb, if_pos hlen]
        rw [if_pos hlen]
        have hterm : ¬ ((strstr (resp ++ [data]) (bytes "OK\r\n")).isSome
              || (strstr (resp ++ [data]) (bytes "ERROR\r\n")).isSome) = true := by
          intro h
          apply hone
          rw [hq]
          exact (textHasTerminator_iff _).2 h
        rw [if_neg hterm]
        exact hnext _ hq rfl
      · have hq : pollStep (w, resp) = (HAL_Delay w.receiveByte.1 1, resp) := by
          simp only [pollStep, hrb, if_neg hlen]
        rw [if_neg hlen]
        exact hnext _ hq rfl

set_option maxRecDepth 20000 in
/-- C13 as stated fails: the modem of `spliceStub` sends 408 bytes at twelve per millisecond,
none of which is followed by a terminator ("OK\r\n" and "ERROR\r\n" occur nowhere in the
stream, let alone in its first 511 bytes). The ring overflows and drops the eleven bytes
after each of 'O', 'K', CR, LF; the bytes the ring accepted end in "OK\r\n", and the call
returns 1. -/
theorem response_stream_counterexample :
    spliceStub.stream.length = 408
      ∧ ¬ bytesHaveTerminator (spliceStub.stream.take 511)
      ∧ (RG200U_SendATCommand spliceStub (bytes "AT\r\n") 2000).ret = 1 := by
  refine ⟨by decide, by decide, ?_⟩
  exact (sendATCommand_poll spliceStub (bytes "AT\r\n") 2000 (by norm_num)).2
    ⟨289, by decide, by decide, by decide!⟩

/-! ## Reading TCP data -/

/-- The receive loop of `RG200U_ReadTCPData` never stops for lack of fuel: fuel beyond the
remaining time changes nothing. -/
theorem readLoop_fuel (t0 extra : Nat) :
    ∀ (fuel : Nat) (w : World) (resp : List Nat),
      t0 ≤ w.tick → (w.tick - t0) + fuel = 2000 →
      readLoop (fuel + extra) w (t0 % 2 ^ 32) resp = readLoop fuel w (t0 % 2 ^ 32) resp := by
  intro fuel
  induction fuel with
  | zero =>
    intro w resp h0 he
    cases extra with
    | zero => rfl
    | succ k =>
      have hcond : ¬ (tickDiff (HAL_GetTick w) (t0 % 2 ^ 32) < 2000 ∧ resp.length < 512 - 1) := by
        have hw : w.tick = t0 + (w.tick - t0) := by omega
        unfold HAL_GetTick
        rw [hw, tickDiff_elapsed t0 _ (by norm_num; omega)]
        omega
      simp only [Nat.zero_add, readLoop, if_neg hcond]
  | succ fuel ih =>
    intro w resp h0 he
    have hnext : ∀ resp2, _ :=
      fun resp2 => ih (HAL_Delay w.receiveByte.1 1) resp2
        (by rw [HAL_Delay_tick, receiveByte_tick]; omega)
        (by rw [HAL_Delay_tick, receiveByte_tick]; omega)
    rw [show fuel + 1 + extra = (fuel + extra) + 1 by omega]
    simp only [readLoop, hnext]

/-- `RG200U_ReadTCPData` returns: its receive loop ends within the 2000 polls provided. -/
theorem readResponse_fuel (w : World) (max_len extra : Nat) :
    readLoop (2000 + extra) (readStart w max_len) (HAL_GetTick (readStart w max_len)) []
      = readResponse w max_len :=
  readLoop_fuel (readStart w max_len).tick extra 2000 (readStart w max_len) []
    (le_refl _) (by omega)

theorem copyLength_eq (actual_len : Nat) (data_len : Int) (max_len : Nat) (h : 0 < data_len) :
    copyLength actual_len data_len max_len = min (max actual_len data_len.toNat) max_len := by
  unfold copyLength
  simp only []
  split_ifs <;> omega

/-- C17, as amended. Whenever `RG200U_ReadTCPData` finds the header, the end of the header
line and the "\r\nOK" trailer, and the declared length as `sscanf` stores it into the 32-bit
`int data_len` is positive, the number of bytes it copies is
`min (max actual_len data_len) max_len`, where `actual_len` is the framing-derived length (the
bytes between the end of the header line and the trailer). So it is `min actual_len max_len`
only if the declared length does not exceed that; a larger declared length replaces the
framing-derived one (capped by `max_len`), however clear the framing is. The bytes copied are
those that follow the header line in the response array, and a zero byte is written after
them. `data_len` is the number written in the header whenever that number lies within the
range of `int`; a number outside it is first reduced to that range (`scanInt`). -/
theorem copy_length_rule (w : World) (max_len qird line_end actual_len : Nat) (data_len : Int)
    (rest : List Nat)
    (hqird : strstr (readResponse w max_len).2 (bytes "+QIRD:") = some qird)
    (hlen : scanInt (cstr ((readResponse w max_len).2.drop (qird + 7))) = some (data_len, rest))
    (hpos : 0 < data_len)
    (hline : strchr ((readResponse w max_len).2.drop qird) 10 = some line_end)
    (hok : strstr ((readResponse w max_len).2.drop (qird + line_end + 1)) (bytes "\r\nOK")
      = some actual_len) :
    (RG200U_ReadTCPData w max_len).copy_len = min (max actual_len data_len.toNat) max_len
      ∧ (data_len ≤ min actual_len max_len →
          (RG200U_ReadTCPData w max_len).copy_len = min actual_len max_len)
      ∧ (min actual_len max_len < data_len →
          (RG200U_ReadTCPData w max_len).copy_len = min data_len.toNat max_len)
      ∧ (RG200U_ReadTCPData w max_len).buffer
          = some (((responseArray (readResponse w max_len).2).drop (qird + line_end + 1)).take
              (RG200U_ReadTCPData w max_len).copy_len ++ [0])
      ∧ (-2147483648 ≤ data_len ∧ data_len ≤ 2147483647)
      ∧ (∀ written : Int, ∀ rest0 : List Nat,
          scanDecimal (cstr ((readResponse w max_len).2.drop (qird + 7))) = some (written, rest0) →
          data_len = longToInt (strtolClamp written)
            ∧ (-2147483648 ≤ written → written ≤ 2147483647 → data_len = written)) := by
  have hcopy : (RG200U_ReadTCPData w max_len).copy_len = copyLength actual_len data_len max_len
      ∧ (RG200U_ReadTCPData w max_len).buffer
          = some (((responseArray (readResponse w max_len).2).drop (qird + line_end + 1)).take
              (copyLength actual_len data_len max_len) ++ [0]) := by
    unfold RG200U_ReadTCPData parseQIRD
    rw [hqird]
    simp only []
    rw [hlen]
    simp only []
    rw [if_pos (show data_len > 0 from hpos), hline]
    simp only []
    rw [hok]
    exact ⟨rfl, rfl⟩
  have hstored : ∀ written : Int, ∀ rest0 : List Nat,
      scanDecimal (cstr ((readResponse w max_len).2.drop (qird + 7))) = some (written, rest0) →
      data_len = longToInt (strtolClamp written) := by
    intro written rest0 hdec
    unfold scanInt at hlen
    rw [hdec] at hlen
    simp only [Option.some.injEq, Prod.mk.injEq] at hlen
    exact hlen.1.symm
  have hrange : -2147483648 ≤ data_len ∧ data_len ≤ 2147483647 := by
    unfold scanInt at hlen
    cases hdec : scanDecimal (cstr ((readResponse w max_len).2.drop (qird + 7))) with
    | none => rw [hdec] at hlen; simp at hlen
    | some p =>
      rw [hdec] at hlen
      simp only [Option.some.injEq, Prod.mk.injEq] at hlen
      rw [← hlen.1]
      unfold longToInt
      omega
  rw [hcopy.1, hcopy.2, copyLength_eq _ _ _ hpos]
  refine ⟨rfl, ?_, ?_, rfl, hrange, ?_⟩
  · intro h; omega
  · intro h; omega
  · intro written rest0 hdec
    refine ⟨hstored written rest0 hdec, fun hlo hhi => ?_⟩
    rw [hstored written rest0 hdec, longToInt_strtolClamp written hlo hhi]

set_option maxRecDepth 20000 in
theorem copy_length_rule_witness :
    ((RG200U_ReadTCPData (replyStub (bytes "+QIRD: 2\r\nab\r\nOK\r\n")) 511).copy_len
        = min (max 2 (2 : Int).toNat) 511
      ∧ (RG200U_ReadTCPData (replyStub (bytes "+QIRD: 2\r\nab\r\nOK\r\n")) 511).buffer
        = some [97, 98, 0])
      ∧ (scanDecimal (bytes "4294967298\r\nabcdef\r\nOK\r\n")
          = some (4294967298, bytes "\r\nabcdef\r\nOK\r\n")
        ∧ scanInt (bytes "4294967298\r\nabcdef\r\nOK\r\n")
          = some (2, bytes "\r\nabcdef\r\nOK\r\n")
        ∧ (RG200U_ReadTCPData
            (replyStub (bytes "+QIRD: 4294967298\r\nabcdef\r\nOK\r\n")) 511).copy_len = 6) := by
  have h := copy_length_rule (replyStub (bytes "+QIRD: 2\r\nab\r\nOK\r\n")) 511 0 9 2 2
    (bytes "\r\nab\r\nOK\r\n") (by decide) (by decide) (by decide) (by decide) (by decide)
  have h2 := copy_length_rule (replyStub (bytes "+QIRD: 4294967298\r\nabcdef\r\nOK\r\n")) 511
    0 18 6 2 (bytes "\r\nabcdef\r\nOK\r\n")
    (by decide) (by decide) (by decide) (by decide) (by decide)
  exact ⟨⟨h.1, by decide⟩, by decide, by decide, h2.1⟩

set_option maxRecDepth 20000 in
/-- C17 as stated fails: the modem answers "+QIRD: 5\r\nab\r\nOK\r\n". The header line (ending at
offset 9) and the only "\r\nOK" trailer are both found, the framing-derived length is 2 and
`max_len` is 511, yet 5 bytes are copied: the payload, the CR LF of the trailer and its 'O'. -/
theorem copy_length_counterexample :
    strstr (readResponse (replyStub (bytes "+QIRD: 5\r\nab\r\nOK\r\n")) 511).2 (bytes "+QIRD:")
        = some 0
      ∧ strchr (readResponse (replyStub (bytes "+QIRD: 5\r\nab\r\nOK\r\n")) 511).2 10 = some 9
      ∧ strstr ((readResponse (replyStub (bytes "+QIRD: 5\r\nab\r\nOK\r\n")) 511).2.drop 10)
          (bytes "\r\nOK") = some 2
      ∧ (RG200U_ReadTCPData (replyStub (bytes "+QIRD: 5\r\nab\r\nOK\r\n")) 511).copy_len = 5
      ∧ (RG200U_ReadTCPData (replyStub (bytes "+QIRD: 5\r\nab\r\nOK\r\n")) 511).copy_len
          ≠ min 2 511
      ∧ (RG200U_ReadTCPData (replyStub (bytes "+QIRD: 5\r\nab\r\nOK\r\n")) 511).buffer
          = some [97, 98, 13, 10, 79, 0] := by
  decide

/-! ## Stale data in the ring -/

theorem push_sim (s1 s2 : Ring) (b : Nat) (h1 : s1.WF) (h2 : s2.WF)
    (hc : s1.contents = s2.contents) :
    (RG200U_UART_RxCallback s1 b).WF ∧ (RG200U_UART_RxCallback s2 b).WF
      ∧ (RG200U_UART_RxCallback s1 b).contents = (RG200U_UART_RxCallback s2 b).contents := by
  have hcount : s1.count = s2.count := by
    rw [← contents_length, ← contents_length, hc]
  by_cases hfull : s1.count = 255
  · rw [push_reject s1 b h1 hfull, push_reject s2 b h2 (hcount ▸ hfull)]
    exact ⟨h1, h2, hc⟩
  · obtain ⟨a1, _, a3, _⟩ := push_accept s1 b h1 hfull
    obtain ⟨b1, _, b3, _⟩ := push_accept s2 b h2 (hcount ▸ hfull)
    exact ⟨a1, b1, by rw [a3, b3, hc]⟩

theorem foldl_push_sim (bs : List Nat) : ∀ (s1 s2 : Ring), s1.WF → s2.WF →
    s1.contents = s2.contents →
    (bs.foldl RG200U_UART_RxCallback s1).WF ∧ (bs.foldl RG200U_UART_RxCallback s2).WF
      ∧ (bs.foldl RG200U_UART_RxCallback s1).contents
          = (bs.foldl RG200U_UART_RxCallback s2).contents := by
  induction bs with
  | nil => intro s1 s2 h1 h2 hc; exact ⟨h1, h2, hc⟩
  | cons b bs ih =>
    intro s1 s2 h1 h2 hc
    obtain ⟨a, b1, c⟩ := push_sim s1 s2 b h1 h2 hc
    exact ih _ _ a b1 c

theorem pop_sim (s1 s2 : Ring) (h1 : s1.WF) (h2 : s2.WF) (hc : s1.contents = s2.contents) :
    (RG200U_ReceiveByte s1).2 = (RG200U_ReceiveByte s2).2
      ∧ (RG200U_ReceiveByte s1).1.WF ∧ (RG200U_ReceiveByte s2).1.WF
      ∧ (RG200U_ReceiveByte s1).1.contents = (RG200U_ReceiveByte s2).1.contents := by
  have hcount : s1.count = s2.count := by
    rw [← contents_length, ← contents_length, hc]
  by_cases hempty : s1.count = 0
  · rw [pop_empty s1 ((count_eq_zero_iff s1 h1).1 hempty),
      pop_empty s2 ((count_eq_zero_iff s2 h2).1 (hcount ▸ hempty))]
    exact ⟨rfl, h1, h2, hc⟩
  · obtain ⟨a1, a2, _, a4, _⟩ := pop_nonempty s1 h1 hempty
    obtain ⟨b1, b2, _, b4, _⟩ := pop_nonempty s2 h2 (hcount ▸ hempty)
    rw [a4, b4] at hc
    injection hc with hhead htail
    exact ⟨by rw [a1, b1, hhead], a2, b2, htail⟩

theorem receiveByte_sim (a b : World) (h : a.sameUnread b) :
    a.receiveByte.2 = b.receiveByte.2 ∧ a.receiveByte.1.sameUnread b.receiveByte.1 := by
  obtain ⟨⟨ht, hs, hm, htr, h1, h2⟩, hc⟩ := h
  obtain ⟨p1, p2, p3, p4⟩ := pop_sim a.rx b.rx h1 h2 hc
  exact ⟨p1, ⟨ht, hs, hm, htr, p2, p3⟩, p4⟩

theorem millisecond_sim (a b : World) (h : a.sameUnread b) :
    (millisecond a).sameUnread (millisecond b) := by
  obtain ⟨⟨ht, hs, hm, htr, h1, h2⟩, hc⟩ := h
  have hf := foldl_push_sim (b.modem.headD []) a.rx b.rx h1 h2 hc
  refine ⟨⟨?_, hs, ?_, htr, ?_, hf.2.1⟩, ?_⟩
  · show a.tick + 1 = b.tick + 1
    rw [ht]
  · show a.modem.tail = b.modem.tail
    rw [hm]
  · show ((a.modem.headD []).foldl RG200U_UART_RxCallback a.rx).WF
    rw [hm]; exact hf.1
  · show ((a.modem.headD []).foldl RG200U_UART_RxCallback a.rx).contents = _
    rw [hm]; exact hf.2.2

theorem elapse_sim (ms : Nat) : ∀ (a b : World), a.sameUnread b →
    (elapse ms a).sameUnread (elapse ms b) := by
  induction ms with
  | zero => intro a b h; exact h
  | succ n ih => intro a b h; exact ih _ _ (millisecond_sim a b h)

theorem HAL_Delay_sim (a b : World) (ms : Nat) (h : a.sameUnread b) :
    (HAL_Delay a ms).sameUnread (HAL_Delay b ms) := by
  obtain ⟨⟨ht, hs, hm, htr, h1, h2⟩, hc⟩ := elapse_sim ms a b h
  refine ⟨⟨ht, hs, hm, ?_, h1, h2⟩, hc⟩
  show Event.delay ms :: (elapse ms a).trace = Event.delay ms :: (elapse ms b).trace
  rw [htr]

theorem atLoop_sim (start timeout : Nat) : ∀ (fuel : Nat) (a b : World) (resp : List Nat),
    a.sameUnread b →
    (atLoop fuel a start timeout resp).ret = (atLoop fuel b start timeout resp).ret
      ∧ (atLoop fuel a start timeout resp).response = (atLoop fuel b start timeout resp).response
      ∧ (atLoop fuel a start timeout resp).world.sameUnread
          (atLoop fuel b start timeout resp).world := by
  intro fuel
  induction fuel with
  | zero => intro a b resp h; exact ⟨rfl, rfl, h⟩
  | succ fuel ih =>
    intro a b resp h
    obtain ⟨hd, hw⟩ := receiveByte_sim a b h
    have hnext := fun r => ih _ _ r (HAL_Delay_sim _ _ 1 hw)
    have htick : HAL_GetTick a = HAL_GetTick b := by
      unfold HAL_GetTick; rw [h.1.1]
    rw [atLoop, atLoop, htick]
    split
    · rcases hrb : b.receiveByte.2 with _ | data
      · have hpa : a.receiveByte = (a.receiveByte.1, none) := by rw [← hrb, ← hd]
        have hpb : b.receiveByte = (b.receiveByte.1, none) := by rw [← hrb]
        rw [hpa, hpb]
        exact hnext resp
      · have hpa : a.receiveByte = (a.receiveByte.1, some data) := by rw [← hrb, ← hd]
        have hpb : b.receiveByte = (b.receiveByte.1, some data) := by rw [← hrb]
        rw [hpa, hpb]
        simp only []
        split
        · split
          · exact ⟨rfl, rfl, hw⟩
          · exact hnext _
        · exact hnext _
    · exact ⟨rfl, rfl, h⟩

theorem ite_rel {α : Type} (P : α → α → Prop) (c : Prop) [Decidable c] (x1 x2 y1 y2 : α)
    (hx : P x1 x2) (hy : P y1 y2) : P (if c then x1 else y1) (if c then x2 else y2) := by
  by_cases h : c
  · rw [if_pos h, if_pos h]; exact hx
  · rw [if_neg h, if_neg h]; exact hy

theorem ite_pred {α : Type} (P : α → Prop) (c : Prop) [Decidable c] (x y : α)
    (hx : P x) (hy : P y) : P (if c then x else y) := by
  by_cases h : c
  · rw [if_pos h]; exact hx
  · rw [if_neg h]; exact hy

theorem waitLoop_sim (expected : List Nat) (max_len timeout_ms start_time : Nat) :
    ∀ (fuel : Nat) (a b : World) (resp : List Nat) (found : Bool) (last : Nat),
    a.sameUnread b →
    (waitLoop fuel a expected max_len timeout_ms start_time resp found last).ret
        = (waitLoop fuel b expected max_len timeout_ms start_time resp found last).ret
      ∧ (waitLoop fuel a expected max_len timeout_ms start_time resp found last).response
        = (waitLoop fuel b expected max_len timeout_ms start_time resp found last).response
      ∧ (waitLoop fuel a expected max_len timeout_ms start_time resp found last).world.sameUnread
          (waitLoop fuel b expected max_len timeout_ms start_time resp found last).world := by
  intro fuel
  induction fuel with
  | zero => intro a b resp found last h; exact ⟨rfl, rfl, h⟩
  | succ fuel ih =>
    intro a b resp found last h
    obtain ⟨hd, hw⟩ := receiveByte_sim a b h
    have hnext := fun r f l => ih _ _ r f l (HAL_Delay_sim _ _ 1 hw)
    have htick : HAL_GetTick a = HAL_GetTick b := by
      unfold HAL_GetTick; rw [h.1.1]
    have htick1 : HAL_GetTick a.receiveByte.1 = HAL_GetTick b.receiveByte.1 := by
      unfold HAL_GetTick; rw [hw.1.1]
    rw [waitLoop, waitLoop, htick]
    by_cases hc : tickDiff (HAL_GetTick b) start_time < timeout_ms
    · rw [if_pos hc, if_pos hc]
      simp only [hd, htick1]
      rcases b.receiveByte.2 with _ | data
      · simp only []
        exact ite_rel (fun r1 r2 : ATResult => r1.ret = r2.ret ∧ r1.response = r2.response
          ∧ r1.world.sameUnread r2.world) _ _ _ _ _ ⟨rfl, rfl, hw⟩ (hnext _ _ _)
      · simp only []
        by_cases hroom : resp.length + 1 < max_len
        · simp only [if_pos hroom]
          exact ite_rel (fun r1 r2 : ATResult => r1.ret = r2.ret ∧ r1.response = r2.response
            ∧ r1.world.sameUnread r2.world) _ _ _ _ _ ⟨rfl, rfl, hw⟩ (hnext _ _ _)
        · simp only [if_neg hroom]
          exact ite_rel (fun r1 r2 : ATResult => r1.ret = r2.ret ∧ r1.response = r2.response
            ∧ r1.world.sameUnread r2.world) _ _ _ _ _ ⟨rfl, rfl, hw⟩ (hnext _ _ _)
    · rw [if_neg hc, if_neg hc]
      exact ⟨rfl, rfl, h⟩

theorem flush_sim (a b : World) (h : a.sameButRing b) :
    World.sameUnread { a with rx := a.rx.flush } { b with rx := b.rx.flush } := by
  obtain ⟨ht, hs, hm, htr, h1, h2⟩ := h
  obtain ⟨a1, _, a3⟩ := empty_count a.rx.flush rfl h1.1
  obtain ⟨b1, _, b3⟩ := empty_count b.rx.flush rfl h2.1
  exact ⟨⟨ht, hs, hm, htr, a1, b1⟩, by rw [a3, b3]⟩

theorem waitLoop_mono (expected : List Nat) (max_len timeout_ms start_time : Nat) :
    ∀ (fuel : Nat) (w : World) (resp : List Nat) (found : Bool) (last : Nat),
    resp <+: (waitLoop fuel w expected max_len timeout_ms start_time resp found last).response := by
  intro fuel
  induction fuel with
  | zero => intro w resp found last; exact List.prefix_refl _
  | succ fuel ih =>
    intro w resp found last
    rw [waitLoop]
    by_cases hc : tickDiff (HAL_GetTick w) start_time < timeout_ms
    · rw [if_pos hc]
      rcases w.receiveByte.2 with _ | data
      · simp only []
        exact ite_pred (fun r : ATResult => resp <+: r.response) _ _ _
          (List.prefix_refl _) (ih _ _ _ _)
      · simp only []
        by_cases hroom : resp.length + 1 < max_len
        · simp only [if_pos hroom]
          exact ite_pred (fun r : ATResult => resp <+: r.response) _ _ _
            (List.prefix_append _ _) (List.IsPrefix.trans (List.prefix_append _ _) (ih _ _ _ _))
        · simp only [if_neg hroom]
          exact ite_pred (fun r : ATResult => resp <+: r.response) _ _ _
            (List.prefix_refl _) (ih _ _ _ _)
    · rw [if_neg hc]

theorem push_contents_prefix (s : Ring) (b : Nat) (h : s.WF) :
    (RG200U_UART_RxCallback s b).WF ∧ s.contents <+: (RG200U_UART_RxCallback s b).contents := by
  by_cases hc : s.count = 255
  · rw [push_reject s b h hc]
    exact ⟨h, List.prefix_refl _⟩
  · obtain ⟨a1, _, a3, _⟩ := push_accept s b h hc
    exact ⟨a1, by rw [a3]; exact List.prefix_append _ _⟩

theorem foldl_push_prefix (bs : List Nat) : ∀ (s : Ring), s.WF →
    (bs.foldl RG200U_UART_RxCallback s).WF
      ∧ s.contents <+: (bs.foldl RG200U_UART_RxCallback s).contents := by
  induction bs with
  | nil => intro s h; exact ⟨h, List.prefix_refl _⟩
  | cons b bs ih =>
    intro s h
    obtain ⟨a1, a2⟩ := push_contents_prefix s b h
    obtain ⟨b1, b2⟩ := ih _ a1
    exact ⟨b1, a2.trans b2⟩

/-- The bytes unread before a delay are still the oldest unread bytes after it. -/
theorem elapse_prefix (ms : Nat) : ∀ (w : World), w.rx.WF →
    (elapse ms w).rx.WF ∧ w.rx.contents <+: (elapse ms w).rx.contents := by
  induction ms with
  | zero => intro w h; exact ⟨h, List.prefix_refl _⟩
  | succ n ih =>
    intro w h
    obtain ⟨a1, a2⟩ := foldl_push_prefix (w.modem.headD []) w.rx h
    obtain ⟨b1, b2⟩ := ih (millisecond w) a1
    exact ⟨b1, a2.trans b2⟩

theorem tickDiff_self (w : World) : tickDiff (HAL_GetTick w) (HAL_GetTick w) = 0 := by
  unfold tickDiff HAL_GetTick
  rw [show w.tick % 2 ^ 32 + 2 ^ 32 - w.tick % 2 ^ 32 = 2 ^ 32 by omega, Nat.mod_self]

/-- The wait reads the ring from its oldest unread byte on, one byte per poll: the bytes
unread when a poll starts are the next bytes of the response, as many of them as the room
left in the response and the polls left before the timeout allow. -/
theorem waitLoop_stale (e : List Nat) (max_len timeout_ms t0 : Nat)
    (htimeout : timeout_ms < 2 ^ 32) :
    ∀ (fuel : Nat) (w : World) (resp c : List Nat) (found : Bool) (last : Nat),
      t0 ≤ w.tick → (w.tick - t0) + fuel = timeout_ms → w.rx.WF → c <+: w.rx.contents →
      resp ++ c.take (min (max_len - 1 - resp.length) fuel)
        <+: (waitLoop fuel w e max_len timeout_ms (t0 % 2 ^ 32) resp found last).response := by
  intro fuel
  induction fuel with
  | zero =>
    intro w resp c found last _ _ _ _
    simp [waitLoop]
  | succ fuel ih =>
    intro w resp c found last h0 he hwf hc
    have hcond : tickDiff (HAL_GetTick w) (t0 % 2 ^ 32) < timeout_ms := by
      have hw : w.tick = t0 + (w.tick - t0) := by omega
      unfold HAL_GetTick
      rw [hw, tickDiff_elapsed t0 _ (by omega)]
      omega
    have hmono := waitLoop_mono e max_len timeout_ms (t0 % 2 ^ 32) (fuel + 1) w resp found last
    by_cases hempty : w.rx.read_index = w.rx.write_index
    · -- nothing unread: nothing to account for
      have hnil : c = [] := by
        obtain ⟨_, _, h3⟩ := empty_count w.rx hempty hwf.1
        rw [h3] at hc
        exact List.prefix_nil.1 hc
      rw [hnil, List.take_nil, List.append_nil]
      exact hmono
    · by_cases hroom : resp.length + 1 < max_len
      · have hne : w.rx.count ≠ 0 := fun h => hempty ((count_eq_zero_iff w.rx hwf).1 h)
        obtain ⟨p1, p2, _, p4, _⟩ := pop_nonempty w.rx hwf hne
        have hrb : w.receiveByte.2 = some (w.rx.buffer w.rx.read_index) := p1
        have hquiet : ¬ ((found || (strstr (resp ++ [w.rx.buffer w.rx.read_index]) e).isSome)
            && decide (tickDiff (HAL_GetTick w.receiveByte.1) (HAL_GetTick w.receiveByte.1)
                > 100)) = true := by
          rw [tickDiff_self]
          simp
        have hrun : waitLoop (fuel + 1) w e max_len timeout_ms (t0 % 2 ^ 32) resp found last
            = waitLoop fuel (HAL_Delay w.receiveByte.1 1) e max_len timeout_ms (t0 % 2 ^ 32)
                (resp ++ [w.rx.buffer w.rx.read_index])
                (found || (strstr (resp ++ [w.rx.buffer w.rx.read_index]) e).isSome)
                (HAL_GetTick w.receiveByte.1) := by
          rw [waitLoop, if_pos hcond]
          simp only [hrb, if_pos hroom]
          rw [if_neg hquiet]
        rcases c with _ | ⟨d, c2⟩
        · rw [List.take_nil, List.append_nil]
          exact hmono
        · have hd : d = w.rx.buffer w.rx.read_index ∧ c2 <+: (RG200U_ReceiveByte w.rx).1.contents := by
            rw [p4] at hc
            exact List.cons_prefix_cons.1 hc
          obtain ⟨q1, q2⟩ := elapse_prefix 1 w.receiveByte.1 p2
          have hstep := ih (HAL_Delay w.receiveByte.1 1) (resp ++ [w.rx.buffer w.rx.read_index])
            c2 (found || (strstr (resp ++ [w.rx.buffer w.rx.read_index]) e).isSome)
            (HAL_GetTick w.receiveByte.1)
            (by rw [HAL_Delay_tick, receiveByte_tick]; omega)
            (by rw [HAL_Delay_tick, receiveByte_tick]; omega)
            q1 (hd.2.trans q2)
          rw [hrun]
          have hmin : min (max_len - 1 - resp.length) (fuel + 1)
              = min (max_len - 1 - (resp ++ [w.rx.buffer w.rx.read_index]).length) fuel + 1 := by
            rw [List.length_append, List.length_singleton]
            omega
          rw [hmin, List.take_succ_cons, hd.1]
          rw [List.append_assoc] at hstep
          exact hstep
      · have hzero : min (max_len - 1 - resp.length) (fuel + 1) = 0 := by omega
        rw [hzero, List.take_zero, List.append_nil]
        exact hmono

/-- C11, as amended. `RG200U_SendATCommand` discards whatever is unread in the modem ring when
it starts: two runs from worlds that differ only in the ring (storage, indices, unread
bytes) return the same flag and the same response, and end in worlds that again hold the
same unread bytes. `RG200U_WaitForResponse` discards nothing: two runs return the same flag
and response if the two rings hold the same unread bytes, and the response begins with the
bytes that were unread at the start, as many of them as the response buffer (`max_len - 1`
bytes) and the timeout (one byte per millisecond) let it take; so with all of them, if they
are no more than that. -/
theorem stale_data_discard (a b : World) (cmd expected : List Nat)
    (timeout max_len timeout_ms : Nat) (hring : a.sameButRing b) :
    ((RG200U_SendATCommand a cmd timeout).ret = (RG200U_SendATCommand b cmd timeout).ret
        ∧ (RG200U_SendATCommand a cmd timeout).response
            = (RG200U_SendATCommand b cmd timeout).response
        ∧ (RG200U_SendATCommand a cmd timeout).world.sameUnread
            (RG200U_SendATCommand b cmd timeout).world)
      ∧ (a.rx.contents = b.rx.contents →
          (RG200U_WaitForResponse a expected max_len timeout_ms).ret
              = (RG200U_WaitForResponse b expected max_len timeout_ms).ret
            ∧ (RG200U_WaitForResponse a expected max_len timeout_ms).response
              = (RG200U_WaitForResponse b expected max_len timeout_ms).response
            ∧ (RG200U_WaitForResponse a expected max_len timeout_ms).world.sameUnread
              (RG200U_WaitForResponse b expected max_len timeout_ms).world)
      ∧ (timeout_ms < 2 ^ 32 →
          a.rx.contents.take (min (max_len - 1) timeout_ms)
              <+: (RG200U_WaitForResponse a expected max_len timeout_ms).response
            ∧ (a.rx.contents.length ≤ min (max_len - 1) timeout_ms →
              a.rx.contents <+: (RG200U_WaitForResponse a expected max_len timeout_ms).response)) := by
  refine ⟨?_, ?_, ?_⟩
  · have hflush := flush_sim a b hring
    have htx : (HAL_UART_Transmit { a with rx := a.rx.flush } (cstr cmd)).sameUnread
        (HAL_UART_Transmit { b with rx := b.rx.flush } (cstr cmd)) := by
      obtain ⟨⟨ht, hs, hm, htr, h1, h2⟩, hc⟩ := hflush
      refine ⟨⟨ht, hs, hm, ?_, h1, h2⟩, hc⟩
      show Event.uart5 (cstr cmd) :: a.trace = Event.uart5 (cstr cmd) :: b.trace
      rw [hring.2.2.2.1]
    have htick : HAL_GetTick a = HAL_GetTick b := by
      unfold HAL_GetTick; rw [hring.1]
    unfold RG200U_SendATCommand
    simp only [htick]
    exact atLoop_sim _ _ _ _ _ _ htx
  · intro hc
    have htick : HAL_GetTick a = HAL_GetTick b := by
      unfold HAL_GetTick; rw [hring.1]
    unfold RG200U_WaitForResponse
    rw [htick]
    exact waitLoop_sim _ _ _ _ _ _ _ _ _ _ ⟨hring, hc⟩
  · intro h32
    have h := waitLoop_stale (cstr expected) max_len timeout_ms a.tick h32 timeout_ms a []
      a.rx.contents false 0 (le_refl _)
      (by show a.tick - a.tick + timeout_ms = timeout_ms; omega)
      hring.2.2.2.2.1 (List.prefix_refl _)
    rw [List.nil_append, List.length_nil, Nat.sub_zero] at h
    have hfirst : a.rx.contents.take (min (max_len - 1) timeout_ms)
        <+: (RG200U_WaitForResponse a expected max_len timeout_ms).response := h
    refine ⟨hfirst, fun hfit => ?_⟩
    rw [List.take_of_length_le hfit] at hfirst
    exact hfirst

set_option maxRecDepth 20000 in
theorem stale_data_discard_witness :
    (atStub.withUnread (bytes "+QIOPEN: 0,0\r\n")).sameButRing atStub
      ∧ (RG200U_SendATCommand (atStub.withUnread (bytes "+QIOPEN: 0,0\r\n")) (bytes "AT\r\n")
          2000).response = (RG200U_SendATCommand atStub (bytes "AT\r\n") 2000).response
      ∧ (RG200U_SendATCommand atStub (bytes "AT\r\n") 2000).response = bytes "AT\r\nOK\r\n"
      ∧ (atStub.withUnread (bytes "+QIOPEN: 0,0\r\n")).rx.contents = bytes "+QIOPEN: 0,0\r\n"
      ∧ bytes "+QIOPEN: 0,0\r\n"
          <+: (RG200U_WaitForResponse (atStub.withUnread (bytes "+QIOPEN: 0,0\r\n"))
                (bytes "+QIOPEN:") 512 30000).response :=
  ⟨⟨rfl, rfl, rfl, rfl, ⟨by decide, by decide⟩, ⟨by decide, by decide⟩⟩,
    (stale_data_discard (atStub.withUnread (bytes "+QIOPEN: 0,0\r\n")) atStub (bytes "AT\r\n")
      (bytes "+QIOPEN:") 2000 512 30000
      ⟨rfl, rfl, rfl, rfl, ⟨by decide, by decide⟩, ⟨by decide, by decide⟩⟩).1.2.1,
    by decide, by decide,
    (show (atStub.withUnread (bytes "+QIOPEN: 0,0\r\n")).rx.contents = bytes "+QIOPEN: 0,0\r\n"
      by decide) ▸
    ((stale_data_discard (atStub.withUnread (bytes "+QIOPEN: 0,0\r\n")) atStub (bytes "AT\r\n")
      (bytes "+QIOPEN:") 2000 512 30000
      ⟨rfl, rfl, rfl, rfl, ⟨by decide, by decide⟩, ⟨by decide, by decide⟩⟩).2.2
        (by norm_num)).2 (by decide)⟩

set_option maxRecDepth 100000 in
set_option maxHeartbeats 4000000 in
/-- C11 as stated fails for `RG200U_WaitForResponse`: two worlds with a silent modem that
differ only in the ring, which in one of them holds an unread "+QIOPEN: 0,0\r\n" left over
from before. The wait returns 1 with those stale bytes as its response in the one, and 0
with an empty response in the other. -/
theorem waitForResponse_stale_counterexample :
    (idleWorld.withUnread (bytes "+QIOPEN: 0,0\r\n")).sameButRing idleWorld
      ∧ (RG200U_WaitForResponse (idleWorld.withUnread (bytes "+QIOPEN: 0,0\r\n"))
          (bytes "+QIOPEN:") 512 200).ret = 1
      ∧ (RG200U_WaitForResponse (idleWorld.withUnread (bytes "+QIOPEN: 0,0\r\n"))
          (bytes "+QIOPEN:") 512 200).response = bytes "+QIOPEN: 0,0\r\n"
      ∧ (RG200U_WaitForResponse idleWorld (bytes "+QIOPEN:") 512 200).ret = 0
      ∧ (RG200U_WaitForResponse idleWorld (bytes "+QIOPEN:") 512 200).response = [] :=
  ⟨⟨rfl, rfl, rfl, rfl, ⟨by decide, by decide⟩, ⟨by decide, by decide⟩⟩,
    by decide, by decide, by decide, by decide⟩

/-! ## Waiting for a notification: the quiet period -/

theorem waitTake_world (max_len : Nat) (s : WaitState) :
    (waitTake max_len s).world = s.world.receiveByte.1 := by
  unfold waitTake
  rcases s.world.receiveByte.2 with _ | data
  · rfl
  · simp only []
    split <;> rfl

/-- One round of the loop of `RG200U_WaitForResponse`, in terms of `waitTake`: the flag
`found` says that the text stored holds the expected string, and `last_rx_time` is the tick
`quiet` ms ago. -/
theorem waitLoop_step (e : List Nat) (max_len timeout_ms t0 : Nat)
    (htimeout : timeout_ms < 2 ^ 32) (fuel : Nat) (s : WaitState) (found : Bool) (last : Nat)
    (h0 : t0 ≤ s.world.tick) (hlt : s.world.tick - t0 < timeout_ms)
    (hfound : found = true ↔ e <:+: cstr s.stored)
    (hlast : found = true → last = (s.world.tick - s.quiet) % 2 ^ 32
      ∧ s.quiet ≤ s.world.tick - t0) :
    ∃ (found2 : Bool) (last2 : Nat),
      (found2 = true ↔ e <:+: cstr (waitTake max_len s).stored)
      ∧ (found2 = true → last2 = ((waitTake max_len s).world.tick - (waitTake max_len s).quiet)
            % 2 ^ 32 ∧ (waitTake max_len s).quiet ≤ (waitTake max_len s).world.tick - t0)
      ∧ ((found2 && decide (tickDiff (HAL_GetTick (waitTake max_len s).world) last2 > 100)) = true
          ↔ (e <:+: cstr (waitTake max_len s).stored ∧ 100 < (waitTake max_len s).quiet))
      ∧ waitLoop (fuel + 1) s.world e max_len timeout_ms (t0 % 2 ^ 32) s.stored found last
        = if (found2 && decide (tickDiff (HAL_GetTick (waitTake max_len s).world) last2 > 100))
              = true then
            { world := (waitTake max_len s).world, ret := 1,
              response := (waitTake max_len s).stored }
          else
            waitLoop fuel (HAL_Delay (waitTake max_len s).world 1) e max_len timeout_ms
              (t0 % 2 ^ 32) (waitTake max_len s).stored found2 last2 := by
  have hguard : tickDiff (HAL_GetTick s.world) (t0 % 2 ^ 32) < timeout_ms := by
    have hw : s.world.tick = t0 + (s.world.tick - t0) := by omega
    unfold HAL_GetTick
    rw [hw, tickDiff_elapsed t0 _ (by omega)]
    exact hlt
  have hquiet : ∀ (w1 : World) (q : Nat), w1.tick = s.world.tick → q ≤ w1.tick - t0 →
      tickDiff (HAL_GetTick w1) ((w1.tick - q) % 2 ^ 32) = q := by
    intro w1 q hw1 hq
    unfold HAL_GetTick
    have h1 : w1.tick = (w1.tick - q) + q := by omega
    rw [(show w1.tick % 2 ^ 32 = ((w1.tick - q) + q) % 2 ^ 32 by rw [← h1])]
    exact tickDiff_elapsed _ _ (by omega)
  have hcond : ∀ (f : Bool) (l : Nat) (w1 : World) (stored : List Nat) (q : Nat),
      w1.tick = s.world.tick → (f = true ↔ e <:+: cstr stored) →
      (f = true → l = (w1.tick - q) % 2 ^ 32 ∧ q ≤ w1.tick - t0) →
      ((f && decide (tickDiff (HAL_GetTick w1) l > 100)) = true
        ↔ (e <:+: cstr stored ∧ 100 < q)) := by
    intro f l w1 stored q hw1 hf hl
    rw [Bool.and_eq_true, decide_eq_true_eq]
    constructor
    · rintro ⟨a, b⟩
      obtain ⟨hl1, hl2⟩ := hl a
      rw [hl1, hquiet w1 q hw1 hl2] at b
      exact ⟨hf.1 a, b⟩
    · rintro ⟨a, b⟩
      obtain ⟨hl1, hl2⟩ := hl (hf.2 a)
      refine ⟨hf.2 a, ?_⟩
      rw [hl1, hquiet w1 q hw1 hl2]
      exact b
  rw [waitLoop, if_pos hguard]
  unfold waitTake
  rcases hrb : s.world.receiveByte.2 with _ | data
  · simp only []
    exact ⟨found, last, hfound, hlast, hcond found last _ _ _ rfl hfound hlast, rfl⟩
  · simp only []
    by_cases hroom : s.stored.length + 1 < max_len
    · simp only [if_pos hroom]
      have hf2 : (found || (strstr (s.stored ++ [data]) e).isSome) = true
          ↔ e <:+: cstr (s.stored ++ [data]) := by
        rw [Bool.or_eq_true, strstr_isSome_iff]
        constructor
        · rintro (a | a)
          · exact infix_cstr_append _ _ _ (hfound.1 a)
          · exact a
        · intro a; exact Or.inr a
      have hl2 : (found || (strstr (s.stored ++ [data]) e).isSome) = true →
          HAL_GetTick s.world.receiveByte.1 = (s.world.receiveByte.1.tick - 0) % 2 ^ 32
            ∧ 0 ≤ s.world.receiveByte.1.tick - t0 := by
        intro _
        exact ⟨rfl, Nat.zero_le _⟩
      exact ⟨_, _, hf2, hl2, hcond _ _ _ _ _ rfl hf2 hl2, rfl⟩
    · simp only [if_neg hroom]
      exact ⟨found, last, hfound, hlast, hcond found last _ _ _ rfl hfound hlast, rfl⟩

theorem waitLoop_iff (e : List Nat) (max_len timeout_ms t0 : Nat)
    (htimeout : timeout_ms < 2 ^ 32) :
    ∀ (fuel : Nat) (s : WaitState) (found : Bool) (last : Nat),
      t0 ≤ s.world.tick → (s.world.tick - t0) + fuel = timeout_ms →
      (found = true ↔ e <:+: cstr s.stored) →
      (found = true → last = (s.world.tick - s.quiet) % 2 ^ 32
        ∧ s.quiet ≤ s.world.tick - t0) →
      ((waitLoop fuel s.world e max_len timeout_ms (t0 % 2 ^ 32) s.stored found last).ret = 1
          ↔ ∃ j, j < fuel ∧ (e <:+: cstr (waitTake max_len
                ((fun x => waitTick (waitTake max_len x))^[j] s)).stored
              ∧ 100 < (waitTake max_len
                ((fun x => waitTick (waitTake max_len x))^[j] s)).quiet))
        ∧ ((waitLoop fuel s.world e max_len timeout_ms (t0 % 2 ^ 32) s.stored found last).ret = 1 →
          ∃ j, j < fuel
            ∧ (waitLoop fuel s.world e max_len timeout_ms (t0 % 2 ^ 32) s.stored found last).world
                = (waitTake max_len ((fun x => waitTick (waitTake max_len x))^[j] s)).world
            ∧ (waitLoop fuel s.world e max_len timeout_ms (t0 % 2 ^ 32) s.stored found last).response
                = (waitTake max_len ((fun x => waitTick (waitTake max_len x))^[j] s)).stored
            ∧ (e <:+: cstr (waitTake max_len
                ((fun x => waitTick (waitTake max_len x))^[j] s)).stored
              ∧ 100 < (waitTake max_len
                ((fun x => waitTick (waitTake max_len x))^[j] s)).quiet)
            ∧ ∀ i, i < j → ¬ (e <:+: cstr (waitTake max_len
                ((fun x => waitTick (waitTake max_len x))^[i] s)).stored
              ∧ 100 < (waitTake max_len
                ((fun x => waitTick (waitTake max_len x))^[i] s)).quiet)) := by
  intro fuel
  induction fuel with
  | zero =>
    intro s found last h0 he2 hf hl
    refine ⟨⟨fun h => ?_, fun ⟨j, hj, _⟩ => absurd hj (Nat.not_lt_zero _)⟩, fun h => ?_⟩
    · exact absurd h (by simp [waitLoop])
    · exact absurd h (by simp [waitLoop])
  | succ fuel ih =>
    intro s found last h0 he2 hf hl
    obtain ⟨found2, last2, hf2, hl2, hc, hstep⟩ :=
      waitLoop_step e max_len timeout_ms t0 htimeout fuel s found last h0 (by omega) hf hl
    rw [hstep]
    have htk : (waitTake max_len s).world.tick = s.world.tick := by
      rw [waitTake_world]; rfl
    by_cases hdone : (found2 && decide (tickDiff (HAL_GetTick (waitTake max_len s).world) last2
        > 100)) = true
    · rw [if_pos hdone]
      refine ⟨⟨fun _ => ⟨0, by omega, hc.1 hdone⟩, fun _ => rfl⟩, fun _ => ?_⟩
      exact ⟨0, by omega, rfl, rfl, hc.1 hdone, fun i hi => absurd hi (Nat.not_lt_zero _)⟩
    · rw [if_neg hdone]
      have hnot := fun h => hdone (hc.2 h)
      have hih := ih (waitTick (waitTake max_len s)) found2 last2
        (by show t0 ≤ (HAL_Delay (waitTake max_len s).world 1).tick
            rw [HAL_Delay_tick, htk]; omega)
        (by show (HAL_Delay (waitTake max_len s).world 1).tick - t0 + fuel = timeout_ms
            rw [HAL_Delay_tick, htk]; omega)
        hf2
        (by intro hfd
            obtain ⟨a, b⟩ := hl2 hfd
            show last2 = ((HAL_Delay (waitTake max_len s).world 1).tick
                - ((waitTake max_len s).quiet + 1)) % 2 ^ 32
              ∧ (waitTake max_len s).quiet + 1 ≤ (HAL_Delay (waitTake max_len s).world 1).tick - t0
            rw [HAL_Delay_tick]
            rw [htk] at a b ⊢
            refine ⟨?_, by omega⟩
            rw [a]
            congr 1
            omega)
      have hworld : (waitTick (waitTake max_len s)).world
          = HAL_Delay (waitTake max_len s).world 1 := rfl
      have hstored : (waitTick (waitTake max_len s)).stored = (waitTake max_len s).stored := rfl
      rw [hworld, hstored] at hih
      refine ⟨⟨fun h => ?_, fun ⟨j, hj, hq⟩ => ?_⟩, fun h => ?_⟩
      · obtain ⟨j, hj, hq⟩ := hih.1.1 h
        exact ⟨j + 1, by omega, by rw [Function.iterate_succ_apply]; exact hq⟩
      · cases j with
        | zero => exact absurd hq hnot
        | succ j =>
          rw [Function.iterate_succ_apply] at hq
          exact hih.1.2 ⟨j, by omega, hq⟩
      · obtain ⟨j, hj, a, b, c, d⟩ := hih.2 h
        refine ⟨j + 1, by omega, ?_, ?_, ?_, ?_⟩
        · rw [Function.iterate_succ_apply]; exact a
        · rw [Function.iterate_succ_apply]; exact b
        · rw [Function.iterate_succ_apply]; exact c
        · intro i hi
          cases i with
          | zero => exact hnot
          | succ i =>
            rw [Function.iterate_succ_apply]
            exact d i (by omega)

theorem waitIter_tick (max_len : Nat) : ∀ (j : Nat) (s : WaitState),
    ((fun x => waitTick (waitTake max_len x))^[j] s).world.tick = s.world.tick + j := by
  intro j
  induction j with
  | zero => intro s; rfl
  | succ j ih =>
    intro s
    rw [Function.iterate_succ_apply, ih]
    show (HAL_Delay (waitTake max_len s).world 1).tick + j = s.world.tick + (j + 1)
    rw [HAL_Delay_tick, waitTake_world, receiveByte_tick]
    omega

theorem waitState_tick (w : World) (max_len j : Nat) :
    (waitState w max_len j).world.tick = w.tick + j := by
  unfold waitState
  rw [waitTake_world, receiveByte_tick, waitIter_tick]

theorem waitTake_cases (max_len : Nat) (s : WaitState) :
    ((waitTake max_len s).stored = s.stored ∧ (waitTake max_len s).quiet = s.quiet)
      ∨ (∃ d, (waitTake max_len s).stored = s.stored ++ [d] ∧ (waitTake max_len s).quiet = 0) := by
  unfold waitTake
  rcases s.world.receiveByte.2 with _ | data
  · exact Or.inl ⟨rfl, rfl⟩
  · simp only []
    by_cases hroom : s.stored.length + 1 < max_len
    · rw [if_pos hroom]
      exact Or.inr ⟨data, rfl, rfl⟩
    · rw [if_neg hroom]
      exact Or.inl ⟨rfl, rfl⟩

theorem waitState_succ (w : World) (max_len j : Nat) :
    waitState w max_len (j + 1) = waitTake max_len (waitTick (waitState w max_len j)) := by
  unfold waitState
  rw [Function.iterate_succ_apply']

/-- The wait in terms of its polls. For a non-empty expected string and a timeout that fits
the `uint32_t` parameter, `RG200U_WaitForResponse` returns 1 if and only if at one of its polls (poll `j`
takes place `j` ms after the call, `j < timeout_ms`) the text of the response stored so far
contains the expected string and more than 100 ms have passed since a byte was last stored
in the response. It then returns at the first such poll, with the bytes stored until then.
The quiet period is restarted by the bytes stored only: a poll that stores a byte sets it to
0 (so the wait never returns at the poll of the match itself), and a poll that stores none,
be it that no byte was there or that the byte taken was discarded for lack of room,
lets it run on. -/
theorem waitForResponse_polls (w : World) (expected : List Nat) (max_len timeout_ms : Nat)
    (htimeout : timeout_ms < 2 ^ 32) (hexp : cstr expected ≠ []) :
    ((RG200U_WaitForResponse w expected max_len timeout_ms).ret = 1
        ↔ ∃ j, j < timeout_ms ∧ quietDone expected (waitState w max_len j))
      ∧ ((RG200U_WaitForResponse w expected max_len timeout_ms).ret = 1 →
          ∃ j, j < timeout_ms ∧ quietDone expected (waitState w max_len j)
            ∧ (∀ i, i < j → ¬ quietDone expected (waitState w max_len i))
            ∧ (RG200U_WaitForResponse w expected max_len timeout_ms).world.tick = w.tick + j
            ∧ (RG200U_WaitForResponse w expected max_len timeout_ms).response
                = (waitState w max_len j).stored)
      ∧ (∀ j, ((waitState w max_len (j + 1)).stored ≠ (waitState w max_len j).stored →
              (waitState w max_len (j + 1)).quiet = 0)
            ∧ ((waitState w max_len (j + 1)).stored = (waitState w max_len j).stored →
              (waitState w max_len (j + 1)).quiet = (waitState w max_len j).quiet + 1)) := by
  have hnot : ¬ cstr expected <:+: cstr ([] : List Nat) := by
    intro h
    have hnil : cstr ([] : List Nat) = [] := rfl
    rw [hnil] at h
    exact hexp (List.eq_nil_of_infix_nil h)
  have h := waitLoop_iff (cstr expected) max_len timeout_ms w.tick htimeout timeout_ms
    { world := w, stored := [], taken := [], quiet := 0 } false 0 (le_refl _)
    (by show w.tick - w.tick + timeout_ms = timeout_ms; omega)
    ⟨fun hf => absurd hf (by decide), fun hf => absurd hf hnot⟩
    (fun hf => absurd hf (by decide))
  refine ⟨h.1, fun hret => ?_, fun j => ?_⟩
  · obtain ⟨j, hj, a, b, c, d⟩ := h.2 hret
    refine ⟨j, hj, c, d, ?_, b⟩
    have ha : (RG200U_WaitForResponse w expected max_len timeout_ms).world
        = (waitState w max_len j).world := a
    rw [ha, waitState_tick]
  · rw [waitState_succ]
    rcases waitTake_cases max_len (waitTick (waitState w max_len j)) with ⟨a, b⟩ | ⟨d, a, b⟩
    · refine ⟨fun hne => absurd a hne, fun _ => ?_⟩
      rw [b]; rfl
    · refine ⟨fun _ => b, fun heq => ?_⟩
      exfalso
      rw [a] at heq
      have hlen := congrArg List.length heq
      rw [List.length_append, List.length_singleton] at hlen
      have hst : (waitTick (waitState w max_len j)).stored = (waitState w max_len j).stored := rfl
      rw [hst] at hlen
      omega

set_option maxRecDepth 100000 in
set_option maxHeartbeats 4000000 in
theorem waitForResponse_polls_urc :
    ((30000 : Nat) < 2 ^ 32 ∧ cstr (bytes "+QIOPEN:") ≠ [])
      ∧ (RG200U_WaitForResponse urcStub (bytes "+QIOPEN:") 512 30000).ret = 1
      ∧ (waitState urcStub 512 15).stored = bytes "+QIOPEN: 0,0\r\n"
      ∧ (waitState urcStub 512 15).quiet = 0
      ∧ (RG200U_WaitForResponse urcStub (bytes "+QIOPEN:") 512 30000).world.tick = 15 + 101 :=
  ⟨⟨by norm_num, by decide⟩,
    (waitForResponse_polls urcStub (bytes "+QIOPEN:") 512 30000 (by norm_num) (by decide)).1.2
      ⟨116, by decide, by decide⟩,
    by decide, by decide, by decide⟩

/-! ## Reading TCP data: a well-formed answer -/

theorem scanDecimal_printNat (n : Nat) (hn : 0 < n) (rest : List Nat) :
    scanDecimal (printInt (n : Int) ++ 13 :: rest) = some ((n : Int), 13 :: rest) := by
  obtain ⟨d, ds, hd, h1, h2⟩ := digitsFuel_head (n + 1) n (by omega) hn
  have hscan := scanDigits_print n 13 rest (by decide)
  have hdig : isdigit d = true := by
    simp only [isdigit, Bool.and_eq_true, decide_eq_true_eq]; omega
  have hsp : isspace d = false := by
    simp only [isspace, Bool.or_eq_false_iff, Bool.and_eq_false_iff, decide_eq_false_iff_not]
    omega
  have hprint : printInt (n : Int) = digitsFuel (n + 1) n := by
    unfold printInt
    rw [if_neg (by omega), Int.natAbs_ofNat]
  rw [hprint]
  have hdrop : List.dropWhile isspace (digitsFuel (n + 1) n ++ 13 :: rest)
      = d :: (ds ++ 13 :: rest) := by
    rw [hd, List.cons_append, List.dropWhile_cons_of_neg (by simp [hsp])]
  unfold scanDecimal
  rw [hdrop]
  have h45 : d ≠ 45 := by omega
  have h43 : d ≠ 43 := by omega
  simp only [h45, h43, if_false, hdig, if_true]
  rw [← List.cons_append, ← hd, hscan]

theorem scanInt_printNat (n : Nat) (hn : 0 < n) (hhi : n ≤ 2147483647) (rest : List Nat) :
    scanInt (printInt (n : Int) ++ 13 :: rest) = some ((n : Int), 13 :: rest) :=
  scanInt_of_scanDecimal _ _ _ (scanDecimal_printNat n hn rest) (by omega) (by omega)

/-- The first occurrence of a literal: if it does not occur in `pre` followed by all but
its last byte, the search in `pre ++ needle ++ post` stops right after `pre`. -/
theorem findSub_first (needle : List Nat) (hne : needle ≠ []) (post : List Nat) :
    ∀ pre : List Nat, ¬ needle <:+: pre ++ needle.dropLast →
      findSub needle (pre ++ needle ++ post) = some pre.length := by
  intro pre
  induction pre with
  | nil =>
    intro _
    obtain ⟨a, as, ha⟩ := List.exists_cons_of_ne_nil hne
    have hp : needle.isPrefixOf (a :: (as ++ post)) = true := by
      rw [List.isPrefixOf_iff_prefix, ← List.cons_append, ← ha]
      exact List.prefix_append _ _
    rw [List.nil_append]
    nth_rewrite 2 [ha]
    rw [List.cons_append, findSub, if_pos hp]
    rfl
  | cons c cs ih =>
    intro h
    have hsplit : (c :: cs) ++ needle ++ post
        = ((c :: cs) ++ needle.dropLast) ++ ([needle.getLast hne] ++ post) := by
      nth_rewrite 1 [← List.dropLast_append_getLast hne]
      simp only [List.append_assoc]
    have hnp : ¬ needle <+: c :: (cs ++ needle ++ post) := by
      intro hp
      apply h
      have hp2 : needle <+: ((c :: cs) ++ needle.dropLast) ++ ([needle.getLast hne] ++ post) := by
        rw [← hsplit]
        simpa using hp
      have hlen : needle.length ≤ ((c :: cs) ++ needle.dropLast).length := by
        rw [List.length_append, List.length_cons, List.length_dropLast]
        have : 0 < needle.length := List.length_pos.2 hne
        omega
      exact (List.prefix_of_prefix_length_le hp2 (List.prefix_append _ _) hlen).isInfix
    have hrec : ¬ needle <:+: cs ++ needle.dropLast := by
      intro hi
      apply h
      rw [List.cons_append]
      exact List.infix_cons hi
    have hstep : (c :: cs) ++ needle ++ post = c :: (cs ++ needle ++ post) := by
      simp only [List.cons_append]
    rw [hstep, findSub_cons_skip needle c _ hnp, ih hrec]
    rfl

theorem infix_append_split (needle : List Nat) : ∀ (A B : List Nat), needle <:+: A ++ B →
    needle <:+: A ∨ needle <:+: B
      ∨ ∃ t s, t ≠ [] ∧ s ≠ [] ∧ needle = t ++ s ∧ t <:+ A ∧ s <+: B := by
  intro A
  induction A with
  | nil => intro B h; exact Or.inr (Or.inl (by simpa using h))
  | cons a A ih =>
    intro B h
    rw [List.cons_append, List.infix_cons_iff] at h
    rcases h with h | h
    · rw [← List.cons_append] at h
      rcases List.prefix_or_prefix_of_prefix h (List.prefix_append (a :: A) B) with hp | hp
      · exact Or.inl hp.isInfix
      · obtain ⟨s, hs⟩ := hp
        by_cases hsn : s = []
        · left
          rw [hsn, List.append_nil] at hs
          rw [← hs]
        · right; right
          refine ⟨a :: A, s, by simp, hsn, hs.symm, List.suffix_refl _, ?_⟩
          rw [← hs] at h
          exact (List.prefix_append_right_inj _).1 h
    · rcases ih B h with h1 | h1 | ⟨t, s, ht, hs, heq, hsuf, hpre⟩
      · exact Or.inl (List.infix_cons h1)
      · exact Or.inr (Or.inl h1)
      · exact Or.inr (Or.inr ⟨t, s, ht, hs, heq, hsuf.trans (List.suffix_cons a A), hpre⟩)

theorem split4 (a b c d : Nat) (t s : List Nat) (ht : t ≠ []) (hs : s ≠ [])
    (h : [a, b, c, d] = t ++ s) :
    (t = [a] ∧ s = [b, c, d]) ∨ (t = [a, b] ∧ s = [c, d]) ∨ (t = [a, b, c] ∧ s = [d]) := by
  rcases t with _ | ⟨t1, _ | ⟨t2, _ | ⟨t3, _ | ⟨t4, t5⟩⟩⟩⟩
  · exact absurd rfl ht
  · simp only [List.cons_append, List.nil_append, List.cons.injEq] at h
    obtain ⟨h1, h2⟩ := h
    exact Or.inl ⟨by rw [h1], h2.symm⟩
  · simp only [List.cons_append, List.nil_append, List.cons.injEq] at h
    obtain ⟨h1, h2, h3⟩ := h
    exact Or.inr (Or.inl ⟨by rw [h1, h2], h3.symm⟩)
  · simp only [List.cons_append, List.nil_append, List.cons.injEq] at h
    obtain ⟨h1, h2, h3, h4⟩ := h
    exact Or.inr (Or.inr ⟨by rw [h1, h2, h3], h4.symm⟩)
  · exfalso
    simp only [List.cons_append, List.cons.injEq] at h
    obtain ⟨_, _, _, _, h5⟩ := h
    have := congrArg List.length h5
    simp only [List.length_nil, List.length_append] at this
    have : s.length = 0 := by omega
    exact hs (List.length_eq_zero.1 this)

/-- Ahead of the last byte of the answer there is no `"OK\r\n"`. -/
theorem no_ok_crlf (H P : List Nat) (hH : 79 ∉ H) (h1 : ¬ bytes "OK\r\n" <:+: P)
    (hend : ¬ bytes "OK" <:+ P) :
    ¬ bytes "OK\r\n" <:+: H ++ (P ++ bytes "\r\nOK\r") := by
  have hneedle : bytes "OK\r\n" = [79, 75, 13, 10] := by decide
  have hok : bytes "OK" = [79, 75] := by decide
  have htail : bytes "\r\nOK\r" = [13, 10, 79, 75, 13] := by decide
  rw [hneedle, htail]
  rw [hneedle] at h1
  rw [hok] at hend
  intro h
  rcases infix_append_split _ _ _ h with h | h | ⟨t, s, ht, hs, heq, hsuf, hpre⟩
  · exact hH (h.subset (by simp))
  · rcases infix_append_split _ _ _ h with h | h | ⟨t, s, ht, hs, heq, hsuf, hpre⟩
    · exact h1 h
    · exact absurd h (by decide)
    · rcases split4 _ _ _ _ t s ht hs heq with ⟨a, b⟩ | ⟨a, b⟩ | ⟨a, b⟩
      · rw [b] at hpre; exact absurd hpre (by decide)
      · rw [a] at hsuf; exact hend hsuf
      · rw [b] at hpre; exact absurd hpre (by decide)
  · obtain ⟨x, xs, hx⟩ := List.exists_cons_of_ne_nil ht
    rw [hx, List.cons_append] at heq
    have h79 : x = 79 := by
      injection heq with a _
      exact a.symm
    apply hH
    apply hsuf.subset
    rw [hx, h79]
    simp

/-- Ahead of the trailer there is no `"\r\nOK"`. -/
theorem no_crlf_ok (P : List Nat) (h2 : ¬ bytes "\r\nOK" <:+: P) :
    ¬ bytes "\r\nOK" <:+: P ++ (bytes "\r\nOK").dropLast := by
  have hneedle : bytes "\r\nOK" = [13, 10, 79, 75] := by decide
  rw [hneedle] at h2 ⊢
  have hd : ([13, 10, 79, 75] : List Nat).dropLast = [13, 10, 79] := by decide
  rw [hd]
  intro h
  rcases infix_append_split _ _ _ h with h | h | ⟨t, s, ht, hs, heq, hsuf, hpre⟩
  · exact h2 h
  · exact absurd h (by decide)
  · rcases split4 _ _ _ _ t s ht hs heq with ⟨a, b⟩ | ⟨a, b⟩ | ⟨a, b⟩
    · rw [b] at hpre; exact absurd hpre (by decide)
    · rw [b] at hpre; exact absurd hpre (by decide)
    · rw [b] at hpre; exact absurd hpre (by decide)

/-- The parsing half of `RG200U_ReadTCPData` when every search succeeds. -/
theorem parseQIRD_found (w : World) (response : List Nat) (max_len qird line_end actual_len : Nat)
    (data_len : Int) (rest : List Nat)
    (hqird : strstr response (bytes "+QIRD:") = some qird)
    (hlen : scanInt (cstr (response.drop (qird + 7))) = some (data_len, rest))
    (hpos : 0 < data_len)
    (hline : strchr (response.drop qird) 10 = some line_end)
    (hok : strstr (response.drop (qird + line_end + 1)) (bytes "\r\nOK") = some actual_len) :
    (parseQIRD w response max_len).copy_len = copyLength actual_len data_len max_len
      ∧ (parseQIRD w response max_len).ret = copyLength actual_len data_len max_len % 256
      ∧ (parseQIRD w response max_len).buffer
          = some (((responseArray response).drop (qird + line_end + 1)).take
              (copyLength actual_len data_len max_len) ++ [0]) := by
  unfold parseQIRD
  rw [hqird]
  simp only []
  rw [hlen]
  simp only []
  rw [if_pos (show data_len > 0 from hpos), hline]
  simp only []
  rw [hok]
  exact ⟨rfl, rfl, rfl⟩

theorem qirdAnswer_shape (P : List Nat) (hzero : 0 ∉ P)
    (hok1 : ¬ bytes "OK\r\n" <:+: P) (hend : ¬ bytes "OK" <:+ P) :
    0 ∉ qirdAnswer P
      ∧ ¬ bytes "OK\r\n" <:+: (qirdAnswer P).dropLast
      ∧ bytes "OK\r\n" <:+: qirdAnswer P
      ∧ qirdAnswer P = bytes "+QIRD:" ++ (32 :: (printInt (P.length : Int)
          ++ 13 :: 10 :: (P ++ bytes "\r\nOK\r\n")))
      ∧ 10 ∉ bytes "+QIRD: " ++ printInt (P.length : Int) ++ [13] := by
  have hhead : bytes "+QIRD: " = [43, 81, 73, 82, 68, 58, 32] := by decide
  have hhead6 : bytes "+QIRD:" = [43, 81, 73, 82, 68, 58] := by decide
  have hcrlf : bytes "\r\n" = [13, 10] := by decide
  have htrail : bytes "\r\nOK\r\n" = [13, 10, 79, 75, 13, 10] := by decide
  have hdigits : ∀ c ∈ printInt (P.length : Int), c ≠ 0 ∧ c ≠ 79 ∧ c ≠ 10 := by
    intro c hc
    rcases printInt_chars _ c hc with h | h
    · rw [h]; decide
    · simp only [isdigit, Bool.and_eq_true, decide_eq_true_eq] at h
      omega
  refine ⟨?_, ?_, ?_, ?_, ?_⟩
  · unfold qirdAnswer
    rw [hhead, hcrlf, htrail]
    intro h
    simp only [List.mem_append, List.mem_cons, List.mem_singleton, List.not_mem_nil,
      or_false] at h
    rcases h with (((h | h) | h) | h) | h
    · omega
    · exact (hdigits 0 h).1 rfl
    · omega
    · exact hzero h
    · omega
  · have hdrop : (qirdAnswer P).dropLast
        = (bytes "+QIRD: " ++ printInt (P.length : Int) ++ bytes "\r\n")
          ++ (P ++ bytes "\r\nOK\r") := by
      have hsplit : qirdAnswer P = ((bytes "+QIRD: " ++ printInt (P.length : Int) ++ bytes "\r\n")
          ++ (P ++ bytes "\r\nOK\r")) ++ [10] := by
        unfold qirdAnswer
        have h1 : bytes "\r\nOK\r\n" = bytes "\r\nOK\r" ++ [10] := by decide
        rw [h1]
        simp only [List.append_assoc]
      rw [hsplit, List.dropLast_concat]
    rw [hdrop]
    apply no_ok_crlf _ _ _ hok1 hend
    rw [hhead, hcrlf]
    intro h
    simp only [List.mem_append, List.mem_cons, List.mem_singleton, List.not_mem_nil,
      or_false] at h
    rcases h with (h | h) | h
    · omega
    · exact (hdigits 79 h).2.1 rfl
    · omega
  · unfold qirdAnswer
    have h1 : bytes "\r\nOK\r\n" = [13, 10] ++ bytes "OK\r\n" := by decide
    rw [h1, ← List.append_assoc]
    exact List.infix_append' _ _ _ |>.trans (by rw [List.append_nil])
  · unfold qirdAnswer
    rw [hhead, hhead6, hcrlf]
    simp only [List.append_assoc, List.cons_append, List.nil_append]
  · rw [hhead]
    intro h
    simp only [List.mem_append, List.mem_cons, List.mem_singleton, List.not_mem_nil,
      or_false] at h
    rcases h with (h | h) | h
    · omega
    · exact (hdigits 10 h).2.2 rfl
    · omega

/-! ## Reading TCP data: an answer that arrives in bursts -/

theorem elapse_modem (ms : Nat) : ∀ w : World, (elapse ms w).modem = w.modem.drop ms := by
  induction ms with
  | zero => intro w; rfl
  | succ n ih =>
    intro w
    show (elapse n (millisecond w)).modem = _
    rw [ih]
    show w.modem.tail.drop n = w.modem.drop (n + 1)
    rw [← List.drop_one, List.drop_drop, Nat.add_comm]

theorem HAL_Delay_modem (w : World) (ms : Nat) : (HAL_Delay w ms).modem = w.modem.drop ms := by
  simp only [HAL_Delay, elapse_modem]


theorem HAL_Delay_one (w : World) :
    (HAL_Delay w 1).rx = (w.modem.headD []).foldl RG200U_UART_RxCallback w.rx
      ∧ (HAL_Delay w 1).modem = w.modem.tail ∧ (HAL_Delay w 1).tick = w.tick + 1 :=
  ⟨rfl, rfl, rfl⟩

/-- The bytes that arrive during a delay are appended to the unread bytes, as long as they
find room. -/
theorem elapse_take : ∀ (ms : Nat) (w : World), w.rx.WF →
    w.rx.count + ((w.modem.take ms).flatten).length ≤ 255 →
    (elapse ms w).rx.WF
      ∧ (elapse ms w).rx.contents = w.rx.contents ++ (w.modem.take ms).flatten
      ∧ (elapse ms w).rx.count = w.rx.count + ((w.modem.take ms).flatten).length := by
  intro ms
  induction ms with
  | zero =>
    intro w hwf _
    refine ⟨hwf, ?_, ?_⟩
    · show w.rx.contents = w.rx.contents ++ (w.modem.take 0).flatten
      simp
    · show w.rx.count = w.rx.count + ((w.modem.take 0).flatten).length
      simp
  | succ n ih =>
    intro w hwf hroom
    show (elapse n (millisecond w)).rx.WF
      ∧ (elapse n (millisecond w)).rx.contents = _
      ∧ (elapse n (millisecond w)).rx.count = _
    rcases hm : w.modem with _ | ⟨c, rest⟩
    · have hms : millisecond w = { w with tick := w.tick + 1, modem := [] } := by
        unfold millisecond; rw [hm]; rfl
      rw [hms]
      have hc : w.rx.count ≤ 255 := by omega
      obtain ⟨a, b, d⟩ := ih { w with tick := w.tick + 1, modem := [] } hwf
        (by simp only [List.take_nil, List.flatten_nil, List.length_nil, Nat.add_zero]
            exact hc)
      simp only [List.take_nil, List.flatten_nil, List.append_nil, List.length_nil,
        Nat.add_zero] at b d ⊢
      exact ⟨a, b, d⟩
    · rw [hm] at hroom
      simp only [List.take_succ_cons, List.flatten_cons, List.length_append] at hroom ⊢
      obtain ⟨p1, p2, p3, _⟩ := pushAll_fits c w.rx hwf (by omega)
      have hrx : (millisecond w).rx = pushAll modemRing w.rx c := by
        unfold millisecond; rw [hm]; rfl
      have hmod : (millisecond w).modem = rest := by
        unfold millisecond; rw [hm]; rfl
      obtain ⟨a, b, d⟩ := ih (millisecond w) (by rw [hrx]; exact p1)
        (by rw [hrx, p2, hmod]; omega)
      rw [hrx, hmod, p3] at b
      rw [hrx, hmod, p2] at d
      refine ⟨a, ?_, ?_⟩
      · rw [b, List.append_assoc]
      · rw [d]; omega

/-- The receive loop of `RG200U_ReadTCPData` on an answer of which a part is waiting in the
ring and the rest is still to come, the ring having room for every burst: it gathers the
answer up to its last byte, where `"OK\r\n"` is first complete. -/
theorem readLoop_stream (R : List Nat) (t0 : Nat) (hz : 0 ∉ R)
    (hfirst : ¬ bytes "OK\r\n" <:+: R.dropLast) (hlast : bytes "OK\r\n" <:+: R)
    (hsize : R.length ≤ 510) :
    ∀ (fuel : Nat) (w : World) (resp : List Nat),
      w.rx.contents ++ w.stream ≠ [] → resp ++ (w.rx.contents ++ w.stream) = R →
      w.rx.WF → ringFits w.rx.count w.modem →
      t0 ≤ w.tick →
      (w.tick - t0) + ((w.rx.contents ++ w.stream).length + w.modem.length) ≤ 2000 →
      (w.rx.contents ++ w.stream).length + w.modem.length ≤ fuel →
      (readLoop fuel w (t0 % 2 ^ 32) resp).2 = R := by
  intro fuel
  induction fuel with
  | zero =>
    intro w resp hne _ _ _ _ _ hfuel
    exfalso
    apply hne
    apply List.length_eq_zero.1
    omega
  | succ f ih =>
    intro w resp hne hR hwf hfits h0 htime hfuel
    have hrestpos : 0 < (w.rx.contents ++ w.stream).length := List.length_pos.2 hne
    have hlenR : resp.length + (w.rx.contents ++ w.stream).length = R.length := by
      rw [← hR, List.length_append resp]
    have hguard : tickDiff (HAL_GetTick w) (t0 % 2 ^ 32) < 2000 ∧ resp.length < 512 - 1 := by
      have hw : w.tick = t0 + (w.tick - t0) := by omega
      unfold HAL_GetTick
      rw [hw, tickDiff_elapsed t0 _ (by norm_num; omega)]
      omega
    obtain ⟨d1, d2, d3⟩ := HAL_Delay_one w.receiveByte.1
    have hmod1 : w.receiveByte.1.modem = w.modem := rfl
    have htick1 : w.receiveByte.1.tick = w.tick := rfl
    rw [hmod1] at d1 d2
    rw [htick1] at d3
    -- what the next millisecond does to a ring with `c` unread bytes
    have hnext : ∀ (s : Ring), s.WF → ringFits (s.count + 1) w.modem →
        ((w.modem.headD []).foldl RG200U_UART_RxCallback s).WF
          ∧ ((w.modem.headD []).foldl RG200U_UART_RxCallback s).contents ++ w.modem.tail.flatten
              = s.contents ++ w.stream
          ∧ ringFits ((w.modem.headD []).foldl RG200U_UART_RxCallback s).count w.modem.tail := by
      intro s hs hf
      unfold World.stream
      rcases hm : w.modem with _ | ⟨x, xs⟩
      · exact ⟨hs, rfl, trivial⟩
      · rw [hm] at hf
        have hf1 : s.count + x.length ≤ 255 := by
          have := hf.1; omega
        obtain ⟨p1, p2, p3, _⟩ := pushAll_fits x s hs hf1
        refine ⟨p1, ?_, ?_⟩
        · show (pushAll modemRing s x).contents ++ xs.flatten = s.contents ++ (x :: xs).flatten
          rw [p3, List.flatten_cons, List.append_assoc]
        · show ringFits (pushAll modemRing s x).count xs
          rw [p2]
          have := hf.2
          rw [show s.count + 1 - 1 + x.length = s.count + x.length by omega] at this
          exact this
    have hmlen : w.modem.tail.length + (if w.modem = [] then 0 else 1) = w.modem.length := by
      rcases w.modem with _ | ⟨x, xs⟩
      · rfl
      · simp
    rw [readLoop, if_pos hguard]
    by_cases hempty : w.rx.count = 0
    · -- nothing to take: the next burst has to arrive
      have hidx := (count_eq_zero_iff w.rx hwf).1 hempty
      have hrb : w.receiveByte = (w, none) := receiveByte_empty w hidx
      have hrb2 : w.receiveByte.2 = none := by rw [hrb]
      have hrb1 : w.receiveByte.1 = w := by rw [hrb]
      have hcnil : w.rx.contents = [] :=
        List.eq_nil_of_length_eq_zero (by rw [contents_length, hempty])
      have hmne : w.modem ≠ [] := by
        intro hm
        apply hne
        rw [hcnil]
        unfold World.stream
        rw [hm]
        rfl
      rw [hrb2]
      simp only []
      rw [hrb1] at d1 d2 d3 ⊢
      have hfits1 : ringFits (w.rx.count + 1) w.modem := by
        rcases hm : w.modem with _ | ⟨x, xs⟩
        · trivial
        · rw [hm, hempty] at hfits
          rw [hempty]
          exact ⟨by have := hfits.1; omega, by
            have := hfits.2
            simpa using this⟩
      obtain ⟨n1, n2, n3⟩ := hnext w.rx hwf hfits1
      have hst : (HAL_Delay w 1).stream = w.modem.tail.flatten := by
        unfold World.stream; rw [d2]
      have hcs : (HAL_Delay w 1).rx.contents ++ (HAL_Delay w 1).stream
          = w.rx.contents ++ w.stream := by
        rw [hst, d1]; exact n2
      have hml : w.modem.tail.length + 1 = w.modem.length := by
        rw [if_neg hmne] at hmlen; exact hmlen
      exact ih (HAL_Delay w 1) resp (by rw [hcs]; exact hne) (by rw [hcs]; exact hR)
        (by rw [d1]; exact n1) (by rw [d1, d2]; exact n3)
        (by rw [d3]; omega)
        (by rw [hcs, d2, d3]; omega)
        (by rw [hcs, d2]; omega)
    · -- a byte is taken
      obtain ⟨p1, p2, p3, p4, _⟩ := pop_nonempty w.rx hwf hempty
      have hrb : w.receiveByte.2 = some (w.rx.buffer w.rx.read_index) := p1
      have hrx1 : w.receiveByte.1.rx = (RG200U_ReceiveByte w.rx).1 := rfl
      rw [hrx1] at d1
      have hRd : (resp ++ [w.rx.buffer w.rx.read_index])
          ++ ((RG200U_ReceiveByte w.rx).1.contents ++ w.stream) = R := by
        rw [← hR, p4]
        simp only [List.append_assoc, List.cons_append, List.nil_append]
      have hzr : 0 ∉ resp ++ [w.rx.buffer w.rx.read_index] := by
        intro hmem
        apply hz
        rw [← hRd]
        exact List.mem_append_left _ hmem
      have hrestlen : (w.rx.contents ++ w.stream).length
          = ((RG200U_ReceiveByte w.rx).1.contents ++ w.stream).length + 1 := by
        rw [p4]
        simp only [List.cons_append, List.length_cons]
      rw [hrb]
      simp only []
      by_cases hdone : (strstr (resp ++ [w.rx.buffer w.rx.read_index]) (bytes "OK\r\n")).isSome
          = true
      · rw [if_pos hdone]
        show resp ++ [w.rx.buffer w.rx.read_index] = R
        rw [strstr_isSome_iff, cstr_eq_self _ hzr] at hdone
        by_cases htail : (RG200U_ReceiveByte w.rx).1.contents ++ w.stream = []
        · rw [← hRd, htail, List.append_nil]
        · exfalso
          apply hfirst
          have hpre : resp ++ [w.rx.buffer w.rx.read_index] <+: R.dropLast := by
            rw [← hRd, List.dropLast_append_of_ne_nil _ htail]
            exact List.prefix_append _ _
          exact hdone.trans hpre.isInfix
      · rw [if_neg hdone]
        have htail : (RG200U_ReceiveByte w.rx).1.contents ++ w.stream ≠ [] := by
          intro ht
          apply hdone
          rw [strstr_isSome_iff, cstr_eq_self _ hzr]
          have : resp ++ [w.rx.buffer w.rx.read_index] = R := by
            rw [← hRd, ht, List.append_nil]
          rw [this]
          exact hlast
        have hfits1 : ringFits ((RG200U_ReceiveByte w.rx).1.count + 1) w.modem := by
          rw [p3]; exact hfits
        obtain ⟨n1, n2, n3⟩ := hnext (RG200U_ReceiveByte w.rx).1 p2 hfits1
        have hst : (HAL_Delay w.receiveByte.1 1).stream = w.modem.tail.flatten := by
          unfold World.stream; rw [d2]
        have hcs : (HAL_Delay w.receiveByte.1 1).rx.contents ++ (HAL_Delay w.receiveByte.1 1).stream
            = (RG200U_ReceiveByte w.rx).1.contents ++ w.stream := by
          rw [hst, d1]; exact n2
        have hml : w.modem.tail.length ≤ w.modem.length := by
          rw [← hmlen]; omega
        exact ih (HAL_Delay w.receiveByte.1 1) (resp ++ [w.rx.buffer w.rx.read_index])
          (by rw [hcs]; exact htail) (by rw [hcs]; exact hRd)
          (by rw [d1]; exact n1) (by rw [d1, d2]; exact n3)
          (by rw [d3]; omega)
          (by rw [hcs, d2, d3]; omega)
          (by rw [hcs, d2]; omega)

/-- What `RG200U_ReadTCPData` does with a well-formed answer that reaches it in full: the
answer may come in bursts, as long as the ring has room for each of them and the last one
arrives within the 2 s of the receive loop. -/
theorem readTCPData_answer (w : World) (P : List Nat) (max_len : Nat)
    (hwf : w.rx.WF) (hn : 1 ≤ P.length) (hmax : P.length ≤ max_len)
    (hzero : 0 ∉ P) (hok1 : ¬ bytes "OK\r\n" <:+: P) (hok2 : ¬ bytes "\r\nOK" <:+: P)
    (hend : ¬ bytes "OK" <:+ P)
    (hstream : w.stream = qirdAnswer P)
    (hroom : ((w.modem.take 100).flatten).length ≤ 255)
    (hfits : ringFits ((w.modem.take 100).flatten).length (w.modem.drop 100))
    (htime : (qirdAnswer P).length + w.modem.length ≤ 2000)
    (hsize : (qirdAnswer P).length ≤ 510) :
    (RG200U_ReadTCPData w max_len).copy_len = P.length
      ∧ (RG200U_ReadTCPData w max_len).ret = P.length % 256
      ∧ (RG200U_ReadTCPData w max_len).buffer = some (P ++ [0]) := by
  obtain ⟨hz, hfirst, hlast, hshape, h10⟩ := qirdAnswer_shape P hzero hok1 hend
  -- the state in which the receive loop starts
  obtain ⟨e1, e2, e3⟩ := empty_count w.rx.flush rfl hwf.1
  have hstart := elapse_take 100
    (HAL_UART_Transmit { w with rx := w.rx.flush } (cstr (qirdCmd max_len))) e1
    (by show w.rx.flush.count + ((w.modem.take 100).flatten).length ≤ 255
        rw [e2]; omega)
  have hrxs : (readStart w max_len).rx
      = (elapse 100 (HAL_UART_Transmit { w with rx := w.rx.flush } (cstr (qirdCmd max_len)))).rx :=
    rfl
  have hmods : (readStart w max_len).modem = w.modem.drop 100 := by
    show (elapse 100 (HAL_UART_Transmit { w with rx := w.rx.flush }
      (cstr (qirdCmd max_len)))).modem = _
    rw [elapse_modem]
    rfl
  have hcontents : (readStart w max_len).rx.contents = (w.modem.take 100).flatten := by
    rw [hrxs, hstart.2.1]
    show w.rx.flush.contents ++ (w.modem.take 100).flatten = _
    rw [e3, List.nil_append]
  have hcount : (readStart w max_len).rx.count = ((w.modem.take 100).flatten).length := by
    rw [hrxs, hstart.2.2]
    show w.rx.flush.count + ((w.modem.take 100).flatten).length = _
    rw [e2, Nat.zero_add]
  have hall : (readStart w max_len).rx.contents ++ (readStart w max_len).stream
      = qirdAnswer P := by
    rw [hcontents, ← hstream]
    unfold World.stream
    rw [hmods, ← List.flatten_append, List.take_append_drop]
  have hne : qirdAnswer P ≠ [] := by
    rw [hshape]; simp
  have hdroplen : (w.modem.drop 100).length ≤ w.modem.length := by
    rw [List.length_drop]; omega
  have hresp : (readResponse w max_len).2 = qirdAnswer P :=
    readLoop_stream (qirdAnswer P) (readStart w max_len).tick hz hfirst hlast hsize
      2000 (readStart w max_len) [] (by rw [hall]; exact hne)
      (by rw [hall, List.nil_append])
      (by rw [hrxs]; exact hstart.1)
      (by rw [hcount, hmods]; exact hfits)
      (le_refl _)
      (by rw [hall, hmods]; omega)
      (by rw [hall, hmods]; omega)
  -- the parse
  have hcR : cstr (qirdAnswer P) = qirdAnswer P := cstr_eq_self _ hz
  have hqird : strstr (qirdAnswer P) (bytes "+QIRD:") = some 0 := by
    unfold strstr
    rw [hcR, hshape]
    exact findSub_first (bytes "+QIRD:") (by decide) _ [] (by decide)
  have hdrop7 : (qirdAnswer P).drop (0 + 7)
      = printInt (P.length : Int) ++ 13 :: 10 :: (P ++ bytes "\r\nOK\r\n") := by
    rw [hshape]
    have h6 : bytes "+QIRD:" = [43, 81, 73, 82, 68, 58] := by decide
    rw [h6]
    rfl
  have hzsuf : ∀ k, 0 ∉ (qirdAnswer P).drop k :=
    fun k hmem => hz (List.mem_of_mem_drop hmem)
  have hlen : scanInt (cstr ((qirdAnswer P).drop (0 + 7)))
      = some ((P.length : Int), 13 :: 10 :: (P ++ bytes "\r\nOK\r\n")) := by
    rw [cstr_eq_self _ (hzsuf _), hdrop7]
    have hPlen : P.length ≤ (qirdAnswer P).length := by
      unfold qirdAnswer
      simp only [List.length_append]
      omega
    exact scanInt_printNat P.length (by omega) (by omega) _
  have hline : strchr ((qirdAnswer P).drop 0) 10
      = some (bytes "+QIRD: " ++ printInt (P.length : Int) ++ [13]).length := by
    unfold strchr
    rw [List.drop_zero, hcR]
    have hsplit : qirdAnswer P = (bytes "+QIRD: " ++ printInt (P.length : Int) ++ [13]) ++ [10]
        ++ (P ++ bytes "\r\nOK\r\n") := by
      unfold qirdAnswer
      have hcrlf : bytes "\r\n" = [13] ++ [10] := by decide
      rw [hcrlf]
      simp only [List.append_assoc]
    rw [hsplit]
    apply findSub_first [10] (by decide)
    intro hin
    apply h10
    have hd : ([10] : List Nat).dropLast = [] := rfl
    rw [hd, List.append_nil] at hin
    exact hin.subset (List.mem_singleton.2 rfl)
  have hstartdrop : (qirdAnswer P).drop
      (0 + (bytes "+QIRD: " ++ printInt (P.length : Int) ++ [13]).length + 1)
      = P ++ bytes "\r\nOK\r\n" := by
    have hsplit : qirdAnswer P = ((bytes "+QIRD: " ++ printInt (P.length : Int) ++ [13]) ++ [10])
        ++ (P ++ bytes "\r\nOK\r\n") := by
      unfold qirdAnswer
      have hcrlf : bytes "\r\n" = [13] ++ [10] := by decide
      rw [hcrlf]
      simp only [List.append_assoc]
    have hl : 0 + (bytes "+QIRD: " ++ printInt (P.length : Int) ++ [13]).length + 1
        = ((bytes "+QIRD: " ++ printInt (P.length : Int) ++ [13]) ++ [10]).length := by
      rw [List.length_append _ [10], List.length_singleton]; omega
    rw [hl]
    nth_rewrite 1 [hsplit]
    exact List.drop_left _ _
  have hok : strstr ((qirdAnswer P).drop
      (0 + (bytes "+QIRD: " ++ printInt (P.length : Int) ++ [13]).length + 1)) (bytes "\r\nOK")
      = some P.length := by
    unfold strstr
    rw [cstr_eq_self _ (hzsuf _), hstartdrop]
    have ht : bytes "\r\nOK\r\n" = bytes "\r\nOK" ++ bytes "\r\n" := by decide
    rw [ht, ← List.append_assoc]
    exact findSub_first (bytes "\r\nOK") (by decide) _ P (no_crlf_ok P hok2)
  have hparse := parseQIRD_found (readResponse w max_len).1 (qirdAnswer P) max_len 0 _ _ _ _
    hqird hlen (by omega) hline hok
  have hcl : copyLength P.length (P.length : Int) max_len = P.length := by
    rw [copyLength_eq _ _ _ (by omega)]
    simp only [Int.toNat_ofNat, max_self]
    omega
  rw [hcl] at hparse
  have hfun : RG200U_ReadTCPData w max_len
      = parseQIRD (readResponse w max_len).1 (qirdAnswer P) max_len := by
    unfold RG200U_ReadTCPData
    rw [hresp]
  rw [hfun]
  refine ⟨hparse.1, hparse.2.1, ?_⟩
  rw [hparse.2.2]
  unfold responseArray
  have hk : 0 + (bytes "+QIRD: " ++ printInt (P.length : Int) ++ [13]).length + 1
      ≤ (qirdAnswer P).length := by
    by_contra hgt
    have hnil := List.drop_eq_nil_of_le (Nat.le_of_lt (Nat.lt_of_not_le hgt))
    rw [hstartdrop] at hnil
    have hlen0 := congrArg List.length hnil
    rw [List.length_append] at hlen0
    simp only [List.length_nil] at hlen0
    omega
  rw [List.drop_append_of_le_length hk, hstartdrop, List.append_assoc, List.take_left]

/-- C16, as amended. Let `P` be a payload of length n ≥ 1 that contains no zero byte, neither
"OK\r\n" nor "\r\nOK", and does not end in "OK"; let `max_len` be at least n; and let the
modem send, within the 100 ms that `RG200U_ReadTCPData` waits after the read command, the
header line "+QIRD: n\r\n", the bytes of `P` and the trailer "\r\nOK\r\n" and nothing else,
these being at most 255 bytes in all (what the receive ring can hold). Then the function
returns n, and it writes exactly `P` followed by a zero byte to the output buffer. -/
theorem read_payload (w : World) (P : List Nat) (max_len : Nat)
    (hwf : w.rx.WF) (hn : 1 ≤ P.length) (hmax : P.length ≤ max_len)
    (hzero : 0 ∉ P) (hok1 : ¬ bytes "OK\r\n" <:+: P) (hok2 : ¬ bytes "\r\nOK" <:+: P)
    (hend : ¬ bytes "OK" <:+ P)
    (hstream : w.stream = qirdAnswer P) (hsoon : w.modem.length ≤ 100)
    (hsize : (qirdAnswer P).length ≤ 255) :
    (RG200U_ReadTCPData w max_len).ret = P.length
      ∧ (RG200U_ReadTCPData w max_len).copy_len = P.length
      ∧ (RG200U_ReadTCPData w max_len).buffer = some (P ++ [0]) := by
  have hall : w.modem.take 100 = w.modem := List.take_of_length_le hsoon
  have hnone : w.modem.drop 100 = [] := List.drop_eq_nil_of_le hsoon
  have hflat : (w.modem.take 100).flatten = qirdAnswer P := by
    rw [hall, ← hstream]; rfl
  have hl : (qirdAnswer P).length = (bytes "+QIRD: ").length
      + (printInt (P.length : Int)).length + (bytes "\r\n").length + P.length
      + (bytes "\r\nOK\r\n").length := by
    unfold qirdAnswer
    simp only [List.length_append]
  have h := readTCPData_answer w P max_len hwf hn hmax hzero hok1 hok2 hend hstream
    (by rw [hflat]; exact hsize)
    (by rw [hnone]; trivial)
    (by omega) (by omega)
  refine ⟨?_, h.1, h.2.2⟩
  rw [h.2.1]
  omega

set_option maxRecDepth 20000 in
theorem read_payload_witness :
    ((replyStub (qirdAnswer (bytes "hello"))).rx.WF
        ∧ 1 ≤ (bytes "hello").length ∧ (bytes "hello").length ≤ 511
        ∧ 0 ∉ bytes "hello" ∧ ¬ bytes "OK\r\n" <:+: bytes "hello"
        ∧ ¬ bytes "\r\nOK" <:+: bytes "hello" ∧ ¬ bytes "OK" <:+ bytes "hello"
        ∧ (replyStub (qirdAnswer (bytes "hello"))).stream = bytes "+QIRD: 5\r\nhello\r\nOK\r\n"
        ∧ (replyStub (qirdAnswer (bytes "hello"))).modem.length ≤ 100
        ∧ (qirdAnswer (bytes "hello")).length ≤ 255)
      ∧ (RG200U_ReadTCPData (replyStub (qirdAnswer (bytes "hello"))) 511).ret = 5
      ∧ (RG200U_ReadTCPData (replyStub (qirdAnswer (bytes "hello"))) 511).buffer
          = some (bytes "hello" ++ [0]) :=
  ⟨⟨⟨by decide, by decide⟩, by decide, by decide, by decide, by decide, by decide, by decide,
      by decide, by decide, by decide⟩,
    (read_payload (replyStub (qirdAnswer (bytes "hello"))) (bytes "hello") 511
      ⟨by decide, by decide⟩ (by decide) (by decide) (by decide) (by decide) (by decide)
      (by decide) (by decide) (by decide) (by decide)).1,
    (read_payload (replyStub (qirdAnswer (bytes "hello"))) (bytes "hello") 511
      ⟨by decide, by decide⟩ (by decide) (by decide) (by decide) (by decide) (by decide)
      (by decide) (by decide) (by decide) (by decide)).2.2⟩

set_option maxRecDepth 20000 in
/-- C16 as stated fails: the payload "OK" has length 2, no zero byte, and contains neither
"OK\r\n" nor "\r\nOK". The modem answers "+QIRD: 2\r\nOK\r\nOK\r\n" at once. The receive loop stops
as soon as the payload and the first two bytes of the trailer make up "OK\r\n"; what it has
gathered then holds no "\r\nOK" after the header line, the function returns 0 and leaves the
output buffer untouched. -/
theorem read_payload_counterexample :
    (bytes "OK").length = 2 ∧ 0 ∉ bytes "OK" ∧ ¬ bytes "OK\r\n" <:+: bytes "OK"
      ∧ ¬ bytes "\r\nOK" <:+: bytes "OK"
      ∧ (replyStub (qirdAnswer (bytes "OK"))).stream = bytes "+QIRD: 2\r\nOK\r\nOK\r\n"
      ∧ (readResponse (replyStub (qirdAnswer (bytes "OK"))) 511).2 = bytes "+QIRD: 2\r\nOK\r\n"
      ∧ (RG200U_ReadTCPData (replyStub (qirdAnswer (bytes "OK"))) 511).ret = 0
      ∧ (RG200U_ReadTCPData (replyStub (qirdAnswer (bytes "OK"))) 511).buffer = none := by
  decide

/-! ## Modem bring-up: the commands sent -/

theorem uart5Sent_rs485 (bs : List Nat) (es : List Event) :
    uart5Sent ((bs.map Event.rs485).reverse ++ es) = uart5Sent es := by
  induction bs generalizing es with
  | nil => rfl
  | cons b bs ih =>
    rw [List.map_cons, List.reverse_cons, List.append_assoc, ih]
    rfl

theorem sent_sendString (w : World) (str : List Nat) :
    (RS485_SendString_NoDirChange w str).sent = w.sent := by
  unfold World.sent RS485_SendString_NoDirChange
  rw [foldl_sendByte_trace, uart5Sent_rs485]

theorem sent_delay (w : World) (ms : Nat) : (HAL_Delay w ms).sent = w.sent := by
  unfold World.sent
  rw [HAL_Delay_trace]
  rfl

theorem sent_receiveByte (w : World) : w.receiveByte.1.sent = w.sent := rfl

theorem sent_atLoop (start timeout : Nat) : ∀ (fuel : Nat) (w : World) (resp : List Nat),
    (atLoop fuel w start timeout resp).world.sent = w.sent := by
  intro fuel
  induction fuel with
  | zero => intro w resp; rfl
  | succ fuel ih =>
    intro w resp
    have hnext : ∀ r, (atLoop fuel (HAL_Delay w.receiveByte.1 1) start timeout r).world.sent
        = w.sent := by
      intro r
      rw [ih, sent_delay, sent_receiveByte]
    rw [atLoop]
    by_cases hc : tickDiff (HAL_GetTick w) start < timeout
    · rw [if_pos hc]
      rcases hrb : w.receiveByte.2 with _ | data
      · have hpair : w.receiveByte = (w.receiveByte.1, none) := by rw [← hrb]
        rw [hpair]
        exact hnext resp
      · have hpair : w.receiveByte = (w.receiveByte.1, some data) := by rw [← hrb]
        rw [hpair]
        simp only []
        exact ite_pred (fun r : ATResult => r.world.sent = w.sent) _ _ _
          (ite_pred (fun r : ATResult => r.world.sent = w.sent) _ _ _
            (sent_receiveByte w) (hnext _))
          (hnext _)
    · rw [if_neg hc]

theorem sent_sendATCommand (w : World) (cmd : List Nat) (timeout : Nat) :
    (RG200U_SendATCommand w cmd timeout).world.sent = w.sent ++ [cstr cmd] := by
  unfold RG200U_SendATCommand
  simp only []
  rw [sent_atLoop]
  unfold World.sent HAL_UART_Transmit
  show (cstr cmd :: uart5Sent w.trace).reverse = _
  rw [List.reverse_cons]

theorem parseQIRD_ret (w : World) (response : List Nat) (max_len : Nat) :
    (parseQIRD w response max_len).ret = (parseQIRD w response max_len).copy_len % 256 := by
  unfold parseQIRD
  split
  · rfl
  · split
    · rfl
    · split
      · split
        · rfl
        · simp only []
          split
          · rfl
          · rfl
      · rfl

set_option maxRecDepth 20000 in
/-- C18 fails in the code: the value returned is the number of bytes copied modulo 256, the
count being converted to `uint8_t`. The modem of `slowStub` answers the read command with the
header "+QIRD: 256", a payload of 256 bytes and the trailer, in two bursts that the ring can
hold. `RG200U_ReadTCPData` copies the 256 bytes (and the closing zero) into the caller's
buffer, and returns 0. -/
theorem readTCPData_return_truncated :
    (∀ (w : World) (max_len : Nat),
        (RG200U_ReadTCPData w max_len).ret = (RG200U_ReadTCPData w max_len).copy_len % 256)
      ∧ slowStub.stream = qirdAnswer (List.replicate 256 120)
      ∧ (RG200U_ReadTCPData slowStub 511).copy_len = 256
      ∧ (RG200U_ReadTCPData slowStub 511).buffer = some (List.replicate 256 120 ++ [0])
      ∧ (RG200U_ReadTCPData slowStub 511).ret = 0 := by
  have hstream : slowStub.stream = qirdAnswer (List.replicate 256 120) := by decide
  have h120 : ∀ c, c ∈ List.replicate 256 120 → c = 120 := fun c h => List.eq_of_mem_replicate h
  have h := readTCPData_answer slowStub (List.replicate 256 120) 511
    ⟨by decide, by decide⟩ (by simp) (by simp)
    (fun hm => absurd (h120 0 hm) (by decide))
    (fun hi => absurd (h120 79 (hi.subset (by decide))) (by decide))
    (fun hi => absurd (h120 13 (hi.subset (by decide))) (by decide))
    (fun hi => absurd (h120 79 (hi.subset (by decide))) (by decide))
    hstream (by decide) (by decide) (by decide) (by decide)
  rw [List.length_replicate] at h
  exact ⟨fun w max_len => parseQIRD_ret _ _ _, hstream, h.1, h.2.2, h.2.1⟩

theorem cstr_append_nz (a b : List Nat) (h : 0 ∉ a) : cstr (a ++ b) = a ++ cstr b := by
  unfold cstr
  rw [List.takeWhile_append_of_pos]
  intro x hx
  have : x ≠ 0 := fun e => h (e ▸ hx)
  simpa using this

theorem cstr_terminated (v tail : List Nat) (hz : 0 ∉ v) : cstr (v ++ 0 :: tail) = v := by
  rw [cstr_append_nz _ _ hz, cstr_cons_zero, List.append_nil]
theorem roundStart_next (w : World) : ∀ i : Nat,
    roundStart (nextRound w) i = roundStart w (i + 1) := by
  intro i
  induction i with
  | zero => simp only [roundStart]
  | succ i ih =>
    rw [roundStart, ih]
    simp only [roundStart]

theorem takenAsRegistered_iff (r : ATResult) (tag : List Nat) (hret : r.ret = 1 ∨ r.ret = 0) :
    (r.ret ≠ 0 ∧ ((strstr r.response (tag ++ bytes "1")).isSome
        ∨ (strstr r.response (tag ++ bytes "5")).isSome))
      ↔ takenAsRegistered r tag := by
  unfold takenAsRegistered
  rw [strstr_isSome_iff, strstr_isSome_iff]
  constructor
  · rintro ⟨h0, h⟩
    rcases hret with h1 | h1
    · exact ⟨h1, h⟩
    · exact absurd h1 h0
  · rintro ⟨h1, h⟩
    exact ⟨by rw [h1]; decide, h⟩

theorem registration_iff : ∀ (n : Nat) (w : World),
    (registration n w).2 = 1 ↔ ∃ i : Nat, i < n ∧ roundRegisters (roundStart w i) := by
  intro n
  induction n with
  | zero =>
    intro w
    constructor
    · intro h
      exact absurd (show (0 : Nat) = 1 from h) (by decide)
    · rintro ⟨i, hi, _⟩
      omega
  | succ n ih =>
    intro w
    have h5 := takenAsRegistered_iff (query5G w) (bytes "+C5GREG: 0,")
      (sendATCommand_ret w _ 2000 (by decide))
    have h4 := takenAsRegistered_iff (query4G w) (bytes "+CEREG: 0,")
      (sendATCommand_ret (query5G w).world _ 2000 (by decide))
    rw [registration]
    simp only []
    by_cases c5 : (RG200U_SendATCommand w (bytes "AT+C5GREG?\r\n") 2000).ret ≠ 0
        ∧ ((strstr (RG200U_SendATCommand w (bytes "AT+C5GREG?\r\n") 2000).response
              (bytes "+C5GREG: 0,1")).isSome
          ∨ (strstr (RG200U_SendATCommand w (bytes "AT+C5GREG?\r\n") 2000).response
              (bytes "+C5GREG: 0,5")).isSome)
    · rw [if_pos c5]
      exact ⟨fun _ => ⟨0, by omega, Or.inl (h5.1 c5)⟩, fun _ => rfl⟩
    · rw [if_neg c5]
      by_cases c4 : (RG200U_SendATCommand (RG200U_SendATCommand w (bytes "AT+C5GREG?\r\n") 2000).world
            (bytes "AT+CEREG?\r\n") 2000).ret ≠ 0
          ∧ ((strstr (RG200U_SendATCommand
                (RG200U_SendATCommand w (bytes "AT+C5GREG?\r\n") 2000).world
                (bytes "AT+CEREG?\r\n") 2000).response (bytes "+CEREG: 0,1")).isSome
            ∨ (strstr (RG200U_SendATCommand
                (RG200U_SendATCommand w (bytes "AT+C5GREG?\r\n") 2000).world
                (bytes "AT+CEREG?\r\n") 2000).response (bytes "+CEREG: 0,5")).isSome)
      · rw [if_pos c4]
        exact ⟨fun _ => ⟨0, by omega, Or.inr (h4.1 c4)⟩, fun _ => rfl⟩
      · rw [if_neg c4]
        have hnot : ¬ roundRegisters w := by
          rintro (h | h)
          · exact c5 (h5.2 h)
          · exact c4 (h4.2 h)
        have e := ih (nextRound w)
        show (registration n (nextRound w)).2 = 1 ↔ _
        rw [e]
        constructor
        · rintro ⟨i, hi, hr⟩
          exact ⟨i + 1, by omega, by rw [← roundStart_next]; exact hr⟩
        · rintro ⟨i, hi, hr⟩
          cases i with
          | zero => exact absurd hr hnot
          | succ j => exact ⟨j, by omega, by rw [roundStart_next]; exact hr⟩

theorem registration_flag : ∀ (n : Nat) (w : World),
    (registration n w).2 = 1 ∨ (registration n w).2 = 0 := by
  intro n
  induction n with
  | zero => intro w; exact Or.inr rfl
  | succ n ih =>
    intro w
    rw [registration]
    simp only []
    split
    · exact Or.inl rfl
    · split
      · exact Or.inl rfl
      · exact ih _

theorem registration_queries : ∀ (n : Nat) (w : World),
    ∃ regs : List (List Nat), regs <+: registrationQueries n
      ∧ (registration n w).1.sent = w.sent ++ regs := by
  intro n
  induction n with
  | zero => intro w; exact ⟨[], List.nil_prefix, by simp [registration]⟩
  | succ n ih =>
    intro w
    have h5 : cstr (bytes "AT+C5GREG?\r\n") = bytes "AT+C5GREG?\r\n" := by decide
    have h4 : cstr (bytes "AT+CEREG?\r\n") = bytes "AT+CEREG?\r\n" := by decide
    have hq : registrationQueries (n + 1)
        = bytes "AT+C5GREG?\r\n" :: bytes "AT+CEREG?\r\n" :: registrationQueries n := by
      unfold registrationQueries
      rw [List.replicate_succ, List.flatten_cons]
      rfl
    rw [registration, hq]
    simp only []
    split
    · refine ⟨[bytes "AT+C5GREG?\r\n"], ?_, ?_⟩
      · exact ⟨bytes "AT+CEREG?\r\n" :: registrationQueries n, rfl⟩
      · rw [sent_sendString, sent_sendATCommand, h5]
    · split
      · refine ⟨[bytes "AT+C5GREG?\r\n", bytes "AT+CEREG?\r\n"], ?_, ?_⟩
        · exact ⟨registrationQueries n, rfl⟩
        · rw [sent_sendString, sent_sendATCommand, sent_sendATCommand, h5, h4, List.append_assoc]
          rfl
      · obtain ⟨regs, hr, hs⟩ := ih (HAL_Delay (RS485_SendString_NoDirChange
          (RG200U_SendATCommand (RG200U_SendATCommand w (bytes "AT+C5GREG?\r\n") 2000).world
            (bytes "AT+CEREG?\r\n") 2000).world (bytes ".")) 2000)
        refine ⟨bytes "AT+C5GREG?\r\n" :: bytes "AT+CEREG?\r\n" :: regs, ?_, ?_⟩
        · obtain ⟨t, ht⟩ := hr
          exact ⟨t, by rw [← ht]; rfl⟩
        · rw [hs, sent_delay, sent_sendString, sent_sendATCommand, sent_sendATCommand, h5, h4]
          simp only [List.append_assoc, List.cons_append, List.nil_append]

/-- C23, as amended. Step 2 of `RG200U_Init` runs at most 20 rounds, each with at most one
AT+C5GREG? and one AT+CEREG? query in that order, and reports the modem as registered if
and only if in one of those rounds a query whose exchange completed (returned 1) has a
response that contains the text "+C5GREG: 0,1" or "+C5GREG: 0,5" (5G query), or
"+CEREG: 0,1" or "+CEREG: 0,5" (4G query). The status is matched as text, not read as a
number: a response is taken as registered exactly when the tag is continued by 1 or by 5. -/
theorem registration_criterion (w : World) :
    ((registration 20 w).2 = 1 ↔ ∃ i : Nat, i < 20 ∧ roundRegisters (roundStart w i))
      ∧ ((registration 20 w).2 = 1 ∨ (registration 20 w).2 = 0)
      ∧ ∃ regs : List (List Nat), regs <+: registrationQueries 20
          ∧ (registration 20 w).1.sent = w.sent ++ regs :=
  ⟨registration_iff 20 w, registration_flag 20 w, registration_queries 20 w⟩

/-- C23, counterexample. The modem answers the first AT+C5GREG? with
"+C5GREG: 0,2\r\n\r\nOK\r\n" (status 2) and the first AT+CEREG? with
"+CEREG: 0,10\r\n\r\nOK\r\n" (status 10): no response reports status 1 or 5, yet step 2
reports the modem as registered, in its first round, because "+CEREG: 0,10" contains
"+CEREG: 0,1". -/
theorem registration_status_counterexample :
    (query5G status10Stub).response = bytes "+C5GREG: 0,2\r\n\r\nOK\r\n"
      ∧ (query4G status10Stub).response = bytes "+CEREG: 0,10\r\n\r\nOK\r\n"
      ∧ (registration 20 status10Stub).2 = 1
      ∧ rs485Bytes (registration 20 status10Stub).1.log = bytes " Registered (4G)\r\n"
      ∧ (registration 20 status10Stub).1.sent = [bytes "AT+C5GREG?\r\n", bytes "AT+CEREG?\r\n"] := by
  decide

theorem parseQIRD_copy_le (w : World) (response : List Nat) (max_len : Nat) :
    (parseQIRD w response max_len).copy_len ≤ max_len := by
  unfold parseQIRD
  split
  · exact Nat.zero_le _
  · split
    · exact Nat.zero_le _
    · split
      · split
        · exact Nat.zero_le _
        · rename_i h _ _ _
          simp only []
          split
          · exact Nat.zero_le _
          · show copyLength _ _ _ ≤ max_len
            rw [copyLength_eq _ _ _ (by simpa using h)]
            exact Nat.min_le_right _ _
      · exact Nat.zero_le _

set_option maxRecDepth 20000 in
/-- C29. The write of the terminating zero stays within `max_len + 1` bytes: the copy length
never exceeds `max_len`. The source range does not stay within the received bytes: to the
read command the modem answers with the 14-byte payload "ab\r\nOK\r\ncdefgh", the receive
loop stops at the "OK\r\n" inside the payload with 19 bytes received, the payload starts at
offset 11, and 14 bytes are copied from there, the last 6 of them from beyond the received
bytes (zeros left by `memset`); 14 is returned. When the gathered response is
"+QIRD: 511\r\n\r\nOK\r\n" (a 511-byte payload that begins with "\r\nOK\r\n"), 511 bytes
are copied from offset 12 on, which leaves the 512-byte response array. -/
theorem readTCPData_source_range :
    (∀ (w : World) (max_len : Nat), (RG200U_ReadTCPData w max_len).copy_len ≤ max_len)
      ∧ (readResponse (replyStub (qirdAnswer okInside)) 511).2 = bytes "+QIRD: 14\r\nab\r\nOK\r\n"
      ∧ dataStart (readResponse (replyStub (qirdAnswer okInside)) 511).2 = some 11
      ∧ (RG200U_ReadTCPData (replyStub (qirdAnswer okInside)) 511).copy_len = 14
      ∧ (readResponse (replyStub (qirdAnswer okInside)) 511).2.length < 11 + 14
      ∧ (RG200U_ReadTCPData (replyStub (qirdAnswer okInside)) 511).buffer
          = some (bytes "ab\r\nOK\r\n" ++ List.replicate 6 0 ++ [0])
      ∧ (RG200U_ReadTCPData (replyStub (qirdAnswer okInside)) 511).ret = 14
      ∧ dataStart (bytes "+QIRD: 511\r\n\r\nOK\r\n") = some 12
      ∧ (parseQIRD idleWorld (bytes "+QIRD: 511\r\n\r\nOK\r\n") 511).copy_len = 511
      ∧ (responseArray (bytes "+QIRD: 511\r\n\r\nOK\r\n")).length < 12 + 511 := by
  refine ⟨fun w max_len => parseQIRD_copy_le _ _ _, ?_⟩
  decide

theorem findSub_bound (needle hay : List Nat) (k : Nat) (hne : needle ≠ [])
    (h : findSub needle hay = some k) : k + needle.length ≤ hay.length := by
  have hp := (findSub_some_drop needle hay k h).length_le
  rw [List.length_drop] at hp
  have : 0 < needle.length := List.length_pos.2 hne
  omega

theorem cstr_drop : ∀ (l : List Nat) (k : Nat), k ≤ (cstr l).length →
    cstr (l.drop k) = (cstr l).drop k := by
  intro l
  induction l with
  | nil => intro k _; simp [cstr]
  | cons x xs ih =>
    intro k hk
    cases k with
    | zero => rfl
    | succ j =>
      by_cases hx : x = 0
      · rw [hx, cstr_cons_zero] at hk
        simp at hk
      · rw [cstr_cons_ne x xs hx] at hk ⊢
        rw [List.drop_succ_cons, List.drop_succ_cons]
        exact ih j (by simpa using hk)

/-- Without `"\r\nOK"` in the text of the response, `RG200U_ReadTCPData` returns 0 and leaves
the caller's buffer untouched. -/
theorem parseQIRD_no_trailer (w : World) (response : List Nat) (max_len : Nat)
    (h : ¬ bytes "\r\nOK" <:+: cstr response) :
    (parseQIRD w response max_len).ret = 0 ∧ (parseQIRD w response max_len).copy_len = 0
      ∧ (parseQIRD w response max_len).buffer = none
      ∧ (parseQIRD w response max_len).world = w := by
  unfold parseQIRD
  split
  · exact ⟨rfl, rfl, rfl, rfl⟩
  · rename_i qird hq
    split
    · exact ⟨rfl, rfl, rfl, rfl⟩
    · split
      · split
        · exact ⟨rfl, rfl, rfl, rfl⟩
        · rename_i line_end hl
          simp only []
          split
          · exact ⟨rfl, rfl, rfl, rfl⟩
          · rename_i actual_len ha
            exfalso
            apply h
            have b1 := findSub_bound _ _ _ (by decide) hq
            have e1 : cstr (response.drop qird) = (cstr response).drop qird :=
              cstr_drop response qird (by omega)
            have b2 := findSub_bound _ _ _ (by decide) hl
            rw [e1, List.length_drop] at b2
            have e2 : cstr (response.drop (qird + line_end + 1))
                = (cstr response).drop (qird + line_end + 1) :=
              cstr_drop response _ (by simp at b2; omega)
            have hin : bytes "\r\nOK" <:+: cstr (response.drop (qird + line_end + 1)) :=
              (strstr_isSome_iff _ _).1 (by rw [ha]; rfl)
            rw [e2] at hin
            exact List.IsInfix.trans hin (List.drop_suffix _ _).isInfix
      · exact ⟨rfl, rfl, rfl, rfl⟩

theorem cstr_before_zero (pre post : List Nat) : cstr (pre ++ 0 :: post) <+: pre := by
  by_cases hz : 0 ∈ pre
  · rw [cstr_append_of_zero pre _ hz]
    exact cstr_prefix pre
  · rw [cstr_terminated pre post hz]

/-- The receive loop of `RG200U_ReadTCPData` writes nothing but 1 ms delays into the log. -/
theorem readLoop_trace (t0 : Nat) : ∀ (fuel : Nat) (w : World) (resp : List Nat),
    ∃ n : Nat, (readLoop fuel w t0 resp).1.trace = List.replicate n (Event.delay 1) ++ w.trace := by
  intro fuel
  induction fuel with
  | zero => intro w resp; exact ⟨0, rfl⟩
  | succ fuel ih =>
    intro w resp
    rw [readLoop]
    split
    · split
      · split
        · exact ⟨0, rfl⟩
        · obtain ⟨n, hn⟩ := ih (HAL_Delay w.receiveByte.1 1) (resp ++ [_])
          refine ⟨n + 1, ?_⟩
          rw [hn, HAL_Delay_trace, List.replicate_succ']
          simp [World.receiveByte]
      · obtain ⟨n, hn⟩ := ih (HAL_Delay w.receiveByte.1 1) resp
        refine ⟨n + 1, ?_⟩
        rw [hn, HAL_Delay_trace, List.replicate_succ']
        simp [World.receiveByte]
    · exact ⟨0, rfl⟩

theorem rs485Bytes_delays (n : Nat) : rs485Bytes (List.replicate n (Event.delay 1)) = [] := by
  induction n with
  | zero => rfl
  | succ n ih => rw [List.replicate_succ]; exact ih

theorem relayWrites_delays (n : Nat) : relayWrites (List.replicate n (Event.delay 1)) = [] := by
  induction n with
  | zero => rfl
  | succ n ih => rw [List.replicate_succ]; exact ih

/-- The log of a read: the command on UART5, 100 ms, and the 1 ms delays of the loop. -/
theorem readTCPData_log (w : World) (max_len : Nat) :
    ∃ n : Nat, (RG200U_ReadTCPData w max_len).world.log
      = w.log ++ [Event.uart5 (cstr (qirdCmd max_len)), Event.delay 100]
        ++ List.replicate n (Event.delay 1) := by
  have hw : (RG200U_ReadTCPData w max_len).world = (readResponse w max_len).1 := by
    unfold RG200U_ReadTCPData parseQIRD
    split
    · rfl
    · split
      · rfl
      · split
        · split
          · rfl
          · simp only []
            split <;> rfl
        · rfl
  obtain ⟨n, hn⟩ := readLoop_trace (HAL_GetTick (readStart w max_len)) 2000 (readStart w max_len) []
  refine ⟨n, ?_⟩
  rw [hw]
  unfold World.log readResponse
  rw [hn]
  unfold readStart
  rw [HAL_Delay_trace]
  simp [HAL_UART_Transmit]
/-- As long as the time and the room last and no `"OK\r\n"` shows, the receive loop of
`RG200U_ReadTCPData` takes one byte per millisecond. -/
theorem readLoop_steps (t : Nat) : ∀ (k fuel : Nat) (p : World × List Nat),
    (∀ j : Nat, j < k → tickDiff (HAL_GetTick (takeStep^[j] p).1) t < 2000
        ∧ (takeStep^[j] p).2.length < 512 - 1
        ∧ strstr (takeStep^[j + 1] p).2 (bytes "OK\r\n") = none) →
    readLoop (fuel + k) p.1 t p.2 = readLoop fuel (takeStep^[k] p).1 t (takeStep^[k] p).2 := by
  intro k
  induction k with
  | zero => intro fuel p _; rfl
  | succ k ih =>
    intro fuel p h
    obtain ⟨h1, h2, h3⟩ := h 0 (by omega)
    have hnext : ∀ j : Nat, j < k →
        tickDiff (HAL_GetTick (takeStep^[j] (takeStep p)).1) t < 2000
          ∧ (takeStep^[j] (takeStep p)).2.length < 512 - 1
          ∧ strstr (takeStep^[j + 1] (takeStep p)).2 (bytes "OK\r\n") = none := by
      intro j hj
      have := h (j + 1) (by omega)
      rw [Function.iterate_succ_apply, Function.iterate_succ_apply] at this
      rw [Function.iterate_succ_apply]
      exact this
    have e := ih fuel (takeStep p) hnext
    rw [Function.iterate_succ_apply, ← e]
    show readLoop (fuel + k + 1) p.1 t p.2 = _
    rw [readLoop]
    have hc : tickDiff (HAL_GetTick p.1) t < 2000 ∧ p.2.length < 512 - 1 := ⟨h1, h2⟩
    rw [if_pos hc]
    have h3b : strstr (takeStep p).2 (bytes "OK\r\n") = none := h3
    unfold takeStep at h3b ⊢
    cases hb : p.1.receiveByte.2 with
    | none => rfl
    | some data =>
      rw [hb] at h3b
      simp only [] at h3b ⊢
      rw [h3b]
      rfl

/-- With the ring empty and nothing more to come from the modem, the receive loop of
`RG200U_ReadTCPData` adds nothing to the response. -/
theorem readLoop_idle (t : Nat) : ∀ (fuel : Nat) (w : World) (resp : List Nat),
    w.rx.read_index = w.rx.write_index → w.modem = [] → (readLoop fuel w t resp).2 = resp := by
  intro fuel
  induction fuel with
  | zero => intro w resp _ _; rfl
  | succ fuel ih =>
    intro w resp hring hmodem
    rw [readLoop]
    split
    · rw [receiveByte_empty w hring]
      simp only []
      have hd := HAL_Delay_one w
      apply ih
      · rw [hd.1, hmodem]; exact hring
      · rw [hd.2.1, hmodem]; rfl
    · rfl
theorem readNotified_nothing (w : World)
    (h : ¬ bytes "\r\nOK" <:+: cstr (readResponse (HAL_Delay w 50) (512 - 1)).2) :
    readNotified w = (readResponse (HAL_Delay w 50) (512 - 1)).1 := by
  have hp := parseQIRD_no_trailer (readResponse (HAL_Delay w 50) (512 - 1)).1
    (readResponse (HAL_Delay w 50) (512 - 1)).2 (512 - 1) h
  unfold readNotified forwardPayload
  have hret : (RG200U_ReadTCPData (HAL_Delay w 50) (512 - 1)).ret = 0 := hp.1
  have hworld : (RG200U_ReadTCPData (HAL_Delay w 50) (512 - 1)).world
      = (readResponse (HAL_Delay w 50) (512 - 1)).1 := hp.2.2.2
  rw [hret, hworld]
  rfl

/-- C30. Whenever the response gathered by `RG200U_ReadTCPData` holds a zero byte and the
bytes received before that zero byte contain neither "OK\r\n" nor "\r\nOK", the function
returns 0, copies nothing and leaves the caller's buffer untouched; and when that happens in
the read that `RG200U_ProcessTCPMessage` starts for a notification, nothing follows the
read: the log gains the 50 ms delay, the read command, the 100 ms delay and the 1 ms delays
of the receive loop only, so no byte is written to RS-485 and no relay is written. -/
theorem zero_byte_payload :
    (∀ (w : World) (max_len : Nat) (pre post : List Nat),
      (readResponse w max_len).2 = pre ++ 0 :: post →
      ¬ bytes "OK\r\n" <:+: pre → ¬ bytes "\r\nOK" <:+: pre →
      (RG200U_ReadTCPData w max_len).ret = 0 ∧ (RG200U_ReadTCPData w max_len).copy_len = 0
        ∧ (RG200U_ReadTCPData w max_len).buffer = none)
    ∧ (∀ (w : World) (pre post : List Nat),
      (readResponse (HAL_Delay w 50) (512 - 1)).2 = pre ++ 0 :: post →
      ¬ bytes "OK\r\n" <:+: pre → ¬ bytes "\r\nOK" <:+: pre →
      (∃ n : Nat, (readNotified w).log
          = w.log ++ [Event.delay 50, Event.uart5 (cstr (qirdCmd (512 - 1))), Event.delay 100]
            ++ List.replicate n (Event.delay 1))
        ∧ rs485Bytes (readNotified w).log = rs485Bytes w.log
        ∧ relayWrites (readNotified w).log = relayWrites w.log) := by
  have key : ∀ (response pre post : List Nat), response = pre ++ 0 :: post →
      ¬ bytes "\r\nOK" <:+: pre → ¬ bytes "\r\nOK" <:+: cstr response := by
    intro response pre post hr h2 hin
    rw [hr] at hin
    exact h2 (List.IsInfix.trans hin (cstr_before_zero pre post).isInfix)
  constructor
  · intro w max_len pre post hresp _ h2
    have hp := parseQIRD_no_trailer (readResponse w max_len).1 (readResponse w max_len).2 max_len
      (key _ pre post hresp h2)
    exact ⟨hp.1, hp.2.1, hp.2.2.1⟩
  · intro w pre post hresp _ h2
    have hn := readNotified_nothing w (key _ pre post hresp h2)
    have hp := parseQIRD_no_trailer (readResponse (HAL_Delay w 50) (512 - 1)).1
      (readResponse (HAL_Delay w 50) (512 - 1)).2 (512 - 1) (key _ pre post hresp h2)
    obtain ⟨n, hlog⟩ := readTCPData_log (HAL_Delay w 50) (512 - 1)
    have hworld : (RG200U_ReadTCPData (HAL_Delay w 50) (512 - 1)).world
        = (readResponse (HAL_Delay w 50) (512 - 1)).1 := hp.2.2.2
    rw [hworld, HAL_Delay_log] at hlog
    have hl : (readNotified w).log
        = w.log ++ [Event.delay 50, Event.uart5 (cstr (qirdCmd (512 - 1))), Event.delay 100]
          ++ List.replicate n (Event.delay 1) := by
      rw [hn, hlog]
      simp only [List.append_assoc, List.cons_append, List.nil_append]
    refine ⟨⟨n, hl⟩, ?_, ?_⟩
    · rw [hl, rs485Bytes_append, rs485Bytes_append, rs485Bytes_delays]
      simp [rs485Bytes]
    · rw [hl, relayWrites_append, relayWrites_append, relayWrites_delays]
      simp [relayWrites]

set_option maxRecDepth 100000 in
theorem zeroStub_response :
    (readResponse (HAL_Delay zeroStub 50) (512 - 1)).2
      = bytes "+QIRD: 3\r\na" ++ 0 :: bytes "b\r\nOK\r\n" := by
  have hs := readLoop_steps (HAL_GetTick (readStart (HAL_Delay zeroStub 50) (512 - 1))) 19 1981
    (readStart (HAL_Delay zeroStub 50) (512 - 1), []) (by decide)
  unfold readResponse
  show (readLoop (1981 + 19) _ _ _).2 = _
  rw [hs, readLoop_idle _ _ _ _ (by decide) (by decide)]
  decide

theorem zero_byte_payload_witness :
    (RG200U_ReadTCPData (HAL_Delay zeroStub 50) (512 - 1)).ret = 0
      ∧ (RG200U_ReadTCPData (HAL_Delay zeroStub 50) (512 - 1)).buffer = none
      ∧ rs485Bytes (readNotified zeroStub).log = []
      ∧ relayWrites (readNotified zeroStub).log = [] :=
  have h1 := zero_byte_payload.1 (HAL_Delay zeroStub 50) (512 - 1) (bytes "+QIRD: 3\r\na")
    (bytes "b\r\nOK\r\n") zeroStub_response (by decide) (by decide)
  have h2 := zero_byte_payload.2 zeroStub (bytes "+QIRD: 3\r\na") (bytes "b\r\nOK\r\n")
    zeroStub_response (by decide) (by decide)
  ⟨h1.1, h1.2.2, h2.2.1, h2.2.2⟩

/-! ## Direction hysteresis of the RS-485 transmit task -/

theorem elapse_log (ms : Nat) (w : World) : (elapse ms w).log = w.log := by
  unfold World.log
  rw [elapse_trace]

theorem sendByte_log (w : World) (data : Nat) :
    (RS485_SendByte w data).log = w.log ++ [Event.rs485 data] := by
  simp [RS485_SendByte, World.log]

theorem elapse_pinLevel (ms : Nat) (w : World) (pin : Pin) :
    (elapse ms w).pinLevel pin = w.pinLevel pin := by
  unfold World.pinLevel
  rw [elapse_trace]

/-- A byte dequeued while `rs485_tx_active` is 0. -/
theorem txHandler_first (w : World) (t : TxTask) (wait v : Nat) (h0 : t.rs485_tx_active = 0) :
    (UserTask_RS485_TxHandler w t wait (some v)).1.log
        = w.log ++ [Event.gpio Pin.RS485_RE GPIO_PinState.GPIO_PIN_SET,
            Event.gpio Pin.RS485_DE GPIO_PinState.GPIO_PIN_SET, Event.delay 1,
            Event.rs485 (v % 256)]
      ∧ (UserTask_RS485_TxHandler w t wait (some v)).1.transmitMode
      ∧ (UserTask_RS485_TxHandler w t wait (some v)).2
        = { rs485_tx_active := 1,
            rs485_last_tx_tick := osKernelSysTick (UserTask_RS485_TxHandler w t wait (some v)).1 } := by
  unfold UserTask_RS485_TxHandler
  simp only []
  rw [if_pos h0, if_pos h0]
  refine ⟨?_, ?_, rfl⟩
  · unfold osDelay
    rw [sendByte_log, HAL_Delay_log, setTransmitMode_log, elapse_log]
    simp only [List.append_assoc, List.cons_append, List.nil_append]
  · unfold osDelay World.transmitMode World.pinLevel RS485_SendByte
    simp only []
    rw [HAL_Delay_trace]
    constructor <;> rfl

/-- A byte dequeued while `rs485_tx_active` is 1. -/
theorem txHandler_next (w : World) (t : TxTask) (wait v : Nat) (h1 : t.rs485_tx_active = 1)
    (hw : w.transmitMode) :
    (UserTask_RS485_TxHandler w t wait (some v)).1.log = w.log ++ [Event.rs485 (v % 256)]
      ∧ (UserTask_RS485_TxHandler w t wait (some v)).1.transmitMode
      ∧ (UserTask_RS485_TxHandler w t wait (some v)).2
        = { rs485_tx_active := 1,
            rs485_last_tx_tick := osKernelSysTick (UserTask_RS485_TxHandler w t wait (some v)).1 } := by
  have h0 : ¬ t.rs485_tx_active = 0 := by rw [h1]; decide
  unfold UserTask_RS485_TxHandler
  simp only []
  rw [if_neg h0, if_neg h0]
  refine ⟨?_, ?_, ?_⟩
  · rw [sendByte_log, elapse_log]
  · unfold World.transmitMode World.pinLevel at hw ⊢
    unfold RS485_SendByte
    simp only [lastWrite]
    rw [elapse_trace]
    exact hw
  · rw [h1]

/-- A timeout of the dequeue. -/
theorem txHandler_timeout (w : World) (t : TxTask) (wait : Nat) :
    (t.rs485_tx_active ≠ 0 →
        tickDiff (osKernelSysTick (elapse wait w)) t.rs485_last_tx_tick > 10 →
        (UserTask_RS485_TxHandler w t wait none).1.log
            = w.log ++ [Event.delay 2, Event.gpio Pin.RS485_RE GPIO_PinState.GPIO_PIN_RESET,
                Event.gpio Pin.RS485_DE GPIO_PinState.GPIO_PIN_SET]
          ∧ (UserTask_RS485_TxHandler w t wait none).1.receiveMode
          ∧ (UserTask_RS485_TxHandler w t wait none).2
            = { rs485_tx_active := 0, rs485_last_tx_tick := t.rs485_last_tx_tick })
    ∧ (¬ (t.rs485_tx_active ≠ 0
          ∧ tickDiff (osKernelSysTick (elapse wait w)) t.rs485_last_tx_tick > 10) →
        UserTask_RS485_TxHandler w t wait none = (elapse wait w, t)) := by
  refine ⟨?_, ?_⟩
  · intro h0 hd
    unfold UserTask_RS485_TxHandler
    simp only []
    rw [if_pos h0, if_pos hd]
    refine ⟨?_, setReceiveMode_mode _, rfl⟩
    unfold osDelay
    rw [setReceiveMode_log, HAL_Delay_log, elapse_log]
    simp only [List.append_assoc, List.cons_append, List.nil_append]
  · intro hn
    unfold UserTask_RS485_TxHandler
    simp only []
    by_cases h0 : t.rs485_tx_active ≠ 0
    · rw [if_pos h0, if_neg (fun hd => hn ⟨h0, hd⟩)]
    · rw [if_neg h0]

/-- The invariant of the RS-485 transmit task: `rs485_tx_active` is 0 or 1, and when it is 1
the line is in transmit mode. -/
theorem txHandler_invariant (w : World) (t : TxTask) (wait : Nat) (event : Option Nat)
    (h : t.rs485_tx_active = 0 ∨ (t.rs485_tx_active = 1 ∧ w.transmitMode)) :
    (UserTask_RS485_TxHandler w t wait event).2.rs485_tx_active = 0
      ∨ ((UserTask_RS485_TxHandler w t wait event).2.rs485_tx_active = 1
        ∧ (UserTask_RS485_TxHandler w t wait event).1.transmitMode) := by
  cases event with
  | some v =>
    rcases h with h0 | ⟨h1, hw⟩
    · have hf := txHandler_first w t wait v h0
      exact Or.inr ⟨by rw [hf.2.2], hf.2.1⟩
    · have hf := txHandler_next w t wait v h1 hw
      exact Or.inr ⟨by rw [hf.2.2], hf.2.1⟩
  | none =>
    have hc := txHandler_timeout w t wait
    by_cases hn : t.rs485_tx_active ≠ 0
        ∧ tickDiff (osKernelSysTick (elapse wait w)) t.rs485_last_tx_tick > 10
    · exact Or.inl (by rw [(hc.1 hn.1 hn.2).2.2])
    · rw [hc.2 hn]
      rcases h with h0 | ⟨h1, hw⟩
      · exact Or.inl h0
      · refine Or.inr ⟨h1, ?_⟩
        unfold World.transmitMode at hw ⊢
        rw [elapse_pinLevel, elapse_pinLevel]
        exact hw

theorem txRun_invariant : ∀ (inputs : List (Nat × Option Nat)) (w : World) (t : TxTask),
    (t.rs485_tx_active = 0 ∨ (t.rs485_tx_active = 1 ∧ w.transmitMode)) →
    (txRun (w, t) inputs).2.rs485_tx_active = 0
      ∨ ((txRun (w, t) inputs).2.rs485_tx_active = 1 ∧ (txRun (w, t) inputs).1.transmitMode) := by
  intro inputs
  induction inputs with
  | nil => intro w t h; exact h
  | cons i rest ih =>
    intro w t h
    have e : txRun (w, t) (i :: rest)
        = txRun ((UserTask_RS485_TxHandler w t i.1 i.2).1,
            (UserTask_RS485_TxHandler w t i.1 i.2).2) rest := rfl
    rw [e]
    exact ih _ _ (txHandler_invariant w t i.1 i.2 h)

/-- C25. The RS-485 transmit task as a state machine over (`rs485_tx_active`,
`rs485_last_tx_tick`), in every state in which the flag is 0, or is 1 with the line in
transmit mode (the states of every run from start-up, last part). A byte dequeued with the
flag at 0 switches the line to transmit mode, waits 1 ms and then sends the byte; a byte
dequeued with the flag at 1 is sent with no pin written, so no switch separates it from the
byte before it; either way the byte is sent in transmit mode and afterwards the flag is 1 and
the recorded tick is the current tick. A dequeue timeout with the flag at 1 and more than 10
ticks since the recorded tick waits 2 ms, switches the line to receive mode and clears the
flag; any other timeout changes neither the pins nor the statics. -/
theorem txTask_hysteresis (w : World) (t : TxTask) (wait : Nat)
    (hinv : t.rs485_tx_active = 0 ∨ (t.rs485_tx_active = 1 ∧ w.transmitMode)) :
    (∀ v : Nat, t.rs485_tx_active = 0 →
      (UserTask_RS485_TxHandler w t wait (some v)).1.log
        = w.log ++ [Event.gpio Pin.RS485_RE GPIO_PinState.GPIO_PIN_SET,
            Event.gpio Pin.RS485_DE GPIO_PinState.GPIO_PIN_SET, Event.delay 1,
            Event.rs485 (v % 256)])
    ∧ (∀ v : Nat, t.rs485_tx_active = 1 →
      (UserTask_RS485_TxHandler w t wait (some v)).1.log = w.log ++ [Event.rs485 (v % 256)])
    ∧ (∀ v : Nat, (UserTask_RS485_TxHandler w t wait (some v)).1.transmitMode
        ∧ (UserTask_RS485_TxHandler w t wait (some v)).2
          = { rs485_tx_active := 1,
              rs485_last_tx_tick :=
                osKernelSysTick (UserTask_RS485_TxHandler w t wait (some v)).1 })
    ∧ (∀ v wait2 v2 : Nat,
        (UserTask_RS485_TxHandler (UserTask_RS485_TxHandler w t wait (some v)).1
            (UserTask_RS485_TxHandler w t wait (some v)).2 wait2 (some v2)).1.log
          = (UserTask_RS485_TxHandler w t wait (some v)).1.log ++ [Event.rs485 (v2 % 256)])
    ∧ (t.rs485_tx_active = 1 →
        tickDiff (osKernelSysTick (elapse wait w)) t.rs485_last_tx_tick > 10 →
        (UserTask_RS485_TxHandler w t wait none).1.log
            = w.log ++ [Event.delay 2, Event.gpio Pin.RS485_RE GPIO_PinState.GPIO_PIN_RESET,
                Event.gpio Pin.RS485_DE GPIO_PinState.GPIO_PIN_SET]
          ∧ (UserTask_RS485_TxHandler w t wait none).1.receiveMode
          ∧ (UserTask_RS485_TxHandler w t wait none).2
            = { rs485_tx_active := 0, rs485_last_tx_tick := t.rs485_last_tx_tick })
    ∧ (¬ (t.rs485_tx_active = 1
          ∧ tickDiff (osKernelSysTick (elapse wait w)) t.rs485_last_tx_tick > 10) →
        UserTask_RS485_TxHandler w t wait none = (elapse wait w, t))
    ∧ (∀ inputs : List (Nat × Option Nat),
        (txRun (w, t) inputs).2.rs485_tx_active = 0
          ∨ ((txRun (w, t) inputs).2.rs485_tx_active = 1
            ∧ (txRun (w, t) inputs).1.transmitMode)) := by
  have hbyte : ∀ v : Nat, (UserTask_RS485_TxHandler w t wait (some v)).1.transmitMode
      ∧ (UserTask_RS485_TxHandler w t wait (some v)).2
        = { rs485_tx_active := 1,
            rs485_last_tx_tick :=
              osKernelSysTick (UserTask_RS485_TxHandler w t wait (some v)).1 } := by
    intro v
    rcases hinv with h0 | ⟨h1, hw⟩
    · exact (txHandler_first w t wait v h0).2
    · exact (txHandler_next w t wait v h1 hw).2
  refine ⟨fun v h0 => (txHandler_first w t wait v h0).1, ?_, hbyte, ?_, ?_, ?_,
    fun inputs => txRun_invariant inputs w t hinv⟩
  · intro v h1
    rcases hinv with h0 | ⟨_, hw⟩
    · rw [h0] at h1; exact absurd h1 (by decide)
    · exact (txHandler_next w t wait v h1 hw).1
  · intro v wait2 v2
    have hb := hbyte v
    exact (txHandler_next _ _ wait2 v2 (by rw [hb.2]) hb.1).1
  · intro h1 hd
    exact (txHandler_timeout w t wait).1 (by rw [h1]; decide) hd
  · intro hn
    apply (txHandler_timeout w t wait).2
    rintro ⟨h0, hd⟩
    rcases hinv with hz | ⟨h1, _⟩
    · exact h0 hz
    · exact hn ⟨h1, hd⟩

theorem txTask_hysteresis_witness :
    (UserTask_RS485_TxHandler idleWorld { rs485_tx_active := 0, rs485_last_tx_tick := 0 } 3
        (some 65)).1.log
      = [Event.gpio Pin.RS485_RE GPIO_PinState.GPIO_PIN_SET,
          Event.gpio Pin.RS485_DE GPIO_PinState.GPIO_PIN_SET, Event.delay 1, Event.rs485 65] :=
  (txTask_hysteresis idleWorld { rs485_tx_active := 0, rs485_last_tx_tick := 0 } 3
    (Or.inl rfl)).1 65 rfl

/-! ## RS-485 to modem relay -/

theorem rs485_push_eq : RS485_UART_RxCallback = RG200U_UART_RxCallback := rfl

theorem rs485_pop_eq : RS485_ReceiveByte = RG200U_ReceiveByte := rfl

theorem sent_elapse (ms : Nat) (w : World) : (elapse ms w).sent = w.sent := by
  unfold World.sent
  rw [elapse_trace]

theorem sent_sendByte (w : World) (data : Nat) :
    (RG200U_SendByte w data).sent = w.sent ++ [[data]] := by
  unfold World.sent RG200U_SendByte HAL_UART_Transmit
  simp [uart5Sent]

/-- What a schedule preserves when no capacity is exceeded: every byte delivered so far has been
transmitted, or is queued, or is unread in the ring, in the order of delivery. -/
theorem uplink_invariant : ∀ (ops : List UplinkOp) (u : Uplink),
    u.rs485.WF → (∀ b ∈ u.queue ++ u.rs485.contents, b < 256) →
    (∀ b ∈ pushedBytes ops, b < 256) → withinCapacity u ops →
    (ops.foldl Uplink.step u).rs485.WF
      ∧ (ops.foldl Uplink.step u).transmitted ++ (ops.foldl Uplink.step u).queue
          ++ (ops.foldl Uplink.step u).rs485.contents
        = u.transmitted ++ u.queue ++ u.rs485.contents ++ pushedBytes ops := by
  intro ops
  induction ops with
  | nil =>
    intro u hwf _ _ _
    exact ⟨hwf, by simp [pushedBytes]⟩
  | cons op ops ih =>
    intro u hwf hsmall hbytes hcap
    rw [List.foldl_cons]
    cases op with
    | receive byte =>
      obtain ⟨hroom, hrest⟩ := hcap
      have hp := push_accept u.rs485 byte hwf (by omega)
      have hstep : (u.step (UplinkOp.receive byte))
          = { u with rs485 := RG200U_UART_RxCallback u.rs485 byte } := rfl
      have hb : byte < 256 := hbytes byte (by simp [pushedBytes])
      have hsmall2 : ∀ b ∈ (u.step (UplinkOp.receive byte)).queue
          ++ (u.step (UplinkOp.receive byte)).rs485.contents, b < 256 := by
        intro b hbm
        rw [hstep] at hbm
        simp only [hp.2.2.1] at hbm
        rw [← List.append_assoc, List.mem_append] at hbm
        rcases hbm with h | h
        · exact hsmall b h
        · rw [List.mem_singleton.1 h]; exact hb
      have e := ih (u.step (UplinkOp.receive byte)) (by rw [hstep]; exact hp.1) hsmall2
        (fun b hbm => hbytes b (by simp [pushedBytes, hbm])) hrest
      refine ⟨e.1, ?_⟩
      rw [e.2, hstep]
      simp only [hp.2.2.1, Uplink.transmitted, pushedBytes, List.append_assoc, List.singleton_append]
    | rxTask =>
      obtain ⟨hroom, hrest⟩ := hcap
      have hb2 : ∀ b ∈ pushedBytes ops, b < 256 := fun b hbm => hbytes b (by simpa [pushedBytes] using hbm)
      by_cases hc : u.rs485.count = 0
      · have hempty := (count_eq_zero_iff u.rs485 hwf).1 hc
        have hstep : u.step UplinkOp.rxTask = { u with world := osDelay u.world 1 } := by
          show UserTask_RS485_RxHandler u = _
          unfold UserTask_RS485_RxHandler
          rw [rs485_pop_eq, pop_empty u.rs485 hempty]
        have e := ih (u.step UplinkOp.rxTask) (by rw [hstep]; exact hwf)
          (by rw [hstep]; exact hsmall) hb2 hrest
        refine ⟨e.1, ?_⟩
        rw [e.2, hstep]
        simp only [Uplink.transmitted, osDelay, sent_delay, pushedBytes]
      · have hp := pop_nonempty u.rs485 hwf hc
        have hq := hroom hc
        have hstep : u.step UplinkOp.rxTask
            = { world := osDelay u.world 1, rs485 := (RG200U_ReceiveByte u.rs485).1,
                queue := u.queue ++ [u.rs485.buffer u.rs485.read_index] } := by
          show UserTask_RS485_RxHandler u = _
          unfold UserTask_RS485_RxHandler
          rw [rs485_pop_eq, hp.1]
          simp only [osMessagePut, if_pos hq]
        have hsmall2 : ∀ b ∈ (u.step UplinkOp.rxTask).queue
            ++ (u.step UplinkOp.rxTask).rs485.contents, b < 256 := by
          intro b hbm
          rw [hstep] at hbm
          apply hsmall b
          rw [hp.2.2.2.1]
          simpa using hbm
        have e := ih (u.step UplinkOp.rxTask) (by rw [hstep]; exact hp.2.1) hsmall2 hb2 hrest
        refine ⟨e.1, ?_⟩
        rw [e.2, hstep]
        simp only [Uplink.transmitted, osDelay, sent_delay, pushedBytes]
        rw [hp.2.2.2.1]
        simp only [List.append_assoc, List.singleton_append]
    | txTask =>
      have hb2 : ∀ b ∈ pushedBytes ops, b < 256 := fun b hbm => hbytes b (by simpa [pushedBytes] using hbm)
      have hrest : withinCapacity (u.step UplinkOp.txTask) ops := hcap
      cases hq : u.queue with
      | nil =>
        have hstep : u.step UplinkOp.txTask
            = { world := elapse 100 u.world, rs485 := u.rs485, queue := [] } := by
          show UserTask_RG200U_TxHandler u = _
          unfold UserTask_RG200U_TxHandler osMessageGet
          rw [hq]
        have e := ih (u.step UplinkOp.txTask) (by rw [hstep]; exact hwf)
          (by rw [hstep]; intro b hbm; exact hsmall b (by rw [hq]; exact hbm)) hb2 hrest
        refine ⟨e.1, ?_⟩
        rw [e.2, hstep]
        simp only [Uplink.transmitted, sent_elapse, pushedBytes]
      | cons v rest =>
        have hv : v < 256 := hsmall v (by rw [hq]; simp)
        have hstep : u.step UplinkOp.txTask
            = { world := RG200U_SendByte u.world (v % 256), rs485 := u.rs485, queue := rest } := by
          show UserTask_RG200U_TxHandler u = _
          unfold UserTask_RG200U_TxHandler osMessageGet
          rw [hq]
        have e := ih (u.step UplinkOp.txTask) (by rw [hstep]; exact hwf)
          (by
            rw [hstep]; intro b hbm
            apply hsmall b
            rw [hq]
            simp only [List.cons_append, List.mem_cons]
            exact Or.inr hbm) hb2 hrest
        refine ⟨e.1, ?_⟩
        rw [e.2, hstep]
        simp only [Uplink.transmitted, sent_sendByte, pushedBytes, Nat.mod_eq_of_lt hv,
          List.flatten_append, List.flatten_cons, List.flatten_nil, List.append_nil,
          List.append_assoc, List.singleton_append]

theorem withinCapacity_append : ∀ (a b : List UplinkOp) (u : Uplink),
    withinCapacity u a → withinCapacity (a.foldl Uplink.step u) b → withinCapacity u (a ++ b) := by
  intro a
  induction a with
  | nil => intro b u _ h; exact h
  | cons op a ih =>
    intro b u ha hb
    rw [List.foldl_cons] at hb
    cases op with
    | receive byte => exact ⟨ha.1, ih b _ ha.2 hb⟩
    | rxTask => exact ⟨ha.1, ih b _ ha.2 hb⟩
    | txTask => exact ih b _ ha hb

theorem pushedBytes_append (a b : List UplinkOp) :
    pushedBytes (a ++ b) = pushedBytes a ++ pushedBytes b := by
  induction a with
  | nil => rfl
  | cons op a ih => cases op <;> simp [pushedBytes, ih]

theorem pushedBytes_receive (bs : List Nat) : pushedBytes (bs.map UplinkOp.receive) = bs := by
  induction bs with
  | nil => rfl
  | cons b bs ih => simp [pushedBytes, ih]

theorem pushedBytes_rxTask (n : Nat) : pushedBytes (List.replicate n UplinkOp.rxTask) = [] := by
  induction n with
  | zero => rfl
  | succ n ih => rw [List.replicate_succ]; exact ih

theorem pushedBytes_txTask (n : Nat) : pushedBytes (List.replicate n UplinkOp.txTask) = [] := by
  induction n with
  | zero => rfl
  | succ n ih => rw [List.replicate_succ]; exact ih

theorem burst_receive : ∀ (bs : List Nat) (u : Uplink), u.rs485.WF →
    u.rs485.count + bs.length ≤ 255 →
    withinCapacity u (bs.map UplinkOp.receive)
      ∧ ((bs.map UplinkOp.receive).foldl Uplink.step u).rs485.WF
      ∧ ((bs.map UplinkOp.receive).foldl Uplink.step u).rs485.count = u.rs485.count + bs.length
      ∧ ((bs.map UplinkOp.receive).foldl Uplink.step u).queue = u.queue := by
  intro bs
  induction bs with
  | nil => intro u hwf _; exact ⟨trivial, hwf, rfl, rfl⟩
  | cons b bs ih =>
    intro u hwf hlen
    rw [List.length_cons] at hlen
    have hp := push_accept u.rs485 b hwf (by omega)
    have hstep : (u.step (UplinkOp.receive b))
        = { u with rs485 := RG200U_UART_RxCallback u.rs485 b } := rfl
    have e := ih (u.step (UplinkOp.receive b)) (by rw [hstep]; exact hp.1)
      (by rw [hstep]; simp only [hp.2.1]; omega)
    rw [List.map_cons, List.foldl_cons]
    refine ⟨⟨by omega, e.1⟩, e.2.1, ?_, ?_⟩
    · rw [e.2.2.1, hstep]
      simp only [hp.2.1, List.length_cons]
      omega
    · rw [e.2.2.2, hstep]

theorem burst_rxTask : ∀ (n : Nat) (u : Uplink), u.rs485.WF → u.rs485.count = n →
    u.queue.length + n ≤ 256 →
    withinCapacity u (List.replicate n UplinkOp.rxTask)
      ∧ ((List.replicate n UplinkOp.rxTask).foldl Uplink.step u).rs485.WF
      ∧ ((List.replicate n UplinkOp.rxTask).foldl Uplink.step u).rs485.count = 0
      ∧ ((List.replicate n UplinkOp.rxTask).foldl Uplink.step u).queue.length
        = u.queue.length + n := by
  intro n
  induction n with
  | zero => intro u hwf hc _; exact ⟨trivial, hwf, hc, rfl⟩
  | succ n ih =>
    intro u hwf hc hlen
    have hne : u.rs485.count ≠ 0 := by omega
    have hp := pop_nonempty u.rs485 hwf hne
    have hq : u.queue.length < QUEUE_SIZE := by unfold QUEUE_SIZE; omega
    have hstep : u.step UplinkOp.rxTask
        = { world := osDelay u.world 1, rs485 := (RG200U_ReceiveByte u.rs485).1,
            queue := u.queue ++ [u.rs485.buffer u.rs485.read_index] } := by
      show UserTask_RS485_RxHandler u = _
      unfold UserTask_RS485_RxHandler
      rw [rs485_pop_eq, hp.1]
      simp only [osMessagePut, if_pos hq]
    have e := ih (u.step UplinkOp.rxTask) (by rw [hstep]; exact hp.2.1)
      (by rw [hstep]; have := hp.2.2.1; simp only []; omega)
      (by rw [hstep]; simp only [List.length_append, List.length_singleton]; omega)
    rw [List.replicate_succ, List.foldl_cons]
    refine ⟨⟨fun _ => hq, e.1⟩, e.2.1, e.2.2.1, ?_⟩
    rw [e.2.2.2, hstep]
    simp only [List.length_append, List.length_singleton]
    omega

theorem burst_txTask : ∀ (n : Nat) (u : Uplink), u.queue.length = n →
    withinCapacity u (List.replicate n UplinkOp.txTask)
      ∧ ((List.replicate n UplinkOp.txTask).foldl Uplink.step u).rs485 = u.rs485
      ∧ ((List.replicate n UplinkOp.txTask).foldl Uplink.step u).queue = [] := by
  intro n
  induction n with
  | zero =>
    intro u hq
    exact ⟨trivial, rfl, List.eq_nil_of_length_eq_zero hq⟩
  | succ n ih =>
    intro u hq
    cases hqq : u.queue with
    | nil => rw [hqq] at hq; simp at hq
    | cons v rest =>
      have hstep : u.step UplinkOp.txTask
          = { world := RG200U_SendByte u.world (v % 256), rs485 := u.rs485, queue := rest } := by
        show UserTask_RG200U_TxHandler u = _
        unfold UserTask_RG200U_TxHandler osMessageGet
        rw [hqq]
      have e := ih (u.step UplinkOp.txTask)
        (by rw [hstep]; rw [hqq] at hq; simpa using hq)
      rw [List.replicate_succ, List.foldl_cons]
      refine ⟨e.1, ?_, e.2.2⟩
      rw [e.2.1, hstep]

/-- C21. From start-up (ring and queue empty), along every schedule of byte deliveries by
the USART1 interrupt, rounds of the RS-485 receive task and rounds of the RG200U transmit
task in which no capacity is exceeded (every delivered byte finds room in the ring, every
byte taken from the ring finds room in the queue) and at whose end the ring and the queue are
drained, the bytes transmitted on the modem UART since start-up are exactly the bytes
delivered, unmodified and in order. Such a schedule exists for every sequence of at most 255
bytes: deliver them, run the receive task once per byte, run the transmit task once per
byte. -/
theorem uplink_relay (w : World) :
    (∀ ops : List UplinkOp, (∀ b ∈ pushedBytes ops, b < 256) →
      withinCapacity (Uplink.start w) ops →
      (ops.foldl Uplink.step (Uplink.start w)).drained →
      (ops.foldl Uplink.step (Uplink.start w)).transmitted
        = (Uplink.start w).transmitted ++ pushedBytes ops)
    ∧ (∀ bs : List Nat, bs.length ≤ 255 →
        pushedBytes (burstSchedule bs) = bs
          ∧ withinCapacity (Uplink.start w) (burstSchedule bs)
          ∧ ((burstSchedule bs).foldl Uplink.step (Uplink.start w)).drained) := by
  have hinit : (Uplink.start w).rs485.WF ∧ (Uplink.start w).rs485.count = 0
      ∧ (Uplink.start w).rs485.contents = [] :=
    empty_count (Uplink.start w).rs485 rfl (show (0 : Nat) < 256 by decide)
  constructor
  · intro ops hbytes hcap hdrained
    have hinv := uplink_invariant ops (Uplink.start w) hinit.1
      (by
        intro b hb
        rw [hinit.2.2] at hb
        simp [Uplink.start] at hb) hbytes hcap
    obtain ⟨hc, hq⟩ := hdrained
    have hcontents : (ops.foldl Uplink.step (Uplink.start w)).rs485.contents = [] :=
      List.eq_nil_of_length_eq_zero (by rw [contents_length, hc])
    have e := hinv.2
    rw [hq, hcontents, hinit.2.2] at e
    simpa [Uplink.start] using e
  · intro bs hlen
    have h1 := burst_receive bs (Uplink.start w) hinit.1 (by rw [hinit.2.1]; omega)
    have h2 := burst_rxTask bs.length _ h1.2.1 (by rw [h1.2.2.1, hinit.2.1]; omega)
      (by rw [h1.2.2.2]; simp [Uplink.start]; omega)
    have h3 := burst_txTask bs.length _ (by rw [h2.2.2.2, h1.2.2.2]; simp [Uplink.start])
    refine ⟨?_, ?_, ?_⟩
    · unfold burstSchedule
      rw [pushedBytes_append, pushedBytes_append, pushedBytes_receive, pushedBytes_rxTask,
        pushedBytes_txTask]
      simp
    · unfold burstSchedule
      rw [List.append_assoc]
      apply withinCapacity_append _ _ _ h1.1
      exact withinCapacity_append _ _ _ h2.1 h3.1
    · unfold burstSchedule
      rw [List.foldl_append, List.foldl_append]
      exact ⟨by rw [h3.2.1]; exact h2.2.2.1, h3.2.2⟩

theorem uplink_relay_witness :
    ([UplinkOp.receive 65, UplinkOp.rxTask, UplinkOp.receive 84, UplinkOp.txTask,
        UplinkOp.receive 13, UplinkOp.rxTask, UplinkOp.rxTask, UplinkOp.txTask,
        UplinkOp.txTask].foldl Uplink.step (Uplink.start idleWorld)).transmitted
      = [65, 84, 13] :=
  (uplink_relay idleWorld).1
    [UplinkOp.receive 65, UplinkOp.rxTask, UplinkOp.receive 84, UplinkOp.txTask,
      UplinkOp.receive 13, UplinkOp.rxTask, UplinkOp.rxTask, UplinkOp.txTask, UplinkOp.txTask]
    (by decide) (by decide) (by decide)

/-! ## The URC detector: the loop ends -/

theorem push_count_le (s : Ring) (b : Nat) (h : s.WF) :
    (RG200U_UART_RxCallback s b).WF ∧ (RG200U_UART_RxCallback s b).count ≤ s.count + 1 := by
  by_cases hc : s.count = 255
  · rw [push_reject s b h hc]
    exact ⟨h, by omega⟩
  · have hp := push_accept s b h hc
    exact ⟨hp.1, by omega⟩

theorem pushAll_count_le : ∀ (bs : List Nat) (s : Ring), s.WF →
    (bs.foldl RG200U_UART_RxCallback s).WF
      ∧ (bs.foldl RG200U_UART_RxCallback s).count ≤ s.count + bs.length := by
  intro bs
  induction bs with
  | nil => intro s h; exact ⟨h, by simp⟩
  | cons b bs ih =>
    intro s h
    have hp := push_count_le s b h
    have e := ih _ hp.1
    rw [List.foldl_cons]
    refine ⟨e.1, ?_⟩
    rw [List.length_cons]
    omega

theorem settled_refl (w : World) (h : w.rx.WF) : w.settled w := ⟨h, le_refl _⟩

theorem settled_fields (a b c : World) (hrx : b.rx = a.rx) (hm : b.modem = a.modem)
    (h : a.settled c) : b.settled c := by
  unfold World.settled World.pending World.stream at h ⊢
  rw [hrx, hm]
  exact h

theorem settled_millisecond (a c : World) (h : a.settled c) : (millisecond a).settled c := by
  unfold World.settled World.pending World.stream at h ⊢
  obtain ⟨hwf, hle⟩ := h
  cases hm : a.modem with
  | nil =>
    have e : (millisecond a).rx = a.rx := by
      unfold millisecond
      rw [hm]
      rfl
    have e2 : (millisecond a).modem = [] := by
      unfold millisecond
      rw [hm]
      rfl
    rw [e, e2]
    rw [hm] at hle
    exact ⟨hwf, hle⟩
  | cons x xs =>
    have e : (millisecond a).rx = x.foldl RG200U_UART_RxCallback a.rx := by
      unfold millisecond
      rw [hm]
      rfl
    have e2 : (millisecond a).modem = xs := by
      unfold millisecond
      rw [hm]
      rfl
    have hp := pushAll_count_le x a.rx hwf
    rw [e, e2]
    rw [hm, List.flatten_cons, List.length_append] at hle
    exact ⟨hp.1, by omega⟩

theorem settled_elapse (c : World) : ∀ (ms : Nat) (a : World), a.settled c →
    (elapse ms a).settled c := by
  intro ms
  induction ms with
  | zero => intro a h; exact h
  | succ n ih =>
    intro a h
    exact ih _ (settled_millisecond a c h)

theorem settled_delay (a c : World) (ms : Nat) (h : a.settled c) : (HAL_Delay a ms).settled c :=
  settled_fields (elapse ms a) _ c rfl rfl (settled_elapse c ms a h)

theorem settled_sendString (a c : World) (str : List Nat) (h : a.settled c) :
    (RS485_SendString_NoDirChange a str).settled c :=
  settled_fields a _ c (foldl_sendByte_fields (cstr str) a).2.1
    (foldl_sendByte_fields (cstr str) a).2.2 h

theorem settled_transmitMode (a c : World) (h : a.settled c) : (RS485_SetTransmitMode a).settled c :=
  settled_fields a _ c rfl rfl h

theorem settled_receiveMode (a c : World) (h : a.settled c) : (RS485_SetReceiveMode a).settled c :=
  settled_fields a _ c rfl rfl h

theorem settled_writePin (a c : World) (pin : Pin) (level : GPIO_PinState) (h : a.settled c) :
    (HAL_GPIO_WritePin a pin level).settled c :=
  settled_fields a _ c rfl rfl h

theorem settled_sendBuffer (a c : World) (buf : List Nat) (len : Nat) (h : a.settled c) :
    (RS485_SendBuffer a buf len).settled c := by
  unfold RS485_SendBuffer
  apply settled_receiveMode
  apply settled_delay
  refine settled_fields (HAL_Delay (RS485_SetTransmitMode a) 1) _ c
    (foldl_sendByte_fields _ _).2.1 (foldl_sendByte_fields _ _).2.2 ?_
  exact settled_delay _ _ _ (settled_transmitMode _ _ h)

theorem settled_processCommand (a c : World) (cmd_data : List Nat) (len : Nat) (h : a.settled c) :
    (RG200U_ProcessCommand a cmd_data len).settled c := by
  unfold RG200U_ProcessCommand
  simp only []
  apply settled_receiveMode
  apply settled_delay
  have h1 := settled_delay _ c 1 (settled_transmitMode _ _ h)
  refine ite_pred (fun x : World => x.settled c) _ _ _
    (settled_sendString _ _ _ (settled_writePin _ _ _ _ h1)) ?_
  refine ite_pred (fun x : World => x.settled c) _ _ _
    (settled_sendString _ _ _ (settled_writePin _ _ _ _ h1)) ?_
  refine ite_pred (fun x : World => x.settled c) _ _ _
    (settled_sendString _ _ _ (settled_writePin _ _ _ _ h1)) ?_
  refine ite_pred (fun x : World => x.settled c) _ _ _
    (settled_sendString _ _ _ (settled_writePin _ _ _ _ h1)) ?_
  exact settled_sendString _ _ _ (settled_sendString _ _ _ (settled_sendString _ _ _ h1))

theorem settled_receiveByte (a c : World) (h : a.settled c) : a.receiveByte.1.settled c := by
  unfold World.settled World.pending World.stream at h ⊢
  obtain ⟨hwf, hle⟩ := h
  by_cases hc : a.rx.count = 0
  · have hempty := (count_eq_zero_iff a.rx hwf).1 hc
    rw [receiveByte_empty a hempty]
    exact ⟨hwf, hle⟩
  · have hp := pop_nonempty a.rx hwf hc
    show (RG200U_ReceiveByte a.rx).1.WF
      ∧ (RG200U_ReceiveByte a.rx).1.count + a.modem.flatten.length ≤ _
    exact ⟨hp.2.1, by omega⟩

theorem settled_readLoop (c : World) (t : Nat) : ∀ (fuel : Nat) (a : World) (resp : List Nat),
    a.settled c → (readLoop fuel a t resp).1.settled c := by
  intro fuel
  induction fuel with
  | zero => intro a resp h; exact h
  | succ fuel ih =>
    intro a resp h
    rw [readLoop]
    split
    · split
      · split
        · exact settled_receiveByte a c h
        · exact ih _ _ (settled_delay _ _ 1 (settled_receiveByte a c h))
      · exact ih _ _ (settled_delay _ _ 1 (settled_receiveByte a c h))
    · exact h

theorem parseQIRD_world (w : World) (response : List Nat) (max_len : Nat) :
    (parseQIRD w response max_len).world = w := by
  unfold parseQIRD
  split
  · rfl
  · split
    · rfl
    · split
      · split
        · rfl
        · simp only []
          split <;> rfl
      · rfl

theorem settled_flush (a c : World) (h : a.settled c) :
    ({ a with rx := a.rx.flush } : World).settled c := by
  unfold World.settled World.pending World.stream at h ⊢
  obtain ⟨hwf, hle⟩ := h
  have he := empty_count a.rx.flush rfl hwf.1
  refine ⟨he.1, ?_⟩
  show a.rx.flush.count + a.modem.flatten.length ≤ _
  rw [he.2.1]
  omega

theorem settled_readTCPData (a c : World) (max_len : Nat) (h : a.settled c) :
    (RG200U_ReadTCPData a max_len).world.settled c := by
  unfold RG200U_ReadTCPData
  rw [parseQIRD_world]
  unfold readResponse
  apply settled_readLoop
  unfold readStart
  apply settled_delay
  exact settled_fields _ _ c rfl rfl (settled_flush a c h)

theorem settled_forwardPayload (a c : World) (tcp_data : List Nat) (len : Nat) (h : a.settled c) :
    (forwardPayload a tcp_data len).settled c := by
  unfold forwardPayload
  split
  · simp only []
    apply settled_processCommand
    apply settled_receiveMode
    apply settled_delay
    apply settled_sendString
    apply settled_sendBuffer
    apply settled_sendString
    apply settled_delay
    exact settled_transmitMode _ _ h
  · exact h

theorem settled_readNotified (a c : World) (h : a.settled c) : (readNotified a).settled c := by
  unfold readNotified
  apply settled_forwardPayload
  apply settled_readTCPData
  exact settled_delay _ _ _ h

theorem settled_lineStep (a c : World) (b : LineBuf) (data : Nat) (h : a.settled c) :
    (lineStep a b data).1.settled c := by
  unfold lineStep
  by_cases h1 : b.index < RG200U_RX_BUFFER_SIZE - 1
  · rw [if_pos h1]
    by_cases h2 : (strstr (b.put data).chars recvMarker).isSome = true
    · rw [if_pos h2]
      dsimp only
      exact settled_readNotified a c h
    · rw [if_neg h2]
      exact h
  · rw [if_neg h1]
    exact h

/-- The loop of `RG200U_ProcessTCPMessage` ends before the fuel runs out: more fuel gives the
same result. -/
theorem processLoop_fuel (extra : Nat) : ∀ (fuel : Nat) (w : World) (b : LineBuf),
    w.rx.WF → w.pending < fuel → processLoop (fuel + extra) w b = processLoop fuel w b := by
  intro fuel
  induction fuel with
  | zero => intro w b _ h; omega
  | succ fuel ih =>
    intro w b hwf hlt
    have e : fuel + 1 + extra = (fuel + extra) + 1 := by omega
    rw [e, processLoop, processLoop]
    cases hb : w.receiveByte.2 with
    | none => rfl
    | some data =>
      simp only []
      have hc : w.rx.count ≠ 0 := by
        intro h0
        have hempty := (count_eq_zero_iff w.rx hwf).1 h0
        rw [receiveByte_empty w hempty] at hb
        exact absurd hb (by simp)
      have hp := pop_nonempty w.rx hwf hc
      have h1 : w.receiveByte.1.settled w.receiveByte.1 := settled_refl _ hp.2.1
      have h2 := settled_lineStep w.receiveByte.1 w.receiveByte.1 b data h1
      have hpend : w.receiveByte.1.pending + 1 = w.pending := by
        unfold World.pending World.stream
        show (RG200U_ReceiveByte w.rx).1.count + w.modem.flatten.length + 1 = _
        omega
      exact ih _ _ h2.1 (by have := h2.2; omega)

/-- When the loop of `RG200U_ProcessTCPMessage` ends, the ring is empty. -/
theorem processLoop_drains : ∀ (fuel : Nat) (w : World) (b : LineBuf),
    w.rx.WF → w.pending < fuel →
    (processLoop fuel w b).1.rx.WF
      ∧ (processLoop fuel w b).1.rx.read_index = (processLoop fuel w b).1.rx.write_index := by
  intro fuel
  induction fuel with
  | zero => intro w b _ h; omega
  | succ fuel ih =>
    intro w b hwf hlt
    rw [processLoop]
    cases hb : w.receiveByte.2 with
    | none =>
      simp only []
      by_cases hc : w.rx.count = 0
      · have hempty := (count_eq_zero_iff w.rx hwf).1 hc
        rw [receiveByte_empty w hempty]
        exact ⟨hwf, hempty⟩
      · have hp := pop_nonempty w.rx hwf hc
        have : w.receiveByte.2 = some (w.rx.buffer w.rx.read_index) := hp.1
        rw [hb] at this
        exact absurd this (by simp)
    | some data =>
      simp only []
      have hc : w.rx.count ≠ 0 := by
        intro h0
        have hempty := (count_eq_zero_iff w.rx hwf).1 h0
        rw [receiveByte_empty w hempty] at hb
        exact absurd hb (by simp)
      have hp := pop_nonempty w.rx hwf hc
      have h1 : w.receiveByte.1.settled w.receiveByte.1 := settled_refl _ hp.2.1
      have h2 := settled_lineStep w.receiveByte.1 w.receiveByte.1 b data h1
      have hpend : w.receiveByte.1.pending + 1 = w.pending := by
        unfold World.pending World.stream
        show (RG200U_ReceiveByte w.rx).1.count + w.modem.flatten.length + 1 = _
        omega
      exact ih _ _ h2.1 (by have := h2.2; omega)

/-! ## The URC detector: what it writes -/

theorem since_of_log (w' w : World) (es : List Event) (h : w'.log = w.log ++ es) :
    w'.since w = es := by
  unfold World.since
  rw [h, List.drop_left]

theorem processCommand_events (w : World) (cmd_data : List Nat) (len : Nat) :
    (RG200U_ProcessCommand w cmd_data len).log = w.log ++ interceptEvents cmd_data len := by
  rw [processCommand_log]
  unfold interceptEvents toTransmit toReceive
  simp only [List.append_assoc]

theorem sendString_events (w : World) (str : List Nat) :
    (RS485_SendString_NoDirChange w str).log = w.log ++ sendEvents (cstr str) := by
  unfold RS485_SendString_NoDirChange World.log sendEvents
  rw [foldl_sendByte_trace, List.reverse_append, List.reverse_reverse]

theorem forwardPayload_log (w : World) (tcp_data : List Nat) (len : Nat) (hlen : 0 < len) :
    (forwardPayload w tcp_data len).log = w.log ++ forwardEvents tcp_data len := by
  unfold forwardPayload
  rw [if_pos hlen]
  simp only []
  rw [processCommand_events, setReceiveMode_log, HAL_Delay_log, sendString_events, sendBuffer_log,
    sendString_events, HAL_Delay_log, setTransmitMode_log]
  have c1 : cstr (bytes "\r\n[TCP RX] ") = bytes "\r\n[TCP RX] " := by decide
  have c2 : cstr (bytes "\r\n") = bytes "\r\n" := by decide
  rw [c1, c2]
  unfold forwardEvents toTransmit toReceive
  simp only [List.append_assoc, List.cons_append, List.nil_append]

theorem forwardPayload_zero (w : World) (tcp_data : List Nat) : forwardPayload w tcp_data 0 = w := by
  unfold forwardPayload
  rw [if_neg (by decide)]

/-- The log of the handling of one notification: 50 ms, the read, and for a length above 0
the forwarding of the payload. -/
theorem readNotified_log (w : World) :
    ∃ n : Nat, (readNotified w).log
      = w.log ++ [Event.delay 50, Event.uart5 (cstr (qirdCmd (512 - 1))), Event.delay 100]
        ++ List.replicate n (Event.delay 1)
        ++ (if 0 < (RG200U_ReadTCPData (HAL_Delay w 50) (512 - 1)).ret then
              forwardEvents ((RG200U_ReadTCPData (HAL_Delay w 50) (512 - 1)).buffer.getD [])
                (RG200U_ReadTCPData (HAL_Delay w 50) (512 - 1)).ret
            else []) := by
  obtain ⟨n, hlog⟩ := readTCPData_log (HAL_Delay w 50) (512 - 1)
  rw [HAL_Delay_log] at hlog
  refine ⟨n, ?_⟩
  unfold readNotified
  by_cases hr : 0 < (RG200U_ReadTCPData (HAL_Delay w 50) (512 - 1)).ret
  · rw [if_pos hr, forwardPayload_log _ _ _ hr, hlog]
    simp only [List.append_assoc, List.cons_append, List.nil_append]
  · have h0 : (RG200U_ReadTCPData (HAL_Delay w 50) (512 - 1)).ret = 0 := by omega
    rw [if_neg hr, h0, forwardPayload_zero, hlog]
    simp only [List.append_assoc, List.cons_append, List.nil_append, List.append_nil]

theorem rs485Bytes_toTransmit : rs485Bytes toTransmit = [] := rfl

theorem rs485Bytes_toReceive (ms : Nat) : rs485Bytes (toReceive ms) = [] := rfl

theorem rs485Bytes_forwardEvents (tcp_data : List Nat) (len : Nat) :
    rs485Bytes (forwardEvents tcp_data len) = payloadFrame tcp_data len := by
  unfold forwardEvents interceptEvents payloadFrame
  simp only [rs485Bytes_append, rs485Bytes_sendEvents, rs485Bytes_toTransmit,
    rs485Bytes_toReceive, List.append_nil, List.nil_append, List.append_assoc]

theorem uart5Sent_append (xs ys : List Event) :
    uart5Sent (xs ++ ys) = uart5Sent xs ++ uart5Sent ys := by
  induction xs with
  | nil => rfl
  | cons e es ih => cases e <;> simp [uart5Sent, ih]

theorem uart5Sent_reverse (xs : List Event) : (uart5Sent xs).reverse = uart5Sent xs.reverse := by
  induction xs with
  | nil => rfl
  | cons e es ih =>
    rw [List.reverse_cons, uart5Sent_append, ← ih]
    cases e <;> simp [uart5Sent]

theorem sent_eq_log (w : World) : w.sent = uart5Sent w.log := by
  unfold World.sent World.log
  exact uart5Sent_reverse _

theorem uart5Sent_sendEvents (bs : List Nat) : uart5Sent (sendEvents bs) = [] := by
  induction bs with
  | nil => rfl
  | cons b bs ih => exact ih

theorem uart5Sent_commandEvents (token : List Nat) : uart5Sent (commandEvents token) = [] := by
  unfold commandEvents
  split
  · exact uart5Sent_sendEvents _
  · split
    · exact uart5Sent_sendEvents _
    · split
      · exact uart5Sent_sendEvents _
      · split
        · exact uart5Sent_sendEvents _
        · exact uart5Sent_sendEvents _

theorem uart5Sent_forwardEvents (tcp_data : List Nat) (len : Nat) :
    uart5Sent (forwardEvents tcp_data len) = [] := by
  unfold forwardEvents interceptEvents toTransmit toReceive
  simp [uart5Sent_append, uart5Sent_sendEvents, uart5Sent_commandEvents, uart5Sent]

theorem uart5Sent_delays (n : Nat) : uart5Sent (List.replicate n (Event.delay 1)) = [] := by
  induction n with
  | zero => rfl
  | succ n ih => rw [List.replicate_succ]; exact ih

/-- Handling a notification sends exactly one command to the modem: the read command. -/
theorem readNotified_sent (w : World) :
    (readNotified w).sent = w.sent ++ [cstr (qirdCmd (512 - 1))] := by
  obtain ⟨n, hlog⟩ := readNotified_log w
  rw [sent_eq_log, sent_eq_log, hlog]
  simp only [uart5Sent_append, uart5Sent_delays, List.append_nil]
  have hif : uart5Sent (if 0 < (RG200U_ReadTCPData (HAL_Delay w 50) (512 - 1)).ret then
      forwardEvents ((RG200U_ReadTCPData (HAL_Delay w 50) (512 - 1)).buffer.getD [])
        (RG200U_ReadTCPData (HAL_Delay w 50) (512 - 1)).ret
    else []) = [] := by
    split
    · exact uart5Sent_forwardEvents _ _
    · rfl
  rw [hif, List.append_nil]
  rfl

theorem readNotified_reads (w : World) : (readNotified w).reads = w.reads + 1 := by
  unfold World.reads
  rw [readNotified_sent, List.filter_append, List.length_append]
  simp

theorem put_ok (b : LineBuf) (data : Nat) (h : b.index < 255) : (b.put data).ok := by
  unfold LineBuf.ok LineBuf.put store
  simp only [if_true]
  exact ⟨by omega, trivial⟩

theorem clear_ok : LineBuf.clear.ok := ⟨by decide, rfl⟩

theorem lineStep_ok (w : World) (b : LineBuf) (data : Nat) : (lineStep w b data).2.ok := by
  unfold lineStep
  by_cases h1 : b.index < RG200U_RX_BUFFER_SIZE - 1
  · rw [if_pos h1]
    by_cases h2 : (strstr (b.put data).chars recvMarker).isSome = true
    · rw [if_pos h2]
      exact clear_ok
    · rw [if_neg h2]
      exact put_ok b data h1
  · rw [if_neg h1]
    exact clear_ok

theorem processLoop_ok : ∀ (fuel : Nat) (w : World) (b : LineBuf), b.ok →
    (processLoop fuel w b).2.ok := by
  intro fuel
  induction fuel with
  | zero => intro w b h; exact h
  | succ fuel ih =>
    intro w b h
    rw [processLoop]
    cases hb : w.receiveByte.2 with
    | none => exact h
    | some data => exact ih _ _ (lineStep_ok _ b data)

/-- C27, as amended. In every state reachable through `RG200U_ProcessTCPMessage` the index is
at most 255 and the buffer holds a zero at the index. A byte that arrives with the index
below 255 is stored at the index and a zero after it, both within the 256 bytes; a byte that
arrives with the index at 255 clears the buffer and resets the index to 0, and is lost. When
the text of the buffer holds the marker after a byte is stored, exactly one read command is
sent to the modem and the buffer is cleared: every detection starts exactly one read. (A
marker occurrence is not always detected: the bytes unread in the ring when a read starts are
discarded by that read.) -/
theorem line_buffer (w : World) (b : LineBuf) (hok : b.ok) :
    (RG200U_ProcessTCPMessage w b).2.ok
      ∧ (∀ data : Nat, (lineStep w b data).2.ok)
      ∧ (∀ data : Nat, b.index < 255 → ¬ recvMarker <:+: cstr (b.put data).chars →
          lineStep w b data = (w, b.put data)
            ∧ (b.put data).buffer b.index = data
            ∧ (b.put data).index = b.index + 1 ∧ (b.put data).index ≤ 255
            ∧ (b.put data).buffer (b.put data).index = 0)
      ∧ (∀ data : Nat, b.index = 255 → lineStep w b data = (w, LineBuf.clear))
      ∧ (∀ data : Nat, b.index < 255 → recvMarker <:+: cstr (b.put data).chars →
          lineStep w b data = (readNotified w, LineBuf.clear)
            ∧ (readNotified w).reads = w.reads + 1) := by
  refine ⟨processLoop_ok _ w b hok, fun data => lineStep_ok w b data, ?_, ?_, ?_⟩
  · intro data h1 hm
    have h2 : ¬ (strstr (b.put data).chars recvMarker).isSome = true := by
      rw [strstr_isSome_iff]; exact hm
    refine ⟨?_, ?_, rfl, ?_, (put_ok b data h1).2⟩
    · unfold lineStep
      rw [if_pos (by unfold RG200U_RX_BUFFER_SIZE; omega), if_neg h2]
    · unfold LineBuf.put store
      simp
    · show b.index + 1 ≤ 255
      omega
  · intro data h1
    unfold lineStep
    rw [if_neg (by unfold RG200U_RX_BUFFER_SIZE; omega)]
  · intro data h1 hm
    have h2 : (strstr (b.put data).chars recvMarker).isSome = true := by
      rw [strstr_isSome_iff]; exact hm
    refine ⟨?_, readNotified_reads w⟩
    unfold lineStep
    rw [if_pos (by unfold RG200U_RX_BUFFER_SIZE; omega), if_pos h2]

theorem line_buffer_witness :
    lineStep idleWorld LineBuf.clear 43 = (idleWorld, LineBuf.clear.put 43)
      ∧ (LineBuf.clear.put 43).index = 1 :=
  have h := (line_buffer idleWorld LineBuf.clear clear_ok).2.2.1 43 (by decide) (by decide)
  ⟨h.1, h.2.2.1⟩

set_option maxRecDepth 100000 in
/-- C27, counterexample. Two notifications have been received back to back, so the ring
holds the marker twice; the modem answers the read command with "+QIRD: 0\r\n\r\nOK\r\n".
`RG200U_ProcessTCPMessage` detects the first marker and starts a read, which discards what is
left in the ring, the second marker included: when the function returns, the ring is empty,
the buffer is empty, and one read has been started for two marker occurrences. -/
theorem line_buffer_counterexample :
    twiceStub.rx.contents = recvMarker ++ bytes ",0\r\n" ++ (recvMarker ++ bytes ",0\r\n")
      ∧ twiceStub.reads = 0
      ∧ (RG200U_ProcessTCPMessage twiceStub LineBuf.clear).1.reads = 1
      ∧ (RG200U_ProcessTCPMessage twiceStub LineBuf.clear).1.rx.count = 0
      ∧ (RG200U_ProcessTCPMessage twiceStub LineBuf.clear).1.modem = []
      ∧ (RG200U_ProcessTCPMessage twiceStub LineBuf.clear).2.index = 0 := by
  decide

theorem readNotified_events (w : World) :
    ∃ es : List Event, (readNotified w).log = w.log ++ es
      ∧ rs485Bytes es
        = (if 0 < (RG200U_ReadTCPData (HAL_Delay w 50) (512 - 1)).ret then
            payloadFrame ((RG200U_ReadTCPData (HAL_Delay w 50) (512 - 1)).buffer.getD [])
              (RG200U_ReadTCPData (HAL_Delay w 50) (512 - 1)).ret
          else []) := by
  obtain ⟨n, hlog⟩ := readNotified_log w
  refine ⟨_, by rw [hlog, List.append_assoc, List.append_assoc], ?_⟩
  rw [rs485Bytes_append, rs485Bytes_append, rs485Bytes_delays]
  split
  · rw [rs485Bytes_forwardEvents]
    simp [rs485Bytes]
  · simp [rs485Bytes]

/-- Everything `RG200U_ProcessTCPMessage` writes to RS-485 is a sequence of payload frames. -/
theorem processLoop_frames : ∀ (fuel : Nat) (w : World) (b : LineBuf),
    ∃ (es : List Event) (frames : List (List Nat × Nat)),
      (∀ f ∈ frames, 0 < f.2) ∧ (processLoop fuel w b).1.log = w.log ++ es
        ∧ rs485Bytes es = (frames.map (fun f => payloadFrame f.1 f.2)).flatten := by
  intro fuel
  induction fuel with
  | zero =>
    intro w b
    exact ⟨[], [], fun f hf => absurd hf (List.not_mem_nil f), by simp [processLoop], rfl⟩
  | succ fuel ih =>
    intro w b
    rw [processLoop]
    cases hb : w.receiveByte.2 with
    | none =>
      refine ⟨[], [], fun f hf => absurd hf (List.not_mem_nil f), ?_, rfl⟩
      simp only [List.append_nil]
      rfl
    | some data =>
      simp only []
      have hl : w.receiveByte.1.log = w.log := rfl
      unfold lineStep
      by_cases h1 : b.index < RG200U_RX_BUFFER_SIZE - 1
      · rw [if_pos h1]
        by_cases h2 : (strstr (b.put data).chars recvMarker).isSome = true
        · rw [if_pos h2]
          dsimp only
          obtain ⟨es1, hlog1, hb1⟩ := readNotified_events w.receiveByte.1
          obtain ⟨es, frames, hpos, hlog, hbytes⟩ := ih (readNotified w.receiveByte.1) LineBuf.clear
          by_cases hr : 0 < (RG200U_ReadTCPData (HAL_Delay w.receiveByte.1 50) (512 - 1)).ret
          · rw [if_pos hr] at hb1
            refine ⟨es1 ++ es,
              ((RG200U_ReadTCPData (HAL_Delay w.receiveByte.1 50) (512 - 1)).buffer.getD [],
                (RG200U_ReadTCPData (HAL_Delay w.receiveByte.1 50) (512 - 1)).ret) :: frames,
              ?_, ?_, ?_⟩
            · intro f hf
              rcases List.mem_cons.1 hf with h | h
              · rw [h]; exact hr
              · exact hpos f h
            · rw [hlog, hlog1, hl, List.append_assoc]
            · rw [rs485Bytes_append, hb1, hbytes, List.map_cons, List.flatten_cons]
          · rw [if_neg hr] at hb1
            refine ⟨es1 ++ es, frames, hpos, ?_, ?_⟩
            · rw [hlog, hlog1, hl, List.append_assoc]
            · rw [rs485Bytes_append, hb1, hbytes, List.nil_append]
        · rw [if_neg h2]
          exact ih _ _
      · rw [if_neg h1]
        exact ih _ _

theorem commandEvents_reply (token : List Nat) :
    ∃ body : List Nat,
      rs485Bytes (commandEvents token) = bytes "[CMD] " ++ body ++ bytes "\r\n" := by
  unfold commandEvents
  split
  · exact ⟨bytes "RELAY1 ON", by simp only [rs485Bytes, rs485Bytes_sendEvents]; decide⟩
  · split
    · exact ⟨bytes "RELAY1 OFF", by simp only [rs485Bytes, rs485Bytes_sendEvents]; decide⟩
    · split
      · exact ⟨bytes "RELAY2 ON", by simp only [rs485Bytes, rs485Bytes_sendEvents]; decide⟩
      · split
        · exact ⟨bytes "RELAY2 OFF", by simp only [rs485Bytes, rs485Bytes_sendEvents]; decide⟩
        · refine ⟨bytes "Unknown: " ++ token, ?_⟩
          rw [rs485Bytes_sendEvents]
          have e : bytes "[CMD] Unknown: " = bytes "[CMD] " ++ bytes "Unknown: " := by decide
          rw [e]
          simp only [List.append_assoc]

/-- C22, as amended. With `RG200U_DEBUG_ENABLE` 0 the steady-state code writes no debug line
to RS-485, but it does write text there. For a notification whose read returns a length
above 0, `RG200U_ProcessTCPMessage` writes "\r\n[TCP RX] ", the payload bytes unaltered,
"\r\n", and then the reply line of `RG200U_ProcessCommand`, which is "[CMD] " followed by
the confirmation or by "Unknown: " and the token, and "\r\n"; for a read that returns 0 it
writes nothing. Everything `RG200U_ProcessTCPMessage` writes is a sequence of such frames.
The RS-485 transmit task writes the dequeued byte only, and nothing on a timeout. -/
theorem steady_state_text :
    (∀ w : World, ∃ es : List Event, (readNotified w).log = w.log ++ es
      ∧ rs485Bytes es
        = (if 0 < (RG200U_ReadTCPData (HAL_Delay w 50) (512 - 1)).ret then
            payloadFrame ((RG200U_ReadTCPData (HAL_Delay w 50) (512 - 1)).buffer.getD [])
              (RG200U_ReadTCPData (HAL_Delay w 50) (512 - 1)).ret
          else []))
    ∧ (∀ (tcp_data : List Nat) (len : Nat), ∃ body : List Nat,
        payloadFrame tcp_data len
          = bytes "\r\n[TCP RX] " ++ tcp_data.take len ++ bytes "\r\n"
            ++ (bytes "[CMD] " ++ body ++ bytes "\r\n"))
    ∧ (∀ (w : World) (cmd_data : List Nat) (len : Nat), ∃ body : List Nat,
        rs485Bytes ((RG200U_ProcessCommand w cmd_data len).since w)
          = bytes "[CMD] " ++ body ++ bytes "\r\n")
    ∧ (∀ (w : World) (b : LineBuf), ∃ (es : List Event) (frames : List (List Nat × Nat)),
        (∀ f ∈ frames, 0 < f.2) ∧ (RG200U_ProcessTCPMessage w b).1.log = w.log ++ es
          ∧ rs485Bytes es = (frames.map (fun f => payloadFrame f.1 f.2)).flatten)
    ∧ (∀ (w : World) (t : TxTask) (wait v : Nat),
        rs485Bytes ((UserTask_RS485_TxHandler w t wait (some v)).1.since w) = [v % 256]
          ∧ rs485Bytes ((UserTask_RS485_TxHandler w t wait none).1.since w) = []) := by
  refine ⟨readNotified_events, ?_, ?_, fun w b => processLoop_frames _ w b, ?_⟩
  · intro tcp_data len
    obtain ⟨body, hb⟩ := commandEvents_reply (commandToken tcp_data len)
    exact ⟨body, by unfold payloadFrame; rw [hb]⟩
  · intro w cmd_data len
    obtain ⟨body, hb⟩ := commandEvents_reply (commandToken cmd_data len)
    refine ⟨body, ?_⟩
    rw [since_of_log _ _ _ (processCommand_events w cmd_data len)]
    unfold interceptEvents
    rw [rs485Bytes_append, rs485Bytes_append, hb]
    simp [rs485Bytes_toTransmit, rs485Bytes_toReceive]
  · intro w t wait v
    constructor
    · by_cases h0 : t.rs485_tx_active = 0
      · have h := (txHandler_first w t wait v h0).1
        rw [since_of_log _ _ _ h]
        rfl
      · have h : (UserTask_RS485_TxHandler w t wait (some v)).1.log
            = w.log ++ [Event.rs485 (v % 256)] := by
          unfold UserTask_RS485_TxHandler
          simp only []
          rw [if_neg h0, sendByte_log, elapse_log]
        rw [since_of_log _ _ _ h]
        rfl
    · have hc := txHandler_timeout w t wait
      by_cases hn : t.rs485_tx_active ≠ 0
          ∧ tickDiff (osKernelSysTick (elapse wait w)) t.rs485_last_tx_tick > 10
      · rw [since_of_log _ _ _ (hc.1 hn.1 hn.2).1]
        rfl
      · rw [hc.2 hn]
        have h : (elapse wait w).log = w.log ++ [] := by rw [elapse_log, List.append_nil]
        rw [since_of_log _ _ _ h]
        rfl

set_option maxRecDepth 100000 in
/-- C22, counterexample. A notification has been received and the modem answers the read
command with the payload "hi". What `RG200U_ProcessTCPMessage` then writes to RS-485 is not
the two payload bytes but "\r\n[TCP RX] hi\r\n[CMD] Unknown: hi\r\n". -/
theorem steady_state_text_counterexample :
    (notifyStub (qirdAnswer (bytes "hi"))).stream = bytes "+QIRD: 2\r\nhi\r\nOK\r\n"
      ∧ rs485Bytes (RG200U_ProcessTCPMessage (notifyStub (qirdAnswer (bytes "hi")))
          LineBuf.clear).1.log
        = bytes "\r\n[TCP RX] hi\r\n[CMD] Unknown: hi\r\n"
      ∧ rs485Bytes (RG200U_ProcessTCPMessage (notifyStub (qirdAnswer (bytes "hi")))
          LineBuf.clear).1.log
        ≠ bytes "hi" := by
  decide

/-! ## Direction of the line while the steady-state code writes -/

theorem disciplined_append : ∀ (A B : List Event) (d : LineDir),
    disciplined d (A ++ B) = (disciplined d A && disciplined (A.foldl LineDir.step d) B) := by
  intro A
  induction A with
  | nil => intro B d; simp [disciplined]
  | cons e A ih =>
    intro B d
    cases e with
    | rs485 b =>
      show (d.transmit && decide (1 ≤ d.settled) && disciplined d (A ++ B))
        = (d.transmit && decide (1 ≤ d.settled) && disciplined d A
            && disciplined (A.foldl LineDir.step d) B)
      rw [ih, Bool.and_assoc, Bool.and_assoc, Bool.and_assoc]
    | gpio pin level => exact ih B (d.step (Event.gpio pin level))
    | uart5 data => exact ih B (d.step (Event.uart5 data))
    | delay ms => exact ih B (d.step (Event.delay ms))

/-- A byte written right after the line has been switched to receive mode breaks the
discipline. -/
theorem disciplined_after_receive (d : LineDir) (ms b : Nat) (rest : List Event) :
    disciplined d (toReceive ms ++ Event.rs485 b :: rest) = false := by
  simp [toReceive, disciplined, LineDir.step, LineDir.write, LineDir.transmit]

theorem toTransmit_dir (d : LineDir) :
    disciplined d toTransmit = true ∧ (toTransmit.foldl LineDir.step d).transmit = true
      ∧ 1 ≤ (toTransmit.foldl LineDir.step d).settled := by
  obtain ⟨re, de, settled⟩ := d
  rcases re with _ | (_ | _) <;> rcases de with _ | (_ | _) <;>
    simp [toTransmit, disciplined, LineDir.step, LineDir.write, LineDir.transmit]

theorem disciplined_sendEvents (d : LineDir) (ht : d.transmit = true) (hs : 1 ≤ d.settled) :
    ∀ bs : List Nat, disciplined d (sendEvents bs) = true
      ∧ (sendEvents bs).foldl LineDir.step d = d := by
  intro bs
  induction bs with
  | nil => exact ⟨rfl, rfl⟩
  | cons b bs ih =>
    simp only [sendEvents, List.map_cons, disciplined, List.foldl_cons, LineDir.step] at ih ⊢
    rw [ht, ih.1, ih.2]
    simp [hs]

theorem disciplined_commandEvents (d : LineDir) (ht : d.transmit = true) (hs : 1 ≤ d.settled)
    (token : List Nat) : disciplined d (commandEvents token) = true := by
  have h := fun bs => (disciplined_sendEvents d ht hs bs).1
  unfold commandEvents
  split
  · exact h _
  · split
    · exact h _
    · split
      · exact h _
      · split
        · exact h _
        · exact h _

theorem disciplined_toReceive (d : LineDir) (ms : Nat) : disciplined d (toReceive ms) = true := rfl

theorem disciplined_interceptEvents (d : LineDir) (cmd_data : List Nat) (len : Nat) :
    disciplined d (interceptEvents cmd_data len) = true := by
  have ht := toTransmit_dir d
  unfold interceptEvents
  rw [disciplined_append, disciplined_append, ht.1,
    disciplined_commandEvents _ ht.2.1 ht.2.2, disciplined_toReceive]
  rfl

theorem disciplined_forwardEvents (d : LineDir) (tcp_data : List Nat) (len : Nat) :
    disciplined d (forwardEvents tcp_data len) = false := by
  have e : forwardEvents tcp_data len
      = (toTransmit ++ sendEvents (bytes "\r\n[TCP RX] ") ++ toTransmit
          ++ sendEvents (tcp_data.take len))
        ++ (toReceive 1 ++ Event.rs485 13 :: (Event.rs485 10 :: (toReceive 2
          ++ interceptEvents tcp_data len))) := by
    unfold forwardEvents
    have e2 : sendEvents (bytes "\r\n") = [Event.rs485 13, Event.rs485 10] := by decide
    rw [e2]
    simp only [List.append_assoc, List.cons_append, List.nil_append]
  rw [e, disciplined_append, disciplined_after_receive, Bool.and_false]

set_option maxRecDepth 100000 in
/-- C28. `RG200U_ProcessCommand` keeps the discipline whatever the direction before it: every
byte it writes is written in transmit mode, at least 1 ms after the line entered it.
`RG200U_ProcessTCPMessage` breaks it for every payload it forwards, whatever the direction
before: `RS485_SendBuffer` leaves the line in receive mode, and the "\r\n" that follows the
payload is written without switching back. So for the notification answered with the
payload "hi" the log of `RG200U_ProcessTCPMessage` holds bytes written in receive mode. The
error report of `RG200U_ConnectTCPServer` also ends in receive mode. -/
theorem transmit_mode_violated :
    (∀ (d : LineDir) (cmd_data : List Nat) (len : Nat),
      disciplined d (interceptEvents cmd_data len) = true)
    ∧ (∀ (w : World) (cmd_data : List Nat) (len : Nat),
        (RG200U_ProcessCommand w cmd_data len).since w = interceptEvents cmd_data len)
    ∧ (∀ (d : LineDir) (tcp_data : List Nat) (len : Nat),
        disciplined d (forwardEvents tcp_data len) = false)
    ∧ (∀ (w : World) (tcp_data : List Nat) (len : Nat),
        (forwardPayload w tcp_data (len + 1)).since w = forwardEvents tcp_data (len + 1))
    ∧ disciplined LineDir.unknown
        (RG200U_ProcessTCPMessage (notifyStub (qirdAnswer (bytes "hi"))) LineBuf.clear).1.log
      = false
    ∧ (∀ (w : World) (err_code : Int), (reportOpenError w err_code).receiveMode) := by
  refine ⟨disciplined_interceptEvents, ?_, disciplined_forwardEvents, ?_, by decide, ?_⟩
  · intro w cmd_data len
    exact since_of_log _ _ _ (processCommand_events w cmd_data len)
  · intro w tcp_data len
    exact since_of_log _ _ _ (forwardPayload_log w tcp_data (len + 1) (by omega))
  · intro w err_code
    unfold reportOpenError
    exact setReceiveMode_mode _

/-! ## Modem to RS-485 direction -/

theorem processTCPMessage_drains (w : World) (b : LineBuf) (hwf : w.rx.WF) :
    (RG200U_ProcessTCPMessage w b).1.rx.read_index
      = (RG200U_ProcessTCPMessage w b).1.rx.write_index :=
  (processLoop_drains (w.pending + 1) w b hwf (Nat.lt_succ_self _)).2

/-- C26. In every round of the RG200U receive task that starts with valid ring indices, the
queue `Queue_RG200U_To_RS485` is left as it was: `RG200U_ProcessTCPMessage`, called first,
takes every byte out of the modem ring, so the `RG200U_ReceiveByte` that follows finds the
ring empty and nothing is enqueued. -/
theorem downlink_starved (d : Downlink) (hwf : d.world.rx.WF) :
    (RG200U_ProcessTCPMessage d.world d.line).1.rx.read_index
        = (RG200U_ProcessTCPMessage d.world d.line).1.rx.write_index
      ∧ (UserTask_RG200U_RxHandler d).queue = d.queue
      ∧ (UserTask_RG200U_RxHandler d).line = (RG200U_ProcessTCPMessage d.world d.line).2 := by
  have he := processTCPMessage_drains d.world d.line hwf
  refine ⟨he, ?_, ?_⟩
  · unfold UserTask_RG200U_RxHandler
    simp only []
    rw [receiveByte_empty _ he]
  · unfold UserTask_RG200U_RxHandler
    simp only []
    rw [receiveByte_empty _ he]

set_option maxRecDepth 100000 in
theorem downlink_starved_witness :
    oneByteDownlink.world.rx.contents = [65]
      ∧ (UserTask_RG200U_RxHandler oneByteDownlink).queue = []
      ∧ (UserTask_RG200U_RxHandler oneByteDownlink).world.rx.count = 0
      ∧ (UserTask_RG200U_RxHandler oneByteDownlink).line.index = 1
      ∧ (UserTask_RG200U_RxHandler oneByteDownlink).line.buffer 0 = 65 :=
  ⟨by decide, (downlink_starved oneByteDownlink ⟨by decide, by decide⟩).2.1, by decide, by decide, by decide⟩

/-! ## AT engine: the bounded response buffer under a steady stream -/

/-- One poll on a steady stream: with one unread byte `b` in the ring and the modem sending
`b` once per millisecond, the poll takes the byte and the next one arrives. -/
theorem takeStep_stream (b n : Nat) (w : World) (acc : List Nat)
    (hwf : w.rx.WF) (hc : w.rx.contents = [b]) (hm : w.modem = List.replicate (n + 1) [b]) :
    (takeStep (w, acc)).1.rx.WF ∧ (takeStep (w, acc)).1.rx.contents = [b]
      ∧ (takeStep (w, acc)).1.modem = List.replicate n [b]
      ∧ (takeStep (w, acc)).2 = acc ++ [b] := by
  have hcount : w.rx.count = 1 := by rw [← contents_length, hc]; rfl
  obtain ⟨p1, p2, p3, p4, _⟩ := pop_nonempty w.rx hwf (by omega)
  rw [hc] at p4
  have hb : w.rx.buffer w.rx.read_index = b := by
    have := List.head_eq_of_cons_eq p4
    exact this.symm
  have hrest : (RG200U_ReceiveByte w.rx).1.contents = [] := by
    have := List.tail_eq_of_cons_eq p4
    exact this.symm
  have hrb : w.receiveByte.2 = some b := by
    show (RG200U_ReceiveByte w.rx).2 = some b
    rw [p1, hb]
  have hstep : takeStep (w, acc) = (HAL_Delay w.receiveByte.1 1, acc ++ [b]) := by
    simp only [takeStep, hrb]
  have hel := elapse_take 1 w.receiveByte.1 p2
    (by show (RG200U_ReceiveByte w.rx).1.count + ((w.modem.take 1).flatten).length ≤ 255
        rw [hm]
        simp only [List.replicate_succ, List.take_succ_cons, List.take_zero, List.flatten_cons,
          List.flatten_nil, List.append_nil, List.length_singleton]
        omega)
  rw [hstep]
  refine ⟨hel.1, ?_, ?_, rfl⟩
  · show (elapse 1 w.receiveByte.1).rx.contents = [b]
    rw [hel.2.1]
    show (RG200U_ReceiveByte w.rx).1.contents ++ ((w.modem.take 1).flatten) = [b]
    rw [hrest, hm]
    simp [List.replicate_succ]
  · show (HAL_Delay w.receiveByte.1 1).modem = List.replicate n [b]
    rw [HAL_Delay_modem]
    show w.modem.drop 1 = _
    rw [hm]
    simp [List.replicate_succ]

theorem takeStep_stream_iterate (b : Nat) : ∀ (k n : Nat) (w : World) (acc : List Nat),
    w.rx.WF → w.rx.contents = [b] → w.modem = List.replicate (n + k) [b] →
    (takeStep^[k] (w, acc)).2 = acc ++ List.replicate k b := by
  intro k
  induction k with
  | zero => intro n w acc _ _ _; simp
  | succ k ih =>
    intro n w acc hwf hc hm
    obtain ⟨a1, a2, a3, a4⟩ := takeStep_stream b (n + k) w acc hwf hc hm
    rw [Function.iterate_succ_apply]
    have h := ih n (takeStep (w, acc)).1 (acc ++ [b]) a1 a2 a3
    have heq : takeStep (w, acc) = ((takeStep (w, acc)).1, acc ++ [b]) := Prod.ext rfl a4
    rw [List.replicate_succ, ← List.singleton_append, ← List.append_assoc]
    generalize takeStep (w, acc) = q at heq h ⊢
    rw [heq]
    exact h

/-- The bytes the AT engine takes from the ring of `floodStub`: nothing at the first poll, then
one `'x'` per poll. -/
theorem floodStub_taken (k : Nat) (hk : k ≤ 599) :
    taken floodStub (bytes "AT\r\n") (k + 1) = List.replicate k 120 := by
  unfold taken
  rw [Function.iterate_succ_apply]
  have h := takeStep_stream_iterate 120 k (599 - k)
    (takeStep (HAL_UART_Transmit { floodStub with rx := floodStub.rx.flush }
      (cstr (bytes "AT\r\n")), [])).1 []
    ⟨by decide, by decide⟩ (by decide)
    (by rw [show 599 - k + k = 599 by omega]
        show (List.replicate (599 + 1) [120]).tail = List.replicate 599 [120]
        rw [List.replicate_succ, List.tail_cons])
  have heq : takeStep (HAL_UART_Transmit { floodStub with rx := floodStub.rx.flush }
      (cstr (bytes "AT\r\n")), [])
      = ((takeStep (HAL_UART_Transmit { floodStub with rx := floodStub.rx.flush }
          (cstr (bytes "AT\r\n")), [])).1, []) := Prod.ext rfl (by decide)
  generalize takeStep (HAL_UART_Transmit { floodStub with rx := floodStub.rx.flush }
      (cstr (bytes "AT\r\n")), []) = q at heq h ⊢
  rw [heq, h, List.nil_append]

theorem replicate_no_terminator (n b : Nat) (hO : b ≠ 79) :
    ¬ bytesHaveTerminator (List.replicate n b) := by
  have hmem : ∀ lit : List Nat, 79 ∈ lit → ¬ lit <:+: List.replicate n b := by
    intro lit h79 hin
    have := List.eq_of_mem_replicate (hin.subset h79)
    exact hO this.symm
  rintro (h | h)
  · exact hmem _ (by decide) h
  · exact hmem _ (by decide) h

/-- C13, as amended. In every run `RG200U_SendATCommand` stores at most 511 response bytes (so
that with the closing zero byte every write stays within the 512-byte buffer): the response it
leaves is the first 511 of the bytes it has taken from the ring by the poll at which it ends,
and what it has accumulated after k polls is the first 511 of the bytes taken by then, every
later byte being discarded. If the first 511 bytes taken from the ring within the timeout do
not contain "OK\r\n" or "ERROR\r\n", the call returns 0, whatever is taken afterwards, and
leaves those bytes as its response. (The bytes taken from the ring are those the ring
accepted, which is not the whole modem stream once the ring has overflowed.) -/
theorem response_bounded (w : World) (cmd : List Nat) (timeout : Nat)
    (htimeout : timeout < 65536) :
    (RG200U_SendATCommand w cmd timeout).response.length ≤ 511
      ∧ (RG200U_SendATCommand w cmd timeout).response.length + 1 ≤ AT_RESPONSE_BUF_SIZE
      ∧ (∃ k, k ≤ timeout
          ∧ (RG200U_SendATCommand w cmd timeout).response = (taken w cmd k).take 511)
      ∧ (∀ k, accumulated w cmd k = (taken w cmd k).take 511)
      ∧ (∀ j k, j ≤ k → taken w cmd j <+: taken w cmd k)
      ∧ (¬ bytesHaveTerminator ((taken w cmd timeout).take 511) →
          (RG200U_SendATCommand w cmd timeout).ret = 0
            ∧ (RG200U_SendATCommand w cmd timeout).response = (taken w cmd timeout).take 511) := by
  have h32 : timeout < 2 ^ 32 := by norm_num; omega
  have hlen : (RG200U_SendATCommand w cmd timeout).response.length ≤ 511 :=
    atLoop_length _ _ _ _ _ (by simp)
  refine ⟨hlen, ?_, ?_, accumulated_eq_take w cmd, taken_mono w cmd, ?_⟩
  · have : AT_RESPONSE_BUF_SIZE = 512 := rfl
    omega
  · obtain ⟨k, hk, h⟩ := atLoop_response_poll (HAL_GetTick w) timeout timeout
      (HAL_UART_Transmit { w with rx := w.rx.flush } (cstr cmd)) []
    exact ⟨k, hk, h.trans (accumulated_eq_take w cmd k)⟩
  · intro hnone
    have hno : ∀ k, 1 ≤ k → k ≤ timeout → ¬ textHasTerminator (accumulated w cmd k) := by
      intro k _ hk hterm
      apply hnone
      rw [accumulated_eq_take] at hterm
      exact text_imp_bytes _ _ hterm ((taken_mono w cmd k timeout hk).take 511)
    refine ⟨?_, ?_⟩
    · rcases sendATCommand_ret w cmd timeout h32 with h1 | h0
      · exfalso
        obtain ⟨k, hk1, hk, hterm⟩ := (sendATCommand_poll w cmd timeout h32).1 h1
        exact hno k hk1 hk hterm
      · exact h0
    · have h := atLoop_timeout_poll w.tick timeout h32 timeout
        (HAL_UART_Transmit { w with rx := w.rx.flush } (cstr cmd)) []
        (le_refl _) (by show w.tick - w.tick + timeout = timeout; omega) hno
      exact h.trans (accumulated_eq_take w cmd timeout)

theorem response_bounded_witness :
    (600 : Nat) < 65536
      ∧ taken floodStub (bytes "AT\r\n") 600 = List.replicate 599 120
      ∧ (RG200U_SendATCommand floodStub (bytes "AT\r\n") 600).ret = 0
      ∧ (RG200U_SendATCommand floodStub (bytes "AT\r\n") 600).response = List.replicate 511 120
      ∧ (RG200U_SendATCommand floodStub (bytes "AT\r\n") 600).response.length = 511 := by
  have htaken : taken floodStub (bytes "AT\r\n") 600 = List.replicate 599 120 :=
    floodStub_taken 599 le_rfl
  have htake : (taken floodStub (bytes "AT\r\n") 600).take 511 = List.replicate 511 120 := by
    rw [htaken, List.take_replicate]
    rfl
  have h := (response_bounded floodStub (bytes "AT\r\n") 600 (by decide)).2.2.2.2.2
    (by rw [htake]; exact replicate_no_terminator 511 120 (by decide))
  refine ⟨by decide, htaken, h.1, h.2.trans htake, ?_⟩
  rw [h.2, htake, List.length_replicate]

/-! ## Socket bring-up: a notification that comes late -/

/-- The response loop of `RG200U_SendATCommand` lets time pass: when it ends, some `k` ms
have gone by and the modem has sent what it was going to send in them. -/
theorem atLoop_elapsed (start timeout : Nat) : ∀ (fuel : Nat) (w : World) (resp : List Nat),
    ∃ k, (atLoop fuel w start timeout resp).world.tick = w.tick + k
      ∧ (atLoop fuel w start timeout resp).world.modem = w.modem.drop k := by
  intro fuel
  induction fuel with
  | zero => intro w resp; exact ⟨0, rfl, rfl⟩
  | succ fuel ih =>
    intro w resp
    have hnext : ∀ r, ∃ k,
        (atLoop fuel (HAL_Delay w.receiveByte.1 1) start timeout r).world.tick = w.tick + k
          ∧ (atLoop fuel (HAL_Delay w.receiveByte.1 1) start timeout r).world.modem
              = w.modem.drop k := by
      intro r
      obtain ⟨k, h1, h2⟩ := ih (HAL_Delay w.receiveByte.1 1) r
      refine ⟨1 + k, ?_, ?_⟩
      · rw [h1, HAL_Delay_tick, receiveByte_tick]; omega
      · rw [h2, HAL_Delay_modem]
        show (w.modem.drop 1).drop k = _
        rw [List.drop_drop]
    rw [atLoop]
    by_cases hc : tickDiff (HAL_GetTick w) start < timeout
    · rw [if_pos hc]
      rcases hrb : w.receiveByte.2 with _ | data
      · have hpair : w.receiveByte = (w.receiveByte.1, none) := by rw [← hrb]
        rw [hpair]
        exact hnext resp
      · have hpair : w.receiveByte = (w.receiveByte.1, some data) := by rw [← hrb]
        rw [hpair]
        simp only []
        exact ite_pred (fun r : ATResult => ∃ k, r.world.tick = w.tick + k
            ∧ r.world.modem = w.modem.drop k) _ _ _
          (ite_pred (fun r : ATResult => ∃ k, r.world.tick = w.tick + k
              ∧ r.world.modem = w.modem.drop k) _ _ _
            ⟨0, rfl, rfl⟩ (hnext _))
          (hnext _)
    · rw [if_neg hc]
      exact ⟨0, rfl, rfl⟩

theorem sendATCommand_elapsed (w : World) (cmd : List Nat) (timeout : Nat) :
    (RG200U_SendATCommand w cmd timeout).world.modem
      = w.modem.drop ((RG200U_SendATCommand w cmd timeout).world.tick - w.tick) := by
  obtain ⟨k, h1, h2⟩ := atLoop_elapsed (HAL_GetTick w) timeout timeout
    (HAL_UART_Transmit { w with rx := w.rx.flush } (cstr cmd)) []
  have h1' : (RG200U_SendATCommand w cmd timeout).world.tick = w.tick + k := h1
  have h2' : (RG200U_SendATCommand w cmd timeout).world.modem = w.modem.drop k := h2
  rw [h2', h1']
  congr 1
  omega

theorem sendATCommand_tick_le (w : World) (cmd : List Nat) (timeout : Nat) :
    w.tick ≤ (RG200U_SendATCommand w cmd timeout).world.tick := by
  obtain ⟨k, h1, _⟩ := atLoop_elapsed (HAL_GetTick w) timeout timeout
    (HAL_UART_Transmit { w with rx := w.rx.flush } (cstr cmd)) []
  have h1' : (RG200U_SendATCommand w cmd timeout).world.tick = w.tick + k := h1
  omega

/-- What the modem still has to send when the open command has been answered: what it had to
send at the call, less the milliseconds gone by. -/
theorem openExchange_elapsed (w : World) :
    (openExchange w).world.modem = w.modem.drop ((openExchange w).world.tick - w.tick) := by
  have e1 := sendATCommand_elapsed { w with rx := w.rx.flush } (bytes "AT+QICLOSE=0\r\n") 2000
  have t1 := sendATCommand_tick_le { w with rx := w.rx.flush } (bytes "AT+QICLOSE=0\r\n") 2000
  have e2 := sendATCommand_elapsed
    (RG200U_SendATCommand { w with rx := w.rx.flush } (bytes "AT+QICLOSE=0\r\n") 2000).world
    (bytes "AT+QURCCFG=\"urcport\",\"all\"\r\n") 2000
  have t2 := sendATCommand_tick_le
    (RG200U_SendATCommand { w with rx := w.rx.flush } (bytes "AT+QICLOSE=0\r\n") 2000).world
    (bytes "AT+QURCCFG=\"urcport\",\"all\"\r\n") 2000
  have e3 := sendATCommand_elapsed (beforeOpen w) qiopenCmd 5000
  have t3 := sendATCommand_tick_le (beforeOpen w) qiopenCmd 5000
  have hbm : (beforeOpen w).modem = (RG200U_SendATCommand
      (RG200U_SendATCommand { w with rx := w.rx.flush } (bytes "AT+QICLOSE=0\r\n") 2000).world
      (bytes "AT+QURCCFG=\"urcport\",\"all\"\r\n") 2000).world.modem := rfl
  have hbt : (beforeOpen w).tick = (RG200U_SendATCommand
      (RG200U_SendATCommand { w with rx := w.rx.flush } (bytes "AT+QICLOSE=0\r\n") 2000).world
      (bytes "AT+QURCCFG=\"urcport\",\"all\"\r\n") 2000).world.tick := rfl
  have h0m : ({ w with rx := w.rx.flush } : World).modem = w.modem := rfl
  have h0t : ({ w with rx := w.rx.flush } : World).tick = w.tick := rfl
  show (RG200U_SendATCommand (beforeOpen w) qiopenCmd 5000).world.modem
    = w.modem.drop ((RG200U_SendATCommand (beforeOpen w) qiopenCmd 5000).world.tick - w.tick)
  rw [e3, hbm, e2, e1, h0m, List.drop_drop, List.drop_drop]
  rw [hbt] at t3 ⊢
  rw [h0t] at t1 ⊢
  congr 1
  omega

/-- With an empty ring, nothing found yet and a modem that stays silent for the next `n` ms,
the loop of `RG200U_WaitForResponse` polls `n` times in vain. -/
theorem waitLoop_silent (e : List Nat) (max_len timeout_ms t0 : Nat)
    (htimeout : timeout_ms < 2 ^ 32) (last fuel : Nat) :
    ∀ (n : Nat) (w : World) (resp : List Nat),
      t0 ≤ w.tick → (w.tick - t0) + n ≤ timeout_ms →
      w.rx.read_index = w.rx.write_index → (∀ x ∈ w.modem.take n, x = []) →
      waitLoop (fuel + n) w e max_len timeout_ms (t0 % 2 ^ 32) resp false last
        = waitLoop fuel
            { w with
              tick := w.tick + n
              modem := w.modem.drop n
              trace := List.replicate n (Event.delay 1) ++ w.trace }
            e max_len timeout_ms (t0 % 2 ^ 32) resp false last := by
  intro n
  induction n with
  | zero =>
    intro w resp _ _ _ _
    rfl
  | succ n ih =>
    intro w resp h0 he hring hquiet
    have hcond : tickDiff (HAL_GetTick w) (t0 % 2 ^ 32) < timeout_ms := by
      have hw : w.tick = t0 + (w.tick - t0) := by omega
      unfold HAL_GetTick
      rw [hw, tickDiff_elapsed t0 _ (by omega)]
      omega
    have hhead : w.modem.headD [] = [] := by
      cases hm : w.modem with
      | nil => rfl
      | cons x xs =>
        apply hquiet
        rw [hm]
        simp
    have hdelay : HAL_Delay w 1
        = { w with tick := w.tick + 1, modem := w.modem.tail,
                   trace := Event.delay 1 :: w.trace } := by
      unfold HAL_Delay
      simp only [elapse, millisecond_silent w hhead]
    have hquiet2 : ∀ x ∈ (HAL_Delay w 1).modem.take n, x = [] := by
      intro x hx
      rw [hdelay] at hx
      apply hquiet
      cases hm : w.modem with
      | nil => rw [hm] at hx; simp at hx
      | cons y ys =>
        rw [hm] at hx
        simp only [List.tail_cons] at hx
        rw [List.take_succ_cons]
        exact List.mem_cons_of_mem _ hx
    have hstep := ih (HAL_Delay w 1) resp
      (by rw [HAL_Delay_tick]; omega) (by rw [HAL_Delay_tick]; omega)
      (by rw [hdelay]; exact hring) hquiet2
    have hrb : w.receiveByte = (w, none) := receiveByte_empty w hring
    rw [show fuel + (n + 1) = (fuel + n) + 1 from rfl, waitLoop, if_pos hcond]
    simp only [hrb, Bool.false_and]
    rw [if_neg (by decide), hstep, hdelay]
    congr 1
    simp only [World.mk.injEq, and_true, true_and]
    refine ⟨by omega, ?_, ?_⟩
    · cases w.modem with
      | nil => simp
      | cons y ys => simp
    · rw [List.replicate_succ', List.append_assoc]
      rfl

/-- A wait that starts with an empty ring and a modem silent for `n` ms. -/
theorem waitForResponse_silent (w : World) (expected : List Nat) (max_len timeout_ms : Nat)
    (htimeout : timeout_ms < 2 ^ 32) (n fuel : Nat) (hn : fuel + n = timeout_ms)
    (hring : w.rx.read_index = w.rx.write_index) (hquiet : ∀ x ∈ w.modem.take n, x = []) :
    RG200U_WaitForResponse w expected max_len timeout_ms
      = waitLoop fuel
          { w with
            tick := w.tick + n
            modem := w.modem.drop n
            trace := List.replicate n (Event.delay 1) ++ w.trace }
          (cstr expected) max_len timeout_ms (HAL_GetTick w) [] false 0 := by
  unfold RG200U_WaitForResponse
  rw [← hn]
  exact waitLoop_silent (cstr expected) max_len (fuel + n) w.tick (by omega) 0 fuel n w []
    (le_refl _) (by omega) hring hquiet

theorem rs485Bytes_delay (w : World) (ms : Nat) :
    rs485Bytes (HAL_Delay w ms).log = rs485Bytes w.log := by
  rw [HAL_Delay_log, rs485Bytes_append]
  show rs485Bytes w.log ++ [] = _
  rw [List.append_nil]

theorem rs485Bytes_transmit (w : World) (data : List Nat) :
    rs485Bytes (HAL_UART_Transmit w data).log = rs485Bytes w.log := by
  unfold World.log HAL_UART_Transmit
  show rs485Bytes (Event.uart5 data :: w.trace).reverse = _
  rw [List.reverse_cons, rs485Bytes_append]
  show rs485Bytes w.trace.reverse ++ [] = _
  rw [List.append_nil]

theorem rs485Bytes_atLoop (start timeout : Nat) : ∀ (fuel : Nat) (w : World) (resp : List Nat),
    rs485Bytes (atLoop fuel w start timeout resp).world.log = rs485Bytes w.log := by
  intro fuel
  induction fuel with
  | zero => intro w resp; rfl
  | succ fuel ih =>
    intro w resp
    have hnext : ∀ r,
        rs485Bytes (atLoop fuel (HAL_Delay w.receiveByte.1 1) start timeout r).world.log
          = rs485Bytes w.log := by
      intro r
      rw [ih, rs485Bytes_delay]
      rfl
    rw [atLoop]
    by_cases hc : tickDiff (HAL_GetTick w) start < timeout
    · rw [if_pos hc]
      rcases hrb : w.receiveByte.2 with _ | data
      · have hpair : w.receiveByte = (w.receiveByte.1, none) := by rw [← hrb]
        rw [hpair]
        exact hnext resp
      · have hpair : w.receiveByte = (w.receiveByte.1, some data) := by rw [← hrb]
        rw [hpair]
        simp only []
        exact ite_pred (fun r : ATResult => rs485Bytes r.world.log = rs485Bytes w.log) _ _ _
          (ite_pred (fun r : ATResult => rs485Bytes r.world.log = rs485Bytes w.log) _ _ _
            rfl (hnext _))
          (hnext _)
    · rw [if_neg hc]

theorem rs485Bytes_sendATCommand (w : World) (cmd : List Nat) (timeout : Nat) :
    rs485Bytes (RG200U_SendATCommand w cmd timeout).world.log = rs485Bytes w.log := by
  unfold RG200U_SendATCommand
  simp only []
  rw [rs485Bytes_atLoop, rs485Bytes_transmit]
  rfl

theorem rs485Bytes_waitLoop (expected : List Nat) (max_len timeout_ms start_time : Nat) :
    ∀ (fuel : Nat) (w : World) (resp : List Nat) (found : Bool) (last : Nat),
    rs485Bytes (waitLoop fuel w expected max_len timeout_ms start_time resp found last).world.log
      = rs485Bytes w.log := by
  intro fuel
  induction fuel with
  | zero => intro w resp found last; rfl
  | succ fuel ih =>
    intro w resp found last
    rw [waitLoop]
    by_cases hc : tickDiff (HAL_GetTick w) start_time < timeout_ms
    · rw [if_pos hc]
      simp only []
      exact ite_pred (fun r : ATResult => rs485Bytes r.world.log = rs485Bytes w.log) _ _ _
        rfl (by show rs485Bytes (World.log _) = _; rw [ih, rs485Bytes_delay]; rfl)
    · rw [if_neg hc]

/-- Neither the exchanges nor the wait of the socket bring-up put anything on RS-485. -/
theorem rs485Bytes_openWait (w : World) :
    rs485Bytes (openWait w).world.log = rs485Bytes w.log := by
  unfold openWait RG200U_WaitForResponse
  rw [rs485Bytes_waitLoop]
  unfold openExchange
  rw [rs485Bytes_sendATCommand]
  unfold beforeOpen
  simp only []
  show rs485Bytes (World.log (RG200U_SendATCommand _ _ 2000).world) = _
  rw [rs485Bytes_sendATCommand, rs485Bytes_sendATCommand]
  rfl

/-- The wait of `RG200U_ConnectTCPServer` when the modem, after the reply to the open
command, stays silent for `n` ms and then sends `rest`: the first `n` polls find nothing. -/
theorem openWait_silent (w : World) (n fuel : Nat) (rest : List (List Nat)) (timeout_ms : Nat)
    (htimeout : timeout_ms < 2 ^ 32) (hn : fuel + n = timeout_ms)
    (hring : (openExchange w).world.rx.read_index = (openExchange w).world.rx.write_index)
    (hmodem : w.modem.drop ((openExchange w).world.tick - w.tick)
      = List.replicate n [] ++ rest) :
    RG200U_WaitForResponse (openExchange w).world (bytes "+QIOPEN:") AT_RESPONSE_BUF_SIZE
        timeout_ms
      = waitLoop fuel
          { tick := (openExchange w).world.tick + n
            rx := (openExchange w).world.rx
            tcp_state := (openExchange w).world.tcp_state
            modem := rest
            trace := List.replicate n (Event.delay 1) ++ (openExchange w).world.trace }
          (cstr (bytes "+QIOPEN:")) AT_RESPONSE_BUF_SIZE timeout_ms
          (HAL_GetTick (openExchange w).world) [] false 0 := by
  have hm : (openExchange w).world.modem = List.replicate n [] ++ rest := by
    rw [openExchange_elapsed, hmodem]
  rw [waitForResponse_silent (openExchange w).world (bytes "+QIOPEN:") AT_RESPONSE_BUF_SIZE
    timeout_ms htimeout n fuel hn hring
    (by rw [hm]; exact take_replicate_quiet n n rest (le_refl _))]
  rw [hm, drop_replicate_append n n rest (le_refl _), Nat.sub_self]
  rfl

set_option maxRecDepth 100000 in
set_option maxHeartbeats 4000000 in
theorem lateStub_wait :
    (RG200U_WaitForResponse (openExchange lateStub).world (bytes "+QIOPEN:") 512 29962).response
        = bytes "+QIOPEN: 0,0\r\n"
      ∧ (openWait lateStub).ret = 0
      ∧ (openWait lateStub).response = bytes "+QIOPEN: 0,0\r\n" := by
  have hring : (openExchange lateStub).world.rx.read_index
      = (openExchange lateStub).world.rx.write_index := by decide
  have htick : (openExchange lateStub).world.tick - lateStub.tick = 14 + 3 := by decide
  have hmodem : lateStub.modem.drop ((openExchange lateStub).world.tick - lateStub.tick)
      = List.replicate 29947 [] ++ [bytes "+QIOPEN: 0,0\r\n"] := by
    rw [htick]
    show (([[], bytes "OK\r\n", [], [], [], [], [], bytes "OK\r\n", [], [], [], [], [],
      bytes "OK\r\n"] : List (List Nat))
        ++ (List.replicate (3 + 29947) [] ++ [bytes "+QIOPEN: 0,0\r\n"])).drop (14 + 3) = _
    rw [← List.drop_drop, List.drop_left' (by rfl), List.replicate_add, List.append_assoc,
      List.drop_left' (by rfl)]
  have h1 := openWait_silent lateStub 29947 15 [bytes "+QIOPEN: 0,0\r\n"] 29962 (by norm_num)
    (by norm_num) hring hmodem
  have h2 := openWait_silent lateStub 29947 53 [bytes "+QIOPEN: 0,0\r\n"] 30000 (by norm_num)
    (by norm_num) hring hmodem
  refine ⟨?_, ?_, ?_⟩
  · show (RG200U_WaitForResponse (openExchange lateStub).world (bytes "+QIOPEN:")
      AT_RESPONSE_BUF_SIZE 29962).response = _
    rw [h1]
    decide
  · unfold openWait
    rw [h2]
    decide
  · unfold openWait
    rw [h2]
    decide

set_option maxRecDepth 100000 in
set_option maxHeartbeats 4000000 in
theorem lateRefusedStub_wait :
    (RG200U_WaitForResponse (openExchange lateRefusedStub).world (bytes "+QIOPEN:") 512
        29964).response = openNotification 566
      ∧ (openWait lateRefusedStub).ret = 0
      ∧ (openWait lateRefusedStub).response = openNotification 566 := by
  have hring : (openExchange lateRefusedStub).world.rx.read_index
      = (openExchange lateRefusedStub).world.rx.write_index := by decide
  have htick : (openExchange lateRefusedStub).world.tick - lateRefusedStub.tick = 14 + 3 := by
    decide
  have hmodem : lateRefusedStub.modem.drop
      ((openExchange lateRefusedStub).world.tick - lateRefusedStub.tick)
      = List.replicate 29947 [] ++ [bytes "+QIOPEN: 0,566\r\n"] := by
    rw [htick]
    show (([[], bytes "OK\r\n", [], [], [], [], [], bytes "OK\r\n", [], [], [], [], [],
      bytes "OK\r\n"] : List (List Nat))
        ++ (List.replicate (3 + 29947) [] ++ [bytes "+QIOPEN: 0,566\r\n"])).drop (14 + 3) = _
    rw [← List.drop_drop, List.drop_left' (by rfl), List.replicate_add, List.append_assoc,
      List.drop_left' (by rfl)]
  have h1 := openWait_silent lateRefusedStub 29947 17 [bytes "+QIOPEN: 0,566\r\n"] 29964
    (by norm_num) (by norm_num) hring hmodem
  have h2 := openWait_silent lateRefusedStub 29947 53 [bytes "+QIOPEN: 0,566\r\n"] 30000
    (by norm_num) (by norm_num) hring hmodem
  refine ⟨?_, ?_, ?_⟩
  · show (RG200U_WaitForResponse (openExchange lateRefusedStub).world (bytes "+QIOPEN:")
      AT_RESPONSE_BUF_SIZE 29964).response = _
    rw [h1]
    decide
  · unfold openWait
    rw [h2]
    decide
  · unfold openWait
    rw [h2]
    decide

/-- The path of `RG200U_ConnectTCPServer` on which the reply to the open command is accepted
and the wait for the notification runs into its timeout: the call returns 0 with the state
Error and adds nothing to the log. -/
theorem connect_wait_timeout (w : World) (hret : (openExchange w).ret = 1)
    (hok : (strstr (openExchange w).response (bytes "OK")).isSome = true)
    (hwait : (openWait w).ret = 0) :
    (RG200U_ConnectTCPServer w).2 = 0
      ∧ RG200U_GetTCPState (RG200U_ConnectTCPServer w).1 = TCP_State_t.TCP_STATE_ERROR
      ∧ (RG200U_ConnectTCPServer w).1.log = (openWait w).world.log := by
  have hrun : RG200U_ConnectTCPServer w
      = ({ (openWait w).world with tcp_state := TCP_State_t.TCP_STATE_ERROR }, 0) := by
    unfold RG200U_ConnectTCPServer
    rw [if_pos (by rw [hret]; decide), if_pos hok, if_neg (by rw [hwait]; decide)]
  rw [hrun]
  exact ⟨rfl, rfl, rfl⟩

/-- The bytes stored by the wait are the first `max_len - 1` of the bytes it has taken from
the ring. -/
theorem waitTake_stored (max_len : Nat) (s : WaitState)
    (h : s.stored = s.taken.take (max_len - 1)) :
    (waitTake max_len s).stored = (waitTake max_len s).taken.take (max_len - 1) := by
  unfold waitTake
  rcases s.world.receiveByte.2 with _ | data
  · exact h
  · simp only []
    by_cases hroom : s.stored.length + 1 < max_len
    · rw [if_pos hroom]
      show s.stored ++ [data] = (s.taken ++ [data]).take (max_len - 1)
      have hlt : s.taken.length < max_len - 1 := by
        by_contra hge
        rw [h, List.length_take] at hroom
        omega
      rw [h, List.take_of_length_le (by omega), List.take_of_length_le]
      rw [List.length_append, List.length_singleton]
      omega
    · rw [if_neg hroom]
      show s.stored = (s.taken ++ [data]).take (max_len - 1)
      have hge : max_len - 1 ≤ s.taken.length := by
        rw [h, List.length_take] at hroom
        omega
      rw [h, List.take_append_of_le_length hge]

theorem waitState_stored (w : World) (max_len : Nat) : ∀ j : Nat,
    (waitState w max_len j).stored = (waitState w max_len j).taken.take (max_len - 1) := by
  intro j
  induction j with
  | zero =>
    exact waitTake_stored max_len _ (by simp)
  | succ j ih =>
    rw [waitState_succ]
    exact waitTake_stored max_len _ ih

/-- C6 as stated fails: the modem of `lateStub` acknowledges the open command with "OK\r\n"
(the exchange returns 1) and sends "+QIOPEN: 0,0\r\n" so late that its last byte is taken
29.961 s into the wait: a wait of 29.962 s has the whole notification as its response, and
so has the wait of 30 s. But the 30 s are over before 100 ms of quiet have followed the
notification, the wait returns 0, and so does `RG200U_ConnectTCPServer`, although the
notification was received within 30 s and carries error code 0. -/
theorem late_notification_counterexample :
    ((openExchange lateStub).ret = 1 ∧ bytes "OK" <:+: (openExchange lateStub).response)
      ∧ (RG200U_WaitForResponse (openExchange lateStub).world (bytes "+QIOPEN:") 512
          29962).response = bytes "+QIOPEN: 0,0\r\n"
      ∧ (openWait lateStub).response = bytes "+QIOPEN: 0,0\r\n"
      ∧ (openWait lateStub).ret = 0
      ∧ (RG200U_ConnectTCPServer lateStub).2 = 0 := by
  obtain ⟨h1, h2, h3⟩ := lateStub_wait
  refine ⟨⟨by decide, by decide⟩, h1, h3, h2, ?_⟩
  exact (connect_wait_timeout lateStub (by decide) (by decide) h2).1

/-- C6, as amended. `RG200U_ConnectTCPServer` returns 1 if and only if both acknowledgements
succeed: the exchange sending AT+QIOPEN is closed by "OK\r\n" or "ERROR\r\n" at one of its
polls within 5 s and its reply contains "OK", and the wait that follows reaches within its
30 s a poll (poll `j` takes place `j` ms into the wait) at which the text received contains
"+QIOPEN:" and more than 100 ms have passed since a byte was last stored, the text received
by the first such poll containing "+QIOPEN: 0,0" or "+QIOPEN: 0, 0" (socket 0, error code 0:
for a notification "+QIOPEN: 0,E\r\n" these patterns are present exactly when E = 0); in
every other case it returns 0. So a notification received within the 30 s counts only if
the quiet period that follows it is over within the 30 s as well. The bytes stored are the
first 511 the wait takes from the ring, hence all of them as long as it has taken no more
than 511; a poll that stores a byte restarts the quiet period, a poll that stores none lets
it run on. The condition refers to nothing else: the results of the AT+QICLOSE and
AT+QURCCFG exchanges that come first play no part in it. Two modems show it: one answers
both with "OK\r\n", the other leaves both unanswered (each returns 0 after its 2 s timeout);
with the open command acknowledged and "+QIOPEN: 0,0\r\n" reported, the call returns 1 for
both. -/
theorem connectTCPServer_iff (w : World) :
    ((RG200U_ConnectTCPServer w).2 = 1 ↔
        ((∃ k, 1 ≤ k ∧ k ≤ 5000 ∧ textHasTerminator (accumulated (beforeOpen w) qiopenCmd k))
          ∧ bytes "OK" <:+: (openExchange w).response)
        ∧ ∃ j, j < 30000
          ∧ quietDone (bytes "+QIOPEN:") (waitState (openExchange w).world 512 j)
          ∧ (∀ i, i < j →
              ¬ quietDone (bytes "+QIOPEN:") (waitState (openExchange w).world 512 i))
          ∧ (bytes "+QIOPEN: 0,0" <:+: cstr (waitState (openExchange w).world 512 j).stored
              ∨ bytes "+QIOPEN: 0, 0"
                  <:+: cstr (waitState (openExchange w).world 512 j).stored))
      ∧ ((RG200U_ConnectTCPServer w).2 ≠ 1 → (RG200U_ConnectTCPServer w).2 = 0)
      ∧ (∀ j, (waitState (openExchange w).world 512 j).stored
              = (waitState (openExchange w).world 512 j).taken.take 511
          ∧ ((waitState (openExchange w).world 512 j).taken.length ≤ 511 →
            (waitState (openExchange w).world 512 j).stored
              = (waitState (openExchange w).world 512 j).taken))
      ∧ (∀ j, ((waitState (openExchange w).world 512 (j + 1)).stored
              ≠ (waitState (openExchange w).world 512 j).stored →
            (waitState (openExchange w).world 512 (j + 1)).quiet = 0)
          ∧ ((waitState (openExchange w).world 512 (j + 1)).stored
              = (waitState (openExchange w).world 512 j).stored →
            (waitState (openExchange w).world 512 (j + 1)).quiet
              = (waitState (openExchange w).world 512 j).quiet + 1))
      ∧ (∀ E : Int, (bytes "+QIOPEN: 0,0" <:+: cstr (openNotification E)
            ∨ bytes "+QIOPEN: 0, 0" <:+: cstr (openNotification E)) ↔ E = 0)
      ∧ ((RG200U_SendATCommand { obligingStub with rx := obligingStub.rx.flush }
            (bytes "AT+QICLOSE=0\r\n") 2000).ret = 1
          ∧ (RG200U_ConnectTCPServer obligingStub).2 = 1)
      ∧ ((RG200U_SendATCommand { deafStub with rx := deafStub.rx.flush }
            (bytes "AT+QICLOSE=0\r\n") 2000).ret = 0
          ∧ (RG200U_ConnectTCPServer deafStub).2 = 1) := by
  have hq := waitForResponse_polls (openExchange w).world (bytes "+QIOPEN:") 512 30000 (by norm_num)
    (by decide)
  have hx := sendATCommand_poll (beforeOpen w) qiopenCmd 5000 (by norm_num)
  have hwait : openWait w
      = RG200U_WaitForResponse (openExchange w).world (bytes "+QIOPEN:") 512 30000 := rfl
  have hexch : openExchange w = RG200U_SendATCommand (beforeOpen w) qiopenCmd 5000 := rfl
  have hst : ∀ j, (waitState (openExchange w).world 512 j).stored
        = (waitState (openExchange w).world 512 j).taken.take 511
      ∧ ((waitState (openExchange w).world 512 j).taken.length ≤ 511 →
        (waitState (openExchange w).world 512 j).stored
          = (waitState (openExchange w).world 512 j).taken) := by
    intro j
    have h := waitState_stored (openExchange w).world 512 j
    refine ⟨h, fun hlen => ?_⟩
    rw [h]
    exact List.take_of_length_le hlen
  refine ⟨?_, ?_, hst, hq.2.2, openNotification_zero_iff, obliging_connect, deaf_connect⟩
  · constructor
    · intro h1
      rcases connect_paths w with h | h
      · obtain ⟨_, _, ⟨he, hok⟩, hw, hcode⟩ := h
        rw [hexch] at he
        rw [hwait] at hw hcode
        obtain ⟨j, hj, hdone, hfirst, _, hresp⟩ := hq.2.1 hw
        rw [hresp] at hcode
        exact ⟨⟨hx.1 he, hok⟩, j, hj, hdone, hfirst, hcode⟩
      · rw [h.1] at h1; exact absurd h1 (by decide)
    · rintro ⟨⟨hk, hok⟩, j, hj, hdone, hfirst, hcode⟩
      rcases connect_paths w with h | h
      · exact h.1
      · exfalso
        apply h.2.2
        have hw : (RG200U_WaitForResponse (openExchange w).world (bytes "+QIOPEN:") 512
            30000).ret = 1 := hq.1.2 ⟨j, hj, hdone⟩
        obtain ⟨j2, _, hdone2, hfirst2, _, hresp⟩ := hq.2.1 hw
        have hjj : j2 = j := by
          rcases Nat.lt_trichotomy j2 j with hlt | heq | hgt
          · exact absurd hdone2 (hfirst j2 hlt)
          · exact heq
          · exact absurd hdone (hfirst2 j hgt)
        rw [hjj] at hresp
        refine ⟨⟨?_, hok⟩, ?_, ?_⟩
        · rw [hexch]; exact hx.2 hk
        · rw [hwait]; exact hw
        · rw [hwait, hresp]; exact hcode
  · intro hne
    rcases connect_paths w with h | h
    · exact absurd h.1 hne
    · exact h.1

/-- C8, as amended. Socket-open error reporting: when the open command is answered by
"OK\r\n" and the wait for the notification succeeds with "+QIOPEN: 0,E\r\n", E ≠ 0 (E in the
range of `int`), as the text received (so that within the 30 s a poll is reached at which
more than 100 ms have passed since the last byte of the notification was stored),
`RG200U_ConnectTCPServer` returns 0, the state becomes Error, and what it emits on RS-485 is
exactly the line "[ERROR] Connection failed with code E (reason)\r\n", sent in transmit mode
after a 1 ms settle delay and followed by the switch back to receive mode: the decimal code
E followed by the reason the fixed table assigns to E. Each of 550..574 has its own reason
(an entry of the table, different codes giving different texts), any other non-zero code
gives "Unknown", and 566 gives "Socket connect failed". -/
theorem connect_error_report (w : World) (E : Int) (hE : E ≠ 0)
    (hlo : -2 ^ 31 ≤ E) (hhi : E < 2 ^ 31)
    (hreply : (openExchange w).ret = 1 ∧ (openExchange w).response = bytes "OK\r\n")
    (hnotif : (openWait w).ret = 1 ∧ (openWait w).response = openNotification E) :
    (RG200U_ConnectTCPServer w).2 = 0
      ∧ RG200U_GetTCPState (RG200U_ConnectTCPServer w).1 = TCP_State_t.TCP_STATE_ERROR
      ∧ (RG200U_ConnectTCPServer w).1.log = (openWait w).world.log
          ++ [Event.gpio Pin.RS485_RE GPIO_PinState.GPIO_PIN_SET,
              Event.gpio Pin.RS485_DE GPIO_PinState.GPIO_PIN_SET, Event.delay 1]
          ++ sendEvents (openErrorLine E)
          ++ [Event.gpio Pin.RS485_RE GPIO_PinState.GPIO_PIN_RESET,
              Event.gpio Pin.RS485_DE GPIO_PinState.GPIO_PIN_SET]
      ∧ rs485Bytes (RG200U_ConnectTCPServer w).1.log
          = rs485Bytes (openWait w).world.log
            ++ (bytes "[ERROR] Connection failed with code " ++ printInt E ++ bytes " ("
                ++ errReason E ++ bytes ")\r\n")
      ∧ errReason 566 = bytes "Socket connect failed"
      ∧ (∀ a : Int, 550 ≤ a ∧ a ≤ 574 → (a, errReason a) ∈ errTable)
      ∧ (∀ a b : Int, 550 ≤ a ∧ a ≤ 574 → 550 ≤ b ∧ b ≤ 574 → errReason a = errReason b → a = b)
      ∧ (∀ e : Int, e ≠ 0 → e < 550 ∨ 574 < e → errReason e = bytes "Unknown")
      ∧ (∃ j, j < 30000
          ∧ quietDone (bytes "+QIOPEN:") (waitState (openExchange w).world 512 j)
          ∧ (∀ i, i < j →
              ¬ quietDone (bytes "+QIOPEN:") (waitState (openExchange w).world 512 i))
          ∧ (waitState (openExchange w).world 512 j).stored = openNotification E) := by
  obtain ⟨hn1, hn2, hn3, hn4⟩ := openNotification_text E hE
  have hpoll : ∃ j, j < 30000
      ∧ quietDone (bytes "+QIOPEN:") (waitState (openExchange w).world 512 j)
      ∧ (∀ i, i < j →
          ¬ quietDone (bytes "+QIOPEN:") (waitState (openExchange w).world 512 i))
      ∧ (waitState (openExchange w).world 512 j).stored = openNotification E := by
    obtain ⟨j, hj, hdone, hfirst, _, hresp⟩ :=
      (waitForResponse_polls (openExchange w).world (bytes "+QIOPEN:") 512 30000 (by norm_num)
        (by decide)).2.1 hnotif.1
    exact ⟨j, hj, hdone, hfirst, hresp.symm.trans hnotif.2⟩
  have hx0 : (openExchange w).ret ≠ 0 := by rw [hreply.1]; decide
  have hok : (strstr (openExchange w).response (bytes "OK")).isSome = true := by
    rw [hreply.2]; decide
  have hw0 : (openWait w).ret ≠ 0 := by rw [hnotif.1]; decide
  have hno : ¬ ((strstr (openNotification E) (bytes "+QIOPEN: 0,0")).isSome
      || (strstr (openNotification E) (bytes "+QIOPEN: 0, 0")).isSome) = true := by
    rw [hn3, hn4]; decide
  have hrun : RG200U_ConnectTCPServer w
      = ({ reportOpenError (openWait w).world E with
            tcp_state := TCP_State_t.TCP_STATE_ERROR }, 0) := by
    unfold RG200U_ConnectTCPServer
    rw [if_pos hx0, if_pos hok, if_pos hw0, hnotif.2]
    unfold openNotified
    rw [if_neg hno, hn2]
    simp only [hn1, List.drop_zero, sscanf_openNotification E hE (by omega) (by omega)]
  have hlog : (RG200U_ConnectTCPServer w).1.log = (reportOpenError (openWait w).world E).log := by
    rw [hrun]; rfl
  refine ⟨by rw [hrun], by rw [hrun]; rfl, ?_, ?_, by decide, errReason_table,
    errReason_injective, errReason_default, hpoll⟩
  · rw [hlog, reportOpenError_log _ E hlo hhi]
  · rw [hlog, reportOpenError_log _ E hlo hhi]
    simp only [rs485Bytes_append, rs485Bytes_sendEvents, openErrorLine]
    simp [rs485Bytes]

theorem connect_error_report_witness :
    ((566 : Int) ≠ 0 ∧ -2 ^ 31 ≤ (566 : Int) ∧ (566 : Int) < 2 ^ 31)
      ∧ ((openExchange refusedStub).ret = 1 ∧ (openExchange refusedStub).response = bytes "OK\r\n")
      ∧ ((openWait refusedStub).ret = 1 ∧ (openWait refusedStub).response = openNotification 566)
      ∧ (RG200U_ConnectTCPServer refusedStub).2 = 0
      ∧ RG200U_GetTCPState (RG200U_ConnectTCPServer refusedStub).1 = TCP_State_t.TCP_STATE_ERROR
      ∧ rs485Bytes (RG200U_ConnectTCPServer refusedStub).1.log
          = rs485Bytes (openWait refusedStub).world.log
            ++ (bytes "[ERROR] Connection failed with code " ++ printInt 566 ++ bytes " ("
                ++ errReason 566 ++ bytes ")\r\n") :=
  ⟨⟨by decide, by decide, by decide⟩, ⟨by decide, by decide⟩, ⟨by decide, by decide⟩,
    (connect_error_report refusedStub 566 (by decide) (by decide) (by decide)
      ⟨by decide, by decide⟩ ⟨by decide, by decide⟩).1,
    (connect_error_report refusedStub 566 (by decide) (by decide) (by decide)
      ⟨by decide, by decide⟩ ⟨by decide, by decide⟩).2.1,
    (connect_error_report refusedStub 566 (by decide) (by decide) (by decide)
      ⟨by decide, by decide⟩ ⟨by decide, by decide⟩).2.2.2.1⟩


/-- C8 as stated fails: the modem of `lateRefusedStub` answers the open command with "OK\r\n"
and sends "+QIOPEN: 0,566\r\n" so late that its last byte is taken 29.963 s into the wait:
a wait of 29.964 s has the whole notification as its response, and so has the wait of 30 s.
The 30 s are over before 100 ms of quiet have followed it, the wait returns 0, and
`RG200U_ConnectTCPServer` returns 0 with the state Error without having put a single byte
on RS-485: neither the code 566 nor its reason is reported. -/
theorem late_refusal_counterexample :
    ((openExchange lateRefusedStub).ret = 1
        ∧ (openExchange lateRefusedStub).response = bytes "OK\r\n")
      ∧ openNotification 566 = bytes "+QIOPEN: 0,566\r\n"
      ∧ (RG200U_WaitForResponse (openExchange lateRefusedStub).world (bytes "+QIOPEN:") 512
          29964).response = openNotification 566
      ∧ (openWait lateRefusedStub).response = openNotification 566
      ∧ (RG200U_ConnectTCPServer lateRefusedStub).2 = 0
      ∧ RG200U_GetTCPState (RG200U_ConnectTCPServer lateRefusedStub).1
          = TCP_State_t.TCP_STATE_ERROR
      ∧ rs485Bytes (RG200U_ConnectTCPServer lateRefusedStub).1.log = [] := by
  obtain ⟨h1, h2, h3⟩ := lateRefusedStub_wait
  obtain ⟨r1, r2, r3⟩ := connect_wait_timeout lateRefusedStub (by decide) (by decide) h2
  have hquiet : rs485Bytes lateRefusedStub.log = [] := by
    show rs485Bytes ([] : List Event).reverse = []
    rfl
  refine ⟨⟨by decide, by decide⟩, by decide, h1, h3, r1, r2, ?_⟩
  rw [r3, rs485Bytes_openWait]
  exact hquiet

/-! ## Waiting for a notification: a modem that never falls silent -/

/-- Taking a byte from a ring that holds `c + 1` unread copies of `b`. -/
theorem receiveByte_stream (b c : Nat) (w : World) (hwf : w.rx.WF)
    (hc : w.rx.contents = List.replicate (c + 1) b) :
    w.receiveByte.2 = some b ∧ w.receiveByte.1.rx.WF
      ∧ w.receiveByte.1.rx.contents = List.replicate c b
      ∧ w.receiveByte.1.modem = w.modem := by
  have hcount : w.rx.count = c + 1 := by
    rw [← contents_length, hc, List.length_replicate]
  obtain ⟨p1, p2, _, p4, _⟩ := pop_nonempty w.rx hwf (by omega)
  rw [hc, List.replicate_succ] at p4
  have hb : w.rx.buffer w.rx.read_index = b := (List.head_eq_of_cons_eq p4).symm
  have hrest : (RG200U_ReceiveByte w.rx).1.contents = List.replicate c b :=
    (List.tail_eq_of_cons_eq p4).symm
  refine ⟨?_, p2, hrest, rfl⟩
  show (RG200U_ReceiveByte w.rx).2 = some b
  rw [p1, hb]

/-- One millisecond of a modem that sends `b` in every millisecond, with room in the ring. -/
theorem delay_stream (b c n : Nat) (w : World) (hwf : w.rx.WF)
    (hc : w.rx.contents = List.replicate c b) (hroom : c < 255)
    (hm : w.modem = List.replicate (n + 1) [b]) :
    (HAL_Delay w 1).rx.WF ∧ (HAL_Delay w 1).rx.contents = List.replicate (c + 1) b
      ∧ (HAL_Delay w 1).modem = List.replicate n [b] := by
  have hcount : w.rx.count = c := by
    rw [← contents_length, hc, List.length_replicate]
  have htake : (w.modem.take 1).flatten = [b] := by
    rw [hm, List.replicate_succ]
    rfl
  have hel := elapse_take 1 w hwf (by rw [htake, hcount]; show c + 1 ≤ 255; omega)
  refine ⟨hel.1, ?_, ?_⟩
  · show (elapse 1 w).rx.contents = _
    rw [hel.2.1, hc, htake, List.replicate_succ']
  · rw [HAL_Delay_modem, hm, List.replicate_succ]
    rfl

/-- A poll in a steady stream, with room in the response: the byte is stored. -/
theorem waitTake_stream_store (max_len b c n : Nat) (s : WaitState)
    (hs : s.streaming b c n) (hroom : s.stored.length + 1 < max_len) :
    (waitTake max_len s).stored = s.stored ++ [b]
      ∧ (waitTake max_len s).taken = s.taken ++ [b]
      ∧ (waitTake max_len s).quiet = 0 := by
  obtain ⟨h1, _, _, _⟩ := receiveByte_stream b c s.world hs.1 hs.2.1
  unfold waitTake
  simp only [h1, if_pos hroom, and_self]

/-- A poll in a steady stream, with the response full: the byte is taken and dropped, and
the quiet period runs on. -/
theorem waitTake_stream_full (max_len b c n : Nat) (s : WaitState)
    (hs : s.streaming b c n) (hfull : ¬ s.stored.length + 1 < max_len) :
    (waitTake max_len s).stored = s.stored
      ∧ (waitTake max_len s).taken = s.taken ++ [b]
      ∧ (waitTake max_len s).quiet = s.quiet := by
  obtain ⟨h1, _, _, _⟩ := receiveByte_stream b c s.world hs.1 hs.2.1
  unfold waitTake
  simp only [h1, if_neg hfull, and_self]

/-- A poll and its delay in a steady stream: the ring and the stream are as before. -/
theorem waitStep_streaming (max_len b c n : Nat) (s : WaitState) (hc : c < 254)
    (hs : s.streaming b c (n + 1)) :
    (waitTick (waitTake max_len s)).streaming b c n := by
  obtain ⟨_, h2, h3, h4⟩ := receiveByte_stream b c s.world hs.1 hs.2.1
  have hw : (waitTick (waitTake max_len s)).world = HAL_Delay s.world.receiveByte.1 1 := by
    show HAL_Delay (waitTake max_len s).world 1 = _
    rw [waitTake_world]
  unfold WaitState.streaming
  rw [hw]
  exact delay_stream b c n s.world.receiveByte.1 h2 h3 (by omega) (by rw [h4]; exact hs.2.2)

/-- The polls of a steady stream while the response has room: every poll stores its byte. -/
theorem waitIter_stream_store (max_len b c : Nat) (hc : c < 254) :
    ∀ (k n : Nat) (s : WaitState), s.streaming b c (n + k) →
      s.stored.length + k < max_len →
      ((fun x => waitTick (waitTake max_len x))^[k] s).streaming b c n
        ∧ ((fun x => waitTick (waitTake max_len x))^[k] s).stored
            = s.stored ++ List.replicate k b
        ∧ ((fun x => waitTick (waitTake max_len x))^[k] s).taken
            = s.taken ++ List.replicate k b
        ∧ (0 < k → ((fun x => waitTick (waitTake max_len x))^[k] s).quiet = 1) := by
  intro k
  induction k with
  | zero =>
    intro n s hs _
    simp only [Function.iterate_zero, id_eq, List.replicate_zero, List.append_nil, true_and]
    exact ⟨hs, fun h => absurd h (by decide)⟩
  | succ k ih =>
    intro n s hs hlen
    obtain ⟨a1, a2, a3⟩ := waitTake_stream_store max_len b c (n + k + 1) s hs (by omega)
    have hnext : (waitTick (waitTake max_len s)).streaming b c (n + k) :=
      waitStep_streaming max_len b c (n + k) s hc hs
    have e1 : (waitTick (waitTake max_len s)).stored = s.stored ++ [b] := a1
    have e2 : (waitTick (waitTake max_len s)).taken = s.taken ++ [b] := a2
    have e3 : (waitTick (waitTake max_len s)).quiet = 1 := by
      show (waitTake max_len s).quiet + 1 = 1
      rw [a3]
    obtain ⟨b1, b2, b3, b4⟩ := ih n (waitTick (waitTake max_len s)) hnext
      (by rw [e1, List.length_append, List.length_singleton]; omega)
    rw [Function.iterate_succ_apply]
    refine ⟨b1, ?_, ?_, fun _ => ?_⟩
    · rw [b2, e1, List.append_assoc, List.replicate_succ]
      rfl
    · rw [b3, e2, List.append_assoc, List.replicate_succ]
      rfl
    · rcases Nat.eq_zero_or_pos k with hk | hk
      · subst hk
        exact e3
      · exact b4 hk

/-- The polls of a steady stream once the response is full: nothing more is stored, and the
quiet period grows by one with every poll although every poll takes a byte. -/
theorem waitIter_stream_full (max_len b c : Nat) (hc : c < 254) :
    ∀ (k n : Nat) (s : WaitState), s.streaming b c (n + k) →
      ¬ s.stored.length + 1 < max_len →
      ((fun x => waitTick (waitTake max_len x))^[k] s).streaming b c n
        ∧ ((fun x => waitTick (waitTake max_len x))^[k] s).stored = s.stored
        ∧ ((fun x => waitTick (waitTake max_len x))^[k] s).taken
            = s.taken ++ List.replicate k b
        ∧ ((fun x => waitTick (waitTake max_len x))^[k] s).quiet = s.quiet + k := by
  intro k
  induction k with
  | zero =>
    intro n s hs _
    simp only [Function.iterate_zero, id_eq, List.replicate_zero, List.append_nil, true_and,
      Nat.add_zero, and_true]
    exact hs
  | succ k ih =>
    intro n s hs hfull
    obtain ⟨a1, a2, a3⟩ := waitTake_stream_full max_len b c (n + k + 1) s hs hfull
    have hnext : (waitTick (waitTake max_len s)).streaming b c (n + k) :=
      waitStep_streaming max_len b c (n + k) s hc hs
    have e1 : (waitTick (waitTake max_len s)).stored = s.stored := a1
    have e2 : (waitTick (waitTake max_len s)).taken = s.taken ++ [b] := a2
    have e3 : (waitTick (waitTake max_len s)).quiet = s.quiet + 1 := by
      show (waitTake max_len s).quiet + 1 = _
      rw [a3]
    obtain ⟨b1, b2, b3, b4⟩ := ih n (waitTick (waitTake max_len s)) hnext
      (by rw [e1]; exact hfull)
    rw [Function.iterate_succ_apply]
    refine ⟨b1, ?_, ?_, ?_⟩
    · rw [b2, e1]
    · rw [b3, e2, List.append_assoc, List.replicate_succ]
      rfl
    · rw [b4, e3]
      omega

/-- The quiet period never exceeds the number of polls made. -/
theorem waitState_quiet_le (w : World) (max_len : Nat) : ∀ j : Nat,
    (waitState w max_len j).quiet ≤ j := by
  intro j
  induction j with
  | zero =>
    show (waitTake max_len { world := w, stored := [], taken := [], quiet := 0 }).quiet ≤ 0
    rcases waitTake_cases max_len { world := w, stored := [], taken := [], quiet := 0 } with
      ⟨_, h⟩ | ⟨_, _, h⟩
    · rw [h]
    · rw [h]
  | succ j ih =>
    rw [waitState_succ]
    rcases waitTake_cases max_len (waitTick (waitState w max_len j)) with ⟨_, h⟩ | ⟨_, _, h⟩
    · rw [h]
      show (waitState w max_len j).quiet + 1 ≤ j + 1
      omega
    · rw [h]
      omega

theorem waitIter_add (max_len j k : Nat) (s : WaitState) :
    (fun x => waitTick (waitTake max_len x))^[j + k] s
      = (fun x => waitTick (waitTake max_len x))^[k]
          ((fun x => waitTick (waitTake max_len x))^[j] s) := by
  rw [Nat.add_comm, Function.iterate_add_apply]

theorem waitIter_modem (max_len : Nat) : ∀ (j : Nat) (s : WaitState),
    ((fun x => waitTick (waitTake max_len x))^[j] s).world.modem = s.world.modem.drop j := by
  intro j
  induction j with
  | zero => intro s; rfl
  | succ j ih =>
    intro s
    rw [Function.iterate_succ_apply, ih]
    show (HAL_Delay (waitTake max_len s).world 1).modem.drop j = _
    rw [HAL_Delay_modem, waitTake_world, List.drop_drop]
    show List.drop (1 + j) s.world.modem = _
    rw [Nat.add_comm]

set_option maxRecDepth 100000 in
set_option maxHeartbeats 4000000 in
/-- The first 15 polls of a wait on `chatterStub`: the notification has been stored, and the
ring holds the 14 bytes that arrived in the meantime. -/
theorem chatter_start :
    ((fun x => waitTick (waitTake 512 x))^[15]
        { world := chatterStub, stored := [], taken := [], quiet := 0 }).streaming 120 13 686
      ∧ ((fun x => waitTick (waitTake 512 x))^[15]
          { world := chatterStub, stored := [], taken := [], quiet := 0 }).stored
          = bytes "+QIOPEN: 0,0\r\n"
      ∧ ((fun x => waitTick (waitTake 512 x))^[15]
          { world := chatterStub, stored := [], taken := [], quiet := 0 }).taken
          = bytes "+QIOPEN: 0,0\r\n"
      ∧ ((fun x => waitTick (waitTake 512 x))^[15]
          { world := chatterStub, stored := [], taken := [], quiet := 0 }).quiet = 1 := by
  refine ⟨⟨⟨by decide, by decide⟩, by decide, ?_⟩, by decide, by decide, by decide⟩
  rw [waitIter_modem]
  show (bytes "+QIOPEN: 0,0\r\n" :: List.replicate (14 + 686) [120]).drop (14 + 1) = _
  rw [List.drop_succ_cons, List.replicate_add, List.drop_left' (by rfl)]

/-- Polls 15 to 511 of a wait on `chatterStub`: each stores the byte it takes. -/
theorem chatter_storing (k : Nat) (hk : k ≤ 496) :
    (waitState chatterStub 512 (15 + k)).quiet = 0
      ∧ (waitState chatterStub 512 (15 + k)).taken.length = 15 + k := by
  obtain ⟨h1, h2, h3, _⟩ := chatter_start
  obtain ⟨a1, a2, a3, _⟩ := waitIter_stream_store 512 120 13 (by decide) k (686 - k) _
    (by rw [show 686 - k + k = 686 by omega]; exact h1)
    (by rw [h2]; show 14 + k < 512; omega)
  obtain ⟨b1, b2, b3⟩ := waitTake_stream_store 512 120 13 (686 - k) _ a1
    (by rw [a2, h2, List.length_append, List.length_replicate]; show 14 + k + 1 < 512; omega)
  have hs : waitState chatterStub 512 (15 + k) = waitTake 512
      ((fun x => waitTick (waitTake 512 x))^[k] ((fun x => waitTick (waitTake 512 x))^[15]
        { world := chatterStub, stored := [], taken := [], quiet := 0 })) := by
    unfold waitState
    rw [waitIter_add]
  rw [hs]
  refine ⟨b3, ?_⟩
  rw [b2, a3, h3, List.length_append, List.length_append, List.length_replicate]
  show 14 + k + 1 = 15 + k
  omega

/-- The state of a wait on `chatterStub` after 512 polls: the response is full. -/
theorem chatter_full :
    ((fun x => waitTick (waitTake 512 x))^[512]
        { world := chatterStub, stored := [], taken := [], quiet := 0 }).streaming 120 13 189
      ∧ ((fun x => waitTick (waitTake 512 x))^[512]
          { world := chatterStub, stored := [], taken := [], quiet := 0 }).stored
          = bytes "+QIOPEN: 0,0\r\n" ++ List.replicate 497 120
      ∧ ((fun x => waitTick (waitTake 512 x))^[512]
          { world := chatterStub, stored := [], taken := [], quiet := 0 }).taken
          = bytes "+QIOPEN: 0,0\r\n" ++ List.replicate 497 120
      ∧ ((fun x => waitTick (waitTake 512 x))^[512]
          { world := chatterStub, stored := [], taken := [], quiet := 0 }).quiet = 1 := by
  obtain ⟨h1, h2, h3, _⟩ := chatter_start
  obtain ⟨a1, a2, a3, a4⟩ := waitIter_stream_store 512 120 13 (by decide) 497 189 _ h1
    (by rw [h2]; decide)
  rw [show 512 = 15 + 497 from rfl, waitIter_add]
  exact ⟨a1, by rw [a2, h2], by rw [a3, h3], a4 (by decide)⟩

/-- Polls 512 to 612 of a wait on `chatterStub`: each takes a byte and drops it, nothing is
stored, and the quiet period grows by one per poll. -/
theorem chatter_dropping (k : Nat) (hk : k ≤ 100) :
    (waitState chatterStub 512 (512 + k)).quiet = 1 + k
      ∧ (waitState chatterStub 512 (512 + k)).stored
          = bytes "+QIOPEN: 0,0\r\n" ++ List.replicate 497 120
      ∧ (waitState chatterStub 512 (512 + k)).taken.length = 512 + k := by
  obtain ⟨h1, h2, h3, h4⟩ := chatter_full
  have hfull : ¬ ((fun x => waitTick (waitTake 512 x))^[512]
      { world := chatterStub, stored := [], taken := [], quiet := 0 }).stored.length + 1
        < 512 := by
    rw [h2, List.length_append, List.length_replicate]; decide
  obtain ⟨a1, a2, a3, a4⟩ := waitIter_stream_full 512 120 13 (by decide) k (189 - k) _
    (by rw [show 189 - k + k = 189 by omega]; exact h1) hfull
  obtain ⟨b1, b2, b3⟩ := waitTake_stream_full 512 120 13 (189 - k) _ a1
    (by rw [a2]; exact hfull)
  have hs : waitState chatterStub 512 (512 + k) = waitTake 512
      ((fun x => waitTick (waitTake 512 x))^[k] ((fun x => waitTick (waitTake 512 x))^[512]
        { world := chatterStub, stored := [], taken := [], quiet := 0 })) := by
    unfold waitState
    rw [waitIter_add]
  rw [hs]
  refine ⟨by rw [b3, a4, h4], by rw [b1, a2, h2], ?_⟩
  rw [b2, a3, h3, List.length_append, List.length_append, List.length_append,
    List.length_replicate, List.length_replicate]
  show 14 + 497 + k + 1 = 512 + k
  omega

/-- No poll of a wait on `chatterStub` before poll 612 meets the completion condition. -/
theorem chatter_not_before (i : Nat) (hi : i < 612) :
    ¬ quietDone (bytes "+QIOPEN:") (waitState chatterStub 512 i) := by
  rintro ⟨_, hq⟩
  by_cases h1 : i ≤ 100
  · have := waitState_quiet_le chatterStub 512 i
    omega
  · by_cases h2 : i < 512
    · obtain ⟨k, rfl⟩ : ∃ k, i = 15 + k := ⟨i - 15, by omega⟩
      rw [(chatter_storing k (by omega)).1] at hq
      omega
    · obtain ⟨k, rfl⟩ : ∃ k, i = 512 + k := ⟨i - 512, by omega⟩
      rw [(chatter_dropping k (by omega)).1] at hq
      omega

/-- Poll 612 of a wait on `chatterStub` meets the completion condition. -/
theorem chatter_done : quietDone (bytes "+QIOPEN:") (waitState chatterStub 512 612) := by
  obtain ⟨h1, h2, _⟩ := chatter_dropping 100 (le_refl _)
  have h612 : (512 : Nat) + 100 = 612 := rfl
  rw [h612] at h1 h2
  refine ⟨?_, by rw [h1]; decide⟩
  rw [h2]
  have hpre := cstr_prefix_append (bytes "+QIOPEN: 0,0\r\n") (List.replicate 497 120)
  have hin : cstr (bytes "+QIOPEN:") <:+: cstr (bytes "+QIOPEN: 0,0\r\n") := by decide
  exact hin.trans hpre.isInfix

set_option maxRecDepth 100000 in
set_option maxHeartbeats 4000000 in
/-- C12: the quiet period of `RG200U_WaitForResponse` is not quiet when the response buffer
is full. The modem of `chatterStub` sends "+QIOPEN: 0,0\r\n" and then one byte in every
millisecond, for 700 ms. Called as `RG200U_ConnectTCPServer` calls it (expected "+QIOPEN:",
`max_len` 512, timeout 30 s), the wait stores the 14 bytes of the notification and 497 more,
which fills the response at poll 511; from then on every poll takes a byte from the ring and
drops it without touching `last_rx_time`. At poll 612 the wait returns 1, with 612 bytes
taken in 612 ms and not one millisecond without a new byte, against the comment at the test
(complete when the expected string has been found and no new data came for 100 ms). -/
theorem quiet_period_broken :
    (∀ chunk ∈ chatterStub.modem, chunk ≠ [])
      ∧ chatterStub.modem.length = 701
      ∧ (RG200U_WaitForResponse chatterStub (bytes "+QIOPEN:") 512 30000).ret = 1
      ∧ (RG200U_WaitForResponse chatterStub (bytes "+QIOPEN:") 512 30000).world.tick = 612
      ∧ (RG200U_WaitForResponse chatterStub (bytes "+QIOPEN:") 512 30000).response
          = bytes "+QIOPEN: 0,0\r\n" ++ List.replicate 497 120
      ∧ (∀ j, 15 ≤ j → j ≤ 612 → (waitState chatterStub 512 j).taken.length = j)
      ∧ (waitState chatterStub 512 511).quiet = 0
      ∧ (waitState chatterStub 512 612).quiet = 101 := by
  have hp := waitForResponse_polls chatterStub (bytes "+QIOPEN:") 512 30000 (by norm_num)
    (by decide)
  have hret : (RG200U_WaitForResponse chatterStub (bytes "+QIOPEN:") 512 30000).ret = 1 :=
    hp.1.2 ⟨612, by norm_num, chatter_done⟩
  obtain ⟨j, _, hdone, hfirst, htick, hresp⟩ := hp.2.1 hret
  have hj : j = 612 := by
    rcases Nat.lt_trichotomy j 612 with hlt | heq | hgt
    · exact absurd hdone (chatter_not_before j hlt)
    · exact heq
    · exact absurd chatter_done (hfirst 612 hgt)
  subst hj
  refine ⟨by decide, by decide, hret, ?_, ?_, ?_, ?_, ?_⟩
  · rw [htick]; rfl
  · rw [hresp]
    exact (chatter_dropping 100 (le_refl _)).2.1
  · intro j h1 h2
    by_cases h3 : j < 512
    · obtain ⟨k, rfl⟩ : ∃ k, j = 15 + k := ⟨j - 15, by omega⟩
      exact (chatter_storing k (by omega)).2
    · obtain ⟨k, rfl⟩ : ∃ k, j = 512 + k := ⟨j - 512, by omega⟩
      exact (chatter_dropping k (by omega)).2.2
  · exact (chatter_storing 496 (le_refl _)).1
  · exact (chatter_dropping 100 (le_refl _)).1

end SmartCap
